import Mathlib

/-!
# BIRD shared-memory export: a shallow embedding of `sysdep/unix/shm_export.c`

The C module publishes a bounded snapshot of the daemon state into a shared
memory region.  This development embeds

* the region layout of `shm_export.h` (records, snapshot, mailbox, region),
* `bird_shm_set_ip`, `bird_shm_proto_class`,
* the snapshot builder `bird_shm_write_snapshot`, one recursive function per
  `WALK_LIST` loop of the C function,
* the poll entry point `bird_shm_poll`,

and proves properties of them.

Conventions.  C unsigned integers are natural numbers; a conversion the source
writes as a cast reduces modulo the width of the target type, and the 64-bit
sequence counter wraps modulo `2 ^ 64`.  A C array of capacity `N` is a list
that `memset` makes `N` zero records long; `arr[i] = v` is `List.set`.  A C
string is the list of its bytes.  The index variables and the per-record
counters the builder increments never exceed the largest capacity (2048), so
their increments are plain additions.  The preprocessor switches `CONFIG_BGP`,
`CONFIG_OSPF`, `CONFIG_BFD` and `CONFIG_BABEL` are taken as defined.
-/

set_option linter.dupNamespace false

namespace BirdShm

/-! ## Constants of `shm_export.h` -/

abbrev BIRD_SHM_MAGIC : Nat := 0x42524453
abbrev BIRD_SHM_VERSION : Nat := 1
abbrev BIRD_SHM_SNAPSHOT_VERSION : Nat := 1

abbrev BIRD_SHM_CMD_SNAPSHOT : Nat := 1

abbrev BIRD_SHM_MAX_INTERFACES : Nat := 512
abbrev BIRD_SHM_MAX_IFACE_ADDRS : Nat := 2048
abbrev BIRD_SHM_MAX_PROTOCOLS : Nat := 512
abbrev BIRD_SHM_MAX_BGP : Nat := 512
abbrev BIRD_SHM_MAX_OSPF : Nat := 64
abbrev BIRD_SHM_MAX_OSPF_LSAS : Nat := 2048
abbrev BIRD_SHM_MAX_OSPF_NEIGHBORS : Nat := 1024
abbrev BIRD_SHM_MAX_BFD_SESSIONS : Nat := 512
abbrev BIRD_SHM_MAX_BABEL : Nat := 64
abbrev BIRD_SHM_MAX_BABEL_IFACES : Nat := 256
abbrev BIRD_SHM_MAX_BABEL_NEIGHBORS : Nat := 1024

def BIRD_SHM_TRUNC_IFACES : Nat := 1 <<< 0
def BIRD_SHM_TRUNC_IFACE_ADDRS : Nat := 1 <<< 1
def BIRD_SHM_TRUNC_PROTOCOLS : Nat := 1 <<< 2
def BIRD_SHM_TRUNC_BGP : Nat := 1 <<< 3
def BIRD_SHM_TRUNC_OSPF : Nat := 1 <<< 4
def BIRD_SHM_TRUNC_OSPF_LSAS : Nat := 1 <<< 5
def BIRD_SHM_TRUNC_OSPF_NEIGHS : Nat := 1 <<< 6
def BIRD_SHM_TRUNC_BFD : Nat := 1 <<< 7
def BIRD_SHM_TRUNC_BABEL : Nat := 1 <<< 8
def BIRD_SHM_TRUNC_BABEL_IFACES : Nat := 1 <<< 9
def BIRD_SHM_TRUNC_BABEL_NEIGHS : Nat := 1 <<< 10

abbrev BIRD_SHM_PROTO_DEVICE : Nat := 1
abbrev BIRD_SHM_PROTO_RADV : Nat := 2
abbrev BIRD_SHM_PROTO_RIP : Nat := 3
abbrev BIRD_SHM_PROTO_STATIC : Nat := 4
abbrev BIRD_SHM_PROTO_MRT : Nat := 5
abbrev BIRD_SHM_PROTO_OSPF : Nat := 6
abbrev BIRD_SHM_PROTO_L3VPN : Nat := 7
abbrev BIRD_SHM_PROTO_AGGREGATOR : Nat := 8
abbrev BIRD_SHM_PROTO_PIPE : Nat := 9
abbrev BIRD_SHM_PROTO_BGP : Nat := 10
abbrev BIRD_SHM_PROTO_BMP : Nat := 11
abbrev BIRD_SHM_PROTO_BFD : Nat := 12
abbrev BIRD_SHM_PROTO_BABEL : Nat := 13
abbrev BIRD_SHM_PROTO_RPKI : Nat := 14
abbrev BIRD_SHM_PROTO_UNKNOWN : Nat := 255

/-! ## Daemon state read by the builder

The structures below are the parts of the daemon headers (`nest/iface.h`,
`nest/protocol.h`, `proto/*/*.h`, `lib/ip.h`) that `shm_export.c` reads.  These
headers are outside the two source files; each structure lists exactly the
members the builder dereferences, under their C names.  A `WALK_LIST`,
`WALK_SLIST` or `HASH_WALK` container is the list of its nodes in walk order
and a pointer that the source tests against `NULL` is an `Option`. -/

/-- Modelled from the spec: `ip_addr` of `lib/ip.h` (absent from the sources).
    BIRD keeps every address as four 32-bit words `addr[0..3]`, most
    significant word first; an IPv4 address is held IPv4-mapped. -/
structure ip_addr where
  addr0 : Nat
  addr1 : Nat
  addr2 : Nat
  addr3 : Nat
deriving DecidableEq

/-- Modelled from the spec: `IPA_NONE`, the absent address (all words zero). -/
def IPA_NONE : ip_addr := ⟨0, 0, 0, 0⟩

/-- Modelled from the spec: `ipa_zero` of `lib/ip.h`: the address is absent
    when all four words are zero. -/
def ipa_zero (a : ip_addr) : Bool :=
  a.addr0 == 0 && a.addr1 == 0 && a.addr2 == 0 && a.addr3 == 0

/-- Modelled from the spec: `ipa_is_ip4` of `lib/ip.h`: the address is in the
    IPv4-mapped range `::ffff:a.b.c.d`. -/
def ipa_is_ip4 (a : ip_addr) : Bool :=
  a.addr0 == 0 && a.addr1 == 0 && a.addr2 == 0xffff

/-- Modelled from the spec: `ipa_is_ip6` of `lib/ip.h`: every address that is
    not IPv4-mapped. -/
def ipa_is_ip6 (a : ip_addr) : Bool := !ipa_is_ip4 a

/-- Modelled from the spec: `ipa_to_ip4` of `lib/ip.h`: the 32-bit IPv4
    address carried in the last word. -/
def ipa_to_ip4 (a : ip_addr) : Nat := a.addr3

/-- Modelled from the spec: `ipa_from_ip4` of `lib/ip.h`, the IPv4-mapped
    address of a 32-bit IPv4 address. -/
def ipa_from_ip4 (x : Nat) : ip_addr := ⟨0, 0, 0xffff, x⟩

/-- The 32-bit value of the dotted quad `a.b.c.d`. -/
def ip4_quad (a b c d : Nat) : Nat := a * 2 ^ 24 + b * 2 ^ 16 + c * 2 ^ 8 + d

/-- The four bytes of a 32-bit word, most significant first (`put_u32`). -/
def put_u32 (x : Nat) : List Nat :=
  [x / 2 ^ 24 % 256, x / 2 ^ 16 % 256, x / 2 ^ 8 % 256, x % 256]

/-- The 32-bit word read back from four bytes in network order (`get_u32`). -/
def get_u32 (bs : List Nat) : Nat :=
  ip4_quad (bs.getD 0 0) (bs.getD 1 0) (bs.getD 2 0) (bs.getD 3 0)

/-- Modelled from the spec: `put_ip4` of `lib/ip.h`: stores the address in
    network byte order into the first four bytes of the buffer. -/
def put_ip4 (buf : List Nat) (a : Nat) : List Nat :=
  put_u32 a ++ buf.drop 4

/-- Modelled from the spec: `put_ip6` of `lib/ip.h`: stores the four words in
    network byte order into the first sixteen bytes of the buffer. -/
def put_ip6 (buf : List Nat) (a : ip_addr) : List Nat :=
  put_u32 a.addr0 ++ put_u32 a.addr1 ++ put_u32 a.addr2 ++ put_u32 a.addr3 ++ buf.drop 16

/-- Members of `struct ifa` (an interface address) read by the builder;
    `pxlen` is `net_pxlen(&addr->prefix)`. -/
structure ifa where
  pxlen : Nat
  scope : Nat
  flags : Nat
  ip : ip_addr
  brd : ip_addr
  opposite : ip_addr
deriving DecidableEq

/-- Members of `struct iface` read by the builder. -/
structure iface where
  name : List Nat
  flags : Nat
  mtu : Nat
  index : Nat
  addrs : List ifa
deriving DecidableEq

/-- Modelled from the spec: `enum protocol_class` of `nest/protocol.h` (absent
    from the sources).  The fourteen enumerators named by
    `bird_shm_proto_class` are kept; any other value of the enumeration is
    `PROTOCOL_OTHER n`. -/
inductive protocol_class where
  | PROTOCOL_DEVICE
  | PROTOCOL_RADV
  | PROTOCOL_RIP
  | PROTOCOL_STATIC
  | PROTOCOL_MRT
  | PROTOCOL_OSPF
  | PROTOCOL_L3VPN
  | PROTOCOL_AGGREGATOR
  | PROTOCOL_PIPE
  | PROTOCOL_BGP
  | PROTOCOL_BMP
  | PROTOCOL_BFD
  | PROTOCOL_BABEL
  | PROTOCOL_RPKI
  | PROTOCOL_OTHER (n : Nat)
deriving DecidableEq

open protocol_class

/-- The protocol descriptor `struct protocol`; only `class` is read. -/
structure protocol where
  class_ : protocol_class
deriving DecidableEq

/-- The connection object `struct bgp_conn`; only `state` is read. -/
structure bgp_conn where
  state : Nat
deriving DecidableEq

/-- Members of `struct bgp_proto` read by the builder. -/
structure bgp_proto where
  local_as : Nat
  remote_as : Nat
  conn : Option bgp_conn
  remote_ip : ip_addr
deriving DecidableEq

/-- The LSA header `struct ospf_lsa_header` inside a database entry. -/
structure ospf_lsa_header where
  id : Nat
  rt : Nat
  sn : Int
  age : Nat
  length : Nat
  type_raw : Nat
deriving DecidableEq

/-- Modelled from the spec: `LSA_BODY_DUMMY` of `proto/ospf/topology.h`, the
    placeholder body pointer `(void *) 1`. -/
abbrev LSA_BODY_DUMMY : Nat := 1

/-- Members of `struct top_hash_entry` read by the builder; `lsa_body` is the
    pointer value (`0` is `NULL`). -/
structure top_hash_entry where
  lsa_body : Nat
  lsa_type : Nat
  domain : Nat
  lsa : ospf_lsa_header
deriving DecidableEq

/-- Members of `struct ospf_neighbor` read by the builder. -/
structure ospf_neighbor where
  rid : Nat
  state : Nat
  ip : ip_addr
deriving DecidableEq

/-- Members of `struct ospf_iface` read by the builder. -/
structure ospf_iface where
  ifname : Option (List Nat)
  iface : Option iface
  neigh_list : List ospf_neighbor
deriving DecidableEq

/-- Members of `struct ospf_proto` read by the builder; `version` is the
    value of `ospf_get_version(op)`. -/
structure ospf_proto where
  router_id : Nat
  version : Nat
  lsal : List top_hash_entry
  iface_list : List ospf_iface
deriving DecidableEq

/-- The BFD interface `struct bfd_iface`; only `iface` is read. -/
structure bfd_iface where
  iface : Option iface
deriving DecidableEq

/-- Members of `struct bfd_session` read by the builder. -/
structure bfd_session where
  addr : ip_addr
  ifa : Option bfd_iface
  loc_state : Nat
  rem_state : Nat
  loc_id : Nat
  rem_id : Nat
deriving DecidableEq

/-- Members of `struct bfd_proto` read by the builder: the session hash in
    `HASH_WALK` order. -/
structure bfd_proto where
  session_hash_id : List bfd_session
deriving DecidableEq

/-- Members of `struct babel_neighbor` read by the builder; the three `btime`
    members are signed 64-bit. -/
structure babel_neighbor where
  rxcost : Nat
  txcost : Nat
  cost : Nat
  hello_cnt : Nat
  last_hello_int : Nat
  last_tstamp : Nat
  srtt : Int
  hello_expiry : Int
  ihu_expiry : Int
  addr : ip_addr
deriving DecidableEq

/-- Members of `struct babel_iface` read by the builder. -/
structure babel_iface where
  ifname : Option (List Nat)
  iface : Option iface
  up : Nat
  tx_length : Nat
  hello_seqno : Nat
  addr : ip_addr
  next_hop_ip4 : ip_addr
  next_hop_ip6 : ip_addr
  neigh_list : List babel_neighbor
deriving DecidableEq

/-- Members of `struct babel_proto` read by the builder. -/
structure babel_proto where
  router_id : Nat
  update_seqno : Nat
  triggered : Nat
  interfaces : List babel_iface
deriving DecidableEq

/-- A protocol instance `struct proto`.  The C code casts `p` to the
    family structure selected by `p->proto->class`; here the instance carries
    the four family views side by side and the builder reads the one the
    class selects. -/
structure proto where
  name : List Nat
  proto : Option protocol
  proto_state : Nat
  bgp : bgp_proto
  ospf : ospf_proto
  bfd : bfd_proto
  babel : babel_proto
deriving DecidableEq

/-- The daemon globals read by the builder: `iface_list`, `proto_list`,
    `boot_time` and the value returned by `current_time()`. -/
structure daemon where
  iface_list : List iface
  proto_list : List proto
  boot_time : Int
  current_time : Int
deriving DecidableEq

/-! ## Region layout of `shm_export.h` -/

structure bird_shm_ip_addr where
  af : Nat
  pad : List Nat
  bytes : List Nat
deriving DecidableEq

structure bird_shm_status where
  boot_time : Nat
  current_time : Nat
deriving DecidableEq

structure bird_shm_iface where
  name : List Nat
  flags : Nat
  mtu : Nat
  index : Nat
  addr_start : Nat
  addr_count : Nat
deriving DecidableEq

structure bird_shm_iface_addr where
  iface_index : Nat
  prefix_len : Nat
  scope : Nat
  flags : Nat
  ip : bird_shm_ip_addr
  brd : bird_shm_ip_addr
  opposite : bird_shm_ip_addr
deriving DecidableEq

structure bird_shm_proto where
  name : List Nat
  class_ : Nat
  state : Nat
deriving DecidableEq

structure bird_shm_bgp_info where
  name : List Nat
  local_as : Nat
  remote_as : Nat
  conn_state : Nat
  pad : List Nat
  remote_ip : bird_shm_ip_addr
deriving DecidableEq

structure bird_shm_ospf_info where
  name : List Nat
  router_id : Nat
  version : Nat
  pad : List Nat
  lsa_start : Nat
  lsa_count : Nat
  neigh_start : Nat
  neigh_count : Nat
deriving DecidableEq

structure bird_shm_ospf_lsa where
  proto_index : Nat
  lsa_type : Nat
  domain : Nat
  id : Nat
  rt : Nat
  sn : Int
  age : Nat
  length : Nat
  type_raw : Nat
  pad : Nat
deriving DecidableEq

structure bird_shm_ospf_neighbor where
  proto_index : Nat
  ifname : List Nat
  rid : Nat
  state : Nat
  pad : List Nat
  ip : bird_shm_ip_addr
deriving DecidableEq

structure bird_shm_bfd_session where
  addr : bird_shm_ip_addr
  ifname : List Nat
  state : Nat
  rem_state : Nat
  pad : List Nat
  local_disc : Nat
  remote_disc : Nat
deriving DecidableEq

structure bird_shm_babel_info where
  name : List Nat
  router_id : Nat
  update_seqno : Nat
  triggered : Nat
  pad : List Nat
  iface_start : Nat
  iface_count : Nat
  neigh_count : Nat
deriving DecidableEq

structure bird_shm_babel_iface where
  proto_index : Nat
  ifname : List Nat
  up : Nat
  pad : List Nat
  tx_length : Nat
  hello_seqno : Nat
  pad2 : Nat
  neigh_start : Nat
  neigh_count : Nat
  addr : bird_shm_ip_addr
  next_hop_ip4 : bird_shm_ip_addr
  next_hop_ip6 : bird_shm_ip_addr
deriving DecidableEq

structure bird_shm_babel_neighbor where
  iface_index : Nat
  rxcost : Nat
  txcost : Nat
  cost : Nat
  hello_cnt : Nat
  pad : Nat
  last_hello_int : Nat
  last_tstamp : Nat
  srtt : Nat
  hello_expiry : Nat
  ihu_expiry : Nat
  addr : bird_shm_ip_addr
deriving DecidableEq

structure bird_shm_mailbox where
  cmd : Nat
  reserved : Nat
  arg0 : Nat
  arg1 : Nat
deriving DecidableEq

structure bird_shm_snapshot where
  version : Nat
  trunc_flags : Nat
  last_cmd : Nat
  status : bird_shm_status
  iface_count : Nat
  iface_addr_count : Nat
  proto_count : Nat
  bgp_count : Nat
  ospf_count : Nat
  ospf_lsa_count : Nat
  ospf_neigh_count : Nat
  bfd_count : Nat
  babel_count : Nat
  babel_iface_count : Nat
  babel_neigh_count : Nat
  ifaces : List bird_shm_iface
  iface_addrs : List bird_shm_iface_addr
  protos : List bird_shm_proto
  bgp : List bird_shm_bgp_info
  ospf : List bird_shm_ospf_info
  ospf_lsas : List bird_shm_ospf_lsa
  ospf_neighs : List bird_shm_ospf_neighbor
  bfd : List bird_shm_bfd_session
  babel : List bird_shm_babel_info
  babel_ifaces : List bird_shm_babel_iface
  babel_neighs : List bird_shm_babel_neighbor
deriving DecidableEq

structure bird_shm_region where
  magic : Nat
  version : Nat
  cmd_flag : Nat
  reserved : Nat
  version_seq : Nat
  mailbox : bird_shm_mailbox
  snapshot : bird_shm_snapshot
deriving DecidableEq

/-! ## What `memset(p, 0, sizeof *p)` leaves in each record -/

def bird_shm_ip_addr.zero : bird_shm_ip_addr :=
  { af := 0, pad := List.replicate 3 0, bytes := List.replicate 16 0 }

def bird_shm_iface.zero : bird_shm_iface :=
  { name := List.replicate 16 0, flags := 0, mtu := 0, index := 0, addr_start := 0,
    addr_count := 0 }

def bird_shm_iface_addr.zero : bird_shm_iface_addr :=
  { iface_index := 0, prefix_len := 0, scope := 0, flags := 0, ip := bird_shm_ip_addr.zero,
    brd := bird_shm_ip_addr.zero, opposite := bird_shm_ip_addr.zero }

def bird_shm_proto.zero : bird_shm_proto :=
  { name := List.replicate 32 0, class_ := 0, state := 0 }

def bird_shm_bgp_info.zero : bird_shm_bgp_info :=
  { name := List.replicate 32 0, local_as := 0, remote_as := 0, conn_state := 0,
    pad := List.replicate 3 0, remote_ip := bird_shm_ip_addr.zero }

def bird_shm_ospf_info.zero : bird_shm_ospf_info :=
  { name := List.replicate 32 0, router_id := 0, version := 0, pad := List.replicate 3 0,
    lsa_start := 0, lsa_count := 0, neigh_start := 0, neigh_count := 0 }

def bird_shm_ospf_lsa.zero : bird_shm_ospf_lsa :=
  { proto_index := 0, lsa_type := 0, domain := 0, id := 0, rt := 0, sn := 0, age := 0,
    length := 0, type_raw := 0, pad := 0 }

def bird_shm_ospf_neighbor.zero : bird_shm_ospf_neighbor :=
  { proto_index := 0, ifname := List.replicate 16 0, rid := 0, state := 0,
    pad := List.replicate 3 0, ip := bird_shm_ip_addr.zero }

def bird_shm_bfd_session.zero : bird_shm_bfd_session :=
  { addr := bird_shm_ip_addr.zero, ifname := List.replicate 16 0, state := 0, rem_state := 0,
    pad := List.replicate 2 0, local_disc := 0, remote_disc := 0 }

def bird_shm_babel_info.zero : bird_shm_babel_info :=
  { name := List.replicate 32 0, router_id := 0, update_seqno := 0, triggered := 0,
    pad := List.replicate 3 0, iface_start := 0, iface_count := 0, neigh_count := 0 }

def bird_shm_babel_iface.zero : bird_shm_babel_iface :=
  { proto_index := 0, ifname := List.replicate 16 0, up := 0, pad := List.replicate 3 0,
    tx_length := 0, hello_seqno := 0, pad2 := 0, neigh_start := 0, neigh_count := 0,
    addr := bird_shm_ip_addr.zero, next_hop_ip4 := bird_shm_ip_addr.zero,
    next_hop_ip6 := bird_shm_ip_addr.zero }

def bird_shm_babel_neighbor.zero : bird_shm_babel_neighbor :=
  { iface_index := 0, rxcost := 0, txcost := 0, cost := 0, hello_cnt := 0, pad := 0,
    last_hello_int := 0, last_tstamp := 0, srtt := 0, hello_expiry := 0, ihu_expiry := 0,
    addr := bird_shm_ip_addr.zero }

def bird_shm_snapshot.zero : bird_shm_snapshot :=
  { version := 0, trunc_flags := 0, last_cmd := 0,
    status := { boot_time := 0, current_time := 0 },
    iface_count := 0, iface_addr_count := 0, proto_count := 0, bgp_count := 0,
    ospf_count := 0, ospf_lsa_count := 0, ospf_neigh_count := 0, bfd_count := 0,
    babel_count := 0, babel_iface_count := 0, babel_neigh_count := 0,
    ifaces := List.replicate BIRD_SHM_MAX_INTERFACES bird_shm_iface.zero,
    iface_addrs := List.replicate BIRD_SHM_MAX_IFACE_ADDRS bird_shm_iface_addr.zero,
    protos := List.replicate BIRD_SHM_MAX_PROTOCOLS bird_shm_proto.zero,
    bgp := List.replicate BIRD_SHM_MAX_BGP bird_shm_bgp_info.zero,
    ospf := List.replicate BIRD_SHM_MAX_OSPF bird_shm_ospf_info.zero,
    ospf_lsas := List.replicate BIRD_SHM_MAX_OSPF_LSAS bird_shm_ospf_lsa.zero,
    ospf_neighs := List.replicate BIRD_SHM_MAX_OSPF_NEIGHBORS bird_shm_ospf_neighbor.zero,
    bfd := List.replicate BIRD_SHM_MAX_BFD_SESSIONS bird_shm_bfd_session.zero,
    babel := List.replicate BIRD_SHM_MAX_BABEL bird_shm_babel_info.zero,
    babel_ifaces := List.replicate BIRD_SHM_MAX_BABEL_IFACES bird_shm_babel_iface.zero,
    babel_neighs := List.replicate BIRD_SHM_MAX_BABEL_NEIGHBORS bird_shm_babel_neighbor.zero }

/-! ## C library and conversion helpers -/

/-- The conversion `(u16) x` of an unsigned value. -/
def cast_u16 (x : Nat) : Nat := x % 2 ^ 16

/-- The conversion `(u8) x` of an unsigned value. -/
def cast_u8 (x : Nat) : Nat := x % 2 ^ 8

/-- The conversion `(u64) x` of a signed 64-bit value. -/
def cast_u64 (x : Int) : Nat := (x % 2 ^ 64).toNat

/-- The bytes of a C string before its terminating NUL. -/
def cstr (src : List Nat) : List Nat := src.takeWhile (fun c => c != 0)

/-- The libc `strncpy(dst, src, n)`: copies at most `n` bytes of the string
    `src`, pads with NUL up to `n` bytes, leaves the rest of `dst` alone. -/
def strncpy (dst src : List Nat) (n : Nat) : List Nat :=
  (cstr src).take n ++ List.replicate (n - ((cstr src).take n).length) 0 ++ dst.drop n

/-- In-place update `arr[i].field = ...` through a pointer to slot `i`. -/
def arr_update {α : Type} (arr : List α) (i : Nat) (f : α → α) : List α :=
  match arr[i]? with
  | some v => arr.set i (f v)
  | none => arr

/-! ## `bird_shm_set_ip` and `bird_shm_proto_class` -/

/-- The function `bird_shm_set_ip`: `dst` is cleared first, so the result
    depends on `addr` only. -/
def bird_shm_set_ip (addr : ip_addr) : bird_shm_ip_addr :=
  let dst := bird_shm_ip_addr.zero
  if ipa_zero addr then dst
  else if ipa_is_ip4 addr then
    { dst with af := 4, bytes := put_ip4 dst.bytes (ipa_to_ip4 addr) }
  else if ipa_is_ip6 addr then
    { dst with af := 6, bytes := put_ip6 dst.bytes addr }
  else dst

/-- The function `bird_shm_proto_class`; the argument is the pointer `p`
    (`none` is `NULL`). -/
def bird_shm_proto_class (p : Option proto) : Nat :=
  match p with
  | none => BIRD_SHM_PROTO_UNKNOWN
  | some p =>
    match p.proto with
    | none => BIRD_SHM_PROTO_UNKNOWN
    | some pr =>
      match pr.class_ with
      | PROTOCOL_DEVICE => BIRD_SHM_PROTO_DEVICE
      | PROTOCOL_RADV => BIRD_SHM_PROTO_RADV
      | PROTOCOL_RIP => BIRD_SHM_PROTO_RIP
      | PROTOCOL_STATIC => BIRD_SHM_PROTO_STATIC
      | PROTOCOL_MRT => BIRD_SHM_PROTO_MRT
      | PROTOCOL_OSPF => BIRD_SHM_PROTO_OSPF
      | PROTOCOL_L3VPN => BIRD_SHM_PROTO_L3VPN
      | PROTOCOL_AGGREGATOR => BIRD_SHM_PROTO_AGGREGATOR
      | PROTOCOL_PIPE => BIRD_SHM_PROTO_PIPE
      | PROTOCOL_BGP => BIRD_SHM_PROTO_BGP
      | PROTOCOL_BMP => BIRD_SHM_PROTO_BMP
      | PROTOCOL_BFD => BIRD_SHM_PROTO_BFD
      | PROTOCOL_BABEL => BIRD_SHM_PROTO_BABEL
      | PROTOCOL_RPKI => BIRD_SHM_PROTO_RPKI
      | PROTOCOL_OTHER _ => BIRD_SHM_PROTO_UNKNOWN

/-! ## The snapshot builder `bird_shm_write_snapshot` -/

/-- The eleven bounded arrays of `struct bird_shm_snapshot`. -/
inductive bird_shm_coll where
  | ifaces
  | iface_addrs
  | protos
  | bgp
  | ospf
  | ospf_lsas
  | ospf_neighs
  | bfd
  | babel
  | babel_ifaces
  | babel_neighs
deriving DecidableEq

/-- The state of one run of `bird_shm_write_snapshot`: the snapshot under
    construction and the local variables of the function.  `writes` is a
    record kept for the proofs: every time the builder forms a slot pointer
    `&snap->arr[i]` and fills the record behind it, the pair `(arr, i)` is
    appended.  Later updates of that record (`out->addr_count++` and the
    like) go through the same pointer and add no entry. -/
structure builder where
  snap : bird_shm_snapshot
  iface_index : Nat
  iface_addr_index : Nat
  proto_index : Nat
  bgp_index : Nat
  ospf_index : Nat
  ospf_lsa_index : Nat
  ospf_neigh_index : Nat
  bfd_index : Nat
  babel_index : Nat
  babel_iface_index : Nat
  babel_neigh_index : Nat
  neigh_trunc : Nat
  writes : List (bird_shm_coll × Nat)

/-- The statement `snap->trunc_flags |= bit`. -/
def builder.set_trunc (b : builder) (bit : Nat) : builder :=
  { b with snap := { b.snap with trunc_flags := b.snap.trunc_flags ||| bit } }

/-- The interface name of an OSPF or Babel interface: `ifname` when it is
    set, else the name of `iface` when that is set, else the cleared field
    is left as it is. -/
def copy_ifname (dst : List Nat) (ifname : Option (List Nat)) (ifc : Option iface) : List Nat :=
  match ifname with
  | some s => strncpy dst s (16 - 1)
  | none =>
    match ifc with
    | some i => strncpy dst i.name (16 - 1)
    | none => dst

/-! ### Interfaces and their addresses (lines 117-165) -/

/-- The record that lines 147-155 leave in the slot `*out_addr`. -/
def fill_iface_addr (iface_index : Nat) (addr : ifa) : bird_shm_iface_addr :=
  { bird_shm_iface_addr.zero with
    iface_index := iface_index
    prefix_len := cast_u16 addr.pxlen
    scope := cast_u16 addr.scope
    flags := addr.flags
    ip := bird_shm_set_ip addr.ip
    brd := bird_shm_set_ip addr.brd
    opposite := bird_shm_set_ip addr.opposite }

/-- The statement `out->addr_count++`, done `n` times. -/
def add_addr_count (n : Nat) (out : bird_shm_iface) : bird_shm_iface :=
  { out with addr_count := out.addr_count + n }

/-- Lines 147-158: fill `snap->iface_addrs[iface_addr_index]`, then
    `iface_addr_index++` and `out->addr_count++`, where `out` points to
    `snap->ifaces[iface_index]`. -/
def emit_iface_addr (addr : ifa) (b : builder) : builder :=
  { b with
    snap := { b.snap with
      iface_addrs :=
        b.snap.iface_addrs.set b.iface_addr_index (fill_iface_addr b.iface_index addr)
      ifaces := arr_update b.snap.ifaces b.iface_index (add_addr_count 1) }
    iface_addr_index := b.iface_addr_index + 1
    writes := b.writes ++ [(bird_shm_coll.iface_addrs, b.iface_addr_index)] }

/-- The inner loop `WALK_LIST(addr, ifa->addrs)` (lines 139-159). -/
def walk_addrs : List ifa → builder → builder
  | [], b => b
  | addr :: rest, b =>
    if b.iface_addr_index ≥ BIRD_SHM_MAX_IFACE_ADDRS then
      b.set_trunc BIRD_SHM_TRUNC_IFACE_ADDRS
    else
      walk_addrs rest (emit_iface_addr addr b)

/-- The record that lines 129-136 leave in the slot `*out`. -/
def fill_iface (iface_addr_index : Nat) (ifa : iface) : bird_shm_iface :=
  { bird_shm_iface.zero with
    name := strncpy bird_shm_iface.zero.name ifa.name (16 - 1)
    flags := ifa.flags
    mtu := ifa.mtu
    index := ifa.index
    addr_start := iface_addr_index
    addr_count := 0 }

/-- Lines 129-136: fill `snap->ifaces[iface_index]`. -/
def emit_iface (ifa : iface) (b : builder) : builder :=
  { b with
    snap := { b.snap with
      ifaces := b.snap.ifaces.set b.iface_index (fill_iface b.iface_addr_index ifa) }
    writes := b.writes ++ [(bird_shm_coll.ifaces, b.iface_index)] }

/-- Line 161: `iface_index++`. -/
def next_iface (b : builder) : builder :=
  { b with iface_index := b.iface_index + 1 }

/-- The loop `WALK_LIST(ifa, iface_list)` (lines 121-162). -/
def walk_iface_list : List iface → builder → builder
  | [], b => b
  | ifa :: rest, b =>
    if b.iface_index ≥ BIRD_SHM_MAX_INTERFACES then
      b.set_trunc BIRD_SHM_TRUNC_IFACES
    else
      walk_iface_list rest (next_iface (walk_addrs ifa.addrs (emit_iface ifa b)))

/-- Lines 164-165: store `iface_count` and `iface_addr_count`. -/
def store_iface_counts (b : builder) : builder :=
  { b with snap := { b.snap with
      iface_count := b.iface_index
      iface_addr_count := b.iface_addr_index } }

/-! ### Generic protocol records and BGP (lines 180-213) -/

/-- The test `p->proto && p->proto->class == c`. -/
def proto_is (p : proto) (c : protocol_class) : Bool :=
  match p.proto with
  | some pr => pr.class_ == c
  | none => false

/-- The record that lines 182-186 leave in the slot `*out`. -/
def fill_proto (p : proto) : bird_shm_proto :=
  { bird_shm_proto.zero with
    name := strncpy bird_shm_proto.zero.name p.name (32 - 1)
    class_ := bird_shm_proto_class (some p)
    state := p.proto_state }

/-- Lines 182-187: fill `snap->protos[proto_index]`, then `proto_index++`. -/
def emit_proto (p : proto) (b : builder) : builder :=
  { b with
    snap := { b.snap with protos := b.snap.protos.set b.proto_index (fill_proto p) }
    proto_index := b.proto_index + 1
    writes := b.writes ++ [(bird_shm_coll.protos, b.proto_index)] }

/-- The generic protocol record of one iteration (lines 180-192). -/
def proto_step_generic (p : proto) (b : builder) : builder :=
  if b.proto_index < BIRD_SHM_MAX_PROTOCOLS then
    emit_proto p b
  else
    b.set_trunc BIRD_SHM_TRUNC_PROTOCOLS

/-- The record that lines 203-210 leave in the slot `*out`. -/
def fill_bgp (p : proto) : bird_shm_bgp_info :=
  let bp := p.bgp
  { bird_shm_bgp_info.zero with
    name := strncpy bird_shm_bgp_info.zero.name p.name (32 - 1)
    local_as := bp.local_as
    remote_as := bp.remote_as
    conn_state :=
      match bp.conn with
      | some c => c.state
      | none => 0
    remote_ip := bird_shm_set_ip bp.remote_ip }

/-- Lines 203-211: fill `snap->bgp[bgp_index]`, then `bgp_index++`. -/
def emit_bgp (p : proto) (b : builder) : builder :=
  { b with
    snap := { b.snap with bgp := b.snap.bgp.set b.bgp_index (fill_bgp p) }
    bgp_index := b.bgp_index + 1
    writes := b.writes ++ [(bird_shm_coll.bgp, b.bgp_index)] }

/-- The `CONFIG_BGP` block of one iteration (lines 195-213). -/
def proto_step_bgp (p : proto) (b : builder) : builder :=
  if proto_is p PROTOCOL_BGP then
    if b.bgp_index ≥ BIRD_SHM_MAX_BGP then
      b.set_trunc BIRD_SHM_TRUNC_BGP
    else
      emit_bgp p b
  else b

/-! ### OSPF (lines 217-297) -/

/-- The test `!en->lsa_body || (en->lsa_body == LSA_BODY_DUMMY)`. -/
def lsa_skipped (en : top_hash_entry) : Bool :=
  en.lsa_body == 0 || en.lsa_body == LSA_BODY_DUMMY

/-- The record that lines 248-258 leave in the slot `*lsa`. -/
def fill_ospf_lsa (ospf_index : Nat) (en : top_hash_entry) : bird_shm_ospf_lsa :=
  { bird_shm_ospf_lsa.zero with
    proto_index := ospf_index
    lsa_type := en.lsa_type
    domain := en.domain
    id := en.lsa.id
    rt := en.lsa.rt
    sn := en.lsa.sn
    age := en.lsa.age
    length := en.lsa.length
    type_raw := en.lsa.type_raw }

/-- The statement `out->lsa_count++`, done `n` times. -/
def add_lsa_count (n : Nat) (out : bird_shm_ospf_info) : bird_shm_ospf_info :=
  { out with lsa_count := out.lsa_count + n }

/-- Lines 248-260: fill `snap->ospf_lsas[ospf_lsa_index]`, then
    `ospf_lsa_index++` and `out->lsa_count++`, where `out` points to
    `snap->ospf[ospf_index]`. -/
def emit_ospf_lsa (en : top_hash_entry) (b : builder) : builder :=
  { b with
    snap := { b.snap with
      ospf_lsas := b.snap.ospf_lsas.set b.ospf_lsa_index (fill_ospf_lsa b.ospf_index en)
      ospf := arr_update b.snap.ospf b.ospf_index (add_lsa_count 1) }
    ospf_lsa_index := b.ospf_lsa_index + 1
    writes := b.writes ++ [(bird_shm_coll.ospf_lsas, b.ospf_lsa_index)] }

/-- The loop `WALK_SLIST(en, op->lsal)` (lines 237-261). -/
def walk_lsal : List top_hash_entry → builder → builder
  | [], b => b
  | en :: rest, b =>
    if lsa_skipped en then
      walk_lsal rest b
    else if b.ospf_lsa_index ≥ BIRD_SHM_MAX_OSPF_LSAS then
      b.set_trunc BIRD_SHM_TRUNC_OSPF_LSAS
    else
      walk_lsal rest (emit_ospf_lsa en b)

/-- The record that lines 277-286 leave in the slot `*n`. -/
def fill_ospf_neighbor (ospf_index : Nat) (oi : ospf_iface) (nb : ospf_neighbor) :
    bird_shm_ospf_neighbor :=
  { bird_shm_ospf_neighbor.zero with
    proto_index := ospf_index
    ifname := copy_ifname bird_shm_ospf_neighbor.zero.ifname oi.ifname oi.iface
    rid := nb.rid
    state := nb.state
    ip := bird_shm_set_ip nb.ip }

/-- The statement `out->neigh_count++` of the OSPF block, done `n` times. -/
def add_ospf_neigh_count (n : Nat) (out : bird_shm_ospf_info) : bird_shm_ospf_info :=
  { out with neigh_count := out.neigh_count + n }

/-- Lines 277-289: fill `snap->ospf_neighs[ospf_neigh_index]`, then
    `ospf_neigh_index++` and `out->neigh_count++`. -/
def emit_ospf_neighbor (oi : ospf_iface) (nb : ospf_neighbor) (b : builder) : builder :=
  { b with
    snap := { b.snap with
      ospf_neighs :=
        b.snap.ospf_neighs.set b.ospf_neigh_index (fill_ospf_neighbor b.ospf_index oi nb)
      ospf := arr_update b.snap.ospf b.ospf_index (add_ospf_neigh_count 1) }
    ospf_neigh_index := b.ospf_neigh_index + 1
    writes := b.writes ++ [(bird_shm_coll.ospf_neighs, b.ospf_neigh_index)] }

/-- Lines 272-274 and 380-382: `neigh_trunc = 1` after the truncation bit is
    set. -/
def set_neigh_trunc (b : builder) : builder :=
  { b with neigh_trunc := 1 }

/-- The declaration `int neigh_trunc = 0` of line 264. -/
def clear_neigh_trunc (b : builder) : builder :=
  { b with neigh_trunc := 0 }

/-- The inner loop `WALK_LIST(on, oi->neigh_list)` (lines 268-290). -/
def walk_ospf_neigh_list (oi : ospf_iface) : List ospf_neighbor → builder → builder
  | [], b => b
  | nb :: rest, b =>
    if b.ospf_neigh_index ≥ BIRD_SHM_MAX_OSPF_NEIGHBORS then
      set_neigh_trunc (b.set_trunc BIRD_SHM_TRUNC_OSPF_NEIGHS)
    else
      walk_ospf_neigh_list oi rest (emit_ospf_neighbor oi nb b)

/-- The loop `WALK_LIST(oi, op->iface_list)` (lines 265-293), left as soon as
    `neigh_trunc` is set. -/
def walk_ospf_iface_list : List ospf_iface → builder → builder
  | [], b => b
  | oi :: rest, b =>
    if (walk_ospf_neigh_list oi oi.neigh_list b).neigh_trunc ≠ 0 then
      walk_ospf_neigh_list oi oi.neigh_list b
    else
      walk_ospf_iface_list rest (walk_ospf_neigh_list oi oi.neigh_list b)

/-- The record that lines 225-234 leave in the slot `*out`. -/
def fill_ospf (ospf_lsa_index ospf_neigh_index : Nat) (p : proto) : bird_shm_ospf_info :=
  let op := p.ospf
  { bird_shm_ospf_info.zero with
    name := strncpy bird_shm_ospf_info.zero.name p.name (32 - 1)
    router_id := op.router_id
    version := cast_u8 op.version
    lsa_start := ospf_lsa_index
    neigh_start := ospf_neigh_index
    lsa_count := 0
    neigh_count := 0 }

/-- Lines 225-234: fill `snap->ospf[ospf_index]`. -/
def emit_ospf (p : proto) (b : builder) : builder :=
  { b with
    snap := { b.snap with
      ospf := b.snap.ospf.set b.ospf_index (fill_ospf b.ospf_lsa_index b.ospf_neigh_index p) }
    writes := b.writes ++ [(bird_shm_coll.ospf, b.ospf_index)] }

/-- Line 295: `ospf_index++`. -/
def next_ospf (b : builder) : builder :=
  { b with ospf_index := b.ospf_index + 1 }

/-- The `CONFIG_OSPF` block of one iteration (lines 217-297). -/
def proto_step_ospf (p : proto) (b : builder) : builder :=
  if proto_is p PROTOCOL_OSPF then
    if b.ospf_index ≥ BIRD_SHM_MAX_OSPF then
      b.set_trunc BIRD_SHM_TRUNC_OSPF
    else
      next_ospf (walk_ospf_iface_list p.ospf.iface_list
        (clear_neigh_trunc (walk_lsal p.ospf.lsal (emit_ospf p b))))
  else b

/-! ### BFD (lines 301-326) -/

/-- The record that lines 313-321 leave in the slot `*out`. -/
def fill_bfd_session (s : bfd_session) : bird_shm_bfd_session :=
  { bird_shm_bfd_session.zero with
    addr := bird_shm_set_ip s.addr
    ifname :=
      match s.ifa with
      | some a =>
        match a.iface with
        | some i => strncpy bird_shm_bfd_session.zero.ifname i.name (16 - 1)
        | none => bird_shm_bfd_session.zero.ifname
      | none => bird_shm_bfd_session.zero.ifname
    state := s.loc_state
    rem_state := s.rem_state
    local_disc := s.loc_id
    remote_disc := s.rem_id }

/-- Lines 313-322: fill `snap->bfd[bfd_index]`, then `bfd_index++`. -/
def emit_bfd_session (s : bfd_session) (b : builder) : builder :=
  { b with
    snap := { b.snap with bfd := b.snap.bfd.set b.bfd_index (fill_bfd_session s) }
    bfd_index := b.bfd_index + 1
    writes := b.writes ++ [(bird_shm_coll.bfd, b.bfd_index)] }

/-- The loop `HASH_WALK(bp->session_hash_id, next_id, s)` (lines 305-324). -/
def hash_walk_sessions : List bfd_session → builder → builder
  | [], b => b
  | s :: rest, b =>
    if b.bfd_index ≥ BIRD_SHM_MAX_BFD_SESSIONS then
      b.set_trunc BIRD_SHM_TRUNC_BFD
    else
      hash_walk_sessions rest (emit_bfd_session s b)

/-- The `CONFIG_BFD` block of one iteration (lines 301-326); taking and
    releasing the session lock has no effect on the walk. -/
def proto_step_bfd (p : proto) (b : builder) : builder :=
  if proto_is p PROTOCOL_BFD then
    hash_walk_sessions p.bfd.session_hash_id b
  else b

/-! ### Babel (lines 330-413) -/

/-- The record that lines 385-397 leave in the slot `*out_neigh`. -/
def fill_babel_neighbor (babel_iface_index : Nat) (bn : babel_neighbor) :
    bird_shm_babel_neighbor :=
  { bird_shm_babel_neighbor.zero with
    iface_index := babel_iface_index
    rxcost := bn.rxcost
    txcost := bn.txcost
    cost := bn.cost
    hello_cnt := bn.hello_cnt
    last_hello_int := bn.last_hello_int
    last_tstamp := bn.last_tstamp
    srtt := cast_u64 bn.srtt
    hello_expiry := cast_u64 bn.hello_expiry
    ihu_expiry := cast_u64 bn.ihu_expiry
    addr := bird_shm_set_ip bn.addr }

/-- The statement `out_iface->neigh_count++`, done `n` times. -/
def add_babel_iface_neigh_count (n : Nat) (out_iface : bird_shm_babel_iface) :
    bird_shm_babel_iface :=
  { out_iface with neigh_count := out_iface.neigh_count + n }

/-- Lines 385-400: fill `snap->babel_neighs[babel_neigh_index]`, then
    `babel_neigh_index++` and `out_iface->neigh_count++`, where `out_iface`
    points to `snap->babel_ifaces[babel_iface_index]`. -/
def emit_babel_neighbor (bn : babel_neighbor) (b : builder) : builder :=
  { b with
    snap := { b.snap with
      babel_neighs :=
        b.snap.babel_neighs.set b.babel_neigh_index
          (fill_babel_neighbor b.babel_iface_index bn)
      babel_ifaces :=
        arr_update b.snap.babel_ifaces b.babel_iface_index (add_babel_iface_neigh_count 1) }
    babel_neigh_index := b.babel_neigh_index + 1
    writes := b.writes ++ [(bird_shm_coll.babel_neighs, b.babel_neigh_index)] }

/-- The inner loop `WALK_LIST(bn, bi->neigh_list)` (lines 376-401). -/
def walk_babel_neigh_list : List babel_neighbor → builder → builder
  | [], b => b
  | bn :: rest, b =>
    if b.babel_neigh_index ≥ BIRD_SHM_MAX_BABEL_NEIGHBORS then
      set_neigh_trunc (b.set_trunc BIRD_SHM_TRUNC_BABEL_NEIGHS)
    else
      walk_babel_neigh_list rest (emit_babel_neighbor bn b)

/-- The record that lines 358-372 leave in the slot `*out_iface`. -/
def fill_babel_iface (babel_index babel_neigh_index : Nat) (bi : babel_iface) :
    bird_shm_babel_iface :=
  { bird_shm_babel_iface.zero with
    proto_index := babel_index
    ifname := copy_ifname bird_shm_babel_iface.zero.ifname bi.ifname bi.iface
    up := bi.up
    tx_length := bi.tx_length
    hello_seqno := bi.hello_seqno
    neigh_start := babel_neigh_index
    neigh_count := 0
    addr := bird_shm_set_ip bi.addr
    next_hop_ip4 := bird_shm_set_ip bi.next_hop_ip4
    next_hop_ip6 := bird_shm_set_ip bi.next_hop_ip6 }

/-- Lines 358-375: fill `snap->babel_ifaces[babel_iface_index]` and declare
    `neigh_trunc = 0`. -/
def emit_babel_iface (bi : babel_iface) (b : builder) : builder :=
  { b with
    snap := { b.snap with
      babel_ifaces :=
        b.snap.babel_ifaces.set b.babel_iface_index
          (fill_babel_iface b.babel_index b.babel_neigh_index bi) }
    neigh_trunc := 0
    writes := b.writes ++ [(bird_shm_coll.babel_ifaces, b.babel_iface_index)] }

/-- The statements `out->iface_count++; out->neigh_count += k;` of lines
    403-404, where `k` is `out_iface->neigh_count`. -/
def add_babel_counts (k : Nat) (out : bird_shm_babel_info) : bird_shm_babel_info :=
  { out with iface_count := out.iface_count + 1, neigh_count := out.neigh_count + k }

/-- Lines 403-405: `out->iface_count++`, `out->neigh_count +=
    out_iface->neigh_count` and `babel_iface_index++`, where `out` points to
    `snap->babel[babel_index]`. -/
def next_babel_iface (b : builder) : builder :=
  { b with
    snap := { b.snap with
      babel := arr_update b.snap.babel b.babel_index
        (add_babel_counts
          (b.snap.babel_ifaces.getD b.babel_iface_index bird_shm_babel_iface.zero).neigh_count) }
    babel_iface_index := b.babel_iface_index + 1 }

/-- The loop `WALK_LIST(bi, bp->interfaces)` (lines 350-409), left after the
    interface at which `neigh_trunc` was set. -/
def walk_babel_interfaces : List babel_iface → builder → builder
  | [], b => b
  | bi :: rest, b =>
    if b.babel_iface_index ≥ BIRD_SHM_MAX_BABEL_IFACES then
      b.set_trunc BIRD_SHM_TRUNC_BABEL_IFACES
    else if
      (next_babel_iface (walk_babel_neigh_list bi.neigh_list (emit_babel_iface bi b))).neigh_trunc
        ≠ 0 then
      next_babel_iface (walk_babel_neigh_list bi.neigh_list (emit_babel_iface bi b))
    else
      walk_babel_interfaces rest
        (next_babel_iface (walk_babel_neigh_list bi.neigh_list (emit_babel_iface bi b)))

/-- The record that lines 338-347 leave in the slot `*out`. -/
def fill_babel (babel_iface_index : Nat) (p : proto) : bird_shm_babel_info :=
  let bp := p.babel
  { bird_shm_babel_info.zero with
    name := strncpy bird_shm_babel_info.zero.name p.name (32 - 1)
    router_id := bp.router_id
    update_seqno := bp.update_seqno
    triggered := bp.triggered
    iface_start := babel_iface_index
    iface_count := 0
    neigh_count := 0 }

/-- Lines 338-347: fill `snap->babel[babel_index]`. -/
def emit_babel (p : proto) (b : builder) : builder :=
  { b with
    snap := { b.snap with
      babel := b.snap.babel.set b.babel_index (fill_babel b.babel_iface_index p) }
    writes := b.writes ++ [(bird_shm_coll.babel, b.babel_index)] }

/-- Line 411: `babel_index++`. -/
def next_babel (b : builder) : builder :=
  { b with babel_index := b.babel_index + 1 }

/-- The `CONFIG_BABEL` block of one iteration (lines 330-413). -/
def proto_step_babel (p : proto) (b : builder) : builder :=
  if proto_is p PROTOCOL_BABEL then
    if b.babel_index ≥ BIRD_SHM_MAX_BABEL then
      b.set_trunc BIRD_SHM_TRUNC_BABEL
    else
      next_babel (walk_babel_interfaces p.babel.interfaces (emit_babel p b))
  else b

/-! ### The protocol walk and the whole function -/

/-- One iteration of `WALK_LIST(p, proto_list)` (lines 178-415). -/
def proto_step (p : proto) (b : builder) : builder :=
  proto_step_babel p (proto_step_bfd p (proto_step_ospf p (proto_step_bgp p
    (proto_step_generic p b))))

/-- The loop `WALK_LIST(p, proto_list)`; it has no `break`. -/
def walk_proto_list : List proto → builder → builder
  | [], b => b
  | p :: rest, b => walk_proto_list rest (proto_step p b)

/-- Lines 417-425: store the nine protocol-side counts. -/
def store_proto_counts (b : builder) : builder :=
  { b with snap := { b.snap with
      proto_count := b.proto_index
      bgp_count := b.bgp_index
      ospf_count := b.ospf_index
      ospf_lsa_count := b.ospf_lsa_index
      ospf_neigh_count := b.ospf_neigh_index
      bfd_count := b.bfd_index
      babel_count := b.babel_index
      babel_iface_count := b.babel_iface_index
      babel_neigh_count := b.babel_neigh_index } }

/-- The builder state after lines 109-118 and the declarations of lines
    167-175: the snapshot cleared and stamped, every index zero. -/
def builder.init (d : daemon) (region : bird_shm_region) : builder :=
  { snap := { bird_shm_snapshot.zero with
      version := BIRD_SHM_SNAPSHOT_VERSION
      last_cmd := region.mailbox.cmd
      status := { boot_time := cast_u64 d.boot_time
                  current_time := cast_u64 d.current_time } }
    iface_index := 0, iface_addr_index := 0, proto_index := 0, bgp_index := 0,
    ospf_index := 0, ospf_lsa_index := 0, ospf_neigh_index := 0, bfd_index := 0,
    babel_index := 0, babel_iface_index := 0, babel_neigh_index := 0,
    neigh_trunc := 0, writes := [] }

/-- The builder state when the function reaches its closing brace: both
    walks done and all eleven counts stored. -/
def builder.run (d : daemon) (region : bird_shm_region) : builder :=
  store_proto_counts (walk_proto_list d.proto_list
    (store_iface_counts (walk_iface_list d.iface_list (builder.init d region))))

/-- The function `bird_shm_write_snapshot(region)`, run against the daemon
    state `d`: only `region->snapshot` is written. -/
def bird_shm_write_snapshot (d : daemon) (region : bird_shm_region) : bird_shm_region :=
  { region with snapshot := (builder.run d region).snap }

/-! ## The poll entry point `bird_shm_poll` -/

/-- The file-scope variables of `shm_export.c`: the mapped region
    (`none` is the null pointer), `shm_enabled` and `shm_fd`. -/
structure shm_module where
  shm_region : Option bird_shm_region
  shm_enabled : Int
  shm_fd : Int
deriving DecidableEq

/-- The initial values of the file-scope variables. -/
def shm_module.initial : shm_module :=
  { shm_region := none, shm_enabled := 0, shm_fd := -1 }

/-- The statement `__atomic_fetch_add(&region->version_seq, 1, ...)` on the
    64-bit counter. -/
def atomic_fetch_add_version_seq (region : bird_shm_region) (n : Nat) : bird_shm_region :=
  { region with version_seq := (region.version_seq + n) % 2 ^ 64 }

/-- The statement `__atomic_store_n(&region->cmd_flag, v, ...)`. -/
def atomic_store_cmd_flag (region : bird_shm_region) (v : Nat) : bird_shm_region :=
  { region with cmd_flag := v }

/-- The successive contents of the region on the refresh path of
    `bird_shm_poll` (lines 488-491), one entry per statement: after the first
    counter increment, after the builder, after the second increment, after
    the flag store. -/
def bird_shm_poll_refresh_steps (d : daemon) (region : bird_shm_region) :
    List bird_shm_region :=
  let r1 := atomic_fetch_add_version_seq region 1
  let r2 := bird_shm_write_snapshot d r1
  let r3 := atomic_fetch_add_version_seq r2 1
  let r4 := atomic_store_cmd_flag r3 0
  [r1, r2, r3, r4]

/-- The function `bird_shm_poll`, run against the daemon state `d`. -/
def bird_shm_poll (d : daemon) (m : shm_module) : shm_module :=
  if m.shm_enabled = 0 then m
  else
    match m.shm_region with
    | none => m
    | some region =>
      let cmd_flag := region.cmd_flag
      if cmd_flag = 0 then m
      else
        let cmd := region.mailbox.cmd
        if cmd ≠ BIRD_SHM_CMD_SNAPSHOT then
          { m with shm_region := some (atomic_store_cmd_flag region 0) }
        else
          let r1 := atomic_fetch_add_version_seq region 1
          let r2 := bird_shm_write_snapshot d r1
          let r3 := atomic_fetch_add_version_seq r2 1
          let r4 := atomic_store_cmd_flag r3 0
          { m with shm_region := some r4 }


/-- Modelled from the spec: a reader's request (section 4.3): the opcode and
    the two arguments are written into the mailbox, then `cmd_flag` is set
    to 1.  The reader is not part of the sources. -/
def reader_request (cmd arg0 arg1 : Nat) (region : bird_shm_region) : bird_shm_region :=
  { region with
    mailbox := { region.mailbox with cmd := cmd, arg0 := arg0, arg1 := arg1 }
    cmd_flag := 1 }

/-! ## The initialisation entry point `bird_shm_init` -/

/-- Modelled from the spec: the C library test `isspace` in the C locale. -/
def isspace (c : Nat) : Bool := c == 32 || (9 ≤ c && c ≤ 13)

/-- Modelled from the spec: the C library test `isdigit`. -/
def isdigit (c : Nat) : Bool := 48 ≤ c && c ≤ 57

/-- Modelled from the spec: the C library function `strtoul(nptr, &end, 10)`
    with a 64-bit `unsigned long`, on the bytes of the string before its
    terminator.  White space is skipped, one sign is accepted, then the
    decimal digits are converted; a value that does not fit is `ULONG_MAX`,
    a minus sign negates the value in unsigned arithmetic.  The result is
    the value and the rest of the string from `end` on; without any digit
    the value is 0 and `end` is `nptr`. -/
def strtoul (nptr : List Nat) : Nat × List Nat :=
  let s1 := nptr.dropWhile isspace
  let neg := s1.head? == some 45
  let s2 := if s1.head? == some 45 || s1.head? == some 43 then s1.tail else s1
  let digits := s2.takeWhile isdigit
  if digits.isEmpty then (0, nptr)
  else
    let v := digits.foldl (fun a c => a * 10 + (c - 48)) 0
    (if v ≥ 2 ^ 64 then 2 ^ 64 - 1 else if neg then (2 ^ 64 - v) % 2 ^ 64 else v,
      s2.dropWhile isdigit)

/-- The function `bird_shm_env_enabled`; the argument is what
    `getenv("ENABLE_SHM_EXPORT")` returned (`none` is `NULL`). -/
def bird_shm_env_enabled (val : Option (List Nat)) : Int :=
  match val with
  | none => 0
  | some v =>
    if (cstr v).isEmpty then 0
    else if !(strtoul (cstr v)).2.isEmpty then 0
    else if (strtoul (cstr v)).1 ≠ 0 then 1 else 0

/-- What the operating system answers to the calls of `bird_shm_init`: the
    value of the environment variable, the return values of `shm_open` and
    `ftruncate`, and for `mmap` either `MAP_FAILED` (`none`) or the contents
    the mapped object has at that time. -/
structure init_env where
  getenv_result : Option (List Nat)
  shm_open_result : Int
  ftruncate_result : Int
  mmap_result : Option bird_shm_region
deriving DecidableEq

/-- The calls of `bird_shm_init` that leave a trace outside the module
    state: the three warnings, the closing of a descriptor, and the final
    information message. -/
inductive init_event where
  | warn_shm_open_failed
  | warn_ftruncate_failed
  | warn_mmap_failed
  | close_fd (fd : Int)
  | info_enabled
deriving DecidableEq

/-- What `memset(shm_region, 0, size)` leaves in the region. -/
def bird_shm_region.zero : bird_shm_region :=
  { magic := 0, version := 0, cmd_flag := 0, reserved := 0, version_seq := 0,
    mailbox := { cmd := 0, reserved := 0, arg0 := 0, arg1 := 0 },
    snapshot := bird_shm_snapshot.zero }

/-- The stores of lines 461-467 into the mapped region, whose contents
    before them are `r0`. -/
def bird_shm_init_region (r0 : bird_shm_region) : bird_shm_region :=
  let r1 := (fun _ : bird_shm_region => bird_shm_region.zero) r0
  let r2 := { r1 with magic := BIRD_SHM_MAGIC }
  let r3 := { r2 with version := BIRD_SHM_VERSION }
  let r4 := { r3 with snapshot := { r3.snapshot with version := BIRD_SHM_SNAPSHOT_VERSION } }
  let r5 := atomic_store_cmd_flag r4 0
  { r5 with version_seq := 0 }

/-- The function `bird_shm_init`: the module state it leaves and the events
    it causes, in order. -/
def bird_shm_init (e : init_env) (m : shm_module) : shm_module × List init_event :=
  if bird_shm_env_enabled e.getenv_result = 0 then (m, [])
  else if e.shm_open_result < 0 then
    ({ m with shm_fd := e.shm_open_result }, [init_event.warn_shm_open_failed])
  else if e.ftruncate_result < 0 then
    ({ m with shm_fd := -1 },
      [init_event.warn_ftruncate_failed, init_event.close_fd e.shm_open_result])
  else
    match e.mmap_result with
    | none =>
      ({ m with shm_fd := -1 },
        [init_event.warn_mmap_failed, init_event.close_fd e.shm_open_result])
    | some r0 =>
      ({ shm_region := some (bird_shm_init_region r0), shm_enabled := 1,
         shm_fd := e.shm_open_result }, [init_event.info_enabled])

/-! ## Executions of the daemon next to readers

Calls of `bird_shm_poll` and a restart of the daemon (`bird_shm_init`), taken
one access to the region at a time, next to the stores of readers.  The
daemon has one thread: a call runs to its end before the next one begins.
The module is active, so a call goes on to its load of `cmd_flag`. -/

/-- What a running call of `bird_shm_poll` still has to do after its load of
    `cmd_flag` (line 477), one entry per access to the region:
    the load of `mailbox.cmd` (line 481); an increment of `version_seq`
    (lines 488 and 490); the load of `mailbox.cmd` inside the builder (line
    113); one store of the builder, given by the contents of the snapshot
    after it; the store to `cmd_flag` (lines 484 and 491).  `before` and
    `after` are the contents of the snapshot after each store of the builder
    that precedes, respectively follows, its load of `mailbox.cmd`, the last
    store excepted, which leaves the finished snapshot. -/
inductive writer_op where
  | load_cmd (d : daemon) (before after : List bird_shm_snapshot)
  | fetch_add
  | build (d : daemon) (after : List bird_shm_snapshot)
  | store_snapshot (s : bird_shm_snapshot)
  | store_cmd_flag (v : Nat)

/-- Whether the entry is an increment of `version_seq`. -/
def writer_op.is_fetch_add : writer_op → Bool
  | .fetch_add => true
  | _ => false

/-- The effect of one entry on the region, and the entries it puts in front
    of what the call still has to do: the load of `mailbox.cmd` decides
    between the unknown-opcode path and the refresh path, and the load
    inside the builder fixes the `last_cmd` of the snapshot being built. -/
def writer_op.apply (op : writer_op) (r : bird_shm_region) :
    bird_shm_region × List writer_op :=
  match op with
  | .load_cmd d before after =>
    (r,
      if r.mailbox.cmd ≠ BIRD_SHM_CMD_SNAPSHOT then [writer_op.store_cmd_flag 0]
      else
        [writer_op.fetch_add] ++ before.map writer_op.store_snapshot
          ++ [writer_op.build d after])
  | .fetch_add => (atomic_fetch_add_version_seq r 1, [])
  | .build d after =>
    (r,
      after.map writer_op.store_snapshot
        ++ [writer_op.store_snapshot (bird_shm_write_snapshot d r).snapshot,
            writer_op.fetch_add, writer_op.store_cmd_flag 0])
  | .store_snapshot s => ({ r with snapshot := s }, [])
  | .store_cmd_flag v => (atomic_store_cmd_flag r v, [])

/-- The shared object and the daemon next to it: the region, what the
    running call of `bird_shm_poll` still has to do (empty between calls),
    and two observers that the code does not have: the number of increments
    of `version_seq` made so far, and the snapshot as it was when the
    counter last became even. -/
structure shm_system where
  region : bird_shm_region
  pending : List writer_op
  increments : Nat
  published : bird_shm_snapshot

/-- The system over a region `r` between two calls. -/
def shm_system.start (r : bird_shm_region) : shm_system :=
  { region := r, pending := [], increments := 0, published := r.snapshot }

/-- One step of an execution: the daemon is started again and
    `bird_shm_init` maps and initialises the object (lines 459-466); the
    daemon calls `bird_shm_poll`, which loads `cmd_flag`; the running call
    makes its next access; and, modelled from the spec, a reader stores to
    the mailbox or to `cmd_flag`. -/
inductive shm_event where
  | init
  | poll (d : daemon) (before after : List bird_shm_snapshot)
  | writer_step
  | reader_store_mailbox (mb : bird_shm_mailbox)
  | reader_store_cmd_flag (v : Nat)

/-- Whether the step is a run of `bird_shm_init`. -/
def shm_event.is_init : shm_event → Bool
  | .init => true
  | _ => false

/-- The effect of one step.  A restart ends whatever call was running.  A
    call begins only between calls, and returns at once when it finds
    `cmd_flag` zero.  A step of the running call does nothing between
    calls. -/
def shm_event.apply (e : shm_event) (s : shm_system) : shm_system :=
  match e with
  | .init =>
    { s with
      region := bird_shm_init_region s.region
      pending := []
      published := (bird_shm_init_region s.region).snapshot }
  | .poll d before after =>
    match s.pending with
    | [] =>
      if s.region.cmd_flag = 0 then s
      else { s with pending := [writer_op.load_cmd d before after] }
    | _ :: _ => s
  | .writer_step =>
    match s.pending with
    | [] => s
    | op :: rest =>
      { region := (op.apply s.region).1
        pending := (op.apply s.region).2 ++ rest
        increments := if op.is_fetch_add then s.increments + 1 else s.increments
        published :=
          if op.is_fetch_add && decide ((op.apply s.region).1.version_seq % 2 = 0) then
            s.region.snapshot
          else s.published }
  | .reader_store_mailbox mb => { s with region := { s.region with mailbox := mb } }
  | .reader_store_cmd_flag v => { s with region := { s.region with cmd_flag := v } }

/-- The system after a sequence of steps. -/
def run_events (l : List shm_event) (s : shm_system) : shm_system :=
  l.foldl (fun s e => e.apply s) s

/-- The steps of one call of `bird_shm_poll` that nothing interrupts: the
    call and as many steps as its longest path has accesses. -/
def poll_events (d : daemon) (before after : List bird_shm_snapshot) : List shm_event :=
  shm_event.poll d before after
    :: List.replicate (before.length + after.length + 6) shm_event.writer_step

/-- The discipline of a running call: `writing` tells whether a write
    section is open, that is whether the counter is odd.  The two loads of
    `mailbox.cmd` come last in what is known of the call, the first outside
    a write section and the second inside one; an increment opens or closes
    the section; a store of the builder needs an open section and the flag
    store a closed one; the call ends with the section closed. -/
def ops_ok : Bool → List writer_op → Bool
  | writing, [] => !writing
  | writing, .load_cmd _ _ _ :: rest => !writing && rest.isEmpty
  | writing, .fetch_add :: rest => ops_ok (!writing) rest
  | writing, .build _ _ :: rest => writing && rest.isEmpty
  | writing, .store_snapshot _ :: rest => writing && ops_ok writing rest
  | writing, .store_cmd_flag _ :: rest => !writing && ops_ok writing rest

/-- The invariant of executions: the running call keeps the discipline with
    respect to the parity of the counter, the counter is a 64-bit value, and
    while the counter is even the snapshot is the published one. -/
def shm_system.ok (s : shm_system) : Prop :=
  ops_ok (decide (s.region.version_seq % 2 = 1)) s.pending = true ∧
  s.region.version_seq < 2 ^ 64 ∧
  (s.region.version_seq % 2 = 0 → s.region.snapshot = s.published)

/-! ## Auxiliary definitions used by the statements -/

/-- Consecutive stores `arr[i] = r0; arr[i+1] = r1; ...` of a list of records. -/
def write_at {α : Type} (arr : List α) (i : Nat) : List α → List α
  | [] => arr
  | r :: rs => write_at (arr.set i r) (i + 1) rs

/-- The entries `(c, i), (c, i+1), ..., (c, i+n-1)` of the write record. -/
def write_log (c : bird_shm_coll) (i n : Nat) : List (bird_shm_coll × Nat) :=
  (List.range' i n).map (fun k => (c, k))

/-- The database entries of an OSPF instance for which a record is due: those
    the builder does not skip as placeholders. -/
def real_lsas (l : List top_hash_entry) : List top_hash_entry :=
  l.filter (fun en => !lsa_skipped en)

/-- The neighbours of an OSPF instance in walk order, each with the interface
    it hangs off. -/
def ospf_neighbors (l : List ospf_iface) : List (ospf_iface × ospf_neighbor) :=
  l.flatMap (fun oi => oi.neigh_list.map (fun nb => (oi, nb)))

/-- Whether bit `k` of `trunc_flags` is set. -/
def builder.bit (b : builder) (k : Nat) : Bool := b.snap.trunc_flags.testBit k

/-- The part of the builder state that no loop writes: the stamped header,
    the count fields (stored only after the walks) and the bits of
    `trunc_flags` above the eleven truncation bits. -/
def builder.hdr_view (b : builder) :=
  (b.snap.version, b.snap.last_cmd, b.snap.status, b.snap.iface_count,
    b.snap.iface_addr_count, b.snap.proto_count, b.snap.bgp_count, b.snap.ospf_count,
    b.snap.ospf_lsa_count, b.snap.ospf_neigh_count, b.snap.bfd_count, b.snap.babel_count,
    b.snap.babel_iface_count, b.snap.babel_neigh_count, b.snap.trunc_flags >>> 11)

/-- The part of the builder state owned by the interface walk. -/
def builder.if_view (b : builder) :=
  (b.iface_index, b.iface_addr_index, b.snap.ifaces, b.snap.iface_addrs, b.bit 0, b.bit 1)

/-- The part of the builder state owned by the generic protocol records. -/
def builder.pr_view (b : builder) := (b.proto_index, b.snap.protos, b.bit 2)

/-- The part of the builder state owned by the BGP block. -/
def builder.bgp_view (b : builder) := (b.bgp_index, b.snap.bgp, b.bit 3)

/-- The part of the builder state owned by the OSPF block. -/
def builder.ospf_view (b : builder) :=
  (b.ospf_index, b.ospf_lsa_index, b.ospf_neigh_index, b.snap.ospf, b.snap.ospf_lsas,
    b.snap.ospf_neighs, b.bit 4, b.bit 5, b.bit 6)

/-- The part of the builder state owned by the BFD block. -/
def builder.bfd_view (b : builder) := (b.bfd_index, b.snap.bfd, b.bit 7)

/-- The part of the builder state owned by the Babel block. -/
def builder.babel_view (b : builder) :=
  (b.babel_index, b.babel_iface_index, b.babel_neigh_index, b.snap.babel, b.snap.babel_ifaces,
    b.snap.babel_neighs, b.bit 8, b.bit 9, b.bit 10)

/-- Everything but what the interface walk owns. -/
def builder.outside_if (b : builder) :=
  (b.hdr_view, b.pr_view, b.bgp_view, b.ospf_view, b.bfd_view, b.babel_view)

/-- Everything but what the generic protocol records own. -/
def builder.outside_pr (b : builder) :=
  (b.hdr_view, b.if_view, b.bgp_view, b.ospf_view, b.bfd_view, b.babel_view)

/-- Everything but what the BGP block owns. -/
def builder.outside_bgp (b : builder) :=
  (b.hdr_view, b.if_view, b.pr_view, b.ospf_view, b.bfd_view, b.babel_view)

/-- Everything but what the OSPF block owns. -/
def builder.outside_ospf (b : builder) :=
  (b.hdr_view, b.if_view, b.pr_view, b.bgp_view, b.bfd_view, b.babel_view)

/-- Everything but what the BFD block owns. -/
def builder.outside_bfd (b : builder) :=
  (b.hdr_view, b.if_view, b.pr_view, b.bgp_view, b.ospf_view, b.babel_view)

/-- Everything but what the Babel block owns. -/
def builder.outside_babel (b : builder) :=
  (b.hdr_view, b.if_view, b.pr_view, b.bgp_view, b.ospf_view, b.bfd_view)

/-- The four words of the address fit 32 bits each. -/
def ip_addr.wf (a : ip_addr) : Prop :=
  a.addr0 < 2 ^ 32 ∧ a.addr1 < 2 ^ 32 ∧ a.addr2 < 2 ^ 32 ∧ a.addr3 < 2 ^ 32

/-- The compile-time capacity `BIRD_SHM_MAX_*` of each array. -/
def capacity : bird_shm_coll → Nat
  | .ifaces => BIRD_SHM_MAX_INTERFACES
  | .iface_addrs => BIRD_SHM_MAX_IFACE_ADDRS
  | .protos => BIRD_SHM_MAX_PROTOCOLS
  | .bgp => BIRD_SHM_MAX_BGP
  | .ospf => BIRD_SHM_MAX_OSPF
  | .ospf_lsas => BIRD_SHM_MAX_OSPF_LSAS
  | .ospf_neighs => BIRD_SHM_MAX_OSPF_NEIGHBORS
  | .bfd => BIRD_SHM_MAX_BFD_SESSIONS
  | .babel => BIRD_SHM_MAX_BABEL
  | .babel_ifaces => BIRD_SHM_MAX_BABEL_IFACES
  | .babel_neighs => BIRD_SHM_MAX_BABEL_NEIGHBORS

/-- The truncation bit `BIRD_SHM_TRUNC_*` dedicated to each array. -/
def trunc_bit : bird_shm_coll → Nat
  | .ifaces => BIRD_SHM_TRUNC_IFACES
  | .iface_addrs => BIRD_SHM_TRUNC_IFACE_ADDRS
  | .protos => BIRD_SHM_TRUNC_PROTOCOLS
  | .bgp => BIRD_SHM_TRUNC_BGP
  | .ospf => BIRD_SHM_TRUNC_OSPF
  | .ospf_lsas => BIRD_SHM_TRUNC_OSPF_LSAS
  | .ospf_neighs => BIRD_SHM_TRUNC_OSPF_NEIGHS
  | .bfd => BIRD_SHM_TRUNC_BFD
  | .babel => BIRD_SHM_TRUNC_BABEL
  | .babel_ifaces => BIRD_SHM_TRUNC_BABEL_IFACES
  | .babel_neighs => BIRD_SHM_TRUNC_BABEL_NEIGHS

/-- The position in `trunc_flags` of the truncation bit of each array. -/
def trunc_shift : bird_shm_coll → Nat
  | .ifaces => 0
  | .iface_addrs => 1
  | .protos => 2
  | .bgp => 3
  | .ospf => 4
  | .ospf_lsas => 5
  | .ospf_neighs => 6
  | .bfd => 7
  | .babel => 8
  | .babel_ifaces => 9
  | .babel_neighs => 10

/-- The count field of each array in the snapshot. -/
def bird_shm_snapshot.count (s : bird_shm_snapshot) : bird_shm_coll → Nat
  | .ifaces => s.iface_count
  | .iface_addrs => s.iface_addr_count
  | .protos => s.proto_count
  | .bgp => s.bgp_count
  | .ospf => s.ospf_count
  | .ospf_lsas => s.ospf_lsa_count
  | .ospf_neighs => s.ospf_neigh_count
  | .bfd => s.bfd_count
  | .babel => s.babel_count
  | .babel_ifaces => s.babel_iface_count
  | .babel_neighs => s.babel_neigh_count

/-- The number of slots of each array in the snapshot. -/
def bird_shm_snapshot.len (s : bird_shm_snapshot) : bird_shm_coll → Nat
  | .ifaces => s.ifaces.length
  | .iface_addrs => s.iface_addrs.length
  | .protos => s.protos.length
  | .bgp => s.bgp.length
  | .ospf => s.ospf.length
  | .ospf_lsas => s.ospf_lsas.length
  | .ospf_neighs => s.ospf_neighs.length
  | .bfd => s.bfd.length
  | .babel => s.babel.length
  | .babel_ifaces => s.babel_ifaces.length
  | .babel_neighs => s.babel_neighs.length

/-- The index variable the builder keeps for each array. -/
def builder.idx (b : builder) : bird_shm_coll → Nat
  | .ifaces => b.iface_index
  | .iface_addrs => b.iface_addr_index
  | .protos => b.proto_index
  | .bgp => b.bgp_index
  | .ospf => b.ospf_index
  | .ospf_lsas => b.ospf_lsa_index
  | .ospf_neighs => b.ospf_neigh_index
  | .bfd => b.bfd_index
  | .babel => b.babel_index
  | .babel_ifaces => b.babel_iface_index
  | .babel_neighs => b.babel_neigh_index

/-- The slot indices at which records of array `c` were written, in the order
    of the writes. -/
def builder.written (b : builder) (c : bird_shm_coll) : List Nat :=
  (b.writes.filter (fun w => decide (w.1 = c))).map (fun w => w.2)

/-- The bookkeeping invariant of the builder.  `o c` is `1` while a record of
    array `c` has been filled in its slot but the index of `c` has not been
    incremented yet (the record is still being completed by inner loops) and
    `0` otherwise.  For every array: the index, the open record included, is
    within the capacity; the records written so far went to the slots
    `0, 1, 2, ...` in this order, one write each; and the array has as many
    slots as its capacity. -/
def builder.wf_open (o : bird_shm_coll → Nat) (b : builder) : Prop :=
  ∀ c, b.idx c + o c ≤ capacity c ∧ b.written c = List.range (b.idx c + o c) ∧
    b.snap.len c = capacity c


/-- Every one of the first `n` records of `arr` has its owner field `key`
    below `bound`. -/
def owner_ok {α : Type} (arr : List α) (n : Nat) (key : α → Nat) (bound : Nat) : Prop :=
  ∀ r ∈ arr.take n, key r < bound

/-- The address records stored so far point to interface records stored so
    far. -/
def builder.if_owner_ok (b : builder) : Prop :=
  owner_ok b.snap.iface_addrs b.iface_addr_index (fun r => r.iface_index) b.iface_index

/-- The LSA and neighbour records stored so far point to OSPF records stored
    so far. -/
def builder.ospf_owner_ok (b : builder) : Prop :=
  owner_ok b.snap.ospf_lsas b.ospf_lsa_index (fun r => r.proto_index) b.ospf_index ∧
  owner_ok b.snap.ospf_neighs b.ospf_neigh_index (fun r => r.proto_index) b.ospf_index

/-- The Babel interface records stored so far point to Babel records stored
    so far, the record being completed included when `o = 1`, and the Babel
    neighbour records stored so far point to Babel interface records stored
    so far. -/
def builder.babel_owner_ok (o : Nat) (b : builder) : Prop :=
  owner_ok b.snap.babel_ifaces b.babel_iface_index (fun r => r.proto_index)
    (b.babel_index + o) ∧
  owner_ok b.snap.babel_neighs b.babel_neigh_index (fun r => r.iface_index)
    b.babel_iface_index
/-! ### Counting models

The index variable and the truncation bit of one array evolve, over a walk,
by a rule that only looks at how many records each item of the walk brings.
The two rules below state it once for all arrays. -/

/-- One item of a walk that feeds an array of capacity `cap` directly: item
    `x` brings `w x` records, of which as many are stored as still fit, and
    the truncation bit is set when one does not fit.  The state is the index
    variable and the truncation bit. -/
def count_step {α : Type} (cap : Nat) (w : α → Nat) (s : Nat × Bool) (x : α) : Nat × Bool :=
  (s.1 + min (w x) (cap - s.1), s.2 || decide (cap - s.1 < w x))

/-- One item of a walk that feeds a child array of capacity `ccap` through a
    parent array of capacity `pcap`: an item that passes the test `app` is a
    parent record; once the parent array is full its children are not walked;
    otherwise it brings `w x` child records.  The state is the parent index,
    the child index and the truncation bit of the child array. -/
def nested_step {α : Type} (pcap ccap : Nat) (app : α → Bool) (w : α → Nat)
    (s : Nat × Nat × Bool) (x : α) : Nat × Nat × Bool :=
  if app x then
    if s.1 ≥ pcap then s
    else (s.1 + 1, s.2.1 + min (w x) (ccap - s.2.1), s.2.2 || decide (ccap - s.2.1 < w x))
  else s

/-- The number of records the items passing `app` bring in total. -/
def total_of {α : Type} (app : α → Bool) (w : α → Nat) (l : List α) : Nat :=
  ((l.filter app).map w).sum

/-- The number of source records the daemon state holds for each array:
    interfaces, addresses of all interfaces, protocol instances, BGP / OSPF /
    Babel instances, non-placeholder LSAs of all OSPF instances, neighbours
    of all OSPF instances, sessions of all BFD instances, interfaces of all
    Babel instances, neighbours of all Babel interfaces. -/
def sources (d : daemon) : bird_shm_coll → Nat
  | .ifaces => d.iface_list.length
  | .iface_addrs => total_of (fun _ => true) (fun i => i.addrs.length) d.iface_list
  | .protos => d.proto_list.length
  | .bgp => total_of (fun p => proto_is p PROTOCOL_BGP) (fun _ => 1) d.proto_list
  | .ospf => total_of (fun p => proto_is p PROTOCOL_OSPF) (fun _ => 1) d.proto_list
  | .ospf_lsas =>
    total_of (fun p => proto_is p PROTOCOL_OSPF) (fun p => (real_lsas p.ospf.lsal).length)
      d.proto_list
  | .ospf_neighs =>
    total_of (fun p => proto_is p PROTOCOL_OSPF)
      (fun p => (ospf_neighbors p.ospf.iface_list).length) d.proto_list
  | .bfd =>
    total_of (fun p => proto_is p PROTOCOL_BFD) (fun p => p.bfd.session_hash_id.length)
      d.proto_list
  | .babel => total_of (fun p => proto_is p PROTOCOL_BABEL) (fun _ => 1) d.proto_list
  | .babel_ifaces =>
    total_of (fun p => proto_is p PROTOCOL_BABEL) (fun p => p.babel.interfaces.length)
      d.proto_list
  | .babel_neighs =>
    total_of (fun p => proto_is p PROTOCOL_BABEL)
      (fun p => total_of (fun _ => true) (fun bi => bi.neigh_list.length) p.babel.interfaces)
      d.proto_list

/-- The counters of the Babel block: the three index variables, the
    Babel-interface and Babel-neighbour truncation bits, and whether the
    interface walk of the current instance has been left. -/
structure babel_counts where
  babel_index : Nat
  iface_index : Nat
  neigh_index : Nat
  trunc_ifaces : Bool
  trunc_neighs : Bool
  stop : Bool
deriving DecidableEq

/-- The counters of the Babel block in a builder state. -/
def builder.babel_counts (b : builder) (stop : Bool) : babel_counts :=
  { babel_index := b.babel_index, iface_index := b.babel_iface_index,
    neigh_index := b.babel_neigh_index, trunc_ifaces := b.bit 9, trunc_neighs := b.bit 10,
    stop := stop }

/-- Counting model of one item of `WALK_LIST(bi, bp->interfaces)`: nothing
    once the walk has been left; with the interface array full, the
    interface bit is set and the walk is left; otherwise the interface is
    stored, as many of its neighbours as fit are stored, and when one does
    not fit the neighbour bit is set and the walk is left. -/
def babel_iface_count_step (s : babel_counts) (bi : babel_iface) : babel_counts :=
  if s.stop then s
  else if s.iface_index ≥ BIRD_SHM_MAX_BABEL_IFACES then
    { s with trunc_ifaces := true, stop := true }
  else
    { s with
      iface_index := s.iface_index + 1
      neigh_index :=
        s.neigh_index + min bi.neigh_list.length (BIRD_SHM_MAX_BABEL_NEIGHBORS - s.neigh_index)
      trunc_neighs := s.trunc_neighs ||
        decide (BIRD_SHM_MAX_BABEL_NEIGHBORS - s.neigh_index < bi.neigh_list.length)
      stop := decide (BIRD_SHM_MAX_BABEL_NEIGHBORS - s.neigh_index < bi.neigh_list.length) }

/-- Counting model of the Babel block of one iteration of the protocol
    walk. -/
def babel_count_step (s : babel_counts) (p : proto) : babel_counts :=
  if proto_is p PROTOCOL_BABEL then
    if s.babel_index ≥ BIRD_SHM_MAX_BABEL then s
    else
      { p.babel.interfaces.foldl babel_iface_count_step { s with stop := false } with
        babel_index := s.babel_index + 1, stop := false }
  else s


/-- Storing model of one item of a walk that feeds an array of capacity
    `cap`: an item that passes the test `app` brings the records `recs x`,
    of which as many are stored from the index on as still fit.  The state
    is the index variable and the array. -/
def store_step {α β : Type} (cap : Nat) (app : α → Bool) (recs : α → List β)
    (s : Nat × List β) (x : α) : Nat × List β :=
  if app x then
    (s.1 + ((recs x).take (cap - s.1)).length, write_at s.2 s.1 ((recs x).take (cap - s.1)))
  else s

/-- The fields of an OSPF record that identify the instance: name, router
    ID and OSPF version.  The other fields say where its LSAs and neighbours
    are in their arrays. -/
def ospf_ident (r : bird_shm_ospf_info) : List Nat × Nat × Nat :=
  (r.name, r.router_id, r.version)

/-- The fields of a Babel record that describe the instance: name, router
    ID, update sequence number and the triggered flag.  The other fields say
    where its interfaces are in their array and how many neighbours it
    has. -/
def babel_ident (r : bird_shm_babel_info) : List Nat × Nat × Nat × Nat :=
  (r.name, r.router_id, r.update_seqno, r.triggered)

/-- The statements `out->iface_count++; out->neigh_count += ...;` of lines
    403-404 done for `n` interfaces with `k` neighbours in total. -/
def add_babel_totals (n k : Nat) (out : bird_shm_babel_info) : bird_shm_babel_info :=
  { out with iface_count := out.iface_count + n, neigh_count := out.neigh_count + k }
/-! ### The records a reader expects

Stated from the description of the snapshot, for comparison with what the
builder leaves in the arrays. -/

/-- The interface records expected for a list of interfaces, in list order:
    clamped name, flags, MTU and OS index of the interface, with its
    addresses occupying `addr_count` consecutive slots of the address array
    from `addr_start` on; `a` is the number of address slots already
    taken. -/
def iface_records (a : Nat) : List iface → List bird_shm_iface
  | [] => []
  | ifa :: rest =>
    { name := strncpy (List.replicate 16 0) ifa.name 15, flags := ifa.flags, mtu := ifa.mtu,
      index := ifa.index, addr_start := a, addr_count := ifa.addrs.length }
      :: iface_records (a + ifa.addrs.length) rest

/-- The address records expected for a list of interfaces: the addresses of
    each interface in list order, interface after interface, each carrying
    the position of its interface; `i` is the position of the first
    interface of the list. -/
def iface_addr_records (i : Nat) : List iface → List bird_shm_iface_addr
  | [] => []
  | ifa :: rest => ifa.addrs.map (fill_iface_addr i) ++ iface_addr_records (i + 1) rest

/-- The interface records the builder leaves for a list of interfaces when
    the address array may fill up: each interface takes as many address
    slots as are still free, so its `addr_count` is the number of its
    addresses clamped to what is left of the 2048 slots; `a` is the number of
    address slots already taken. -/
def iface_records_trunc (a : Nat) : List iface → List bird_shm_iface
  | [] => []
  | ifa :: rest =>
    add_addr_count (min ifa.addrs.length (BIRD_SHM_MAX_IFACE_ADDRS - a)) (fill_iface a ifa)
      :: iface_records_trunc (a + min ifa.addrs.length (BIRD_SHM_MAX_IFACE_ADDRS - a)) rest

/-- The daemon state with the placeholder entries (null or dummy body)
    removed from the LSA database of every protocol instance. -/
def strip_placeholders (d : daemon) : daemon :=
  { d with
    proto_list := d.proto_list.map
      (fun p => { p with ospf := { p.ospf with lsal := real_lsas p.ospf.lsal } }) }

/-- What a string field of capacity `c` holds for the source string `s`: the
    bytes of `s` before its terminator, at most `c - 1` of them, then zero
    bytes up to `c`. -/
def str_field (c : Nat) (s : List Nat) : List Nat :=
  (cstr s).take (c - 1) ++ List.replicate (c - min (cstr s).length (c - 1)) 0

/-- The field is what a string field of capacity `c` holds for some source
    string. -/
def str_ok (c : Nat) (f : List Nat) : Prop := ∃ s, f = str_field c s

/-- The number of interfaces of one Babel instance that get a record when
    `n` neighbour slots are already taken: its interfaces in list order up
    to and including the first one whose neighbours do not all fit in the
    slots left, all of them when there is no such interface. -/
def babel_ifaces_kept (n : Nat) : List babel_iface → Nat
  | [] => 0
  | bi :: rest =>
    if BIRD_SHM_MAX_BABEL_NEIGHBORS - n < bi.neigh_list.length then 1
    else 1 + babel_ifaces_kept (n + bi.neigh_list.length) rest

/-- Every slot of `arr` from index `n` on holds the cleared record `z`. -/
def tail_zero {α : Type} (arr : List α) (n : Nat) (z : α) : Prop :=
  ∀ i, n ≤ i → i < arr.length → arr[i]? = some z

/-- Every record of `arr` satisfies `Q`, and every slot from index `n` on
    holds the cleared record `z`. -/
def slots_ok {α : Type} (arr : List α) (n : Nat) (Q : α → Prop) (z : α) : Prop :=
  (∀ r ∈ arr, Q r) ∧ tail_zero arr n z

/-- The three padding bytes of an address value are zero. -/
def bird_shm_ip_addr.pad_zero (a : bird_shm_ip_addr) : Prop :=
  a.pad = List.replicate 3 0

/-- The padding of an address record: that of its three address values. -/
def bird_shm_iface_addr.pad_zero (r : bird_shm_iface_addr) : Prop :=
  r.ip.pad_zero ∧ r.brd.pad_zero ∧ r.opposite.pad_zero

/-- The padding of a BGP record: its own three bytes and that of the
    neighbour address. -/
def bird_shm_bgp_info.pad_zero (r : bird_shm_bgp_info) : Prop :=
  r.pad = List.replicate 3 0 ∧ r.remote_ip.pad_zero

/-- The padding of an OSPF record. -/
def bird_shm_ospf_info.pad_zero (r : bird_shm_ospf_info) : Prop :=
  r.pad = List.replicate 3 0

/-- The padding of an LSA record. -/
def bird_shm_ospf_lsa.pad_zero (r : bird_shm_ospf_lsa) : Prop :=
  r.pad = 0

/-- The padding of an OSPF neighbour record. -/
def bird_shm_ospf_neighbor.pad_zero (r : bird_shm_ospf_neighbor) : Prop :=
  r.pad = List.replicate 3 0 ∧ r.ip.pad_zero

/-- The padding of a BFD session record. -/
def bird_shm_bfd_session.pad_zero (r : bird_shm_bfd_session) : Prop :=
  r.pad = List.replicate 2 0 ∧ r.addr.pad_zero

/-- The padding of a Babel record. -/
def bird_shm_babel_info.pad_zero (r : bird_shm_babel_info) : Prop :=
  r.pad = List.replicate 3 0

/-- The padding of a Babel interface record. -/
def bird_shm_babel_iface.pad_zero (r : bird_shm_babel_iface) : Prop :=
  r.pad = List.replicate 3 0 ∧ r.pad2 = 0 ∧ r.addr.pad_zero ∧ r.next_hop_ip4.pad_zero ∧
    r.next_hop_ip6.pad_zero

/-- The padding of a Babel neighbour record. -/
def bird_shm_babel_neighbor.pad_zero (r : bird_shm_babel_neighbor) : Prop :=
  r.pad = 0 ∧ r.addr.pad_zero

/-! ## Concrete inputs used by the witnesses -/

/-- A daemon with no interface and no protocol instance. -/
def example_daemon : daemon :=
  { iface_list := [], proto_list := [], boot_time := 5, current_time := 7 }

/-- A freshly initialised region in which a reader has raised a request with
    opcode `cmd`. -/
def example_region (cmd : Nat) : bird_shm_region :=
  { magic := BIRD_SHM_MAGIC, version := BIRD_SHM_VERSION, cmd_flag := 1, reserved := 0,
    version_seq := 4, mailbox := { cmd := cmd, reserved := 0, arg0 := 0, arg1 := 0 },
    snapshot := { bird_shm_snapshot.zero with version := BIRD_SHM_SNAPSHOT_VERSION } }

/-- An active module state over a region. -/
def example_module (region : bird_shm_region) : shm_module :=
  { shm_region := some region, shm_enabled := 1, shm_fd := 3 }


/-- A protocol instance of class `c` with empty family data. -/
def example_proto (c : protocol_class) : proto :=
  { name := [112, 49], proto := some { class_ := c }, proto_state := 3,
    bgp := { local_as := 0, remote_as := 0, conn := none, remote_ip := IPA_NONE },
    ospf := { router_id := 0, version := 2, lsal := [], iface_list := [] },
    bfd := { session_hash_id := [] },
    babel := { router_id := 0, update_seqno := 0, triggered := 0, interfaces := [] } }

/-- A daemon whose protocol instances are 65 OSPF instances, one more than
    the OSPF array holds. -/
def example_ospf_overflow : daemon :=
  { iface_list := [], proto_list := List.replicate 65 (example_proto PROTOCOL_OSPF),
    boot_time := 5, current_time := 7 }

/-- An address 192.0.2.`n`/24 with broadcast address 192.0.2.255. -/
def example_ifa (n : Nat) : ifa :=
  { pxlen := 24, scope := 0, flags := 0, ip := ipa_from_ip4 (ip4_quad 192 0 2 n),
    brd := ipa_from_ip4 (ip4_quad 192 0 2 255), opposite := IPA_NONE }

/-- A daemon with two interfaces, `lo` without address and `eth0` with two
    addresses, and no protocol instance. -/
def example_iface_daemon : daemon :=
  { iface_list :=
      [{ name := [108, 111], flags := 1, mtu := 65536, index := 1, addrs := [] },
       { name := [101, 116, 104, 48], flags := 3, mtu := 1500, index := 2,
         addrs := [example_ifa 1, example_ifa 2] }]
    proto_list := [], boot_time := 5, current_time := 7 }

/-- The answers of an operating system on which every step succeeds: the
    variable is set to `1`, `shm_open` returns descriptor 3, and the object
    mapped holds what an earlier run left in it. -/
def example_env_ok : init_env :=
  { getenv_result := some [49], shm_open_result := 3, ftruncate_result := 0,
    mmap_result := some (example_region 7) }

/-- The answers of an operating system on which `mmap` fails. -/
def example_env_mmap_fails : init_env :=
  { example_env_ok with mmap_result := none }

/-- An LSA database entry with body pointer `body` and LSA id `n`. -/
def example_lsa (body n : Nat) : top_hash_entry :=
  { lsa_body := body, lsa_type := 0x2001, domain := 0,
    lsa := { id := n, rt := 1, sn := -2147483647, age := 10, length := 36, type_raw := 1 } }

/-- An OSPF instance whose database holds a null-body entry, a real entry,
    a dummy-body entry and another real entry, in this order. -/
def example_ospf_proto : proto :=
  { example_proto PROTOCOL_OSPF with
    ospf := { router_id := 9, version := 2,
              lsal := [example_lsa 0 1, example_lsa 4096 2, example_lsa LSA_BODY_DUMMY 3,
                example_lsa 8192 4],
              iface_list := [] } }

/-- A daemon with a BGP instance followed by the OSPF instance
    `example_ospf_proto`. -/
def example_ospf_daemon : daemon :=
  { iface_list := [], proto_list := [example_proto PROTOCOL_BGP, example_ospf_proto],
    boot_time := 5, current_time := 7 }

/-- A daemon with one interface whose name has 20 characters and one
    protocol instance whose name has 40 characters. -/
def example_long_names : daemon :=
  { iface_list :=
      [{ name := List.replicate 20 97, flags := 1, mtu := 1500, index := 1, addrs := [] }]
    proto_list := [{ example_proto PROTOCOL_STATIC with name := List.replicate 40 98 }]
    boot_time := 5, current_time := 7 }

/-- A region with the request of `example_region 1` whose snapshot still
    holds the records of an earlier cycle: the two interfaces and two
    addresses of `example_iface_daemon`. -/
def example_stale_region : bird_shm_region :=
  { example_region 1 with
    snapshot := (bird_shm_write_snapshot example_iface_daemon (example_region 1)).snapshot }

/-- The two stores of a reader that asks for a refresh: the mailbox with
    opcode 1, then `cmd_flag`. -/
def example_request : List shm_event :=
  [shm_event.reader_store_mailbox { cmd := 1, reserved := 0, arg0 := 0, arg1 := 0 },
    shm_event.reader_store_cmd_flag 1]

/-- A run of the daemon on the shared object: `bird_shm_init`, a reader's
    request, and one call of `bird_shm_poll` that publishes the two
    interfaces and two addresses of `example_iface_daemon`. -/
def example_first_run : List shm_event :=
  shm_event.init :: (example_request ++ poll_events example_iface_daemon [] [])

/-- The daemon started again on the same object, now without interfaces:
    `bird_shm_init`, a reader's request, and one call of `bird_shm_poll`. -/
def example_second_run : List shm_event :=
  shm_event.init :: (example_request ++ poll_events example_daemon [] [])

/-- A reader's request followed by the beginning of a call of
    `bird_shm_poll`: the call has loaded `cmd_flag` and `mailbox.cmd` and has
    not made its first increment yet. -/
def example_call_begun : List shm_event :=
  example_request ++ [shm_event.poll example_daemon [] [], shm_event.writer_step]

/-! # Lemmas -/

/-! ## Arrays -/

theorem set_getElem?_self {α : Type} (arr : List α) (i : Nat) (v : α) (h : arr[i]? = some v) :
    arr.set i v = arr := by
  induction arr generalizing i with
  | nil => rfl
  | cons x xs ih =>
    cases i with
    | zero => simp at h; simp [h]
    | succ j => simp at h; simp [ih j h]

theorem arr_update_id {α : Type} (arr : List α) (i : Nat) (f : α → α) (hf : ∀ x, f x = x) :
    arr_update arr i f = arr := by
  unfold arr_update
  split
  · next v hv => rw [hf]; exact set_getElem?_self arr i v hv
  · rfl

theorem arr_update_comp {α : Type} (arr : List α) (i : Nat) (f g : α → α) :
    arr_update (arr_update arr i f) i g = arr_update arr i (fun x => g (f x)) := by
  unfold arr_update
  cases h : arr[i]? with
  | none => simp [h]
  | some v =>
    have hi : i < arr.length := by
      rcases List.getElem?_eq_some_iff.1 h with ⟨hi, _⟩; exact hi
    simp [h, hi]

theorem write_log_zero (c : bird_shm_coll) (i : Nat) : write_log c i 0 = [] := rfl

theorem write_log_succ (c : bird_shm_coll) (i n : Nat) :
    write_log c i (n + 1) = (c, i) :: write_log c (i + 1) n := by
  simp [write_log, List.range'_succ]

theorem take_cap_cons {α : Type} {cap i : Nat} (h : ¬ i ≥ cap) (x : α) (l : List α) :
    (x :: l).take (cap - i) = x :: l.take (cap - (i + 1)) := by
  have h1 : cap - i = (cap - (i + 1)) + 1 := by omega
  rw [h1, List.take_succ_cons]

theorem cap_lt_cons {cap i : Nat} (h : ¬ i ≥ cap) (n : Nat) :
    (cap - i < n + 1) = (cap - (i + 1) < n) := by
  apply propext; omega

theorem add_addr_count_add (m n : Nat) (x : bird_shm_iface) :
    add_addr_count n (add_addr_count m x) = add_addr_count (m + n) x := by
  simp [add_addr_count, Nat.add_assoc]

theorem add_lsa_count_add (m n : Nat) (x : bird_shm_ospf_info) :
    add_lsa_count n (add_lsa_count m x) = add_lsa_count (m + n) x := by
  simp [add_lsa_count, Nat.add_assoc]

theorem add_ospf_neigh_count_add (m n : Nat) (x : bird_shm_ospf_info) :
    add_ospf_neigh_count n (add_ospf_neigh_count m x) = add_ospf_neigh_count (m + n) x := by
  simp [add_ospf_neigh_count, Nat.add_assoc]

theorem add_babel_iface_neigh_count_add (m n : Nat) (x : bird_shm_babel_iface) :
    add_babel_iface_neigh_count n (add_babel_iface_neigh_count m x)
      = add_babel_iface_neigh_count (m + n) x := by
  simp [add_babel_iface_neigh_count, Nat.add_assoc]

theorem write_at_append {α : Type} (arr : List α) (i : Nat) (xs ys : List α) :
    write_at arr i (xs ++ ys) = write_at (write_at arr i xs) (i + xs.length) ys := by
  induction xs generalizing arr i with
  | nil => simp [write_at]
  | cons x xs ih =>
    simp only [List.cons_append, write_at, List.length_cons, ih]
    rw [show i + (xs.length + 1) = i + 1 + xs.length by omega]
    exact ih _ _

theorem length_write_at {α : Type} (arr : List α) (i : Nat) (xs : List α) :
    (write_at arr i xs).length = arr.length := by
  induction xs generalizing arr i with
  | nil => rfl
  | cons x xs ih => simp [write_at, ih]

theorem getElem?_write_at_lt {α : Type} (arr : List α) (i : Nat) (xs : List α) (k : Nat)
    (h : k < i) : (write_at arr i xs)[k]? = arr[k]? := by
  induction xs generalizing arr i with
  | nil => rfl
  | cons x xs ih =>
    simp only [write_at]
    rw [ih _ _ (by omega), List.getElem?_set_ne (by omega)]

theorem getElem?_write_at_ge {α : Type} (arr : List α) (i : Nat) (xs : List α) (k : Nat)
    (h : i + xs.length ≤ k) : (write_at arr i xs)[k]? = arr[k]? := by
  induction xs generalizing arr i with
  | nil => rfl
  | cons x xs ih =>
    simp only [write_at]
    simp only [List.length_cons] at h
    rw [ih _ _ (by omega), List.getElem?_set_ne (by omega)]

theorem getElem?_write_at_mid {α : Type} (arr : List α) (i : Nat) (xs : List α) (k : Nat)
    (hk : k < xs.length) (hlen : i + xs.length ≤ arr.length) :
    (write_at arr i xs)[i + k]? = xs[k]? := by
  induction xs generalizing arr i k with
  | nil => simp at hk
  | cons x xs ih =>
    simp only [write_at]
    simp only [List.length_cons] at hk hlen
    cases k with
    | zero =>
      rw [Nat.add_zero, getElem?_write_at_lt _ _ _ _ (by omega)]
      have : i < arr.length := by omega
      simp [this]
    | succ j =>
      have := ih (arr.set i x) (i + 1) j (by omega) (by simp; omega)
      rw [show i + (j + 1) = i + 1 + j by omega, this]
      simp

theorem take_write_at {α : Type} (arr : List α) (i : Nat) (xs : List α) :
    (write_at arr i xs).take i = arr.take i := by
  apply List.ext_getElem?
  intro k
  by_cases hk : k < i
  · simp [List.getElem?_take, hk, getElem?_write_at_lt _ _ _ _ hk]
  · simp [List.getElem?_take, hk]

theorem take_write_at_full {α : Type} (arr : List α) (i : Nat) (xs : List α)
    (hlen : i + xs.length ≤ arr.length) :
    (write_at arr i xs).take (i + xs.length) = arr.take i ++ xs := by
  apply List.ext_getElem?
  intro k
  by_cases hk : k < i
  · have h1 : k < i + xs.length := by omega
    have h2 : k < (List.take i arr).length := by simp; omega
    simp [List.getElem?_take, h1, getElem?_write_at_lt _ _ _ _ hk, List.getElem?_append_left h2, hk]
  · by_cases hk2 : k < i + xs.length
    · have h3 : (List.take i arr).length ≤ k := by simp; omega
      have h4 : (List.take i arr).length = i := by simp; omega
      rw [List.getElem?_take_of_lt hk2, List.getElem?_append_right h3, h4]
      have := getElem?_write_at_mid arr i xs (k - i) (by omega) hlen
      rw [show i + (k - i) = k by omega] at this
      exact this
    · have h3 : (List.take i arr).length ≤ k := by simp; omega
      have h4 : (List.take i arr).length = i := by simp; omega
      rw [List.getElem?_append_right h3, h4]
      simp [List.getElem?_take, hk2]
      omega

theorem drop_write_at {α : Type} (arr : List α) (i : Nat) (xs : List α) :
    (write_at arr i xs).drop (i + xs.length) = arr.drop (i + xs.length) := by
  apply List.ext_getElem?
  intro k
  simp only [List.getElem?_drop]
  exact getElem?_write_at_ge _ _ _ _ (by omega)

theorem write_log_add (c : bird_shm_coll) (i m n : Nat) :
    write_log c i (m + n) = write_log c i m ++ write_log c (i + m) n := by
  unfold write_log
  rw [← List.map_append]
  congr 1
  have := List.range'_append i m n 1
  simp only [Nat.one_mul] at this
  rw [Nat.add_comm m n]
  exact this.symm

/-! ## Closed forms of the inner loops -/

theorem walk_addrs_eq (l : List ifa) (b : builder) :
    walk_addrs l b =
      { b with
        snap := { b.snap with
          iface_addrs := write_at b.snap.iface_addrs b.iface_addr_index
            ((l.take (BIRD_SHM_MAX_IFACE_ADDRS - b.iface_addr_index)).map
              (fill_iface_addr b.iface_index))
          ifaces := arr_update b.snap.ifaces b.iface_index
            (add_addr_count (l.take (BIRD_SHM_MAX_IFACE_ADDRS - b.iface_addr_index)).length)
          trunc_flags :=
            if BIRD_SHM_MAX_IFACE_ADDRS - b.iface_addr_index < l.length then
              b.snap.trunc_flags ||| BIRD_SHM_TRUNC_IFACE_ADDRS
            else b.snap.trunc_flags }
        iface_addr_index :=
          b.iface_addr_index + (l.take (BIRD_SHM_MAX_IFACE_ADDRS - b.iface_addr_index)).length
        writes := b.writes ++ write_log bird_shm_coll.iface_addrs b.iface_addr_index
          (l.take (BIRD_SHM_MAX_IFACE_ADDRS - b.iface_addr_index)).length } := by
  induction l generalizing b with
  | nil =>
    simp [walk_addrs, write_at, arr_update_id, add_addr_count, write_log]
  | cons addr rest ih =>
    unfold walk_addrs emit_iface_addr
    split
    · next h =>
      have h0 : BIRD_SHM_MAX_IFACE_ADDRS - b.iface_addr_index = 0 := by omega
      simp [h0, write_at, arr_update_id, builder.set_trunc, add_addr_count, write_log]
    · next h =>
      rw [ih, take_cap_cons h]
      simp only [arr_update_comp, add_addr_count_add, List.length_cons, cap_lt_cons h,
        write_log_succ, List.map_cons, write_at, List.append_assoc, List.singleton_append,
        Nat.add_assoc, Nat.add_comm 1]

theorem real_lsas_cons_skip (en : top_hash_entry) (l : List top_hash_entry)
    (h : lsa_skipped en = true) : real_lsas (en :: l) = real_lsas l := by
  simp [real_lsas, h]

theorem real_lsas_cons_keep (en : top_hash_entry) (l : List top_hash_entry)
    (h : ¬ lsa_skipped en = true) : real_lsas (en :: l) = en :: real_lsas l := by
  simp [real_lsas, h]

theorem walk_lsal_eq (l : List top_hash_entry) (b : builder) :
    walk_lsal l b =
      { b with
        snap := { b.snap with
          ospf_lsas := write_at b.snap.ospf_lsas b.ospf_lsa_index
            (((real_lsas l).take (BIRD_SHM_MAX_OSPF_LSAS - b.ospf_lsa_index)).map
              (fill_ospf_lsa b.ospf_index))
          ospf := arr_update b.snap.ospf b.ospf_index
            (add_lsa_count ((real_lsas l).take (BIRD_SHM_MAX_OSPF_LSAS - b.ospf_lsa_index)).length)
          trunc_flags :=
            if BIRD_SHM_MAX_OSPF_LSAS - b.ospf_lsa_index < (real_lsas l).length then
              b.snap.trunc_flags ||| BIRD_SHM_TRUNC_OSPF_LSAS
            else b.snap.trunc_flags }
        ospf_lsa_index :=
          b.ospf_lsa_index + ((real_lsas l).take (BIRD_SHM_MAX_OSPF_LSAS - b.ospf_lsa_index)).length
        writes := b.writes ++ write_log bird_shm_coll.ospf_lsas b.ospf_lsa_index
          ((real_lsas l).take (BIRD_SHM_MAX_OSPF_LSAS - b.ospf_lsa_index)).length } := by
  induction l generalizing b with
  | nil =>
    simp [walk_lsal, real_lsas, write_at, arr_update_id, add_lsa_count, write_log]
  | cons en rest ih =>
    unfold walk_lsal emit_ospf_lsa
    split
    · next hs => rw [ih, real_lsas_cons_skip en rest hs]
    · next hs =>
      rw [real_lsas_cons_keep en rest hs]
      split
      · next h =>
        have h0 : BIRD_SHM_MAX_OSPF_LSAS - b.ospf_lsa_index = 0 := by omega
        simp [h0, write_at, arr_update_id, builder.set_trunc, add_lsa_count, write_log]
      · next h =>
        rw [ih, take_cap_cons h]
        simp only [arr_update_comp, add_lsa_count_add, List.length_cons, cap_lt_cons h,
          write_log_succ, List.map_cons, write_at, List.append_assoc, List.singleton_append,
          Nat.add_assoc, Nat.add_comm 1]

theorem walk_ospf_neigh_list_eq (oi : ospf_iface) (l : List ospf_neighbor) (b : builder) :
    walk_ospf_neigh_list oi l b =
      { b with
        snap := { b.snap with
          ospf_neighs := write_at b.snap.ospf_neighs b.ospf_neigh_index
            ((l.take (BIRD_SHM_MAX_OSPF_NEIGHBORS - b.ospf_neigh_index)).map
              (fill_ospf_neighbor b.ospf_index oi))
          ospf := arr_update b.snap.ospf b.ospf_index
            (add_ospf_neigh_count
              (l.take (BIRD_SHM_MAX_OSPF_NEIGHBORS - b.ospf_neigh_index)).length)
          trunc_flags :=
            if BIRD_SHM_MAX_OSPF_NEIGHBORS - b.ospf_neigh_index < l.length then
              b.snap.trunc_flags ||| BIRD_SHM_TRUNC_OSPF_NEIGHS
            else b.snap.trunc_flags }
        ospf_neigh_index :=
          b.ospf_neigh_index + (l.take (BIRD_SHM_MAX_OSPF_NEIGHBORS - b.ospf_neigh_index)).length
        neigh_trunc :=
          if BIRD_SHM_MAX_OSPF_NEIGHBORS - b.ospf_neigh_index < l.length then 1
          else b.neigh_trunc
        writes := b.writes ++ write_log bird_shm_coll.ospf_neighs b.ospf_neigh_index
          (l.take (BIRD_SHM_MAX_OSPF_NEIGHBORS - b.ospf_neigh_index)).length } := by
  induction l generalizing b with
  | nil =>
    simp [walk_ospf_neigh_list, write_at, arr_update_id, add_ospf_neigh_count, write_log]
  | cons nb rest ih =>
    unfold walk_ospf_neigh_list emit_ospf_neighbor set_neigh_trunc
    split
    · next h =>
      have h0 : BIRD_SHM_MAX_OSPF_NEIGHBORS - b.ospf_neigh_index = 0 := by omega
      simp [h0, write_at, arr_update_id, builder.set_trunc, add_ospf_neigh_count, write_log]
    · next h =>
      rw [ih, take_cap_cons h]
      simp only [arr_update_comp, add_ospf_neigh_count_add, List.length_cons, cap_lt_cons h,
        write_log_succ, List.map_cons, write_at, List.append_assoc, List.singleton_append,
        Nat.add_assoc, Nat.add_comm 1]

theorem hash_walk_sessions_eq (l : List bfd_session) (b : builder) :
    hash_walk_sessions l b =
      { b with
        snap := { b.snap with
          bfd := write_at b.snap.bfd b.bfd_index
            ((l.take (BIRD_SHM_MAX_BFD_SESSIONS - b.bfd_index)).map fill_bfd_session)
          trunc_flags :=
            if BIRD_SHM_MAX_BFD_SESSIONS - b.bfd_index < l.length then
              b.snap.trunc_flags ||| BIRD_SHM_TRUNC_BFD
            else b.snap.trunc_flags }
        bfd_index := b.bfd_index + (l.take (BIRD_SHM_MAX_BFD_SESSIONS - b.bfd_index)).length
        writes := b.writes ++ write_log bird_shm_coll.bfd b.bfd_index
          (l.take (BIRD_SHM_MAX_BFD_SESSIONS - b.bfd_index)).length } := by
  induction l generalizing b with
  | nil =>
    simp [hash_walk_sessions, write_at, write_log]
  | cons s rest ih =>
    unfold hash_walk_sessions emit_bfd_session
    split
    · next h =>
      have h0 : BIRD_SHM_MAX_BFD_SESSIONS - b.bfd_index = 0 := by omega
      simp [h0, write_at, builder.set_trunc, write_log]
    · next h =>
      rw [ih, take_cap_cons h]
      simp only [List.length_cons, cap_lt_cons h,
        write_log_succ, List.map_cons, write_at, List.append_assoc, List.singleton_append,
        Nat.add_assoc, Nat.add_comm 1]

theorem walk_babel_neigh_list_eq (l : List babel_neighbor) (b : builder) :
    walk_babel_neigh_list l b =
      { b with
        snap := { b.snap with
          babel_neighs := write_at b.snap.babel_neighs b.babel_neigh_index
            ((l.take (BIRD_SHM_MAX_BABEL_NEIGHBORS - b.babel_neigh_index)).map
              (fill_babel_neighbor b.babel_iface_index))
          babel_ifaces := arr_update b.snap.babel_ifaces b.babel_iface_index
            (add_babel_iface_neigh_count
              (l.take (BIRD_SHM_MAX_BABEL_NEIGHBORS - b.babel_neigh_index)).length)
          trunc_flags :=
            if BIRD_SHM_MAX_BABEL_NEIGHBORS - b.babel_neigh_index < l.length then
              b.snap.trunc_flags ||| BIRD_SHM_TRUNC_BABEL_NEIGHS
            else b.snap.trunc_flags }
        babel_neigh_index :=
          b.babel_neigh_index +
            (l.take (BIRD_SHM_MAX_BABEL_NEIGHBORS - b.babel_neigh_index)).length
        neigh_trunc :=
          if BIRD_SHM_MAX_BABEL_NEIGHBORS - b.babel_neigh_index < l.length then 1
          else b.neigh_trunc
        writes := b.writes ++ write_log bird_shm_coll.babel_neighs b.babel_neigh_index
          (l.take (BIRD_SHM_MAX_BABEL_NEIGHBORS - b.babel_neigh_index)).length } := by
  induction l generalizing b with
  | nil =>
    simp [walk_babel_neigh_list, write_at, arr_update_id, add_babel_iface_neigh_count, write_log]
  | cons nb rest ih =>
    unfold walk_babel_neigh_list emit_babel_neighbor set_neigh_trunc
    split
    · next h =>
      have h0 : BIRD_SHM_MAX_BABEL_NEIGHBORS - b.babel_neigh_index = 0 := by omega
      simp [h0, write_at, arr_update_id, builder.set_trunc, add_babel_iface_neigh_count,
        write_log]
    · next h =>
      rw [ih, take_cap_cons h]
      simp only [arr_update_comp, add_babel_iface_neigh_count_add, List.length_cons,
        cap_lt_cons h, write_log_succ, List.map_cons, write_at, List.append_assoc,
        List.singleton_append, Nat.add_assoc, Nat.add_comm 1]


theorem ospf_neighbors_cons (oi : ospf_iface) (l : List ospf_iface) :
    ospf_neighbors (oi :: l) = oi.neigh_list.map (fun nb => (oi, nb)) ++ ospf_neighbors l := by
  simp [ospf_neighbors]

theorem add_ospf_neigh_count_zero : add_ospf_neigh_count 0 = fun x => x := rfl

theorem walk_ospf_iface_list_eq (l : List ospf_iface) (b : builder) (h0 : b.neigh_trunc = 0) :
    walk_ospf_iface_list l b =
      { b with
        snap := { b.snap with
          ospf_neighs := write_at b.snap.ospf_neighs b.ospf_neigh_index
            (((ospf_neighbors l).take (BIRD_SHM_MAX_OSPF_NEIGHBORS - b.ospf_neigh_index)).map
              (fun x => fill_ospf_neighbor b.ospf_index x.1 x.2))
          ospf := arr_update b.snap.ospf b.ospf_index
            (add_ospf_neigh_count
              ((ospf_neighbors l).take
                (BIRD_SHM_MAX_OSPF_NEIGHBORS - b.ospf_neigh_index)).length)
          trunc_flags :=
            if BIRD_SHM_MAX_OSPF_NEIGHBORS - b.ospf_neigh_index < (ospf_neighbors l).length then
              b.snap.trunc_flags ||| BIRD_SHM_TRUNC_OSPF_NEIGHS
            else b.snap.trunc_flags }
        ospf_neigh_index :=
          b.ospf_neigh_index +
            ((ospf_neighbors l).take (BIRD_SHM_MAX_OSPF_NEIGHBORS - b.ospf_neigh_index)).length
        neigh_trunc :=
          if BIRD_SHM_MAX_OSPF_NEIGHBORS - b.ospf_neigh_index < (ospf_neighbors l).length then 1
          else 0
        writes := b.writes ++ write_log bird_shm_coll.ospf_neighs b.ospf_neigh_index
          ((ospf_neighbors l).take (BIRD_SHM_MAX_OSPF_NEIGHBORS - b.ospf_neigh_index)).length } := by
  induction l generalizing b with
  | nil =>
    cases b
    simp at h0
    simp [walk_ospf_iface_list, ospf_neighbors, write_at, arr_update_id, add_ospf_neigh_count,
      write_log, h0]
  | cons oi rest ih =>
    unfold walk_ospf_iface_list
    simp only [walk_ospf_neigh_list_eq, ospf_neighbors_cons, h0]
    by_cases hov : BIRD_SHM_MAX_OSPF_NEIGHBORS - b.ospf_neigh_index < oi.neigh_list.length
    · have hov2 : BIRD_SHM_MAX_OSPF_NEIGHBORS - b.ospf_neigh_index <
          (List.map (fun nb => (oi, nb)) oi.neigh_list ++ ospf_neighbors rest).length := by
        simp; omega
      have ht : List.take (BIRD_SHM_MAX_OSPF_NEIGHBORS - b.ospf_neigh_index)
            (List.map (fun nb => (oi, nb)) oi.neigh_list ++ ospf_neighbors rest)
          = List.map (fun nb => (oi, nb))
              (List.take (BIRD_SHM_MAX_OSPF_NEIGHBORS - b.ospf_neigh_index) oi.neigh_list) := by
        rw [List.take_append_of_le_length (by simp; omega), List.map_take]
      rw [if_pos hov, if_pos hov, if_pos hov2, if_pos hov2, ht]
      simp [Function.comp_def]
    · have hle : oi.neigh_list.length ≤ BIRD_SHM_MAX_OSPF_NEIGHBORS - b.ospf_neigh_index := by
        omega
      have ht1 : List.take (BIRD_SHM_MAX_OSPF_NEIGHBORS - b.ospf_neigh_index) oi.neigh_list
          = oi.neigh_list := List.take_of_length_le hle
      rw [if_neg hov, if_neg hov, ht1]
      simp only [h0, ne_eq, not_true_eq_false, if_false]
      rw [ih _ rfl]
      have ht2 : List.take (BIRD_SHM_MAX_OSPF_NEIGHBORS - b.ospf_neigh_index)
            (List.map (fun nb => (oi, nb)) oi.neigh_list ++ ospf_neighbors rest)
          = List.map (fun nb => (oi, nb)) oi.neigh_list ++
              List.take (BIRD_SHM_MAX_OSPF_NEIGHBORS -
                (b.ospf_neigh_index + oi.neigh_list.length)) (ospf_neighbors rest) := by
        rw [List.take_append_eq_append_take, List.take_of_length_le (by simpa using hle)]
        simp [Nat.sub_sub]
      have hc : (BIRD_SHM_MAX_OSPF_NEIGHBORS - b.ospf_neigh_index <
            (List.map (fun nb => (oi, nb)) oi.neigh_list ++ ospf_neighbors rest).length)
          ↔ (BIRD_SHM_MAX_OSPF_NEIGHBORS - (b.ospf_neigh_index + oi.neigh_list.length) <
              (ospf_neighbors rest).length) := by
        simp; omega
      simp only [ht2, hc]
      simp [write_at_append, arr_update_comp, add_ospf_neigh_count_add, Function.comp_def,
        write_log_add, Nat.add_assoc]


/-! ## Truncation bits -/

theorem testBit_one_shiftLeft (i j : Nat) : (1 <<< i).testBit j = decide (i = j) := by
  rw [Nat.one_shiftLeft, Nat.testBit_two_pow]

theorem shiftRight_or_one_shiftLeft (x k : Nat) (hk : k < 11) :
    (x ||| 1 <<< k) >>> 11 = x >>> 11 := by
  apply Nat.eq_of_testBit_eq
  intro i
  rw [Nat.testBit_shiftRight, Nat.testBit_shiftRight, Nat.testBit_or, testBit_one_shiftLeft]
  have : ¬ k = 11 + i := by omega
  simp [this]

@[simp] theorem testBit_TRUNC_IFACES (j : Nat) :
    BIRD_SHM_TRUNC_IFACES.testBit j = decide (0 = j) := testBit_one_shiftLeft 0 j

@[simp] theorem shiftRight_or_TRUNC_IFACES (x : Nat) :
    (x ||| BIRD_SHM_TRUNC_IFACES) >>> 11 = x >>> 11 :=
  shiftRight_or_one_shiftLeft x 0 (by decide)

@[simp] theorem testBit_TRUNC_IFACE_ADDRS (j : Nat) :
    BIRD_SHM_TRUNC_IFACE_ADDRS.testBit j = decide (1 = j) := testBit_one_shiftLeft 1 j

@[simp] theorem shiftRight_or_TRUNC_IFACE_ADDRS (x : Nat) :
    (x ||| BIRD_SHM_TRUNC_IFACE_ADDRS) >>> 11 = x >>> 11 :=
  shiftRight_or_one_shiftLeft x 1 (by decide)

@[simp] theorem testBit_TRUNC_PROTOCOLS (j : Nat) :
    BIRD_SHM_TRUNC_PROTOCOLS.testBit j = decide (2 = j) := testBit_one_shiftLeft 2 j

@[simp] theorem shiftRight_or_TRUNC_PROTOCOLS (x : Nat) :
    (x ||| BIRD_SHM_TRUNC_PROTOCOLS) >>> 11 = x >>> 11 :=
  shiftRight_or_one_shiftLeft x 2 (by decide)

@[simp] theorem testBit_TRUNC_BGP (j : Nat) :
    BIRD_SHM_TRUNC_BGP.testBit j = decide (3 = j) := testBit_one_shiftLeft 3 j

@[simp] theorem shiftRight_or_TRUNC_BGP (x : Nat) :
    (x ||| BIRD_SHM_TRUNC_BGP) >>> 11 = x >>> 11 :=
  shiftRight_or_one_shiftLeft x 3 (by decide)

@[simp] theorem testBit_TRUNC_OSPF (j : Nat) :
    BIRD_SHM_TRUNC_OSPF.testBit j = decide (4 = j) := testBit_one_shiftLeft 4 j

@[simp] theorem shiftRight_or_TRUNC_OSPF (x : Nat) :
    (x ||| BIRD_SHM_TRUNC_OSPF) >>> 11 = x >>> 11 :=
  shiftRight_or_one_shiftLeft x 4 (by decide)

@[simp] theorem testBit_TRUNC_OSPF_LSAS (j : Nat) :
    BIRD_SHM_TRUNC_OSPF_LSAS.testBit j = decide (5 = j) := testBit_one_shiftLeft 5 j

@[simp] theorem shiftRight_or_TRUNC_OSPF_LSAS (x : Nat) :
    (x ||| BIRD_SHM_TRUNC_OSPF_LSAS) >>> 11 = x >>> 11 :=
  shiftRight_or_one_shiftLeft x 5 (by decide)

@[simp] theorem testBit_TRUNC_OSPF_NEIGHS (j : Nat) :
    BIRD_SHM_TRUNC_OSPF_NEIGHS.testBit j = decide (6 = j) := testBit_one_shiftLeft 6 j

@[simp] theorem shiftRight_or_TRUNC_OSPF_NEIGHS (x : Nat) :
    (x ||| BIRD_SHM_TRUNC_OSPF_NEIGHS) >>> 11 = x >>> 11 :=
  shiftRight_or_one_shiftLeft x 6 (by decide)

@[simp] theorem testBit_TRUNC_BFD (j : Nat) :
    BIRD_SHM_TRUNC_BFD.testBit j = decide (7 = j) := testBit_one_shiftLeft 7 j

@[simp] theorem shiftRight_or_TRUNC_BFD (x : Nat) :
    (x ||| BIRD_SHM_TRUNC_BFD) >>> 11 = x >>> 11 :=
  shiftRight_or_one_shiftLeft x 7 (by decide)

@[simp] theorem testBit_TRUNC_BABEL (j : Nat) :
    BIRD_SHM_TRUNC_BABEL.testBit j = decide (8 = j) := testBit_one_shiftLeft 8 j

@[simp] theorem shiftRight_or_TRUNC_BABEL (x : Nat) :
    (x ||| BIRD_SHM_TRUNC_BABEL) >>> 11 = x >>> 11 :=
  shiftRight_or_one_shiftLeft x 8 (by decide)

@[simp] theorem testBit_TRUNC_BABEL_IFACES (j : Nat) :
    BIRD_SHM_TRUNC_BABEL_IFACES.testBit j = decide (9 = j) := testBit_one_shiftLeft 9 j

@[simp] theorem shiftRight_or_TRUNC_BABEL_IFACES (x : Nat) :
    (x ||| BIRD_SHM_TRUNC_BABEL_IFACES) >>> 11 = x >>> 11 :=
  shiftRight_or_one_shiftLeft x 9 (by decide)

@[simp] theorem testBit_TRUNC_BABEL_NEIGHS (j : Nat) :
    BIRD_SHM_TRUNC_BABEL_NEIGHS.testBit j = decide (10 = j) := testBit_one_shiftLeft 10 j

@[simp] theorem shiftRight_or_TRUNC_BABEL_NEIGHS (x : Nat) :
    (x ||| BIRD_SHM_TRUNC_BABEL_NEIGHS) >>> 11 = x >>> 11 :=
  shiftRight_or_one_shiftLeft x 10 (by decide)

/-! ## Frame lemmas: what each statement and each loop leaves alone -/

@[simp] theorem set_trunc_IFACES_outside (b : builder) :
    (b.set_trunc BIRD_SHM_TRUNC_IFACES).outside_if = b.outside_if := by
  simp [builder.set_trunc, builder.outside_if, builder.hdr_view, builder.if_view, builder.pr_view, builder.bgp_view, builder.ospf_view, builder.bfd_view, builder.babel_view, builder.bit, -Nat.testBit_zero]

@[simp] theorem set_trunc_IFACE_ADDRS_outside (b : builder) :
    (b.set_trunc BIRD_SHM_TRUNC_IFACE_ADDRS).outside_if = b.outside_if := by
  simp [builder.set_trunc, builder.outside_if, builder.hdr_view, builder.if_view, builder.pr_view, builder.bgp_view, builder.ospf_view, builder.bfd_view, builder.babel_view, builder.bit, -Nat.testBit_zero]

@[simp] theorem set_trunc_PROTOCOLS_outside (b : builder) :
    (b.set_trunc BIRD_SHM_TRUNC_PROTOCOLS).outside_pr = b.outside_pr := by
  simp [builder.set_trunc, builder.outside_pr, builder.hdr_view, builder.if_view, builder.pr_view, builder.bgp_view, builder.ospf_view, builder.bfd_view, builder.babel_view, builder.bit, -Nat.testBit_zero]

@[simp] theorem set_trunc_BGP_outside (b : builder) :
    (b.set_trunc BIRD_SHM_TRUNC_BGP).outside_bgp = b.outside_bgp := by
  simp [builder.set_trunc, builder.outside_bgp, builder.hdr_view, builder.if_view, builder.pr_view, builder.bgp_view, builder.ospf_view, builder.bfd_view, builder.babel_view, builder.bit, -Nat.testBit_zero]

@[simp] theorem set_trunc_OSPF_outside (b : builder) :
    (b.set_trunc BIRD_SHM_TRUNC_OSPF).outside_ospf = b.outside_ospf := by
  simp [builder.set_trunc, builder.outside_ospf, builder.hdr_view, builder.if_view, builder.pr_view, builder.bgp_view, builder.ospf_view, builder.bfd_view, builder.babel_view, builder.bit, -Nat.testBit_zero]

@[simp] theorem set_trunc_OSPF_LSAS_outside (b : builder) :
    (b.set_trunc BIRD_SHM_TRUNC_OSPF_LSAS).outside_ospf = b.outside_ospf := by
  simp [builder.set_trunc, builder.outside_ospf, builder.hdr_view, builder.if_view, builder.pr_view, builder.bgp_view, builder.ospf_view, builder.bfd_view, builder.babel_view, builder.bit, -Nat.testBit_zero]

@[simp] theorem set_trunc_OSPF_NEIGHS_outside (b : builder) :
    (b.set_trunc BIRD_SHM_TRUNC_OSPF_NEIGHS).outside_ospf = b.outside_ospf := by
  simp [builder.set_trunc, builder.outside_ospf, builder.hdr_view, builder.if_view, builder.pr_view, builder.bgp_view, builder.ospf_view, builder.bfd_view, builder.babel_view, builder.bit, -Nat.testBit_zero]

@[simp] theorem set_trunc_BFD_outside (b : builder) :
    (b.set_trunc BIRD_SHM_TRUNC_BFD).outside_bfd = b.outside_bfd := by
  simp [builder.set_trunc, builder.outside_bfd, builder.hdr_view, builder.if_view, builder.pr_view, builder.bgp_view, builder.ospf_view, builder.bfd_view, builder.babel_view, builder.bit, -Nat.testBit_zero]

@[simp] theorem set_trunc_BABEL_outside (b : builder) :
    (b.set_trunc BIRD_SHM_TRUNC_BABEL).outside_babel = b.outside_babel := by
  simp [builder.set_trunc, builder.outside_babel, builder.hdr_view, builder.if_view, builder.pr_view, builder.bgp_view, builder.ospf_view, builder.bfd_view, builder.babel_view, builder.bit, -Nat.testBit_zero]

@[simp] theorem set_trunc_BABEL_IFACES_outside (b : builder) :
    (b.set_trunc BIRD_SHM_TRUNC_BABEL_IFACES).outside_babel = b.outside_babel := by
  simp [builder.set_trunc, builder.outside_babel, builder.hdr_view, builder.if_view, builder.pr_view, builder.bgp_view, builder.ospf_view, builder.bfd_view, builder.babel_view, builder.bit, -Nat.testBit_zero]

@[simp] theorem set_trunc_BABEL_NEIGHS_outside (b : builder) :
    (b.set_trunc BIRD_SHM_TRUNC_BABEL_NEIGHS).outside_babel = b.outside_babel := by
  simp [builder.set_trunc, builder.outside_babel, builder.hdr_view, builder.if_view, builder.pr_view, builder.bgp_view, builder.ospf_view, builder.bfd_view, builder.babel_view, builder.bit, -Nat.testBit_zero]

@[simp] theorem set_neigh_trunc_outside_if  (b : builder) :
    (set_neigh_trunc  b).outside_if = b.outside_if := by
  simp [set_neigh_trunc, builder.outside_if, builder.hdr_view, builder.if_view, builder.pr_view, builder.bgp_view, builder.ospf_view, builder.bfd_view, builder.babel_view, builder.bit, -Nat.testBit_zero]

@[simp] theorem clear_neigh_trunc_outside_if  (b : builder) :
    (clear_neigh_trunc  b).outside_if = b.outside_if := by
  simp [clear_neigh_trunc, builder.outside_if, builder.hdr_view, builder.if_view, builder.pr_view, builder.bgp_view, builder.ospf_view, builder.bfd_view, builder.babel_view, builder.bit, -Nat.testBit_zero]

@[simp] theorem set_neigh_trunc_outside_pr  (b : builder) :
    (set_neigh_trunc  b).outside_pr = b.outside_pr := by
  simp [set_neigh_trunc, builder.outside_pr, builder.hdr_view, builder.if_view, builder.pr_view, builder.bgp_view, builder.ospf_view, builder.bfd_view, builder.babel_view, builder.bit, -Nat.testBit_zero]

@[simp] theorem clear_neigh_trunc_outside_pr  (b : builder) :
    (clear_neigh_trunc  b).outside_pr = b.outside_pr := by
  simp [clear_neigh_trunc, builder.outside_pr, builder.hdr_view, builder.if_view, builder.pr_view, builder.bgp_view, builder.ospf_view, builder.bfd_view, builder.babel_view, builder.bit, -Nat.testBit_zero]

@[simp] theorem set_neigh_trunc_outside_bgp  (b : builder) :
    (set_neigh_trunc  b).outside_bgp = b.outside_bgp := by
  simp [set_neigh_trunc, builder.outside_bgp, builder.hdr_view, builder.if_view, builder.pr_view, builder.bgp_view, builder.ospf_view, builder.bfd_view, builder.babel_view, builder.bit, -Nat.testBit_zero]

@[simp] theorem clear_neigh_trunc_outside_bgp  (b : builder) :
    (clear_neigh_trunc  b).outside_bgp = b.outside_bgp := by
  simp [clear_neigh_trunc, builder.outside_bgp, builder.hdr_view, builder.if_view, builder.pr_view, builder.bgp_view, builder.ospf_view, builder.bfd_view, builder.babel_view, builder.bit, -Nat.testBit_zero]

@[simp] theorem set_neigh_trunc_outside_ospf  (b : builder) :
    (set_neigh_trunc  b).outside_ospf = b.outside_ospf := by
  simp [set_neigh_trunc, builder.outside_ospf, builder.hdr_view, builder.if_view, builder.pr_view, builder.bgp_view, builder.ospf_view, builder.bfd_view, builder.babel_view, builder.bit, -Nat.testBit_zero]

@[simp] theorem clear_neigh_trunc_outside_ospf  (b : builder) :
    (clear_neigh_trunc  b).outside_ospf = b.outside_ospf := by
  simp [clear_neigh_trunc, builder.outside_ospf, builder.hdr_view, builder.if_view, builder.pr_view, builder.bgp_view, builder.ospf_view, builder.bfd_view, builder.babel_view, builder.bit, -Nat.testBit_zero]

@[simp] theorem set_neigh_trunc_outside_bfd  (b : builder) :
    (set_neigh_trunc  b).outside_bfd = b.outside_bfd := by
  simp [set_neigh_trunc, builder.outside_bfd, builder.hdr_view, builder.if_view, builder.pr_view, builder.bgp_view, builder.ospf_view, builder.bfd_view, builder.babel_view, builder.bit, -Nat.testBit_zero]

@[simp] theorem clear_neigh_trunc_outside_bfd  (b : builder) :
    (clear_neigh_trunc  b).outside_bfd = b.outside_bfd := by
  simp [clear_neigh_trunc, builder.outside_bfd, builder.hdr_view, builder.if_view, builder.pr_view, builder.bgp_view, builder.ospf_view, builder.bfd_view, builder.babel_view, builder.bit, -Nat.testBit_zero]

@[simp] theorem set_neigh_trunc_outside_babel  (b : builder) :
    (set_neigh_trunc  b).outside_babel = b.outside_babel := by
  simp [set_neigh_trunc, builder.outside_babel, builder.hdr_view, builder.if_view, builder.pr_view, builder.bgp_view, builder.ospf_view, builder.bfd_view, builder.babel_view, builder.bit, -Nat.testBit_zero]

@[simp] theorem clear_neigh_trunc_outside_babel  (b : builder) :
    (clear_neigh_trunc  b).outside_babel = b.outside_babel := by
  simp [clear_neigh_trunc, builder.outside_babel, builder.hdr_view, builder.if_view, builder.pr_view, builder.bgp_view, builder.ospf_view, builder.bfd_view, builder.babel_view, builder.bit, -Nat.testBit_zero]

@[simp] theorem emit_iface_addr_outside_if (addr : ifa) (b : builder) :
    (emit_iface_addr addr b).outside_if = b.outside_if := by
  simp [emit_iface_addr, builder.outside_if, builder.hdr_view, builder.if_view, builder.pr_view, builder.bgp_view, builder.ospf_view, builder.bfd_view, builder.babel_view, builder.bit, -Nat.testBit_zero]

@[simp] theorem emit_iface_outside_if (ifa : iface) (b : builder) :
    (emit_iface ifa b).outside_if = b.outside_if := by
  simp [emit_iface, builder.outside_if, builder.hdr_view, builder.if_view, builder.pr_view, builder.bgp_view, builder.ospf_view, builder.bfd_view, builder.babel_view, builder.bit, -Nat.testBit_zero]

@[simp] theorem next_iface_outside_if  (b : builder) :
    (next_iface  b).outside_if = b.outside_if := by
  simp [next_iface, builder.outside_if, builder.hdr_view, builder.if_view, builder.pr_view, builder.bgp_view, builder.ospf_view, builder.bfd_view, builder.babel_view, builder.bit, -Nat.testBit_zero]

@[simp] theorem walk_addrs_outside_if  (l : List ifa) (b : builder) :
    (walk_addrs l b).outside_if = b.outside_if := by
  induction l generalizing b with
  | nil => rfl
  | cons x rest ih =>
    unfold walk_addrs
    split_ifs <;> simp [*]

@[simp] theorem walk_iface_list_outside_if  (l : List iface) (b : builder) :
    (walk_iface_list l b).outside_if = b.outside_if := by
  induction l generalizing b with
  | nil => rfl
  | cons x rest ih =>
    unfold walk_iface_list
    split_ifs <;> simp [*]

@[simp] theorem emit_proto_outside_pr (p : proto) (b : builder) :
    (emit_proto p b).outside_pr = b.outside_pr := by
  simp [emit_proto, builder.outside_pr, builder.hdr_view, builder.if_view, builder.pr_view, builder.bgp_view, builder.ospf_view, builder.bfd_view, builder.babel_view, builder.bit, -Nat.testBit_zero]

@[simp] theorem proto_step_generic_outside_pr (p : proto) (b : builder) :
    (proto_step_generic p b).outside_pr = b.outside_pr := by
  unfold proto_step_generic
  split_ifs <;> simp [*]

@[simp] theorem emit_bgp_outside_bgp (p : proto) (b : builder) :
    (emit_bgp p b).outside_bgp = b.outside_bgp := by
  simp [emit_bgp, builder.outside_bgp, builder.hdr_view, builder.if_view, builder.pr_view, builder.bgp_view, builder.ospf_view, builder.bfd_view, builder.babel_view, builder.bit, -Nat.testBit_zero]

@[simp] theorem proto_step_bgp_outside_bgp (p : proto) (b : builder) :
    (proto_step_bgp p b).outside_bgp = b.outside_bgp := by
  unfold proto_step_bgp
  split_ifs <;> simp [*]

@[simp] theorem emit_ospf_lsa_outside_ospf (en : top_hash_entry) (b : builder) :
    (emit_ospf_lsa en b).outside_ospf = b.outside_ospf := by
  simp [emit_ospf_lsa, builder.outside_ospf, builder.hdr_view, builder.if_view, builder.pr_view, builder.bgp_view, builder.ospf_view, builder.bfd_view, builder.babel_view, builder.bit, -Nat.testBit_zero]

@[simp] theorem walk_lsal_outside_ospf  (l : List top_hash_entry) (b : builder) :
    (walk_lsal l b).outside_ospf = b.outside_ospf := by
  induction l generalizing b with
  | nil => rfl
  | cons x rest ih =>
    unfold walk_lsal
    split_ifs <;> simp [*]

@[simp] theorem emit_ospf_neighbor_outside_ospf (oi : ospf_iface) (nb : ospf_neighbor) (b : builder) :
    (emit_ospf_neighbor oi nb b).outside_ospf = b.outside_ospf := by
  simp [emit_ospf_neighbor, builder.outside_ospf, builder.hdr_view, builder.if_view, builder.pr_view, builder.bgp_view, builder.ospf_view, builder.bfd_view, builder.babel_view, builder.bit, -Nat.testBit_zero]

@[simp] theorem walk_ospf_neigh_list_outside_ospf (oi : ospf_iface) (l : List ospf_neighbor) (b : builder) :
    (walk_ospf_neigh_list oi l b).outside_ospf = b.outside_ospf := by
  induction l generalizing b with
  | nil => rfl
  | cons x rest ih =>
    unfold walk_ospf_neigh_list
    split_ifs <;> simp [*]

@[simp] theorem walk_ospf_iface_list_outside_ospf  (l : List ospf_iface) (b : builder) :
    (walk_ospf_iface_list l b).outside_ospf = b.outside_ospf := by
  induction l generalizing b with
  | nil => rfl
  | cons x rest ih =>
    unfold walk_ospf_iface_list
    split_ifs <;> simp [*]

@[simp] theorem emit_ospf_outside_ospf (p : proto) (b : builder) :
    (emit_ospf p b).outside_ospf = b.outside_ospf := by
  simp [emit_ospf, builder.outside_ospf, builder.hdr_view, builder.if_view, builder.pr_view, builder.bgp_view, builder.ospf_view, builder.bfd_view, builder.babel_view, builder.bit, -Nat.testBit_zero]

@[simp] theorem next_ospf_outside_ospf  (b : builder) :
    (next_ospf  b).outside_ospf = b.outside_ospf := by
  simp [next_ospf, builder.outside_ospf, builder.hdr_view, builder.if_view, builder.pr_view, builder.bgp_view, builder.ospf_view, builder.bfd_view, builder.babel_view, builder.bit, -Nat.testBit_zero]

@[simp] theorem proto_step_ospf_outside_ospf (p : proto) (b : builder) :
    (proto_step_ospf p b).outside_ospf = b.outside_ospf := by
  unfold proto_step_ospf
  split_ifs <;> simp [*]

@[simp] theorem emit_bfd_session_outside_bfd (s : bfd_session) (b : builder) :
    (emit_bfd_session s b).outside_bfd = b.outside_bfd := by
  simp [emit_bfd_session, builder.outside_bfd, builder.hdr_view, builder.if_view, builder.pr_view, builder.bgp_view, builder.ospf_view, builder.bfd_view, builder.babel_view, builder.bit, -Nat.testBit_zero]

@[simp] theorem hash_walk_sessions_outside_bfd  (l : List bfd_session) (b : builder) :
    (hash_walk_sessions l b).outside_bfd = b.outside_bfd := by
  induction l generalizing b with
  | nil => rfl
  | cons x rest ih =>
    unfold hash_walk_sessions
    split_ifs <;> simp [*]

@[simp] theorem proto_step_bfd_outside_bfd (p : proto) (b : builder) :
    (proto_step_bfd p b).outside_bfd = b.outside_bfd := by
  unfold proto_step_bfd
  split_ifs <;> simp [*]

@[simp] theorem emit_babel_neighbor_outside_babel (bn : babel_neighbor) (b : builder) :
    (emit_babel_neighbor bn b).outside_babel = b.outside_babel := by
  simp [emit_babel_neighbor, builder.outside_babel, builder.hdr_view, builder.if_view, builder.pr_view, builder.bgp_view, builder.ospf_view, builder.bfd_view, builder.babel_view, builder.bit, -Nat.testBit_zero]

@[simp] theorem walk_babel_neigh_list_outside_babel  (l : List babel_neighbor) (b : builder) :
    (walk_babel_neigh_list l b).outside_babel = b.outside_babel := by
  induction l generalizing b with
  | nil => rfl
  | cons x rest ih =>
    unfold walk_babel_neigh_list
    split_ifs <;> simp [*]

@[simp] theorem emit_babel_iface_outside_babel (bi : babel_iface) (b : builder) :
    (emit_babel_iface bi b).outside_babel = b.outside_babel := by
  simp [emit_babel_iface, builder.outside_babel, builder.hdr_view, builder.if_view, builder.pr_view, builder.bgp_view, builder.ospf_view, builder.bfd_view, builder.babel_view, builder.bit, -Nat.testBit_zero]

@[simp] theorem next_babel_iface_outside_babel  (b : builder) :
    (next_babel_iface  b).outside_babel = b.outside_babel := by
  simp [next_babel_iface, builder.outside_babel, builder.hdr_view, builder.if_view, builder.pr_view, builder.bgp_view, builder.ospf_view, builder.bfd_view, builder.babel_view, builder.bit, -Nat.testBit_zero]

@[simp] theorem walk_babel_interfaces_outside_babel  (l : List babel_iface) (b : builder) :
    (walk_babel_interfaces l b).outside_babel = b.outside_babel := by
  induction l generalizing b with
  | nil => rfl
  | cons x rest ih =>
    unfold walk_babel_interfaces
    split_ifs <;> simp [*]

@[simp] theorem emit_babel_outside_babel (p : proto) (b : builder) :
    (emit_babel p b).outside_babel = b.outside_babel := by
  simp [emit_babel, builder.outside_babel, builder.hdr_view, builder.if_view, builder.pr_view, builder.bgp_view, builder.ospf_view, builder.bfd_view, builder.babel_view, builder.bit, -Nat.testBit_zero]

@[simp] theorem next_babel_outside_babel  (b : builder) :
    (next_babel  b).outside_babel = b.outside_babel := by
  simp [next_babel, builder.outside_babel, builder.hdr_view, builder.if_view, builder.pr_view, builder.bgp_view, builder.ospf_view, builder.bfd_view, builder.babel_view, builder.bit, -Nat.testBit_zero]

@[simp] theorem proto_step_babel_outside_babel (p : proto) (b : builder) :
    (proto_step_babel p b).outside_babel = b.outside_babel := by
  unfold proto_step_babel
  split_ifs <;> simp [*]

theorem hdr_view_of_outside_if {b c : builder} (h : c.outside_if = b.outside_if) :
    c.hdr_view = b.hdr_view := by
  simp only [builder.outside_if, Prod.mk.injEq] at h
  exact h.1

theorem pr_view_of_outside_if {b c : builder} (h : c.outside_if = b.outside_if) :
    c.pr_view = b.pr_view := by
  simp only [builder.outside_if, Prod.mk.injEq] at h
  exact h.2.1

theorem bgp_view_of_outside_if {b c : builder} (h : c.outside_if = b.outside_if) :
    c.bgp_view = b.bgp_view := by
  simp only [builder.outside_if, Prod.mk.injEq] at h
  exact h.2.2.1

theorem ospf_view_of_outside_if {b c : builder} (h : c.outside_if = b.outside_if) :
    c.ospf_view = b.ospf_view := by
  simp only [builder.outside_if, Prod.mk.injEq] at h
  exact h.2.2.2.1

theorem bfd_view_of_outside_if {b c : builder} (h : c.outside_if = b.outside_if) :
    c.bfd_view = b.bfd_view := by
  simp only [builder.outside_if, Prod.mk.injEq] at h
  exact h.2.2.2.2.1

theorem babel_view_of_outside_if {b c : builder} (h : c.outside_if = b.outside_if) :
    c.babel_view = b.babel_view := by
  simp only [builder.outside_if, Prod.mk.injEq] at h
  exact h.2.2.2.2.2

theorem hdr_view_of_outside_pr {b c : builder} (h : c.outside_pr = b.outside_pr) :
    c.hdr_view = b.hdr_view := by
  simp only [builder.outside_pr, Prod.mk.injEq] at h
  exact h.1

theorem if_view_of_outside_pr {b c : builder} (h : c.outside_pr = b.outside_pr) :
    c.if_view = b.if_view := by
  simp only [builder.outside_pr, Prod.mk.injEq] at h
  exact h.2.1

theorem bgp_view_of_outside_pr {b c : builder} (h : c.outside_pr = b.outside_pr) :
    c.bgp_view = b.bgp_view := by
  simp only [builder.outside_pr, Prod.mk.injEq] at h
  exact h.2.2.1

theorem ospf_view_of_outside_pr {b c : builder} (h : c.outside_pr = b.outside_pr) :
    c.ospf_view = b.ospf_view := by
  simp only [builder.outside_pr, Prod.mk.injEq] at h
  exact h.2.2.2.1

theorem bfd_view_of_outside_pr {b c : builder} (h : c.outside_pr = b.outside_pr) :
    c.bfd_view = b.bfd_view := by
  simp only [builder.outside_pr, Prod.mk.injEq] at h
  exact h.2.2.2.2.1

theorem babel_view_of_outside_pr {b c : builder} (h : c.outside_pr = b.outside_pr) :
    c.babel_view = b.babel_view := by
  simp only [builder.outside_pr, Prod.mk.injEq] at h
  exact h.2.2.2.2.2

theorem hdr_view_of_outside_bgp {b c : builder} (h : c.outside_bgp = b.outside_bgp) :
    c.hdr_view = b.hdr_view := by
  simp only [builder.outside_bgp, Prod.mk.injEq] at h
  exact h.1

theorem if_view_of_outside_bgp {b c : builder} (h : c.outside_bgp = b.outside_bgp) :
    c.if_view = b.if_view := by
  simp only [builder.outside_bgp, Prod.mk.injEq] at h
  exact h.2.1

theorem pr_view_of_outside_bgp {b c : builder} (h : c.outside_bgp = b.outside_bgp) :
    c.pr_view = b.pr_view := by
  simp only [builder.outside_bgp, Prod.mk.injEq] at h
  exact h.2.2.1

theorem ospf_view_of_outside_bgp {b c : builder} (h : c.outside_bgp = b.outside_bgp) :
    c.ospf_view = b.ospf_view := by
  simp only [builder.outside_bgp, Prod.mk.injEq] at h
  exact h.2.2.2.1

theorem bfd_view_of_outside_bgp {b c : builder} (h : c.outside_bgp = b.outside_bgp) :
    c.bfd_view = b.bfd_view := by
  simp only [builder.outside_bgp, Prod.mk.injEq] at h
  exact h.2.2.2.2.1

theorem babel_view_of_outside_bgp {b c : builder} (h : c.outside_bgp = b.outside_bgp) :
    c.babel_view = b.babel_view := by
  simp only [builder.outside_bgp, Prod.mk.injEq] at h
  exact h.2.2.2.2.2

theorem hdr_view_of_outside_ospf {b c : builder} (h : c.outside_ospf = b.outside_ospf) :
    c.hdr_view = b.hdr_view := by
  simp only [builder.outside_ospf, Prod.mk.injEq] at h
  exact h.1

theorem if_view_of_outside_ospf {b c : builder} (h : c.outside_ospf = b.outside_ospf) :
    c.if_view = b.if_view := by
  simp only [builder.outside_ospf, Prod.mk.injEq] at h
  exact h.2.1

theorem pr_view_of_outside_ospf {b c : builder} (h : c.outside_ospf = b.outside_ospf) :
    c.pr_view = b.pr_view := by
  simp only [builder.outside_ospf, Prod.mk.injEq] at h
  exact h.2.2.1

theorem bgp_view_of_outside_ospf {b c : builder} (h : c.outside_ospf = b.outside_ospf) :
    c.bgp_view = b.bgp_view := by
  simp only [builder.outside_ospf, Prod.mk.injEq] at h
  exact h.2.2.2.1

theorem bfd_view_of_outside_ospf {b c : builder} (h : c.outside_ospf = b.outside_ospf) :
    c.bfd_view = b.bfd_view := by
  simp only [builder.outside_ospf, Prod.mk.injEq] at h
  exact h.2.2.2.2.1

theorem babel_view_of_outside_ospf {b c : builder} (h : c.outside_ospf = b.outside_ospf) :
    c.babel_view = b.babel_view := by
  simp only [builder.outside_ospf, Prod.mk.injEq] at h
  exact h.2.2.2.2.2

theorem hdr_view_of_outside_bfd {b c : builder} (h : c.outside_bfd = b.outside_bfd) :
    c.hdr_view = b.hdr_view := by
  simp only [builder.outside_bfd, Prod.mk.injEq] at h
  exact h.1

theorem if_view_of_outside_bfd {b c : builder} (h : c.outside_bfd = b.outside_bfd) :
    c.if_view = b.if_view := by
  simp only [builder.outside_bfd, Prod.mk.injEq] at h
  exact h.2.1

theorem pr_view_of_outside_bfd {b c : builder} (h : c.outside_bfd = b.outside_bfd) :
    c.pr_view = b.pr_view := by
  simp only [builder.outside_bfd, Prod.mk.injEq] at h
  exact h.2.2.1

theorem bgp_view_of_outside_bfd {b c : builder} (h : c.outside_bfd = b.outside_bfd) :
    c.bgp_view = b.bgp_view := by
  simp only [builder.outside_bfd, Prod.mk.injEq] at h
  exact h.2.2.2.1

theorem ospf_view_of_outside_bfd {b c : builder} (h : c.outside_bfd = b.outside_bfd) :
    c.ospf_view = b.ospf_view := by
  simp only [builder.outside_bfd, Prod.mk.injEq] at h
  exact h.2.2.2.2.1

theorem babel_view_of_outside_bfd {b c : builder} (h : c.outside_bfd = b.outside_bfd) :
    c.babel_view = b.babel_view := by
  simp only [builder.outside_bfd, Prod.mk.injEq] at h
  exact h.2.2.2.2.2

theorem hdr_view_of_outside_babel {b c : builder} (h : c.outside_babel = b.outside_babel) :
    c.hdr_view = b.hdr_view := by
  simp only [builder.outside_babel, Prod.mk.injEq] at h
  exact h.1

theorem if_view_of_outside_babel {b c : builder} (h : c.outside_babel = b.outside_babel) :
    c.if_view = b.if_view := by
  simp only [builder.outside_babel, Prod.mk.injEq] at h
  exact h.2.1

theorem pr_view_of_outside_babel {b c : builder} (h : c.outside_babel = b.outside_babel) :
    c.pr_view = b.pr_view := by
  simp only [builder.outside_babel, Prod.mk.injEq] at h
  exact h.2.2.1

theorem bgp_view_of_outside_babel {b c : builder} (h : c.outside_babel = b.outside_babel) :
    c.bgp_view = b.bgp_view := by
  simp only [builder.outside_babel, Prod.mk.injEq] at h
  exact h.2.2.2.1

theorem ospf_view_of_outside_babel {b c : builder} (h : c.outside_babel = b.outside_babel) :
    c.ospf_view = b.ospf_view := by
  simp only [builder.outside_babel, Prod.mk.injEq] at h
  exact h.2.2.2.2.1

theorem bfd_view_of_outside_babel {b c : builder} (h : c.outside_babel = b.outside_babel) :
    c.bfd_view = b.bfd_view := by
  simp only [builder.outside_babel, Prod.mk.injEq] at h
  exact h.2.2.2.2.2

@[simp] theorem proto_step_generic_hdr_view (p : proto) (b : builder) :
    (proto_step_generic p b).hdr_view = b.hdr_view :=
  hdr_view_of_outside_pr (proto_step_generic_outside_pr p b)

@[simp] theorem proto_step_generic_if_view (p : proto) (b : builder) :
    (proto_step_generic p b).if_view = b.if_view :=
  if_view_of_outside_pr (proto_step_generic_outside_pr p b)

@[simp] theorem proto_step_generic_bgp_view (p : proto) (b : builder) :
    (proto_step_generic p b).bgp_view = b.bgp_view :=
  bgp_view_of_outside_pr (proto_step_generic_outside_pr p b)

@[simp] theorem proto_step_generic_ospf_view (p : proto) (b : builder) :
    (proto_step_generic p b).ospf_view = b.ospf_view :=
  ospf_view_of_outside_pr (proto_step_generic_outside_pr p b)

@[simp] theorem proto_step_generic_bfd_view (p : proto) (b : builder) :
    (proto_step_generic p b).bfd_view = b.bfd_view :=
  bfd_view_of_outside_pr (proto_step_generic_outside_pr p b)

@[simp] theorem proto_step_generic_babel_view (p : proto) (b : builder) :
    (proto_step_generic p b).babel_view = b.babel_view :=
  babel_view_of_outside_pr (proto_step_generic_outside_pr p b)

@[simp] theorem proto_step_bgp_hdr_view (p : proto) (b : builder) :
    (proto_step_bgp p b).hdr_view = b.hdr_view :=
  hdr_view_of_outside_bgp (proto_step_bgp_outside_bgp p b)

@[simp] theorem proto_step_bgp_if_view (p : proto) (b : builder) :
    (proto_step_bgp p b).if_view = b.if_view :=
  if_view_of_outside_bgp (proto_step_bgp_outside_bgp p b)

@[simp] theorem proto_step_bgp_pr_view (p : proto) (b : builder) :
    (proto_step_bgp p b).pr_view = b.pr_view :=
  pr_view_of_outside_bgp (proto_step_bgp_outside_bgp p b)

@[simp] theorem proto_step_bgp_ospf_view (p : proto) (b : builder) :
    (proto_step_bgp p b).ospf_view = b.ospf_view :=
  ospf_view_of_outside_bgp (proto_step_bgp_outside_bgp p b)

@[simp] theorem proto_step_bgp_bfd_view (p : proto) (b : builder) :
    (proto_step_bgp p b).bfd_view = b.bfd_view :=
  bfd_view_of_outside_bgp (proto_step_bgp_outside_bgp p b)

@[simp] theorem proto_step_bgp_babel_view (p : proto) (b : builder) :
    (proto_step_bgp p b).babel_view = b.babel_view :=
  babel_view_of_outside_bgp (proto_step_bgp_outside_bgp p b)

@[simp] theorem proto_step_ospf_hdr_view (p : proto) (b : builder) :
    (proto_step_ospf p b).hdr_view = b.hdr_view :=
  hdr_view_of_outside_ospf (proto_step_ospf_outside_ospf p b)

@[simp] theorem proto_step_ospf_if_view (p : proto) (b : builder) :
    (proto_step_ospf p b).if_view = b.if_view :=
  if_view_of_outside_ospf (proto_step_ospf_outside_ospf p b)

@[simp] theorem proto_step_ospf_pr_view (p : proto) (b : builder) :
    (proto_step_ospf p b).pr_view = b.pr_view :=
  pr_view_of_outside_ospf (proto_step_ospf_outside_ospf p b)

@[simp] theorem proto_step_ospf_bgp_view (p : proto) (b : builder) :
    (proto_step_ospf p b).bgp_view = b.bgp_view :=
  bgp_view_of_outside_ospf (proto_step_ospf_outside_ospf p b)

@[simp] theorem proto_step_ospf_bfd_view (p : proto) (b : builder) :
    (proto_step_ospf p b).bfd_view = b.bfd_view :=
  bfd_view_of_outside_ospf (proto_step_ospf_outside_ospf p b)

@[simp] theorem proto_step_ospf_babel_view (p : proto) (b : builder) :
    (proto_step_ospf p b).babel_view = b.babel_view :=
  babel_view_of_outside_ospf (proto_step_ospf_outside_ospf p b)

@[simp] theorem proto_step_bfd_hdr_view (p : proto) (b : builder) :
    (proto_step_bfd p b).hdr_view = b.hdr_view :=
  hdr_view_of_outside_bfd (proto_step_bfd_outside_bfd p b)

@[simp] theorem proto_step_bfd_if_view (p : proto) (b : builder) :
    (proto_step_bfd p b).if_view = b.if_view :=
  if_view_of_outside_bfd (proto_step_bfd_outside_bfd p b)

@[simp] theorem proto_step_bfd_pr_view (p : proto) (b : builder) :
    (proto_step_bfd p b).pr_view = b.pr_view :=
  pr_view_of_outside_bfd (proto_step_bfd_outside_bfd p b)

@[simp] theorem proto_step_bfd_bgp_view (p : proto) (b : builder) :
    (proto_step_bfd p b).bgp_view = b.bgp_view :=
  bgp_view_of_outside_bfd (proto_step_bfd_outside_bfd p b)

@[simp] theorem proto_step_bfd_ospf_view (p : proto) (b : builder) :
    (proto_step_bfd p b).ospf_view = b.ospf_view :=
  ospf_view_of_outside_bfd (proto_step_bfd_outside_bfd p b)

@[simp] theorem proto_step_bfd_babel_view (p : proto) (b : builder) :
    (proto_step_bfd p b).babel_view = b.babel_view :=
  babel_view_of_outside_bfd (proto_step_bfd_outside_bfd p b)

@[simp] theorem proto_step_babel_hdr_view (p : proto) (b : builder) :
    (proto_step_babel p b).hdr_view = b.hdr_view :=
  hdr_view_of_outside_babel (proto_step_babel_outside_babel p b)

@[simp] theorem proto_step_babel_if_view (p : proto) (b : builder) :
    (proto_step_babel p b).if_view = b.if_view :=
  if_view_of_outside_babel (proto_step_babel_outside_babel p b)

@[simp] theorem proto_step_babel_pr_view (p : proto) (b : builder) :
    (proto_step_babel p b).pr_view = b.pr_view :=
  pr_view_of_outside_babel (proto_step_babel_outside_babel p b)

@[simp] theorem proto_step_babel_bgp_view (p : proto) (b : builder) :
    (proto_step_babel p b).bgp_view = b.bgp_view :=
  bgp_view_of_outside_babel (proto_step_babel_outside_babel p b)

@[simp] theorem proto_step_babel_ospf_view (p : proto) (b : builder) :
    (proto_step_babel p b).ospf_view = b.ospf_view :=
  ospf_view_of_outside_babel (proto_step_babel_outside_babel p b)

@[simp] theorem proto_step_babel_bfd_view (p : proto) (b : builder) :
    (proto_step_babel p b).bfd_view = b.bfd_view :=
  bfd_view_of_outside_babel (proto_step_babel_outside_babel p b)

@[simp] theorem walk_iface_list_hdr_view (l : List iface) (b : builder) :
    (walk_iface_list l b).hdr_view = b.hdr_view :=
  hdr_view_of_outside_if (walk_iface_list_outside_if l b)

@[simp] theorem walk_iface_list_pr_view (l : List iface) (b : builder) :
    (walk_iface_list l b).pr_view = b.pr_view :=
  pr_view_of_outside_if (walk_iface_list_outside_if l b)

@[simp] theorem walk_iface_list_bgp_view (l : List iface) (b : builder) :
    (walk_iface_list l b).bgp_view = b.bgp_view :=
  bgp_view_of_outside_if (walk_iface_list_outside_if l b)

@[simp] theorem walk_iface_list_ospf_view (l : List iface) (b : builder) :
    (walk_iface_list l b).ospf_view = b.ospf_view :=
  ospf_view_of_outside_if (walk_iface_list_outside_if l b)

@[simp] theorem walk_iface_list_bfd_view (l : List iface) (b : builder) :
    (walk_iface_list l b).bfd_view = b.bfd_view :=
  bfd_view_of_outside_if (walk_iface_list_outside_if l b)

@[simp] theorem walk_iface_list_babel_view (l : List iface) (b : builder) :
    (walk_iface_list l b).babel_view = b.babel_view :=
  babel_view_of_outside_if (walk_iface_list_outside_if l b)

@[simp] theorem proto_step_hdr_view (p : proto) (b : builder) :
    (proto_step p b).hdr_view = b.hdr_view := by
  simp [proto_step]

@[simp] theorem walk_proto_list_hdr_view (l : List proto) (b : builder) :
    (walk_proto_list l b).hdr_view = b.hdr_view := by
  induction l generalizing b with
  | nil => rfl
  | cons p rest ih => simp [walk_proto_list, ih]

@[simp] theorem proto_step_if_view (p : proto) (b : builder) :
    (proto_step p b).if_view = b.if_view := by
  simp [proto_step]

@[simp] theorem walk_proto_list_if_view (l : List proto) (b : builder) :
    (walk_proto_list l b).if_view = b.if_view := by
  induction l generalizing b with
  | nil => rfl
  | cons p rest ih => simp [walk_proto_list, ih]
/-! ## What the builder leaves in the header of the snapshot -/

theorem run_hdr (d : daemon) (region : bird_shm_region) :
    (builder.run d region).snap.version = BIRD_SHM_SNAPSHOT_VERSION ∧
    (builder.run d region).snap.last_cmd = region.mailbox.cmd ∧
    (builder.run d region).snap.status =
      { boot_time := cast_u64 d.boot_time, current_time := cast_u64 d.current_time } := by
  have h1 := walk_proto_list_hdr_view d.proto_list
    (store_iface_counts (walk_iface_list d.iface_list (builder.init d region)))
  have h2 := walk_iface_list_hdr_view d.iface_list (builder.init d region)
  simp only [builder.hdr_view, Prod.mk.injEq] at h1 h2
  have e1 : (builder.run d region).snap.version
      = (walk_proto_list d.proto_list
          (store_iface_counts (walk_iface_list d.iface_list (builder.init d region)))).snap.version :=
    rfl
  have e2 : (builder.run d region).snap.last_cmd
      = (walk_proto_list d.proto_list
          (store_iface_counts (walk_iface_list d.iface_list (builder.init d region)))).snap.last_cmd :=
    rfl
  have e3 : (builder.run d region).snap.status
      = (walk_proto_list d.proto_list
          (store_iface_counts (walk_iface_list d.iface_list (builder.init d region)))).snap.status :=
    rfl
  refine ⟨?_, ?_, ?_⟩
  · rw [e1, h1.1]; exact h2.1
  · rw [e2, h1.2.1]; exact h2.2.1
  · rw [e3, h1.2.2.1]; exact h2.2.2.1

/-- The builder reads nothing of the region but `mailbox.cmd`. -/
theorem run_congr (d : daemon) (r r' : bird_shm_region) (h : r.mailbox.cmd = r'.mailbox.cmd) :
    builder.run d r = builder.run d r' := by
  simp [builder.run, builder.init, h]

/-! ## `bird_shm_set_ip` -/

theorem put_u32_inj (x y : Nat) (hx : x < 2 ^ 32) (hy : y < 2 ^ 32)
    (h : put_u32 x = put_u32 y) : x = y := by
  simp only [put_u32, List.cons.injEq, and_true] at h
  omega

theorem put_u32_quad (a b c d : Nat) (ha : a < 256) (hb : b < 256) (hc : c < 256)
    (hd : d < 256) : put_u32 (ip4_quad a b c d) = [a, b, c, d] := by
  simp only [put_u32, ip4_quad, List.cons.injEq, and_true]
  omega

theorem set_ip_zero (addr : ip_addr) (h : ipa_zero addr = true) :
    bird_shm_set_ip addr = bird_shm_ip_addr.zero := by
  simp [bird_shm_set_ip, h]

theorem set_ip_ip4 (addr : ip_addr) (h0 : ipa_zero addr = false) (h4 : ipa_is_ip4 addr = true) :
    bird_shm_set_ip addr =
      { af := 4, pad := [0, 0, 0],
        bytes := put_u32 (ipa_to_ip4 addr) ++ List.replicate 12 0 } := by
  simp [bird_shm_set_ip, h0, h4, bird_shm_ip_addr.zero, put_ip4]

theorem set_ip_ip6 (addr : ip_addr) (h0 : ipa_zero addr = false) (h4 : ipa_is_ip4 addr = false) :
    bird_shm_set_ip addr =
      { af := 6, pad := [0, 0, 0],
        bytes := put_u32 addr.addr0 ++ put_u32 addr.addr1 ++ put_u32 addr.addr2 ++
          put_u32 addr.addr3 } := by
  simp [bird_shm_set_ip, h0, h4, bird_shm_ip_addr.zero, put_ip6, ipa_is_ip6]

theorem ipa_zero_eq (x : ip_addr) (h : ipa_zero x = true) : x = IPA_NONE := by
  cases x
  simp [ipa_zero] at h
  simp [IPA_NONE, h]

theorem set_ip_inj (x y : ip_addr) (hx : x.wf) (hy : y.wf)
    (h : bird_shm_set_ip x = bird_shm_set_ip y) : x = y := by
  obtain ⟨hx0, hx1, hx2, hx3⟩ := hx
  obtain ⟨hy0, hy1, hy2, hy3⟩ := hy
  cases hzx : ipa_zero x <;> cases hzy : ipa_zero y
  · cases h4x : ipa_is_ip4 x <;> cases h4y : ipa_is_ip4 y
    · rw [set_ip_ip6 x hzx h4x, set_ip_ip6 y hzy h4y] at h
      simp only [bird_shm_ip_addr.mk.injEq, true_and] at h
      simp only [put_u32, List.cons_append, List.nil_append, List.cons.injEq, and_true] at h
      cases x; cases y
      simp only [ip_addr.mk.injEq]
      simp only at h hx0 hx1 hx2 hx3 hy0 hy1 hy2 hy3
      omega
    · rw [set_ip_ip6 x hzx h4x, set_ip_ip4 y hzy h4y] at h
      simp at h
    · rw [set_ip_ip4 x hzx h4x, set_ip_ip6 y hzy h4y] at h
      simp at h
    · rw [set_ip_ip4 x hzx h4x, set_ip_ip4 y hzy h4y] at h
      simp only [bird_shm_ip_addr.mk.injEq, true_and, List.append_cancel_right_eq] at h
      have := put_u32_inj _ _ hx3 hy3 h
      cases x; cases y
      simp [ipa_is_ip4] at h4x h4y
      simp [ipa_to_ip4] at this
      simp [h4x, h4y, this]
  · cases h4x : ipa_is_ip4 x
    · rw [set_ip_ip6 x hzx h4x, set_ip_zero y hzy] at h
      simp [bird_shm_ip_addr.zero] at h
    · rw [set_ip_ip4 x hzx h4x, set_ip_zero y hzy] at h
      simp [bird_shm_ip_addr.zero] at h
  · cases h4y : ipa_is_ip4 y
    · rw [set_ip_ip6 y hzy h4y, set_ip_zero x hzx] at h
      simp [bird_shm_ip_addr.zero] at h
    · rw [set_ip_ip4 y hzy h4y, set_ip_zero x hzx] at h
      simp [bird_shm_ip_addr.zero] at h
  · rw [ipa_zero_eq x hzx, ipa_zero_eq y hzy]

/-! ## The bookkeeping invariant -/

theorem length_arr_update {α : Type} (arr : List α) (i : Nat) (f : α → α) :
    (arr_update arr i f).length = arr.length := by
  unfold arr_update
  split <;> simp

theorem written_append (b : builder) (W : List (bird_shm_coll × Nat)) (c : bird_shm_coll)
    (b' : builder) (hw : b'.writes = b.writes ++ W) :
    b'.written c = b.written c ++ (W.filter (fun w => decide (w.1 = c))).map (fun w => w.2) := by
  simp [builder.written, hw]

/-- Nothing written, no index moved. -/
theorem wf_same {o : bird_shm_coll → Nat} {b b' : builder} (h : b.wf_open o)
    (hidx : ∀ c, b'.idx c = b.idx c) (hw : b'.writes = b.writes)
    (hlen : ∀ c, b'.snap.len c = b.snap.len c) : b'.wf_open o := by
  intro c
  obtain ⟨h1, h2, h3⟩ := h c
  refine ⟨by rw [hidx]; exact h1, ?_, by rw [hlen]; exact h3⟩
  rw [hidx, ← h2]
  simp [builder.written, hw]

/-- A record of `c` written and the index of `c` incremented. -/
theorem wf_emit {o : bird_shm_coll → Nat} {b b' : builder} (c : bird_shm_coll)
    (h : b.wf_open o) (ho : o c = 0) (hlt : b.idx c < capacity c)
    (hidx : ∀ c', b'.idx c' = if c' = c then b.idx c + 1 else b.idx c')
    (hw : b'.writes = b.writes ++ [(c, b.idx c)])
    (hlen : ∀ c', b'.snap.len c' = b.snap.len c') : b'.wf_open o := by
  intro c'
  obtain ⟨h1, h2, h3⟩ := h c'
  rw [hidx, hlen, written_append b _ c' b' hw, h2]
  by_cases hc : c' = c
  · subst hc
    simp only [if_true, ho, Nat.add_zero] at h1 ⊢
    refine ⟨hlt, ?_, h3⟩
    simp [List.range_succ]
  · simp only [if_neg hc]
    refine ⟨h1, ?_, h3⟩
    have : ¬ c = c' := fun e => hc e.symm
    simp [this]

/-- A record of `c` written, its index not yet incremented. -/
theorem wf_begin {o : bird_shm_coll → Nat} {b b' : builder} (c : bird_shm_coll)
    (h : b.wf_open o) (ho : o c = 0) (hlt : b.idx c < capacity c)
    (hidx : ∀ c', b'.idx c' = b.idx c')
    (hw : b'.writes = b.writes ++ [(c, b.idx c)])
    (hlen : ∀ c', b'.snap.len c' = b.snap.len c') :
    b'.wf_open (Function.update o c 1) := by
  intro c'
  obtain ⟨h1, h2, h3⟩ := h c'
  rw [hidx, hlen, written_append b _ c' b' hw, h2]
  by_cases hc : c' = c
  · subst hc
    simp only [Function.update_same, ho, Nat.add_zero] at h1 ⊢
    refine ⟨hlt, ?_, h3⟩
    simp [List.range_succ]
  · rw [Function.update_noteq hc]
    refine ⟨h1, ?_, h3⟩
    have : ¬ c = c' := fun e => hc e.symm
    simp [this]

/-- The index of `c` incremented past its open record. -/
theorem wf_end {o : bird_shm_coll → Nat} {b b' : builder} (c : bird_shm_coll)
    (h : b.wf_open (Function.update o c 1))
    (hidx : ∀ c', b'.idx c' = if c' = c then b.idx c + 1 else b.idx c')
    (hw : b'.writes = b.writes)
    (hlen : ∀ c', b'.snap.len c' = b.snap.len c') :
    b'.wf_open (Function.update o c 0) := by
  intro c'
  obtain ⟨h1, h2, h3⟩ := h c'
  have hwr : b'.written c' = b.written c' := by simp [builder.written, hw]
  rw [hidx, hlen, hwr, h2]
  by_cases hc : c' = c
  · subst hc
    simp only [Function.update_same, if_true, Nat.add_zero] at h1 ⊢
    exact ⟨h1, trivial, h3⟩
  · rw [Function.update_noteq hc] at h1 ⊢
    rw [Function.update_noteq hc]
    simp only [if_neg hc]
    exact ⟨h1, trivial, h3⟩

theorem wf_set_trunc {o : bird_shm_coll → Nat} {b : builder} (bit : Nat) (h : b.wf_open o) :
    (b.set_trunc bit).wf_open o :=
  wf_same h (fun c => by cases c <;> rfl) rfl (fun c => by cases c <;> rfl)

theorem wf_set_neigh_trunc {o : bird_shm_coll → Nat} {b : builder} (h : b.wf_open o) :
    (set_neigh_trunc b).wf_open o :=
  wf_same h (fun c => by cases c <;> rfl) rfl (fun c => by cases c <;> rfl)

theorem wf_clear_neigh_trunc {o : bird_shm_coll → Nat} {b : builder} (h : b.wf_open o) :
    (clear_neigh_trunc b).wf_open o :=
  wf_same h (fun c => by cases c <;> rfl) rfl (fun c => by cases c <;> rfl)

theorem wf_emit_iface_addr {o : bird_shm_coll → Nat} {b : builder} (addr : ifa)
    (h : b.wf_open o) (ho : o .iface_addrs = 0)
    (hlt : ¬ b.iface_addr_index ≥ BIRD_SHM_MAX_IFACE_ADDRS) :
    (emit_iface_addr addr b).wf_open o :=
  wf_emit .iface_addrs h ho (by simp only [builder.idx, capacity]; omega)
    (fun c => by cases c <;> rfl) rfl
    (fun c => by cases c <;> simp [emit_iface_addr, bird_shm_snapshot.len, length_arr_update])

theorem wf_walk_addrs {o : bird_shm_coll → Nat} (l : List ifa) {b : builder}
    (h : b.wf_open o) (ho : o .iface_addrs = 0) : (walk_addrs l b).wf_open o := by
  induction l generalizing b with
  | nil => exact h
  | cons addr rest ih =>
    unfold walk_addrs
    split_ifs with hc
    · exact wf_set_trunc _ h
    · exact ih (wf_emit_iface_addr addr h ho hc)

theorem wf_emit_iface {o : bird_shm_coll → Nat} {b : builder} (ifa : iface)
    (h : b.wf_open o) (ho : o .ifaces = 0)
    (hlt : ¬ b.iface_index ≥ BIRD_SHM_MAX_INTERFACES) :
    (emit_iface ifa b).wf_open (Function.update o .ifaces 1) :=
  wf_begin .ifaces h ho (by simp only [builder.idx, capacity]; omega)
    (fun c => by cases c <;> rfl) rfl
    (fun c => by cases c <;> simp [emit_iface, bird_shm_snapshot.len])

theorem wf_next_iface {o : bird_shm_coll → Nat} {b : builder}
    (h : b.wf_open (Function.update o .ifaces 1)) :
    (next_iface b).wf_open (Function.update o .ifaces 0) :=
  wf_end .ifaces h (fun c => by cases c <;> rfl) rfl (fun c => by cases c <;> rfl)

theorem update_self_zero (o : bird_shm_coll → Nat) (c : bird_shm_coll) (ho : o c = 0) :
    Function.update o c 0 = o := by
  rw [← ho]; exact Function.update_eq_self c o

theorem wf_walk_iface_list {o : bird_shm_coll → Nat} (l : List iface) {b : builder}
    (h : b.wf_open o) (ho : o .ifaces = 0) (ho' : o .iface_addrs = 0) :
    (walk_iface_list l b).wf_open o := by
  induction l generalizing b with
  | nil => exact h
  | cons ifa rest ih =>
    unfold walk_iface_list
    split_ifs with hc
    · exact wf_set_trunc _ h
    · apply ih
      have h1 := wf_emit_iface ifa h ho hc
      have h2 := wf_walk_addrs ifa.addrs h1
        (by rw [Function.update_noteq (by decide)]; exact ho')
      have h3 := wf_next_iface h2
      rwa [update_self_zero o _ ho] at h3


theorem wf_emit_proto {o : bird_shm_coll → Nat} {b : builder} (p : proto)
    (h : b.wf_open o) (ho : o .protos = 0) (hlt : ¬ b.proto_index ≥ BIRD_SHM_MAX_PROTOCOLS) :
    (emit_proto p b).wf_open o :=
  wf_emit .protos h ho (by simp only [builder.idx, capacity]; omega)
    (fun c => by cases c <;> rfl) rfl
    (fun c => by cases c <;> simp [emit_proto, bird_shm_snapshot.len, length_arr_update])

theorem wf_proto_step_generic {o : bird_shm_coll → Nat} {b : builder} (p : proto)
    (h : b.wf_open o) (ho : o .protos = 0) : (proto_step_generic p b).wf_open o := by
  unfold proto_step_generic
  split_ifs with hc
  · exact wf_emit_proto p h ho (by omega)
  · exact wf_set_trunc _ h

theorem wf_emit_bgp {o : bird_shm_coll → Nat} {b : builder} (p : proto)
    (h : b.wf_open o) (ho : o .bgp = 0) (hlt : ¬ b.bgp_index ≥ BIRD_SHM_MAX_BGP) :
    (emit_bgp p b).wf_open o :=
  wf_emit .bgp h ho (by simp only [builder.idx, capacity]; omega)
    (fun c => by cases c <;> rfl) rfl
    (fun c => by cases c <;> simp [emit_bgp, bird_shm_snapshot.len, length_arr_update])

theorem wf_proto_step_bgp {o : bird_shm_coll → Nat} {b : builder} (p : proto)
    (h : b.wf_open o) (ho : o .bgp = 0) : (proto_step_bgp p b).wf_open o := by
  unfold proto_step_bgp
  split_ifs with hp hc
  · exact wf_set_trunc _ h
  · exact wf_emit_bgp p h ho hc
  · exact h

theorem wf_emit_ospf_lsa {o : bird_shm_coll → Nat} {b : builder} (en : top_hash_entry)
    (h : b.wf_open o) (ho : o .ospf_lsas = 0) (hlt : ¬ b.ospf_lsa_index ≥ BIRD_SHM_MAX_OSPF_LSAS) :
    (emit_ospf_lsa en b).wf_open o :=
  wf_emit .ospf_lsas h ho (by simp only [builder.idx, capacity]; omega)
    (fun c => by cases c <;> rfl) rfl
    (fun c => by cases c <;> simp [emit_ospf_lsa, bird_shm_snapshot.len, length_arr_update])

theorem wf_walk_lsal {o : bird_shm_coll → Nat}  (l : List top_hash_entry) {b : builder}
    (h : b.wf_open o) (ho : o .ospf_lsas = 0) : (walk_lsal l b).wf_open o := by
  induction l generalizing b with
  | nil => exact h
  | cons x rest ih =>
    unfold walk_lsal
    split_ifs with hs hc
    · exact ih h
    · exact wf_set_trunc _ h
    · exact ih (wf_emit_ospf_lsa x h ho hc)

theorem wf_emit_ospf_neighbor {o : bird_shm_coll → Nat} {b : builder} (oi : ospf_iface) (nb : ospf_neighbor)
    (h : b.wf_open o) (ho : o .ospf_neighs = 0) (hlt : ¬ b.ospf_neigh_index ≥ BIRD_SHM_MAX_OSPF_NEIGHBORS) :
    (emit_ospf_neighbor oi nb b).wf_open o :=
  wf_emit .ospf_neighs h ho (by simp only [builder.idx, capacity]; omega)
    (fun c => by cases c <;> rfl) rfl
    (fun c => by cases c <;> simp [emit_ospf_neighbor, bird_shm_snapshot.len, length_arr_update])

theorem wf_walk_ospf_neigh_list {o : bird_shm_coll → Nat} (oi : ospf_iface) (l : List ospf_neighbor) {b : builder}
    (h : b.wf_open o) (ho : o .ospf_neighs = 0) : (walk_ospf_neigh_list oi l b).wf_open o := by
  induction l generalizing b with
  | nil => exact h
  | cons x rest ih =>
    unfold walk_ospf_neigh_list
    split_ifs with hc
    · exact wf_set_neigh_trunc (wf_set_trunc _ h)
    · exact ih (wf_emit_ospf_neighbor oi x h ho hc)

theorem wf_walk_ospf_iface_list {o : bird_shm_coll → Nat} (l : List ospf_iface) {b : builder}
    (h : b.wf_open o) (ho : o .ospf_neighs = 0) : (walk_ospf_iface_list l b).wf_open o := by
  induction l generalizing b with
  | nil => exact h
  | cons oi rest ih =>
    unfold walk_ospf_iface_list
    split_ifs
    · exact wf_walk_ospf_neigh_list oi oi.neigh_list h ho
    · exact ih (wf_walk_ospf_neigh_list oi oi.neigh_list h ho)

theorem wf_emit_ospf {o : bird_shm_coll → Nat} {b : builder} (p : proto)
    (h : b.wf_open o) (ho : o .ospf = 0) (hlt : ¬ b.ospf_index ≥ BIRD_SHM_MAX_OSPF) :
    (emit_ospf p b).wf_open (Function.update o .ospf 1) :=
  wf_begin .ospf h ho (by simp only [builder.idx, capacity]; omega)
    (fun c => by cases c <;> rfl) rfl
    (fun c => by cases c <;> simp [emit_ospf, bird_shm_snapshot.len, length_arr_update])

theorem wf_next_ospf {o : bird_shm_coll → Nat} {b : builder}
    (h : b.wf_open (Function.update o .ospf 1)) :
    (next_ospf b).wf_open (Function.update o .ospf 0) :=
  wf_end .ospf h (fun c => by cases c <;> rfl) rfl
    (fun c => by cases c <;> simp [next_ospf, bird_shm_snapshot.len, length_arr_update])

theorem wf_proto_step_ospf {o : bird_shm_coll → Nat} {b : builder} (p : proto)
    (h : b.wf_open o) (ho : o .ospf = 0) (hl : o .ospf_lsas = 0) (hn : o .ospf_neighs = 0) :
    (proto_step_ospf p b).wf_open o := by
  unfold proto_step_ospf
  split_ifs with hp hc
  · exact wf_set_trunc _ h
  · have h1 := wf_emit_ospf p h ho hc
    have h2 := wf_walk_lsal p.ospf.lsal h1 (by rw [Function.update_noteq (by decide)]; exact hl)
    have h3 := wf_walk_ospf_iface_list p.ospf.iface_list (wf_clear_neigh_trunc h2)
      (by rw [Function.update_noteq (by decide)]; exact hn)
    have h4 := wf_next_ospf h3
    rwa [update_self_zero o _ ho] at h4
  · exact h

theorem wf_emit_bfd_session {o : bird_shm_coll → Nat} {b : builder} (s : bfd_session)
    (h : b.wf_open o) (ho : o .bfd = 0) (hlt : ¬ b.bfd_index ≥ BIRD_SHM_MAX_BFD_SESSIONS) :
    (emit_bfd_session s b).wf_open o :=
  wf_emit .bfd h ho (by simp only [builder.idx, capacity]; omega)
    (fun c => by cases c <;> rfl) rfl
    (fun c => by cases c <;> simp [emit_bfd_session, bird_shm_snapshot.len, length_arr_update])

theorem wf_hash_walk_sessions {o : bird_shm_coll → Nat}  (l : List bfd_session) {b : builder}
    (h : b.wf_open o) (ho : o .bfd = 0) : (hash_walk_sessions l b).wf_open o := by
  induction l generalizing b with
  | nil => exact h
  | cons x rest ih =>
    unfold hash_walk_sessions
    split_ifs with hc
    · exact wf_set_trunc _ h
    · exact ih (wf_emit_bfd_session x h ho hc)

theorem wf_proto_step_bfd {o : bird_shm_coll → Nat} {b : builder} (p : proto)
    (h : b.wf_open o) (ho : o .bfd = 0) : (proto_step_bfd p b).wf_open o := by
  unfold proto_step_bfd
  split_ifs
  · exact wf_hash_walk_sessions _ h ho
  · exact h

theorem wf_emit_babel_neighbor {o : bird_shm_coll → Nat} {b : builder} (bn : babel_neighbor)
    (h : b.wf_open o) (ho : o .babel_neighs = 0) (hlt : ¬ b.babel_neigh_index ≥ BIRD_SHM_MAX_BABEL_NEIGHBORS) :
    (emit_babel_neighbor bn b).wf_open o :=
  wf_emit .babel_neighs h ho (by simp only [builder.idx, capacity]; omega)
    (fun c => by cases c <;> rfl) rfl
    (fun c => by cases c <;> simp [emit_babel_neighbor, bird_shm_snapshot.len, length_arr_update])

theorem wf_walk_babel_neigh_list {o : bird_shm_coll → Nat}  (l : List babel_neighbor) {b : builder}
    (h : b.wf_open o) (ho : o .babel_neighs = 0) : (walk_babel_neigh_list l b).wf_open o := by
  induction l generalizing b with
  | nil => exact h
  | cons x rest ih =>
    unfold walk_babel_neigh_list
    split_ifs with hc
    · exact wf_set_neigh_trunc (wf_set_trunc _ h)
    · exact ih (wf_emit_babel_neighbor x h ho hc)

theorem wf_emit_babel_iface {o : bird_shm_coll → Nat} {b : builder} (bi : babel_iface)
    (h : b.wf_open o) (ho : o .babel_ifaces = 0) (hlt : ¬ b.babel_iface_index ≥ BIRD_SHM_MAX_BABEL_IFACES) :
    (emit_babel_iface bi b).wf_open (Function.update o .babel_ifaces 1) :=
  wf_begin .babel_ifaces h ho (by simp only [builder.idx, capacity]; omega)
    (fun c => by cases c <;> rfl) rfl
    (fun c => by cases c <;> simp [emit_babel_iface, bird_shm_snapshot.len, length_arr_update])

theorem wf_next_babel_iface {o : bird_shm_coll → Nat} {b : builder}
    (h : b.wf_open (Function.update o .babel_ifaces 1)) :
    (next_babel_iface b).wf_open (Function.update o .babel_ifaces 0) :=
  wf_end .babel_ifaces h (fun c => by cases c <;> rfl) rfl
    (fun c => by cases c <;> simp [next_babel_iface, bird_shm_snapshot.len, length_arr_update])

theorem wf_babel_iface_round {o : bird_shm_coll → Nat} {b : builder} (bi : babel_iface)
    (h : b.wf_open o) (hi : o .babel_ifaces = 0) (hn : o .babel_neighs = 0)
    (hc : ¬ b.babel_iface_index ≥ BIRD_SHM_MAX_BABEL_IFACES) :
    (next_babel_iface (walk_babel_neigh_list bi.neigh_list (emit_babel_iface bi b))).wf_open o := by
  have h1 := wf_emit_babel_iface bi h hi hc
  have h2 := wf_walk_babel_neigh_list bi.neigh_list h1
    (by rw [Function.update_noteq (by decide)]; exact hn)
  have h3 := wf_next_babel_iface h2
  rwa [update_self_zero o _ hi] at h3

theorem wf_walk_babel_interfaces {o : bird_shm_coll → Nat} (l : List babel_iface) {b : builder}
    (h : b.wf_open o) (hi : o .babel_ifaces = 0) (hn : o .babel_neighs = 0) :
    (walk_babel_interfaces l b).wf_open o := by
  induction l generalizing b with
  | nil => exact h
  | cons bi rest ih =>
    unfold walk_babel_interfaces
    split_ifs with hc ht
    · exact wf_set_trunc _ h
    · exact wf_babel_iface_round bi h hi hn hc
    · exact ih (wf_babel_iface_round bi h hi hn hc)

theorem wf_emit_babel {o : bird_shm_coll → Nat} {b : builder} (p : proto)
    (h : b.wf_open o) (ho : o .babel = 0) (hlt : ¬ b.babel_index ≥ BIRD_SHM_MAX_BABEL) :
    (emit_babel p b).wf_open (Function.update o .babel 1) :=
  wf_begin .babel h ho (by simp only [builder.idx, capacity]; omega)
    (fun c => by cases c <;> rfl) rfl
    (fun c => by cases c <;> simp [emit_babel, bird_shm_snapshot.len, length_arr_update])

theorem wf_next_babel {o : bird_shm_coll → Nat} {b : builder}
    (h : b.wf_open (Function.update o .babel 1)) :
    (next_babel b).wf_open (Function.update o .babel 0) :=
  wf_end .babel h (fun c => by cases c <;> rfl) rfl
    (fun c => by cases c <;> simp [next_babel, bird_shm_snapshot.len, length_arr_update])

theorem wf_proto_step_babel {o : bird_shm_coll → Nat} {b : builder} (p : proto)
    (h : b.wf_open o) (ho : o .babel = 0) (hi : o .babel_ifaces = 0) (hn : o .babel_neighs = 0) :
    (proto_step_babel p b).wf_open o := by
  unfold proto_step_babel
  split_ifs with hp hc
  · exact wf_set_trunc _ h
  · have h1 := wf_emit_babel p h ho hc
    have h2 := wf_walk_babel_interfaces p.babel.interfaces h1
      (by rw [Function.update_noteq (by decide)]; exact hi)
      (by rw [Function.update_noteq (by decide)]; exact hn)
    have h3 := wf_next_babel h2
    rwa [update_self_zero o _ ho] at h3
  · exact h

theorem wf_proto_step {b : builder} (p : proto) (h : b.wf_open (fun _ => 0)) :
    (proto_step p b).wf_open (fun _ => 0) := by
  unfold proto_step
  exact wf_proto_step_babel p (wf_proto_step_bfd p (wf_proto_step_ospf p
    (wf_proto_step_bgp p (wf_proto_step_generic p h rfl) rfl) rfl rfl rfl) rfl) rfl rfl rfl

theorem wf_walk_proto_list (l : List proto) {b : builder} (h : b.wf_open (fun _ => 0)) :
    (walk_proto_list l b).wf_open (fun _ => 0) := by
  induction l generalizing b with
  | nil => exact h
  | cons p rest ih => exact ih (wf_proto_step p h)

theorem wf_init (d : daemon) (region : bird_shm_region) :
    (builder.init d region).wf_open (fun _ => 0) := by
  intro c
  cases c <;> exact ⟨Nat.zero_le _, rfl, by simp [builder.init, bird_shm_snapshot.len,
    bird_shm_snapshot.zero, capacity]⟩

theorem wf_store_iface_counts {o : bird_shm_coll → Nat} {b : builder} (h : b.wf_open o) :
    (store_iface_counts b).wf_open o :=
  wf_same h (fun c => by cases c <;> rfl) rfl (fun c => by cases c <;> rfl)

theorem wf_store_proto_counts {o : bird_shm_coll → Nat} {b : builder} (h : b.wf_open o) :
    (store_proto_counts b).wf_open o :=
  wf_same h (fun c => by cases c <;> rfl) rfl (fun c => by cases c <;> rfl)

theorem wf_run (d : daemon) (region : bird_shm_region) :
    (builder.run d region).wf_open (fun _ => 0) :=
  wf_store_proto_counts (wf_walk_proto_list _ (wf_store_iface_counts
    (wf_walk_iface_list _ (wf_init d region) rfl rfl)))
/-! ## The finished snapshot -/

/-- Every count field of the finished snapshot is the final value of the
    index variable of its array. -/
theorem run_count (d : daemon) (region : bird_shm_region) (c : bird_shm_coll) :
    (builder.run d region).snap.count c = (builder.run d region).idx c := by
  have h1 := walk_proto_list_hdr_view d.proto_list
    (store_iface_counts (walk_iface_list d.iface_list (builder.init d region)))
  have h2 := walk_proto_list_if_view d.proto_list
    (store_iface_counts (walk_iface_list d.iface_list (builder.init d region)))
  simp only [builder.hdr_view, builder.if_view, Prod.mk.injEq] at h1 h2
  cases c
  case ifaces =>
    show (walk_proto_list _ _).snap.iface_count = (walk_proto_list _ _).iface_index
    rw [h1.2.2.2.1, h2.1]; rfl
  case iface_addrs =>
    show (walk_proto_list _ _).snap.iface_addr_count = (walk_proto_list _ _).iface_addr_index
    rw [h1.2.2.2.2.1, h2.2.1]; rfl
  all_goals rfl

theorem mem_written {b : builder} {w : bird_shm_coll × Nat} (h : w ∈ b.writes) :
    w.2 ∈ b.written w.1 := by
  simp only [builder.written, List.mem_map, List.mem_filter, decide_eq_true_eq]
  exact ⟨w, ⟨h, rfl⟩, rfl⟩

/-! ## Counting models -/

theorem total_of_nil {α : Type} (app : α → Bool) (w : α → Nat) : total_of app w [] = 0 := rfl

theorem total_of_cons {α : Type} (app : α → Bool) (w : α → Nat) (x : α) (l : List α) :
    total_of app w (x :: l) = (if app x then w x else 0) + total_of app w l := by
  unfold total_of
  by_cases h : app x <;> simp [h]

theorem count_fold_fst_le {α : Type} (cap : Nat) (w : α → Nat) (l : List α) (s : Nat × Bool)
    (h : s.1 ≤ cap) : (l.foldl (count_step cap w) s).1 ≤ cap := by
  induction l generalizing s with
  | nil => exact h
  | cons x rest ih =>
    apply ih
    simp only [count_step]
    omega

/-- Closed form of the direct counting model: the index ends at the total
    number of records, capped; the bit ends set when it was or when the total
    exceeds the capacity. -/
theorem count_fold_eq {α : Type} (cap : Nat) (w : α → Nat) (l : List α) (s : Nat × Bool)
    (h : s.1 ≤ cap) :
    l.foldl (count_step cap w) s =
      (min (s.1 + (l.map w).sum) cap, s.2 || decide (cap < s.1 + (l.map w).sum)) := by
  induction l generalizing s with
  | nil =>
    obtain ⟨i, t⟩ := s
    simp at h
    simp [Nat.min_eq_left h, Nat.not_lt.2 h]
  | cons x rest ih =>
    obtain ⟨i, t⟩ := s
    simp only at h
    rw [List.foldl_cons, ih _ (by simp only [count_step]; omega)]
    simp only [count_step, List.map_cons, List.sum_cons, Prod.mk.injEq]
    constructor
    · omega
    · by_cases h1 : cap - i < w x
      · have h3 : cap < i + (w x + (rest.map w).sum) := by omega
        simp [h1, h3]
      · have h4 : (cap < i + min (w x) (cap - i) + (rest.map w).sum) ↔
            (cap < i + (w x + (rest.map w).sum)) := by omega
        simp [h1, h4]

theorem nested_fold_full {α : Type} (pcap ccap : Nat) (app : α → Bool) (w : α → Nat)
    (l : List α) (s : Nat × Nat × Bool) (h : s.1 ≥ pcap) :
    l.foldl (nested_step pcap ccap app w) s = s := by
  induction l generalizing s with
  | nil => rfl
  | cons x rest ih =>
    rw [List.foldl_cons]
    have : nested_step pcap ccap app w s x = s := by
      unfold nested_step
      split_ifs <;> rfl
    rw [this, ih s h]

/-- The parent index of the nested model moves as in the direct model. -/
theorem nested_fold_parent {α : Type} (pcap ccap : Nat) (app : α → Bool) (w : α → Nat)
    (l : List α) (s : Nat × Nat × Bool) (h : s.1 ≤ pcap) :
    (l.foldl (nested_step pcap ccap app w) s).1 = min (s.1 + total_of app (fun _ => 1) l) pcap := by
  induction l generalizing s with
  | nil => simp [total_of_nil]; omega
  | cons x rest ih =>
    rw [List.foldl_cons, total_of_cons]
    by_cases ha : app x
    · by_cases hp : s.1 ≥ pcap
      · have : nested_step pcap ccap app w s x = s := by simp [nested_step, ha, hp]
        rw [this, ih s h]; simp [ha]; omega
      · have : (nested_step pcap ccap app w s x).1 = s.1 + 1 := by simp [nested_step, ha, hp]
        rw [ih _ (by rw [this]; omega), this]; simp [ha]; omega
    · have : nested_step pcap ccap app w s x = s := by simp [nested_step, ha]
      rw [this, ih s h]; simp [ha]

/-- When all child records of the walk fit, the child bit is never set and
    the child index grows by at most their number. -/
theorem nested_fold_fits {α : Type} (pcap ccap : Nat) (app : α → Bool) (w : α → Nat)
    (l : List α) (s : Nat × Nat × Bool) (h : s.2.1 + total_of app w l ≤ ccap) :
    (l.foldl (nested_step pcap ccap app w) s).2.2 = s.2.2 ∧
    (l.foldl (nested_step pcap ccap app w) s).2.1 ≤ s.2.1 + total_of app w l := by
  induction l generalizing s with
  | nil => simp [total_of_nil]
  | cons x rest ih =>
    rw [List.foldl_cons]
    rw [total_of_cons] at h ⊢
    by_cases ha : app x
    · simp only [ha, if_true] at h ⊢
      by_cases hp : s.1 ≥ pcap
      · have : nested_step pcap ccap app w s x = s := by simp [nested_step, ha, hp]
        rw [this]
        have := ih s (by omega)
        exact ⟨this.1, by omega⟩
      · have e1 : (nested_step pcap ccap app w s x).2.1 = s.2.1 + w x := by
          simp [nested_step, ha, hp]; omega
        have e2 : (nested_step pcap ccap app w s x).2.2 = s.2.2 := by
          simp [nested_step, ha, hp]; intro h'; omega
        have := ih (nested_step pcap ccap app w s x) (by rw [e1]; omega)
        rw [e1, e2] at this
        exact ⟨this.1, by omega⟩
    · have : nested_step pcap ccap app w s x = s := by simp [nested_step, ha]
      rw [this]
      simp only [ha, Bool.false_eq_true, if_false, Nat.zero_add] at h ⊢
      exact ih s h

/-- When all parents fit, the child array is fed by every item: closed form
    as in the direct model. -/
theorem nested_fold_exact {α : Type} (pcap ccap : Nat) (app : α → Bool) (w : α → Nat)
    (l : List α) (s : Nat × Nat × Bool) (hp : s.1 + total_of app (fun _ => 1) l ≤ pcap)
    (hc : s.2.1 ≤ ccap) :
    (l.foldl (nested_step pcap ccap app w) s).2.1 = min (s.2.1 + total_of app w l) ccap ∧
    (l.foldl (nested_step pcap ccap app w) s).2.2
      = (s.2.2 || decide (ccap < s.2.1 + total_of app w l)) := by
  induction l generalizing s with
  | nil => simp [total_of_nil]; omega
  | cons x rest ih =>
    rw [List.foldl_cons]
    rw [total_of_cons] at hp ⊢
    by_cases ha : app x
    · simp only [ha, if_true] at hp ⊢
      have hp' : ¬ s.1 ≥ pcap := by omega
      have e0 : (nested_step pcap ccap app w s x).1 = s.1 + 1 := by simp [nested_step, ha, hp']
      have e1 : (nested_step pcap ccap app w s x).2.1 = s.2.1 + min (w x) (ccap - s.2.1) := by
        simp [nested_step, ha, hp']
      have e2 : (nested_step pcap ccap app w s x).2.2
          = (s.2.2 || decide (ccap - s.2.1 < w x)) := by
        simp [nested_step, ha, hp']
      have := ih (nested_step pcap ccap app w s x) (by rw [e0]; omega) (by rw [e1]; omega)
      rw [e1, e2] at this
      rw [this.1, this.2]
      constructor
      · omega
      · by_cases h1 : ccap - s.2.1 < w x
        · have h3 : ccap < s.2.1 + (w x + total_of app w rest) := by omega
          simp [h1, h3]
        · have h4 : (ccap < s.2.1 + min (w x) (ccap - s.2.1) + total_of app w rest) ↔
              (ccap < s.2.1 + (w x + total_of app w rest)) := by omega
          simp [h1, h4]
    · have : nested_step pcap ccap app w s x = s := by simp [nested_step, ha]
      rw [this]
      simp only [ha, Bool.false_eq_true, if_false, Nat.zero_add] at hp ⊢
      exact ih s hp hc

/-! ## How one iteration of the protocol walk moves each family -/

theorem proto_step_pr_view (p : proto) (b : builder) :
    (proto_step p b).pr_view = (proto_step_generic p b).pr_view := by
  simp [proto_step]

theorem proto_step_bgp_view (p : proto) (b : builder) :
    (proto_step p b).bgp_view = (proto_step_bgp p (proto_step_generic p b)).bgp_view := by
  simp [proto_step]

theorem proto_step_ospf_view (p : proto) (b : builder) :
    (proto_step p b).ospf_view
      = (proto_step_ospf p (proto_step_bgp p (proto_step_generic p b))).ospf_view := by
  simp [proto_step]

theorem proto_step_bfd_view (p : proto) (b : builder) :
    (proto_step p b).bfd_view
      = (proto_step_bfd p (proto_step_ospf p (proto_step_bgp p
          (proto_step_generic p b)))).bfd_view := by
  simp [proto_step]

theorem proto_step_babel_view (p : proto) (b : builder) :
    (proto_step p b).babel_view
      = (proto_step_babel p (proto_step_bfd p (proto_step_ospf p (proto_step_bgp p
          (proto_step_generic p b))))).babel_view := rfl

/-- Before the BGP block of an iteration the BGP part of the state is as at
    the start of the iteration. -/
theorem pre_bgp_view (p : proto) (b : builder) :
    (proto_step_generic p b).bgp_view = b.bgp_view := by simp

theorem pre_ospf_view (p : proto) (b : builder) :
    (proto_step_bgp p (proto_step_generic p b)).ospf_view = b.ospf_view := by simp

theorem pre_bfd_view (p : proto) (b : builder) :
    (proto_step_ospf p (proto_step_bgp p (proto_step_generic p b))).bfd_view = b.bfd_view := by
  simp

theorem pre_babel_view (p : proto) (b : builder) :
    (proto_step_bfd p (proto_step_ospf p (proto_step_bgp p
      (proto_step_generic p b)))).babel_view = b.babel_view := by
  simp

/-! ## Counting: generic protocol records, BGP, BFD -/

theorem proto_step_pr_count (p : proto) (b : builder) :
    ((proto_step p b).proto_index, (proto_step p b).bit 2)
      = count_step BIRD_SHM_MAX_PROTOCOLS (fun _ => 1) (b.proto_index, b.bit 2) p := by
  have h1 := proto_step_pr_view p b
  simp only [builder.pr_view, Prod.mk.injEq] at h1
  rw [h1.1, h1.2.2]
  unfold proto_step_generic count_step
  split_ifs with h
  · simp [emit_proto, builder.bit]
    constructor <;> omega
  · simp [builder.bit, builder.set_trunc, -Nat.testBit_zero]
    constructor <;> omega

theorem walk_proto_list_pr_count (l : List proto) (b : builder) :
    ((walk_proto_list l b).proto_index, (walk_proto_list l b).bit 2)
      = l.foldl (count_step BIRD_SHM_MAX_PROTOCOLS (fun _ => 1)) (b.proto_index, b.bit 2) := by
  induction l generalizing b with
  | nil => rfl
  | cons p rest ih =>
    rw [List.foldl_cons, ← proto_step_pr_count, ← ih]
    rfl

theorem proto_step_bgp_count (p : proto) (b : builder) :
    ((proto_step p b).bgp_index, (proto_step p b).bit 3)
      = count_step BIRD_SHM_MAX_BGP (fun p => if proto_is p PROTOCOL_BGP then 1 else 0)
          (b.bgp_index, b.bit 3) p := by
  have h1 := proto_step_bgp_view p b
  have h2 := pre_bgp_view p b
  simp only [builder.bgp_view, Prod.mk.injEq] at h1 h2
  rw [h1.1, h1.2.2, ← h2.1, ← h2.2.2]
  generalize proto_step_generic p b = c
  by_cases hp : proto_is p PROTOCOL_BGP = true
  · by_cases h : c.bgp_index ≥ BIRD_SHM_MAX_BGP
    · simp [proto_step_bgp, count_step, hp, h, builder.bit, builder.set_trunc,
        -Nat.testBit_zero]
    · simp [proto_step_bgp, count_step, hp, h, emit_bgp, builder.bit]
      constructor <;> omega
  · simp [proto_step_bgp, count_step, hp]

theorem walk_proto_list_bgp_count (l : List proto) (b : builder) :
    ((walk_proto_list l b).bgp_index, (walk_proto_list l b).bit 3)
      = l.foldl (count_step BIRD_SHM_MAX_BGP (fun p => if proto_is p PROTOCOL_BGP then 1 else 0))
          (b.bgp_index, b.bit 3) := by
  induction l generalizing b with
  | nil => rfl
  | cons p rest ih =>
    rw [List.foldl_cons, ← proto_step_bgp_count, ← ih]
    rfl

theorem proto_step_bfd_count (p : proto) (b : builder) :
    ((proto_step p b).bfd_index, (proto_step p b).bit 7)
      = count_step BIRD_SHM_MAX_BFD_SESSIONS
          (fun p => if proto_is p PROTOCOL_BFD then p.bfd.session_hash_id.length else 0)
          (b.bfd_index, b.bit 7) p := by
  have h1 := proto_step_bfd_view p b
  have h2 := pre_bfd_view p b
  simp only [builder.bfd_view, Prod.mk.injEq] at h1 h2
  rw [h1.1, h1.2.2, ← h2.1, ← h2.2.2]
  generalize proto_step_ospf p (proto_step_bgp p (proto_step_generic p b)) = c
  by_cases hp : proto_is p PROTOCOL_BFD = true
  · simp only [proto_step_bfd, count_step, hp, if_true]
    rw [hash_walk_sessions_eq]
    simp only [builder.bit, List.length_take, Prod.mk.injEq]
    constructor
    · omega
    · split_ifs with h <;> simp [h, -Nat.testBit_zero]
  · simp [proto_step_bfd, count_step, hp]

theorem walk_proto_list_bfd_count (l : List proto) (b : builder) :
    ((walk_proto_list l b).bfd_index, (walk_proto_list l b).bit 7)
      = l.foldl (count_step BIRD_SHM_MAX_BFD_SESSIONS
          (fun p => if proto_is p PROTOCOL_BFD then p.bfd.session_hash_id.length else 0))
          (b.bfd_index, b.bit 7) := by
  induction l generalizing b with
  | nil => rfl
  | cons p rest ih =>
    rw [List.foldl_cons, ← proto_step_bfd_count, ← ih]
    rfl

/-! ## Counting: OSPF -/

/-- Closed form of the OSPF block for an instance that gets a record. -/
theorem proto_step_ospf_eq (p : proto) (b : builder) (hp : proto_is p PROTOCOL_OSPF = true)
    (hi : ¬ b.ospf_index ≥ BIRD_SHM_MAX_OSPF) :
    proto_step_ospf p b =
      { b with
        snap := { b.snap with
          ospf := arr_update (b.snap.ospf.set b.ospf_index
              (fill_ospf b.ospf_lsa_index b.ospf_neigh_index p)) b.ospf_index
            (fun x => add_ospf_neigh_count
              ((ospf_neighbors p.ospf.iface_list).take
                (BIRD_SHM_MAX_OSPF_NEIGHBORS - b.ospf_neigh_index)).length
              (add_lsa_count
                ((real_lsas p.ospf.lsal).take
                  (BIRD_SHM_MAX_OSPF_LSAS - b.ospf_lsa_index)).length x))
          ospf_lsas := write_at b.snap.ospf_lsas b.ospf_lsa_index
            (((real_lsas p.ospf.lsal).take (BIRD_SHM_MAX_OSPF_LSAS - b.ospf_lsa_index)).map
              (fill_ospf_lsa b.ospf_index))
          ospf_neighs := write_at b.snap.ospf_neighs b.ospf_neigh_index
            (((ospf_neighbors p.ospf.iface_list).take
              (BIRD_SHM_MAX_OSPF_NEIGHBORS - b.ospf_neigh_index)).map
              (fun x => fill_ospf_neighbor b.ospf_index x.1 x.2))
          trunc_flags :=
            if BIRD_SHM_MAX_OSPF_NEIGHBORS - b.ospf_neigh_index
                < (ospf_neighbors p.ospf.iface_list).length then
              (if BIRD_SHM_MAX_OSPF_LSAS - b.ospf_lsa_index < (real_lsas p.ospf.lsal).length then
                b.snap.trunc_flags ||| BIRD_SHM_TRUNC_OSPF_LSAS
              else b.snap.trunc_flags) ||| BIRD_SHM_TRUNC_OSPF_NEIGHS
            else
              (if BIRD_SHM_MAX_OSPF_LSAS - b.ospf_lsa_index < (real_lsas p.ospf.lsal).length then
                b.snap.trunc_flags ||| BIRD_SHM_TRUNC_OSPF_LSAS
              else b.snap.trunc_flags) }
        ospf_index := b.ospf_index + 1
        ospf_lsa_index := b.ospf_lsa_index +
          ((real_lsas p.ospf.lsal).take (BIRD_SHM_MAX_OSPF_LSAS - b.ospf_lsa_index)).length
        ospf_neigh_index := b.ospf_neigh_index +
          ((ospf_neighbors p.ospf.iface_list).take
            (BIRD_SHM_MAX_OSPF_NEIGHBORS - b.ospf_neigh_index)).length
        neigh_trunc :=
          if BIRD_SHM_MAX_OSPF_NEIGHBORS - b.ospf_neigh_index
              < (ospf_neighbors p.ospf.iface_list).length then 1 else 0
        writes := b.writes ++ [(bird_shm_coll.ospf, b.ospf_index)] ++
          write_log bird_shm_coll.ospf_lsas b.ospf_lsa_index
            ((real_lsas p.ospf.lsal).take (BIRD_SHM_MAX_OSPF_LSAS - b.ospf_lsa_index)).length ++
          write_log bird_shm_coll.ospf_neighs b.ospf_neigh_index
            ((ospf_neighbors p.ospf.iface_list).take
              (BIRD_SHM_MAX_OSPF_NEIGHBORS - b.ospf_neigh_index)).length } := by
  unfold proto_step_ospf
  rw [if_pos hp, if_neg hi]
  rw [walk_lsal_eq, walk_ospf_iface_list_eq _ _ rfl]
  simp only [next_ospf, clear_neigh_trunc, emit_ospf, arr_update_comp]

theorem proto_step_ospf_counts (p : proto) (b : builder) :
    ((proto_step p b).ospf_index, (proto_step p b).bit 4)
        = count_step BIRD_SHM_MAX_OSPF (fun p => if proto_is p PROTOCOL_OSPF then 1 else 0)
            (b.ospf_index, b.bit 4) p ∧
    ((proto_step p b).ospf_index, (proto_step p b).ospf_lsa_index, (proto_step p b).bit 5)
        = nested_step BIRD_SHM_MAX_OSPF BIRD_SHM_MAX_OSPF_LSAS
            (fun p => proto_is p PROTOCOL_OSPF) (fun p => (real_lsas p.ospf.lsal).length)
            (b.ospf_index, b.ospf_lsa_index, b.bit 5) p ∧
    ((proto_step p b).ospf_index, (proto_step p b).ospf_neigh_index, (proto_step p b).bit 6)
        = nested_step BIRD_SHM_MAX_OSPF BIRD_SHM_MAX_OSPF_NEIGHBORS
            (fun p => proto_is p PROTOCOL_OSPF)
            (fun p => (ospf_neighbors p.ospf.iface_list).length)
            (b.ospf_index, b.ospf_neigh_index, b.bit 6) p := by
  have h1 := proto_step_ospf_view p b
  have h2 := pre_ospf_view p b
  simp only [builder.ospf_view, Prod.mk.injEq] at h1 h2
  obtain ⟨a1, a2, a3, -, -, -, a7, a8, a9⟩ := h1
  obtain ⟨c1, c2, c3, -, -, -, c7, c8, c9⟩ := h2
  rw [a1, a2, a3, a7, a8, a9, ← c1, ← c2, ← c3, ← c7, ← c8, ← c9]
  generalize proto_step_bgp p (proto_step_generic p b) = c
  by_cases hp : proto_is p PROTOCOL_OSPF = true
  · by_cases h : c.ospf_index ≥ BIRD_SHM_MAX_OSPF
    · simp [proto_step_ospf, count_step, nested_step, hp, h, builder.bit, builder.set_trunc,
        -Nat.testBit_zero]
    · rw [proto_step_ospf_eq p c hp h]
      simp only [count_step, nested_step, hp, h, if_true, if_false, builder.bit,
        List.length_take, Prod.mk.injEq, true_and]
      refine ⟨⟨by omega, ?_⟩, ⟨by omega, ?_⟩, ⟨by omega, ?_⟩⟩
      · split_ifs <;> simp [-Nat.testBit_zero] <;> omega
      · split_ifs <;> simp [-Nat.testBit_zero, *]
      · split_ifs <;> simp [-Nat.testBit_zero, *]
  · simp [proto_step_ospf, count_step, nested_step, hp]

/-! ## Counting: Babel -/

theorem babel_iface_fold_stop (l : List babel_iface) (s : babel_counts) (h : s.stop = true) :
    l.foldl babel_iface_count_step s = s := by
  induction l generalizing s with
  | nil => rfl
  | cons bi rest ih =>
    rw [List.foldl_cons]
    have : babel_iface_count_step s bi = s := by simp [babel_iface_count_step, h]
    rw [this, ih s h]

/-- One round of the interface walk, on the counters. -/
theorem babel_iface_round_counts (bi : babel_iface) (b : builder)
    (hc : ¬ b.babel_iface_index ≥ BIRD_SHM_MAX_BABEL_IFACES) :
    (next_babel_iface (walk_babel_neigh_list bi.neigh_list (emit_babel_iface bi b))).babel_counts
        (decide (BIRD_SHM_MAX_BABEL_NEIGHBORS - b.babel_neigh_index < bi.neigh_list.length))
      = babel_iface_count_step (b.babel_counts false) bi ∧
    (next_babel_iface (walk_babel_neigh_list bi.neigh_list (emit_babel_iface bi b))).neigh_trunc
      = (if BIRD_SHM_MAX_BABEL_NEIGHBORS - b.babel_neigh_index < bi.neigh_list.length
          then 1 else 0) ∧
    (next_babel_iface (walk_babel_neigh_list bi.neigh_list (emit_babel_iface bi b))).bit 8
      = b.bit 8 := by
  rw [walk_babel_neigh_list_eq]
  by_cases hov : BIRD_SHM_MAX_BABEL_NEIGHBORS - b.babel_neigh_index < bi.neigh_list.length
  · simp [next_babel_iface, emit_babel_iface, builder.babel_counts, babel_iface_count_step,
      builder.bit, hc, hov, -Nat.testBit_zero]
    omega
  · simp [next_babel_iface, emit_babel_iface, builder.babel_counts, babel_iface_count_step,
      builder.bit, hc, hov, -Nat.testBit_zero]
    omega

theorem walk_babel_interfaces_counts (l : List babel_iface) (b : builder) :
    (∃ st, (walk_babel_interfaces l b).babel_counts st
      = l.foldl babel_iface_count_step (b.babel_counts false)) ∧
    (walk_babel_interfaces l b).bit 8 = b.bit 8 := by
  induction l generalizing b with
  | nil => exact ⟨⟨false, rfl⟩, rfl⟩
  | cons bi rest ih =>
    unfold walk_babel_interfaces
    rw [List.foldl_cons]
    split_ifs with hc ht
    · refine ⟨⟨true, ?_⟩, by simp [builder.bit, builder.set_trunc, -Nat.testBit_zero]⟩
      have : babel_iface_count_step (b.babel_counts false) bi
          = (b.set_trunc BIRD_SHM_TRUNC_BABEL_IFACES).babel_counts true := by
        simp [babel_iface_count_step, builder.babel_counts, hc, builder.bit, builder.set_trunc,
          -Nat.testBit_zero]
      rw [this, babel_iface_fold_stop _ _ rfl]
    · obtain ⟨h1, h2, h3⟩ := babel_iface_round_counts bi b hc
      rw [h2] at ht
      have hov : BIRD_SHM_MAX_BABEL_NEIGHBORS - b.babel_neigh_index < bi.neigh_list.length := by
        by_contra hn; simp [hn] at ht
      refine ⟨⟨true, ?_⟩, h3⟩
      rw [← h1, decide_eq_true hov, babel_iface_fold_stop _ _ rfl]
    · obtain ⟨h1, h2, h3⟩ := babel_iface_round_counts bi b hc
      rw [h2] at ht
      have hov : ¬ BIRD_SHM_MAX_BABEL_NEIGHBORS - b.babel_neigh_index < bi.neigh_list.length := by
        intro hn; simp [hn] at ht
      rw [decide_eq_false hov] at h1
      rw [← h1]
      obtain ⟨i1, i2⟩ := ih (next_babel_iface
        (walk_babel_neigh_list bi.neigh_list (emit_babel_iface bi b)))
      exact ⟨i1, by rw [i2, h3]⟩

theorem babel_iface_fold_babel_index (l : List babel_iface) (s : babel_counts) :
    (l.foldl babel_iface_count_step s).babel_index = s.babel_index := by
  induction l generalizing s with
  | nil => rfl
  | cons bi rest ih =>
    rw [List.foldl_cons, ih]
    unfold babel_iface_count_step
    split_ifs <;> rfl

theorem proto_step_babel_counts (p : proto) (b : builder) :
    (proto_step p b).babel_counts false = babel_count_step (b.babel_counts false) p ∧
    ((proto_step p b).babel_index, (proto_step p b).bit 8)
      = count_step BIRD_SHM_MAX_BABEL (fun p => if proto_is p PROTOCOL_BABEL then 1 else 0)
          (b.babel_index, b.bit 8) p := by
  have h1 := proto_step_babel_view p b
  have h2 := pre_babel_view p b
  simp only [builder.babel_view, Prod.mk.injEq] at h1 h2
  obtain ⟨a1, a2, a3, -, -, -, a7, a8, a9⟩ := h1
  obtain ⟨c1, c2, c3, -, -, -, c7, c8, c9⟩ := h2
  simp only [builder.babel_counts]
  rw [a1, a2, a3, a7, a8, a9, ← c1, ← c2, ← c3, ← c7, ← c8, ← c9]
  generalize proto_step_bfd p (proto_step_ospf p (proto_step_bgp p (proto_step_generic p b))) = c
  by_cases hp : proto_is p PROTOCOL_BABEL = true
  · by_cases h : c.babel_index ≥ BIRD_SHM_MAX_BABEL
    · simp [proto_step_babel, count_step, babel_count_step, hp, h, builder.bit,
        builder.set_trunc, -Nat.testBit_zero]
    · obtain ⟨⟨st, i1⟩, i2⟩ := walk_babel_interfaces_counts p.babel.interfaces (emit_babel p c)
      have e : (emit_babel p c).babel_counts false
          = { babel_index := c.babel_index, iface_index := c.babel_iface_index,
              neigh_index := c.babel_neigh_index, trunc_ifaces := c.bit 9,
              trunc_neighs := c.bit 10, stop := false } := rfl
      rw [e] at i1
      have i3 := congrArg babel_counts.babel_index i1
      rw [babel_iface_fold_babel_index] at i3
      simp only [builder.babel_counts] at i3
      have e8 : (emit_babel p c).bit 8 = c.bit 8 := rfl
      simp only [proto_step_babel, babel_count_step, hp, h, if_true, if_false, ← i1,
        count_step]
      simp only [builder.babel_counts, next_babel, builder.bit, babel_counts.mk.injEq,
        and_true, true_and, Prod.mk.injEq]
      simp only [builder.bit] at i2 e8
      rw [i3, i2, e8]
      refine ⟨rfl, by omega, ?_⟩
      have : ¬ BIRD_SHM_MAX_BABEL - c.babel_index < 1 := by omega
      simp [this]
  · simp [proto_step_babel, count_step, babel_count_step, hp]

/-! ## Counting: the two walks as folds of the counting models -/

theorem count_fold_full {α : Type} (cap : Nat) (w : α → Nat) (l : List α) (s : Nat × Bool)
    (h : s.1 ≥ cap) (ht : s.2 = true) : l.foldl (count_step cap w) s = s := by
  induction l generalizing s with
  | nil => rfl
  | cons x rest ih =>
    rw [List.foldl_cons]
    have : count_step cap w s x = s := by
      obtain ⟨i, t⟩ := s
      simp only at h ht
      simp only [count_step, ht, Bool.true_or, Prod.mk.injEq, and_true]
      omega
    rw [this, ih s h ht]

theorem iface_round_counts (ifa : iface) (b : builder)
    (hc : ¬ b.iface_index ≥ BIRD_SHM_MAX_INTERFACES) :
    ((next_iface (walk_addrs ifa.addrs (emit_iface ifa b))).iface_index,
      (next_iface (walk_addrs ifa.addrs (emit_iface ifa b))).bit 0)
        = count_step BIRD_SHM_MAX_INTERFACES (fun _ => 1) (b.iface_index, b.bit 0) ifa ∧
    ((next_iface (walk_addrs ifa.addrs (emit_iface ifa b))).iface_index,
      (next_iface (walk_addrs ifa.addrs (emit_iface ifa b))).iface_addr_index,
      (next_iface (walk_addrs ifa.addrs (emit_iface ifa b))).bit 1)
        = nested_step BIRD_SHM_MAX_INTERFACES BIRD_SHM_MAX_IFACE_ADDRS (fun _ => true)
            (fun i => i.addrs.length) (b.iface_index, b.iface_addr_index, b.bit 1) ifa := by
  rw [walk_addrs_eq]
  by_cases hov : BIRD_SHM_MAX_IFACE_ADDRS - b.iface_addr_index < ifa.addrs.length
  · simp [next_iface, emit_iface, count_step, nested_step, builder.bit, hc, hov,
      -Nat.testBit_zero]
    omega
  · simp [next_iface, emit_iface, count_step, nested_step, builder.bit, hc, hov,
      -Nat.testBit_zero]
    omega

theorem walk_iface_list_counts (l : List iface) (b : builder) :
    ((walk_iface_list l b).iface_index, (walk_iface_list l b).bit 0)
        = l.foldl (count_step BIRD_SHM_MAX_INTERFACES (fun _ => 1)) (b.iface_index, b.bit 0) ∧
    ((walk_iface_list l b).iface_index, (walk_iface_list l b).iface_addr_index,
      (walk_iface_list l b).bit 1)
        = l.foldl (nested_step BIRD_SHM_MAX_INTERFACES BIRD_SHM_MAX_IFACE_ADDRS (fun _ => true)
            (fun i => i.addrs.length)) (b.iface_index, b.iface_addr_index, b.bit 1) := by
  induction l generalizing b with
  | nil => exact ⟨rfl, rfl⟩
  | cons ifa rest ih =>
    unfold walk_iface_list
    rw [List.foldl_cons, List.foldl_cons]
    split_ifs with hc
    · constructor
      · have e : count_step BIRD_SHM_MAX_INTERFACES (fun _ => 1) (b.iface_index, b.bit 0) ifa
            = (b.iface_index, true) := by
          simp only [count_step, Prod.mk.injEq]
          constructor
          · omega
          · have : BIRD_SHM_MAX_INTERFACES - b.iface_index < 1 := by omega
            simp [this]
        rw [e, count_fold_full _ _ _ _ hc rfl]
        simp [builder.bit, builder.set_trunc, -Nat.testBit_zero]
      · have e : nested_step BIRD_SHM_MAX_INTERFACES BIRD_SHM_MAX_IFACE_ADDRS (fun _ => true)
              (fun i => i.addrs.length) (b.iface_index, b.iface_addr_index, b.bit 1) ifa
            = (b.iface_index, b.iface_addr_index, b.bit 1) := by
          simp [nested_step, hc]
        rw [e, nested_fold_full _ _ _ _ _ _ hc]
        simp [builder.bit, builder.set_trunc, -Nat.testBit_zero]
    · obtain ⟨h1, h2⟩ := iface_round_counts ifa b hc
      obtain ⟨i1, i2⟩ := ih (next_iface (walk_addrs ifa.addrs (emit_iface ifa b)))
      rw [← h1, ← h2]
      exact ⟨i1, i2⟩

theorem walk_proto_list_ospf_counts (l : List proto) (b : builder) :
    ((walk_proto_list l b).ospf_index, (walk_proto_list l b).bit 4)
        = l.foldl (count_step BIRD_SHM_MAX_OSPF
            (fun p => if proto_is p PROTOCOL_OSPF then 1 else 0)) (b.ospf_index, b.bit 4) ∧
    ((walk_proto_list l b).ospf_index, (walk_proto_list l b).ospf_lsa_index,
      (walk_proto_list l b).bit 5)
        = l.foldl (nested_step BIRD_SHM_MAX_OSPF BIRD_SHM_MAX_OSPF_LSAS
            (fun p => proto_is p PROTOCOL_OSPF) (fun p => (real_lsas p.ospf.lsal).length))
            (b.ospf_index, b.ospf_lsa_index, b.bit 5) ∧
    ((walk_proto_list l b).ospf_index, (walk_proto_list l b).ospf_neigh_index,
      (walk_proto_list l b).bit 6)
        = l.foldl (nested_step BIRD_SHM_MAX_OSPF BIRD_SHM_MAX_OSPF_NEIGHBORS
            (fun p => proto_is p PROTOCOL_OSPF)
            (fun p => (ospf_neighbors p.ospf.iface_list).length))
            (b.ospf_index, b.ospf_neigh_index, b.bit 6) := by
  induction l generalizing b with
  | nil => exact ⟨rfl, rfl, rfl⟩
  | cons p rest ih =>
    obtain ⟨h1, h2, h3⟩ := proto_step_ospf_counts p b
    obtain ⟨i1, i2, i3⟩ := ih (proto_step p b)
    simp only [List.foldl_cons]
    rw [← h1, ← h2, ← h3]
    exact ⟨i1, i2, i3⟩

theorem walk_proto_list_babel_counts (l : List proto) (b : builder) :
    (walk_proto_list l b).babel_counts false
        = l.foldl babel_count_step (b.babel_counts false) ∧
    ((walk_proto_list l b).babel_index, (walk_proto_list l b).bit 8)
        = l.foldl (count_step BIRD_SHM_MAX_BABEL
            (fun p => if proto_is p PROTOCOL_BABEL then 1 else 0)) (b.babel_index, b.bit 8) := by
  induction l generalizing b with
  | nil => exact ⟨rfl, rfl⟩
  | cons p rest ih =>
    obtain ⟨h1, h2⟩ := proto_step_babel_counts p b
    obtain ⟨i1, i2⟩ := ih (proto_step p b)
    simp only [List.foldl_cons]
    rw [← h1, ← h2]
    exact ⟨i1, i2⟩

/-! ## The Babel counting model -/

/-- The number of neighbours of a list of Babel interfaces. -/
theorem babel_neigh_total_cons (bi : babel_iface) (l : List babel_iface) :
    total_of (fun _ => true) (fun bi : babel_iface => bi.neigh_list.length) (bi :: l)
      = bi.neigh_list.length
        + total_of (fun _ => true) (fun bi : babel_iface => bi.neigh_list.length) l := by
  rw [total_of_cons]; simp

/-- While the interfaces fit, the interface bit is not touched. -/
theorem babel_iface_fold_ifaces_fit (l : List babel_iface) (s : babel_counts)
    (h : s.iface_index + l.length ≤ BIRD_SHM_MAX_BABEL_IFACES) :
    (l.foldl babel_iface_count_step s).trunc_ifaces = s.trunc_ifaces ∧
    (l.foldl babel_iface_count_step s).iface_index ≤ s.iface_index + l.length := by
  induction l generalizing s with
  | nil => exact ⟨rfl, Nat.le_refl _⟩
  | cons bi rest ih =>
    rw [List.foldl_cons]
    simp only [List.length_cons] at h ⊢
    by_cases hs : s.stop = true
    · have e : babel_iface_count_step s bi = s := by simp [babel_iface_count_step, hs]
      rw [e]
      have := ih s (by omega)
      exact ⟨this.1, by omega⟩
    · have hc : ¬ s.iface_index ≥ BIRD_SHM_MAX_BABEL_IFACES := by omega
      have e1 : (babel_iface_count_step s bi).iface_index = s.iface_index + 1 := by
        simp [babel_iface_count_step, hs, hc]
      have e2 : (babel_iface_count_step s bi).trunc_ifaces = s.trunc_ifaces := by
        simp [babel_iface_count_step, hs, hc]
      have := ih (babel_iface_count_step s bi) (by rw [e1]; omega)
      rw [e1, e2] at this
      exact ⟨this.1, by omega⟩

/-- While the neighbours fit, the neighbour bit is not touched. -/
theorem babel_iface_fold_neighs_fit (l : List babel_iface) (s : babel_counts)
    (h : s.neigh_index + total_of (fun _ => true) (fun bi : babel_iface => bi.neigh_list.length) l
      ≤ BIRD_SHM_MAX_BABEL_NEIGHBORS) :
    (l.foldl babel_iface_count_step s).trunc_neighs = s.trunc_neighs ∧
    (l.foldl babel_iface_count_step s).neigh_index
      ≤ s.neigh_index
        + total_of (fun _ => true) (fun bi : babel_iface => bi.neigh_list.length) l := by
  induction l generalizing s with
  | nil => exact ⟨rfl, by simp [total_of_nil]⟩
  | cons bi rest ih =>
    rw [List.foldl_cons]
    rw [babel_neigh_total_cons] at h ⊢
    by_cases hs : s.stop = true
    · have e : babel_iface_count_step s bi = s := by simp [babel_iface_count_step, hs]
      rw [e]
      have := ih s (by omega)
      exact ⟨this.1, by omega⟩
    · by_cases hc : s.iface_index ≥ BIRD_SHM_MAX_BABEL_IFACES
      · have e1 : (babel_iface_count_step s bi).neigh_index = s.neigh_index := by
          simp [babel_iface_count_step, hs, hc]
        have e2 : (babel_iface_count_step s bi).trunc_neighs = s.trunc_neighs := by
          simp [babel_iface_count_step, hs, hc]
        have := ih (babel_iface_count_step s bi) (by rw [e1]; omega)
        rw [e1, e2] at this
        exact ⟨this.1, by omega⟩
      · have hov : ¬ BIRD_SHM_MAX_BABEL_NEIGHBORS - s.neigh_index < bi.neigh_list.length := by
          omega
        have e1 : (babel_iface_count_step s bi).neigh_index
            = s.neigh_index + bi.neigh_list.length := by
          simp [babel_iface_count_step, hs, hc]; omega
        have e2 : (babel_iface_count_step s bi).trunc_neighs = s.trunc_neighs := by
          simp [babel_iface_count_step, hs, hc, hov]
        have := ih (babel_iface_count_step s bi) (by rw [e1]; omega)
        rw [e1, e2] at this
        exact ⟨this.1, by omega⟩

/-- With no neighbour overflow every interface is walked: closed form for the
    interface index and bit. -/
theorem babel_iface_fold_ifaces_exact (l : List babel_iface) (s : babel_counts)
    (hs : s.stop = false)
    (hn : s.neigh_index + total_of (fun _ => true) (fun bi : babel_iface => bi.neigh_list.length) l
      ≤ BIRD_SHM_MAX_BABEL_NEIGHBORS)
    (hi : s.iface_index ≤ BIRD_SHM_MAX_BABEL_IFACES) :
    (l.foldl babel_iface_count_step s).iface_index
      = min (s.iface_index + l.length) BIRD_SHM_MAX_BABEL_IFACES ∧
    (l.foldl babel_iface_count_step s).trunc_ifaces
      = (s.trunc_ifaces || decide (BIRD_SHM_MAX_BABEL_IFACES < s.iface_index + l.length)) := by
  induction l generalizing s with
  | nil =>
    simp only [List.foldl_nil, List.length_nil, Nat.add_zero]
    have : ¬ BIRD_SHM_MAX_BABEL_IFACES < s.iface_index := by omega
    exact ⟨by omega, by simp [this]⟩
  | cons bi rest ih =>
    rw [List.foldl_cons]
    rw [babel_neigh_total_cons] at hn
    simp only [List.length_cons]
    by_cases hc : s.iface_index ≥ BIRD_SHM_MAX_BABEL_IFACES
    · have e : babel_iface_count_step s bi = { s with trunc_ifaces := true, stop := true } := by
        simp [babel_iface_count_step, hs, hc]
      rw [e, babel_iface_fold_stop _ _ rfl]
      have : BIRD_SHM_MAX_BABEL_IFACES < s.iface_index + (rest.length + 1) := by omega
      exact ⟨by simp only; omega, by simp [this]⟩
    · have hov : ¬ BIRD_SHM_MAX_BABEL_NEIGHBORS - s.neigh_index < bi.neigh_list.length := by
        omega
      have e0 : (babel_iface_count_step s bi).stop = false := by
        simp [babel_iface_count_step, hs, hc, hov]
      have e1 : (babel_iface_count_step s bi).iface_index = s.iface_index + 1 := by
        simp [babel_iface_count_step, hs, hc]
      have e2 : (babel_iface_count_step s bi).trunc_ifaces = s.trunc_ifaces := by
        simp [babel_iface_count_step, hs, hc]
      have e3 : (babel_iface_count_step s bi).neigh_index
          = s.neigh_index + bi.neigh_list.length := by
        simp [babel_iface_count_step, hs, hc]; omega
      have := ih (babel_iface_count_step s bi) e0 (by rw [e3]; omega) (by rw [e1]; omega)
      rw [e1, e2] at this
      rw [this.1, this.2]
      have hh : (BIRD_SHM_MAX_BABEL_IFACES < s.iface_index + 1 + rest.length)
          ↔ (BIRD_SHM_MAX_BABEL_IFACES < s.iface_index + (rest.length + 1)) := by omega
      exact ⟨by omega, by simp [hh]⟩

/-- With no interface overflow every neighbour list is walked until the first
    neighbour that does not fit: closed form for the neighbour index and
    bit. -/
theorem babel_iface_fold_neighs_exact (l : List babel_iface) (s : babel_counts)
    (hs : s.stop = false) (hi : s.iface_index + l.length ≤ BIRD_SHM_MAX_BABEL_IFACES)
    (hn : s.neigh_index ≤ BIRD_SHM_MAX_BABEL_NEIGHBORS) :
    (l.foldl babel_iface_count_step s).neigh_index
      = min (s.neigh_index
          + total_of (fun _ => true) (fun bi : babel_iface => bi.neigh_list.length) l)
          BIRD_SHM_MAX_BABEL_NEIGHBORS ∧
    (l.foldl babel_iface_count_step s).trunc_neighs
      = (s.trunc_neighs || decide (BIRD_SHM_MAX_BABEL_NEIGHBORS < s.neigh_index
          + total_of (fun _ => true) (fun bi : babel_iface => bi.neigh_list.length) l)) := by
  induction l generalizing s with
  | nil =>
    simp only [List.foldl_nil, total_of_nil, Nat.add_zero]
    have : ¬ BIRD_SHM_MAX_BABEL_NEIGHBORS < s.neigh_index := by omega
    exact ⟨by omega, by simp [this]⟩
  | cons bi rest ih =>
    rw [List.foldl_cons, babel_neigh_total_cons]
    simp only [List.length_cons] at hi
    have hc : ¬ s.iface_index ≥ BIRD_SHM_MAX_BABEL_IFACES := by omega
    by_cases hov : BIRD_SHM_MAX_BABEL_NEIGHBORS - s.neigh_index < bi.neigh_list.length
    · have e0 : (babel_iface_count_step s bi).stop = true := by
        simp [babel_iface_count_step, hs, hc, hov]
      have e1 : (babel_iface_count_step s bi).neigh_index = BIRD_SHM_MAX_BABEL_NEIGHBORS := by
        simp [babel_iface_count_step, hs, hc]; omega
      have e2 : (babel_iface_count_step s bi).trunc_neighs = true := by
        simp [babel_iface_count_step, hs, hc, hov]
      rw [babel_iface_fold_stop _ _ e0, e1, e2]
      have : BIRD_SHM_MAX_BABEL_NEIGHBORS < s.neigh_index + (bi.neigh_list.length
          + total_of (fun _ => true) (fun bi : babel_iface => bi.neigh_list.length) rest) := by
        omega
      exact ⟨by omega, by simp [this]⟩
    · have e0 : (babel_iface_count_step s bi).stop = false := by
        simp [babel_iface_count_step, hs, hc, hov]
      have e1 : (babel_iface_count_step s bi).iface_index = s.iface_index + 1 := by
        simp [babel_iface_count_step, hs, hc]
      have e2 : (babel_iface_count_step s bi).trunc_neighs = s.trunc_neighs := by
        simp [babel_iface_count_step, hs, hc, hov]
      have e3 : (babel_iface_count_step s bi).neigh_index
          = s.neigh_index + bi.neigh_list.length := by
        simp [babel_iface_count_step, hs, hc]; omega
      have := ih (babel_iface_count_step s bi) e0 (by rw [e1]; omega) (by rw [e3]; omega)
      rw [e3, e2] at this
      rw [this.1, this.2]
      have hh : (BIRD_SHM_MAX_BABEL_NEIGHBORS < s.neigh_index + bi.neigh_list.length
            + total_of (fun _ => true) (fun bi : babel_iface => bi.neigh_list.length) rest)
          ↔ (BIRD_SHM_MAX_BABEL_NEIGHBORS < s.neigh_index + (bi.neigh_list.length
            + total_of (fun _ => true) (fun bi : babel_iface => bi.neigh_list.length) rest)) := by
        omega
      exact ⟨by omega, by simp [hh]⟩

/-- The Babel block of an iteration that stores no Babel record leaves the
    counters alone. -/
theorem babel_count_step_skip (s : babel_counts) (p : proto)
    (h : proto_is p PROTOCOL_BABEL = false ∨ s.babel_index ≥ BIRD_SHM_MAX_BABEL) :
    babel_count_step s p = s := by
  unfold babel_count_step
  rcases h with h | h
  · simp [h]
  · simp [h]

/-- The Babel block of an iteration that stores a Babel record. -/
theorem babel_count_step_take (s : babel_counts) (p : proto)
    (hp : proto_is p PROTOCOL_BABEL = true) (hc : ¬ s.babel_index ≥ BIRD_SHM_MAX_BABEL) :
    babel_count_step s p =
      { p.babel.interfaces.foldl babel_iface_count_step { s with stop := false } with
        babel_index := s.babel_index + 1, stop := false } := by
  unfold babel_count_step
  simp [hp, hc]

/-- While the Babel interfaces of all instances fit, the interface bit is
    not touched. -/
theorem babel_fold_ifaces_fit (l : List proto) (s : babel_counts)
    (h : s.iface_index + total_of (fun p => proto_is p PROTOCOL_BABEL)
      (fun p => p.babel.interfaces.length) l ≤ BIRD_SHM_MAX_BABEL_IFACES) :
    (l.foldl babel_count_step s).trunc_ifaces = s.trunc_ifaces ∧
    (l.foldl babel_count_step s).iface_index
      ≤ s.iface_index + total_of (fun p => proto_is p PROTOCOL_BABEL)
          (fun p => p.babel.interfaces.length) l := by
  induction l generalizing s with
  | nil => exact ⟨rfl, by simp [total_of_nil]⟩
  | cons p rest ih =>
    rw [List.foldl_cons]
    rw [total_of_cons] at h ⊢
    by_cases hk : proto_is p PROTOCOL_BABEL = true ∧ ¬ s.babel_index ≥ BIRD_SHM_MAX_BABEL
    · rw [babel_count_step_take s p hk.1 hk.2]
      simp only [hk.1, if_true] at h ⊢
      have hin := babel_iface_fold_ifaces_fit p.babel.interfaces { s with stop := false }
        (by simp only; omega)
      simp only at hin
      have := ih { p.babel.interfaces.foldl babel_iface_count_step { s with stop := false } with
        babel_index := s.babel_index + 1, stop := false } (by simp only; omega)
      simp only at this
      exact ⟨by rw [this.1, hin.1], by omega⟩
    · rw [babel_count_step_skip s p (by
        by_cases hp : proto_is p PROTOCOL_BABEL = true
        · right
          by_contra hc
          exact hk ⟨hp, hc⟩
        · left
          simpa using hp)]
      have := ih s (by omega)
      exact ⟨this.1, by omega⟩

/-- While the Babel neighbours of all instances fit, the neighbour bit is
    not touched. -/
theorem babel_fold_neighs_fit (l : List proto) (s : babel_counts)
    (h : s.neigh_index + total_of (fun p => proto_is p PROTOCOL_BABEL)
      (fun p => total_of (fun _ => true) (fun bi : babel_iface => bi.neigh_list.length)
        p.babel.interfaces) l ≤ BIRD_SHM_MAX_BABEL_NEIGHBORS) :
    (l.foldl babel_count_step s).trunc_neighs = s.trunc_neighs ∧
    (l.foldl babel_count_step s).neigh_index
      ≤ s.neigh_index + total_of (fun p => proto_is p PROTOCOL_BABEL)
          (fun p => total_of (fun _ => true) (fun bi : babel_iface => bi.neigh_list.length)
            p.babel.interfaces) l := by
  induction l generalizing s with
  | nil => exact ⟨rfl, by simp [total_of_nil]⟩
  | cons p rest ih =>
    rw [List.foldl_cons]
    rw [total_of_cons] at h ⊢
    by_cases hk : proto_is p PROTOCOL_BABEL = true ∧ ¬ s.babel_index ≥ BIRD_SHM_MAX_BABEL
    · rw [babel_count_step_take s p hk.1 hk.2]
      simp only [hk.1, if_true] at h ⊢
      have hin := babel_iface_fold_neighs_fit p.babel.interfaces { s with stop := false }
        (by simp only; omega)
      simp only at hin
      have := ih { p.babel.interfaces.foldl babel_iface_count_step { s with stop := false } with
        babel_index := s.babel_index + 1, stop := false } (by simp only; omega)
      simp only at this
      exact ⟨by rw [this.1, hin.1], by omega⟩
    · rw [babel_count_step_skip s p (by
        by_cases hp : proto_is p PROTOCOL_BABEL = true
        · right
          by_contra hc
          exact hk ⟨hp, hc⟩
        · left
          simpa using hp)]
      have := ih s (by omega)
      exact ⟨this.1, by omega⟩

/-- With the Babel instances and the Babel neighbours within capacity every
    interface of every instance is walked: closed form for the interface
    index and bit. -/
theorem babel_fold_ifaces_exact (l : List proto) (s : babel_counts)
    (hb : s.babel_index + total_of (fun p => proto_is p PROTOCOL_BABEL) (fun _ => 1) l
      ≤ BIRD_SHM_MAX_BABEL)
    (hn : s.neigh_index + total_of (fun p => proto_is p PROTOCOL_BABEL)
      (fun p => total_of (fun _ => true) (fun bi : babel_iface => bi.neigh_list.length)
        p.babel.interfaces) l ≤ BIRD_SHM_MAX_BABEL_NEIGHBORS)
    (hi : s.iface_index ≤ BIRD_SHM_MAX_BABEL_IFACES) :
    (l.foldl babel_count_step s).iface_index
      = min (s.iface_index + total_of (fun p => proto_is p PROTOCOL_BABEL)
          (fun p => p.babel.interfaces.length) l) BIRD_SHM_MAX_BABEL_IFACES ∧
    (l.foldl babel_count_step s).trunc_ifaces
      = (s.trunc_ifaces || decide (BIRD_SHM_MAX_BABEL_IFACES
          < s.iface_index + total_of (fun p => proto_is p PROTOCOL_BABEL)
              (fun p => p.babel.interfaces.length) l)) := by
  induction l generalizing s with
  | nil =>
    simp only [List.foldl_nil, total_of_nil, Nat.add_zero]
    have : ¬ BIRD_SHM_MAX_BABEL_IFACES < s.iface_index := by omega
    exact ⟨by omega, by simp [this]⟩
  | cons p rest ih =>
    rw [List.foldl_cons]
    rw [total_of_cons] at hb hn
    rw [total_of_cons]
    by_cases hp : proto_is p PROTOCOL_BABEL = true
    · simp only [hp, if_true] at hb hn ⊢
      have hc : ¬ s.babel_index ≥ BIRD_SHM_MAX_BABEL := by omega
      rw [babel_count_step_take s p hp hc]
      have hin := babel_iface_fold_ifaces_exact p.babel.interfaces { s with stop := false } rfl
        (by simp only; omega) hi
      have hin2 := babel_iface_fold_neighs_fit p.babel.interfaces { s with stop := false }
        (by simp only; omega)
      simp only at hin hin2
      have := ih { p.babel.interfaces.foldl babel_iface_count_step { s with stop := false } with
        babel_index := s.babel_index + 1, stop := false } (by simp only; omega)
        (by simp only; omega) (by simp only; omega)
      simp only at this
      rw [this.1, this.2, hin.1, hin.2]
      refine ⟨by omega, ?_⟩
      by_cases h1 : BIRD_SHM_MAX_BABEL_IFACES < s.iface_index + p.babel.interfaces.length
      · have h2 : BIRD_SHM_MAX_BABEL_IFACES < s.iface_index + (p.babel.interfaces.length
            + total_of (fun p => proto_is p PROTOCOL_BABEL)
                (fun p => p.babel.interfaces.length) rest) := by omega
        simp [h1, h2]
      · have e : min (s.iface_index + p.babel.interfaces.length) BIRD_SHM_MAX_BABEL_IFACES
            = s.iface_index + p.babel.interfaces.length := by omega
        rw [e]
        simp [h1, Nat.add_assoc]
    · have hp2 : proto_is p PROTOCOL_BABEL = false := by simpa using hp
      rw [babel_count_step_skip s p (Or.inl hp2)]
      simp only [hp2] at hb hn ⊢
      have := ih s (by simpa using hb) (by simpa using hn) hi
      simpa using this

/-- With the Babel instances and the Babel interfaces within capacity every
    neighbour list is walked until the first neighbour that does not fit:
    closed form for the neighbour index and bit. -/
theorem babel_fold_neighs_exact (l : List proto) (s : babel_counts)
    (hb : s.babel_index + total_of (fun p => proto_is p PROTOCOL_BABEL) (fun _ => 1) l
      ≤ BIRD_SHM_MAX_BABEL)
    (hi : s.iface_index + total_of (fun p => proto_is p PROTOCOL_BABEL)
      (fun p => p.babel.interfaces.length) l ≤ BIRD_SHM_MAX_BABEL_IFACES)
    (hn : s.neigh_index ≤ BIRD_SHM_MAX_BABEL_NEIGHBORS) :
    (l.foldl babel_count_step s).neigh_index
      = min (s.neigh_index + total_of (fun p => proto_is p PROTOCOL_BABEL)
          (fun p => total_of (fun _ => true) (fun bi : babel_iface => bi.neigh_list.length)
            p.babel.interfaces) l) BIRD_SHM_MAX_BABEL_NEIGHBORS ∧
    (l.foldl babel_count_step s).trunc_neighs
      = (s.trunc_neighs || decide (BIRD_SHM_MAX_BABEL_NEIGHBORS
          < s.neigh_index + total_of (fun p => proto_is p PROTOCOL_BABEL)
              (fun p => total_of (fun _ => true)
                (fun bi : babel_iface => bi.neigh_list.length) p.babel.interfaces) l)) := by
  induction l generalizing s with
  | nil =>
    simp only [List.foldl_nil, total_of_nil, Nat.add_zero]
    have : ¬ BIRD_SHM_MAX_BABEL_NEIGHBORS < s.neigh_index := by omega
    exact ⟨by omega, by simp [this]⟩
  | cons p rest ih =>
    rw [List.foldl_cons]
    rw [total_of_cons] at hb hi
    rw [total_of_cons]
    by_cases hp : proto_is p PROTOCOL_BABEL = true
    · simp only [hp, if_true] at hb hi ⊢
      have hc : ¬ s.babel_index ≥ BIRD_SHM_MAX_BABEL := by omega
      rw [babel_count_step_take s p hp hc]
      have hin := babel_iface_fold_neighs_exact p.babel.interfaces { s with stop := false } rfl
        (by simp only; omega) hn
      have hin2 := babel_iface_fold_ifaces_fit p.babel.interfaces { s with stop := false }
        (by simp only; omega)
      simp only at hin hin2
      have := ih { p.babel.interfaces.foldl babel_iface_count_step { s with stop := false } with
        babel_index := s.babel_index + 1, stop := false } (by simp only; omega)
        (by simp only; omega) (by simp only; omega)
      simp only at this
      rw [this.1, this.2, hin.1, hin.2]
      refine ⟨by omega, ?_⟩
      by_cases h1 : BIRD_SHM_MAX_BABEL_NEIGHBORS < s.neigh_index
          + total_of (fun _ => true) (fun bi : babel_iface => bi.neigh_list.length)
              p.babel.interfaces
      · have h2 : BIRD_SHM_MAX_BABEL_NEIGHBORS < s.neigh_index
            + (total_of (fun _ => true) (fun bi : babel_iface => bi.neigh_list.length)
                p.babel.interfaces
              + total_of (fun p => proto_is p PROTOCOL_BABEL)
                  (fun p => total_of (fun _ => true)
                    (fun bi : babel_iface => bi.neigh_list.length) p.babel.interfaces)
                  rest) := by omega
        simp [h1, h2]
      · have e : min (s.neigh_index
            + total_of (fun _ => true) (fun bi : babel_iface => bi.neigh_list.length)
                p.babel.interfaces) BIRD_SHM_MAX_BABEL_NEIGHBORS
            = s.neigh_index
              + total_of (fun _ => true) (fun bi : babel_iface => bi.neigh_list.length)
                  p.babel.interfaces := by omega
        rw [e]
        simp [h1, Nat.add_assoc]
    · have hp2 : proto_is p PROTOCOL_BABEL = false := by simpa using hp
      rw [babel_count_step_skip s p (Or.inl hp2)]
      simp only [hp2] at hb hi ⊢
      have := ih s (by simpa using hb) (by simpa using hi) hn
      simpa using this

/-! ## Counters of the finished snapshot -/

/-- The protocol walk starts from cleared arrays, zero indices and no bit
    set, whatever the interface walk did. -/
theorem run_start_views (d : daemon) (region : bird_shm_region) :
    (store_iface_counts (walk_iface_list d.iface_list (builder.init d region))).pr_view
      = (builder.init d region).pr_view ∧
    (store_iface_counts (walk_iface_list d.iface_list (builder.init d region))).bgp_view
      = (builder.init d region).bgp_view ∧
    (store_iface_counts (walk_iface_list d.iface_list (builder.init d region))).ospf_view
      = (builder.init d region).ospf_view ∧
    (store_iface_counts (walk_iface_list d.iface_list (builder.init d region))).bfd_view
      = (builder.init d region).bfd_view ∧
    (store_iface_counts (walk_iface_list d.iface_list (builder.init d region))).babel_view
      = (builder.init d region).babel_view := by
  refine ⟨?_, ?_, ?_, ?_, ?_⟩
  · exact (walk_iface_list_pr_view d.iface_list (builder.init d region))
  · exact (walk_iface_list_bgp_view d.iface_list (builder.init d region))
  · exact (walk_iface_list_ospf_view d.iface_list (builder.init d region))
  · exact (walk_iface_list_bfd_view d.iface_list (builder.init d region))
  · exact (walk_iface_list_babel_view d.iface_list (builder.init d region))

/-- What the interface walk owns is final once the walk is over. -/
theorem run_if_view (d : daemon) (region : bird_shm_region) :
    (builder.run d region).if_view
      = (walk_iface_list d.iface_list (builder.init d region)).if_view :=
  walk_proto_list_if_view d.proto_list
    (store_iface_counts (walk_iface_list d.iface_list (builder.init d region)))

/-- No bit of `trunc_flags` above the eleven truncation bits is set. -/
theorem run_high_bits (d : daemon) (region : bird_shm_region) :
    (builder.run d region).snap.trunc_flags >>> 11 = 0 := by
  have h1 := walk_proto_list_hdr_view d.proto_list
    (store_iface_counts (walk_iface_list d.iface_list (builder.init d region)))
  have h2 := walk_iface_list_hdr_view d.iface_list (builder.init d region)
  simp only [builder.hdr_view, Prod.mk.injEq] at h1 h2
  have e1 : (builder.run d region).snap.trunc_flags
      = (walk_proto_list d.proto_list
          (store_iface_counts (walk_iface_list d.iface_list
            (builder.init d region)))).snap.trunc_flags := rfl
  have e2 : (store_iface_counts (walk_iface_list d.iface_list
      (builder.init d region))).snap.trunc_flags
      = (walk_iface_list d.iface_list (builder.init d region)).snap.trunc_flags := rfl
  rw [e1, h1.2.2.2.2.2.2.2.2.2.2.2.2.2.2, e2, h2.2.2.2.2.2.2.2.2.2.2.2.2.2.2]
  simp [builder.init, bird_shm_snapshot.zero]

theorem map_one_sum {α : Type} (l : List α) : (l.map (fun _ => 1)).sum = l.length := by
  induction l with
  | nil => rfl
  | cons x rest ih => simp [ih, Nat.add_comm]

theorem map_ite_sum {α : Type} (app : α → Bool) (w : α → Nat) (l : List α) :
    (l.map (fun x => if app x then w x else 0)).sum = total_of app w l := by
  induction l with
  | nil => rfl
  | cons x rest ih =>
    rw [total_of_cons, List.map_cons, List.sum_cons, ih]

theorem total_true_one {α : Type} (l : List α) :
    total_of (fun _ => true) (fun _ => 1) l = l.length := by
  induction l with
  | nil => rfl
  | cons x rest ih => rw [total_of_cons, ih]; simp [Nat.add_comm]

/-- The index variable and the truncation bit of the arrays fed directly by
    a walk, in the finished snapshot. -/
theorem run_flat_counters (d : daemon) (region : bird_shm_region) :
    ((builder.run d region).iface_index, (builder.run d region).bit 0)
      = (min (sources d .ifaces) BIRD_SHM_MAX_INTERFACES,
          decide (BIRD_SHM_MAX_INTERFACES < sources d .ifaces)) ∧
    ((builder.run d region).proto_index, (builder.run d region).bit 2)
      = (min (sources d .protos) BIRD_SHM_MAX_PROTOCOLS,
          decide (BIRD_SHM_MAX_PROTOCOLS < sources d .protos)) ∧
    ((builder.run d region).bgp_index, (builder.run d region).bit 3)
      = (min (sources d .bgp) BIRD_SHM_MAX_BGP, decide (BIRD_SHM_MAX_BGP < sources d .bgp)) ∧
    ((builder.run d region).ospf_index, (builder.run d region).bit 4)
      = (min (sources d .ospf) BIRD_SHM_MAX_OSPF,
          decide (BIRD_SHM_MAX_OSPF < sources d .ospf)) ∧
    ((builder.run d region).bfd_index, (builder.run d region).bit 7)
      = (min (sources d .bfd) BIRD_SHM_MAX_BFD_SESSIONS,
          decide (BIRD_SHM_MAX_BFD_SESSIONS < sources d .bfd)) ∧
    ((builder.run d region).babel_index, (builder.run d region).bit 8)
      = (min (sources d .babel) BIRD_SHM_MAX_BABEL,
          decide (BIRD_SHM_MAX_BABEL < sources d .babel)) := by
  have hs := run_start_views d region
  have hi := run_if_view d region
  simp only [builder.if_view, builder.pr_view, builder.bgp_view, builder.ospf_view,
    builder.bfd_view, builder.babel_view, Prod.mk.injEq] at hs hi
  obtain ⟨hpr, hbgp, hospf, hbfd, hbabel⟩ := hs
  refine ⟨?_, ?_, ?_, ?_, ?_, ?_⟩
  · rw [hi.1, hi.2.2.2.2.1, (walk_iface_list_counts d.iface_list (builder.init d region)).1,
      count_fold_eq _ _ _ _ (Nat.zero_le _), map_one_sum]
    simp [sources, builder.init, builder.bit, bird_shm_snapshot.zero]
  · have := walk_proto_list_pr_count d.proto_list
      (store_iface_counts (walk_iface_list d.iface_list (builder.init d region)))
    rw [hpr.1, hpr.2.2, count_fold_eq _ _ _ _ (Nat.zero_le _), map_one_sum] at this
    refine Eq.trans this ?_
    simp [sources, builder.init, builder.bit, bird_shm_snapshot.zero]
  · have := walk_proto_list_bgp_count d.proto_list
      (store_iface_counts (walk_iface_list d.iface_list (builder.init d region)))
    rw [hbgp.1, hbgp.2.2, count_fold_eq _ _ _ _ (Nat.zero_le _),
      map_ite_sum (fun p => proto_is p PROTOCOL_BGP) (fun _ => 1)] at this
    refine Eq.trans this ?_
    simp [sources, builder.init, builder.bit, bird_shm_snapshot.zero]
  · have := (walk_proto_list_ospf_counts d.proto_list
      (store_iface_counts (walk_iface_list d.iface_list (builder.init d region)))).1
    rw [hospf.1, hospf.2.2.2.2.2.2.1, count_fold_eq _ _ _ _ (Nat.zero_le _),
      map_ite_sum (fun p => proto_is p PROTOCOL_OSPF) (fun _ => 1)] at this
    refine Eq.trans this ?_
    simp [sources, builder.init, builder.bit, bird_shm_snapshot.zero]
  · have := walk_proto_list_bfd_count d.proto_list
      (store_iface_counts (walk_iface_list d.iface_list (builder.init d region)))
    rw [hbfd.1, hbfd.2.2, count_fold_eq _ _ _ _ (Nat.zero_le _),
      map_ite_sum (fun p => proto_is p PROTOCOL_BFD)
        (fun p => p.bfd.session_hash_id.length)] at this
    refine Eq.trans this ?_
    simp [sources, builder.init, builder.bit, bird_shm_snapshot.zero]
  · have := (walk_proto_list_babel_counts d.proto_list
      (store_iface_counts (walk_iface_list d.iface_list (builder.init d region)))).2
    rw [hbabel.1, hbabel.2.2.2.2.2.2.1, count_fold_eq _ _ _ _ (Nat.zero_le _),
      map_ite_sum (fun p => proto_is p PROTOCOL_BABEL) (fun _ => 1)] at this
    refine Eq.trans this ?_
    simp [sources, builder.init, builder.bit, bird_shm_snapshot.zero]

/-- The three nested folds of the finished snapshot that go through a parent
    array with a plain owner index: addresses, LSAs and OSPF neighbours. -/
theorem run_nested_folds (d : daemon) (region : bird_shm_region) :
    ((builder.run d region).iface_index, (builder.run d region).iface_addr_index,
      (builder.run d region).bit 1)
        = d.iface_list.foldl (nested_step BIRD_SHM_MAX_INTERFACES BIRD_SHM_MAX_IFACE_ADDRS
            (fun _ => true) (fun i => i.addrs.length)) (0, 0, false) ∧
    ((builder.run d region).ospf_index, (builder.run d region).ospf_lsa_index,
      (builder.run d region).bit 5)
        = d.proto_list.foldl (nested_step BIRD_SHM_MAX_OSPF BIRD_SHM_MAX_OSPF_LSAS
            (fun p => proto_is p PROTOCOL_OSPF) (fun p => (real_lsas p.ospf.lsal).length))
            (0, 0, false) ∧
    ((builder.run d region).ospf_index, (builder.run d region).ospf_neigh_index,
      (builder.run d region).bit 6)
        = d.proto_list.foldl (nested_step BIRD_SHM_MAX_OSPF BIRD_SHM_MAX_OSPF_NEIGHBORS
            (fun p => proto_is p PROTOCOL_OSPF)
            (fun p => (ospf_neighbors p.ospf.iface_list).length)) (0, 0, false) ∧
    (builder.run d region).babel_counts false
        = d.proto_list.foldl babel_count_step
            { babel_index := 0, iface_index := 0, neigh_index := 0, trunc_ifaces := false,
              trunc_neighs := false, stop := false } := by
  have hs := run_start_views d region
  have hi := run_if_view d region
  simp only [builder.if_view, builder.pr_view, builder.bgp_view, builder.ospf_view,
    builder.bfd_view, builder.babel_view, Prod.mk.injEq] at hs hi
  obtain ⟨-, -, hospf, -, hbabel⟩ := hs
  refine ⟨?_, ?_, ?_, ?_⟩
  · rw [hi.1, hi.2.1, hi.2.2.2.2.2,
      (walk_iface_list_counts d.iface_list (builder.init d region)).2]
    simp [builder.init, builder.bit, bird_shm_snapshot.zero]
  · have := (walk_proto_list_ospf_counts d.proto_list
      (store_iface_counts (walk_iface_list d.iface_list (builder.init d region)))).2.1
    rw [hospf.1, hospf.2.1, hospf.2.2.2.2.2.2.2.1] at this
    refine Eq.trans this ?_
    simp [builder.init, builder.bit, bird_shm_snapshot.zero]
  · have := (walk_proto_list_ospf_counts d.proto_list
      (store_iface_counts (walk_iface_list d.iface_list (builder.init d region)))).2.2
    rw [hospf.1, hospf.2.2.1, hospf.2.2.2.2.2.2.2.2] at this
    refine Eq.trans this ?_
    simp [builder.init, builder.bit, bird_shm_snapshot.zero]
  · have := (walk_proto_list_babel_counts d.proto_list
      (store_iface_counts (walk_iface_list d.iface_list (builder.init d region)))).1
    refine Eq.trans this ?_
    congr 1
    simp only [builder.babel_counts, hbabel.1, hbabel.2.1, hbabel.2.2.1,
      hbabel.2.2.2.2.2.2.2.1, hbabel.2.2.2.2.2.2.2.2]
    simp [builder.init, builder.bit, bird_shm_snapshot.zero]

/-- A nested array whose source records fit keeps its truncation bit
    unset. -/
theorem run_nested_fits (d : daemon) (region : bird_shm_region) :
    (sources d .iface_addrs ≤ BIRD_SHM_MAX_IFACE_ADDRS →
      (builder.run d region).bit 1 = false) ∧
    (sources d .ospf_lsas ≤ BIRD_SHM_MAX_OSPF_LSAS →
      (builder.run d region).bit 5 = false) ∧
    (sources d .ospf_neighs ≤ BIRD_SHM_MAX_OSPF_NEIGHBORS →
      (builder.run d region).bit 6 = false) ∧
    (sources d .babel_ifaces ≤ BIRD_SHM_MAX_BABEL_IFACES →
      (builder.run d region).bit 9 = false) ∧
    (sources d .babel_neighs ≤ BIRD_SHM_MAX_BABEL_NEIGHBORS →
      (builder.run d region).bit 10 = false) := by
  obtain ⟨h1, h5, h6, hb⟩ := run_nested_folds d region
  refine ⟨?_, ?_, ?_, ?_, ?_⟩
  · intro h
    have := (nested_fold_fits BIRD_SHM_MAX_INTERFACES BIRD_SHM_MAX_IFACE_ADDRS (fun _ => true)
      (fun i : iface => i.addrs.length) d.iface_list (0, 0, false)
      (by simpa [sources] using h)).1
    rw [← h1] at this
    exact this
  · intro h
    have := (nested_fold_fits BIRD_SHM_MAX_OSPF BIRD_SHM_MAX_OSPF_LSAS
      (fun p => proto_is p PROTOCOL_OSPF) (fun p : proto => (real_lsas p.ospf.lsal).length)
      d.proto_list (0, 0, false) (by simpa [sources] using h)).1
    rw [← h5] at this
    exact this
  · intro h
    have := (nested_fold_fits BIRD_SHM_MAX_OSPF BIRD_SHM_MAX_OSPF_NEIGHBORS
      (fun p => proto_is p PROTOCOL_OSPF)
      (fun p : proto => (ospf_neighbors p.ospf.iface_list).length)
      d.proto_list (0, 0, false) (by simpa [sources] using h)).1
    rw [← h6] at this
    exact this
  · intro h
    have := (babel_fold_ifaces_fit d.proto_list
      { babel_index := 0, iface_index := 0, neigh_index := 0, trunc_ifaces := false,
        trunc_neighs := false, stop := false }
      (by simpa [sources] using h)).1
    rw [← hb] at this
    exact this
  · intro h
    have := (babel_fold_neighs_fit d.proto_list
      { babel_index := 0, iface_index := 0, neigh_index := 0, trunc_ifaces := false,
        trunc_neighs := false, stop := false }
      (by simpa [sources] using h)).1
    rw [← hb] at this
    exact this

/-- A nested array whose parents all fit: its index is the number of source
    records clamped to the capacity, and its bit tells whether they fit.
    For the two Babel child arrays the sibling child array has to fit as
    well. -/
theorem run_nested_exact (d : daemon) (region : bird_shm_region) :
    (sources d .ifaces ≤ BIRD_SHM_MAX_INTERFACES →
      (builder.run d region).iface_addr_index
        = min (sources d .iface_addrs) BIRD_SHM_MAX_IFACE_ADDRS ∧
      (builder.run d region).bit 1
        = decide (BIRD_SHM_MAX_IFACE_ADDRS < sources d .iface_addrs)) ∧
    (sources d .ospf ≤ BIRD_SHM_MAX_OSPF →
      (builder.run d region).ospf_lsa_index
        = min (sources d .ospf_lsas) BIRD_SHM_MAX_OSPF_LSAS ∧
      (builder.run d region).bit 5
        = decide (BIRD_SHM_MAX_OSPF_LSAS < sources d .ospf_lsas)) ∧
    (sources d .ospf ≤ BIRD_SHM_MAX_OSPF →
      (builder.run d region).ospf_neigh_index
        = min (sources d .ospf_neighs) BIRD_SHM_MAX_OSPF_NEIGHBORS ∧
      (builder.run d region).bit 6
        = decide (BIRD_SHM_MAX_OSPF_NEIGHBORS < sources d .ospf_neighs)) ∧
    (sources d .babel ≤ BIRD_SHM_MAX_BABEL →
      sources d .babel_neighs ≤ BIRD_SHM_MAX_BABEL_NEIGHBORS →
      (builder.run d region).babel_iface_index
        = min (sources d .babel_ifaces) BIRD_SHM_MAX_BABEL_IFACES ∧
      (builder.run d region).bit 9
        = decide (BIRD_SHM_MAX_BABEL_IFACES < sources d .babel_ifaces)) ∧
    (sources d .babel ≤ BIRD_SHM_MAX_BABEL →
      sources d .babel_ifaces ≤ BIRD_SHM_MAX_BABEL_IFACES →
      (builder.run d region).babel_neigh_index
        = min (sources d .babel_neighs) BIRD_SHM_MAX_BABEL_NEIGHBORS ∧
      (builder.run d region).bit 10
        = decide (BIRD_SHM_MAX_BABEL_NEIGHBORS < sources d .babel_neighs)) := by
  obtain ⟨h1, h5, h6, hb⟩ := run_nested_folds d region
  refine ⟨?_, ?_, ?_, ?_, ?_⟩
  · intro h
    have := nested_fold_exact BIRD_SHM_MAX_INTERFACES BIRD_SHM_MAX_IFACE_ADDRS (fun _ => true)
      (fun i : iface => i.addrs.length) d.iface_list (0, 0, false)
      (by rw [total_true_one]; simpa [sources] using h) (Nat.zero_le _)
    rw [← h1] at this
    simpa [sources] using this
  · intro h
    have := nested_fold_exact BIRD_SHM_MAX_OSPF BIRD_SHM_MAX_OSPF_LSAS
      (fun p => proto_is p PROTOCOL_OSPF) (fun p : proto => (real_lsas p.ospf.lsal).length)
      d.proto_list (0, 0, false) (by simpa [sources] using h) (Nat.zero_le _)
    rw [← h5] at this
    simpa [sources] using this
  · intro h
    have := nested_fold_exact BIRD_SHM_MAX_OSPF BIRD_SHM_MAX_OSPF_NEIGHBORS
      (fun p => proto_is p PROTOCOL_OSPF)
      (fun p : proto => (ospf_neighbors p.ospf.iface_list).length)
      d.proto_list (0, 0, false) (by simpa [sources] using h) (Nat.zero_le _)
    rw [← h6] at this
    simpa [sources] using this
  · intro h hn
    have := babel_fold_ifaces_exact d.proto_list
      { babel_index := 0, iface_index := 0, neigh_index := 0, trunc_ifaces := false,
        trunc_neighs := false, stop := false }
      (by simpa [sources] using h) (by simpa [sources] using hn) (Nat.zero_le _)
    rw [← hb] at this
    simpa [sources, builder.babel_counts] using this
  · intro h hn
    have := babel_fold_neighs_exact d.proto_list
      { babel_index := 0, iface_index := 0, neigh_index := 0, trunc_ifaces := false,
        trunc_neighs := false, stop := false }
      (by simpa [sources] using h) (by simpa [sources] using hn) (Nat.zero_le _)
    rw [← hb] at this
    simpa [sources, builder.babel_counts] using this

/-! ## The truncation word of the finished snapshot -/

/-- Two words with no bit above the eleven truncation bits are equal when
    they agree on those eleven bits. -/
theorem flags_ext (x y : Nat) (hx : x >>> 11 = 0) (hy : y >>> 11 = 0)
    (h : ∀ i, i < 11 → x.testBit i = y.testBit i) : x = y := by
  apply Nat.eq_of_testBit_eq
  intro i
  by_cases hi : i < 11
  · exact h i hi
  · have e : i = 11 + (i - 11) := by omega
    rw [e, ← Nat.testBit_shiftRight, ← Nat.testBit_shiftRight, hx, hy]

theorem trunc_bit_eq (c : bird_shm_coll) : trunc_bit c = 1 <<< trunc_shift c := by
  cases c <;> rfl

theorem trunc_shift_lt (c : bird_shm_coll) : trunc_shift c < 11 := by
  cases c <;> decide

theorem trunc_shift_surj (i : Nat) (h : i < 11) : ∃ c, trunc_shift c = i := by
  interval_cases i
  · exact ⟨.ifaces, rfl⟩
  · exact ⟨.iface_addrs, rfl⟩
  · exact ⟨.protos, rfl⟩
  · exact ⟨.bgp, rfl⟩
  · exact ⟨.ospf, rfl⟩
  · exact ⟨.ospf_lsas, rfl⟩
  · exact ⟨.ospf_neighs, rfl⟩
  · exact ⟨.bfd, rfl⟩
  · exact ⟨.babel, rfl⟩
  · exact ⟨.babel_ifaces, rfl⟩
  · exact ⟨.babel_neighs, rfl⟩

theorem trunc_shift_inj {c c' : bird_shm_coll} (h : trunc_shift c = trunc_shift c') :
    c = c' := by
  cases c <;> cases c' <;> first | rfl | exact absurd h (by decide)

/-- An array whose source records fit keeps its truncation bit unset. -/
theorem run_bit_fits (d : daemon) (region : bird_shm_region) (c : bird_shm_coll)
    (h : sources d c ≤ capacity c) : (builder.run d region).bit (trunc_shift c) = false := by
  obtain ⟨f0, f2, f3, f4, f7, f8⟩ := run_flat_counters d region
  obtain ⟨n1, n5, n6, n9, n10⟩ := run_nested_fits d region
  simp only [Prod.mk.injEq] at f0 f2 f3 f4 f7 f8
  cases c
  case ifaces => rw [show trunc_shift .ifaces = 0 from rfl, f0.2]; simpa [capacity] using h
  case iface_addrs => exact n1 h
  case protos => rw [show trunc_shift .protos = 2 from rfl, f2.2]; simpa [capacity] using h
  case bgp => rw [show trunc_shift .bgp = 3 from rfl, f3.2]; simpa [capacity] using h
  case ospf => rw [show trunc_shift .ospf = 4 from rfl, f4.2]; simpa [capacity] using h
  case ospf_lsas => exact n5 h
  case ospf_neighs => exact n6 h
  case bfd => rw [show trunc_shift .bfd = 7 from rfl, f7.2]; simpa [capacity] using h
  case babel => rw [show trunc_shift .babel = 8 from rfl, f8.2]; simpa [capacity] using h
  case babel_ifaces => exact n9 h
  case babel_neighs => exact n10 h

/-- An array with more source records than capacity, all other arrays
    fitting: its bit is set and its index stops at the capacity. -/
theorem run_bit_overflow (d : daemon) (region : bird_shm_region) (c : bird_shm_coll)
    (h : capacity c < sources d c) (ho : ∀ c', c' ≠ c → sources d c' ≤ capacity c') :
    (builder.run d region).bit (trunc_shift c) = true ∧
    (builder.run d region).idx c = capacity c := by
  obtain ⟨f0, f2, f3, f4, f7, f8⟩ := run_flat_counters d region
  obtain ⟨e1, e5, e6, e9, e10⟩ := run_nested_exact d region
  simp only [Prod.mk.injEq] at f0 f2 f3 f4 f7 f8
  cases c
  case ifaces =>
    simp only [capacity] at h
    exact ⟨by rw [show trunc_shift .ifaces = 0 from rfl, f0.2]; simpa using h,
      by show (builder.run d region).iface_index = _; rw [f0.1]; simp only [capacity]; omega⟩
  case iface_addrs =>
    have hp := ho .ifaces (by decide)
    simp only [capacity] at h hp
    obtain ⟨a, b⟩ := e1 hp
    exact ⟨by rw [show trunc_shift .iface_addrs = 1 from rfl, b]; simpa using h,
      by show (builder.run d region).iface_addr_index = _; rw [a]; simp only [capacity]; omega⟩
  case protos =>
    simp only [capacity] at h
    exact ⟨by rw [show trunc_shift .protos = 2 from rfl, f2.2]; simpa using h,
      by show (builder.run d region).proto_index = _; rw [f2.1]; simp only [capacity]; omega⟩
  case bgp =>
    simp only [capacity] at h
    exact ⟨by rw [show trunc_shift .bgp = 3 from rfl, f3.2]; simpa using h,
      by show (builder.run d region).bgp_index = _; rw [f3.1]; simp only [capacity]; omega⟩
  case ospf =>
    simp only [capacity] at h
    exact ⟨by rw [show trunc_shift .ospf = 4 from rfl, f4.2]; simpa using h,
      by show (builder.run d region).ospf_index = _; rw [f4.1]; simp only [capacity]; omega⟩
  case ospf_lsas =>
    have hp := ho .ospf (by decide)
    simp only [capacity] at h hp
    obtain ⟨a, b⟩ := e5 hp
    exact ⟨by rw [show trunc_shift .ospf_lsas = 5 from rfl, b]; simpa using h,
      by show (builder.run d region).ospf_lsa_index = _; rw [a]; simp only [capacity]; omega⟩
  case ospf_neighs =>
    have hp := ho .ospf (by decide)
    simp only [capacity] at h hp
    obtain ⟨a, b⟩ := e6 hp
    exact ⟨by rw [show trunc_shift .ospf_neighs = 6 from rfl, b]; simpa using h,
      by show (builder.run d region).ospf_neigh_index = _; rw [a]; simp only [capacity]; omega⟩
  case bfd =>
    simp only [capacity] at h
    exact ⟨by rw [show trunc_shift .bfd = 7 from rfl, f7.2]; simpa using h,
      by show (builder.run d region).bfd_index = _; rw [f7.1]; simp only [capacity]; omega⟩
  case babel =>
    simp only [capacity] at h
    exact ⟨by rw [show trunc_shift .babel = 8 from rfl, f8.2]; simpa using h,
      by show (builder.run d region).babel_index = _; rw [f8.1]; simp only [capacity]; omega⟩
  case babel_ifaces =>
    have hp := ho .babel (by decide)
    have hn := ho .babel_neighs (by decide)
    simp only [capacity] at h hp hn
    obtain ⟨a, b⟩ := e9 hp hn
    exact ⟨by rw [show trunc_shift .babel_ifaces = 9 from rfl, b]; simpa using h,
      by show (builder.run d region).babel_iface_index = _; rw [a]; simp only [capacity]; omega⟩
  case babel_neighs =>
    have hp := ho .babel (by decide)
    have hn := ho .babel_ifaces (by decide)
    simp only [capacity] at h hp hn
    obtain ⟨a, b⟩ := e10 hp hn
    exact ⟨by rw [show trunc_shift .babel_neighs = 10 from rfl, b]; simpa using h,
      by show (builder.run d region).babel_neigh_index = _; rw [a]; simp only [capacity]; omega⟩

/-! ## Contents of the interface arrays -/

theorem arr_update_set {α : Type} (arr : List α) (i : Nat) (v : α) (f : α → α) :
    arr_update (arr.set i v) i f = arr.set i (f v) := by
  unfold arr_update
  by_cases h : i < arr.length
  · have : (arr.set i v)[i]? = some v := by
      simp [List.getElem?_set, h]
    rw [this]
    simp [List.set_set]
  · have e : arr.set i v = arr := List.set_eq_of_length_le (by omega)
    have : arr[i]? = none := List.getElem?_eq_none (by omega)
    rw [e, this]
    simp only
    exact (List.set_eq_of_length_le (by omega)).symm

theorem length_iface_records (a : Nat) (l : List iface) :
    (iface_records a l).length = l.length := by
  induction l generalizing a with
  | nil => rfl
  | cons ifa rest ih => simp [iface_records, ih]

theorem length_iface_addr_records (i : Nat) (l : List iface) :
    (iface_addr_records i l).length
      = total_of (fun _ => true) (fun i : iface => i.addrs.length) l := by
  induction l generalizing i with
  | nil => rfl
  | cons ifa rest ih => rw [total_of_cons]; simp [iface_addr_records, ih]

/-- One iteration of the interface walk, on the two arrays and their
    indices. -/
theorem iface_round_arrays (ifa : iface) (b : builder) :
    (next_iface (walk_addrs ifa.addrs (emit_iface ifa b))).snap.ifaces
      = b.snap.ifaces.set b.iface_index
          (add_addr_count (ifa.addrs.take (BIRD_SHM_MAX_IFACE_ADDRS - b.iface_addr_index)).length
            (fill_iface b.iface_addr_index ifa)) ∧
    (next_iface (walk_addrs ifa.addrs (emit_iface ifa b))).snap.iface_addrs
      = write_at b.snap.iface_addrs b.iface_addr_index
          ((ifa.addrs.take (BIRD_SHM_MAX_IFACE_ADDRS - b.iface_addr_index)).map
            (fill_iface_addr b.iface_index)) ∧
    (next_iface (walk_addrs ifa.addrs (emit_iface ifa b))).iface_index = b.iface_index + 1 ∧
    (next_iface (walk_addrs ifa.addrs (emit_iface ifa b))).iface_addr_index
      = b.iface_addr_index
        + (ifa.addrs.take (BIRD_SHM_MAX_IFACE_ADDRS - b.iface_addr_index)).length := by
  rw [walk_addrs_eq]
  refine ⟨?_, rfl, rfl, rfl⟩
  exact arr_update_set _ _ _ _

/-- Closed form of the interface walk on the two arrays when interfaces and
    addresses fit. -/
theorem walk_iface_list_arrays (l : List iface) (b : builder)
    (hi : b.iface_index + l.length ≤ BIRD_SHM_MAX_INTERFACES)
    (ha : b.iface_addr_index + total_of (fun _ => true) (fun i : iface => i.addrs.length) l
      ≤ BIRD_SHM_MAX_IFACE_ADDRS) :
    (walk_iface_list l b).snap.ifaces
      = write_at b.snap.ifaces b.iface_index (iface_records b.iface_addr_index l) ∧
    (walk_iface_list l b).snap.iface_addrs
      = write_at b.snap.iface_addrs b.iface_addr_index (iface_addr_records b.iface_index l) := by
  induction l generalizing b with
  | nil => exact ⟨rfl, rfl⟩
  | cons ifa rest ih =>
    rw [total_of_cons] at ha
    simp only [List.length_cons, if_true] at hi ha
    have hc : ¬ b.iface_index ≥ BIRD_SHM_MAX_INTERFACES := by omega
    obtain ⟨r1, r2, r3, r4⟩ := iface_round_arrays ifa b
    have ht : ifa.addrs.take (BIRD_SHM_MAX_IFACE_ADDRS - b.iface_addr_index) = ifa.addrs :=
      List.take_of_length_le (by omega)
    rw [ht] at r1 r2 r4
    unfold walk_iface_list
    rw [if_neg hc]
    have := ih (next_iface (walk_addrs ifa.addrs (emit_iface ifa b)))
      (by rw [r3]; omega) (by rw [r4]; omega)
    rw [this.1, this.2, r1, r2, r3, r4]
    refine ⟨?_, ?_⟩
    · simp only [iface_records, write_at]
      have e : add_addr_count ifa.addrs.length (fill_iface b.iface_addr_index ifa)
          = { name := strncpy (List.replicate 16 0) ifa.name 15, flags := ifa.flags,
              mtu := ifa.mtu, index := ifa.index, addr_start := b.iface_addr_index,
              addr_count := ifa.addrs.length } := by
        simp [add_addr_count, fill_iface, bird_shm_iface.zero]
      rw [e]
    · simp only [iface_addr_records]
      rw [write_at_append, List.length_map]

/-! ## Owner indices -/

theorem mem_take_iff {α : Type} (l : List α) (n : Nat) (r : α) :
    r ∈ l.take n ↔ ∃ k, k < n ∧ l[k]? = some r := by
  rw [List.mem_iff_getElem?]
  constructor
  · rintro ⟨k, hk⟩
    rw [List.getElem?_take] at hk
    by_cases h : k < n
    · exact ⟨k, h, by simpa [h] using hk⟩
    · simp [h] at hk
  · rintro ⟨k, h, hk⟩
    exact ⟨k, by rw [List.getElem?_take]; simpa [h] using hk⟩

theorem getElem?_write_at_mid_some {α : Type} (arr : List α) (i : Nat) (xs : List α) (k : Nat)
    (r : α) (hk : k < xs.length) (h : (write_at arr i xs)[i + k]? = some r) :
    xs[k]? = some r := by
  induction xs generalizing arr i k with
  | nil => simp at hk
  | cons x rest ih =>
    simp only [write_at] at h
    cases k with
    | zero =>
      simp only [Nat.add_zero] at h
      rw [getElem?_write_at_lt _ _ _ _ (Nat.lt_succ_self i)] at h
      by_cases hl : i < arr.length
      · simp [List.getElem?_set, hl] at h
        simp [h]
      · rw [List.set_eq_of_length_le (by omega), List.getElem?_eq_none (by omega)] at h
        simp at h
    | succ k =>
      rw [show i + (k + 1) = i + 1 + k by omega] at h
      simp only [List.length_cons] at hk
      simpa using ih _ _ _ (by omega) h

theorem owner_ok_zero {α : Type} (arr : List α) (key : α → Nat) (bound : Nat) :
    owner_ok arr 0 key bound := by
  intro r hr
  simp at hr

theorem owner_ok_mono {α : Type} {arr : List α} {n : Nat} {key : α → Nat} {bound bound' : Nat}
    (hb : bound ≤ bound') (h : owner_ok arr n key bound) : owner_ok arr n key bound' :=
  fun r hr => Nat.lt_of_lt_of_le (h r hr) hb

theorem owner_ok_write_at {α : Type} {arr : List α} {i : Nat} {bound : Nat} (key : α → Nat)
    (xs : List α) (h : owner_ok arr i key bound) (hx : ∀ r ∈ xs, key r < bound) :
    owner_ok (write_at arr i xs) (i + xs.length) key bound := by
  intro r hr
  rw [mem_take_iff] at hr
  obtain ⟨k, hk, hr⟩ := hr
  by_cases hlt : k < i
  · rw [getElem?_write_at_lt _ _ _ _ hlt] at hr
    exact h r ((mem_take_iff _ _ _).2 ⟨k, hlt, hr⟩)
  · have e : k = i + (k - i) := by omega
    rw [e] at hr
    have := getElem?_write_at_mid_some arr i xs (k - i) r (by omega) hr
    exact hx r (List.mem_iff_getElem?.2 ⟨_, this⟩)

theorem owner_ok_set {α : Type} {arr : List α} {i : Nat} {key : α → Nat} {bound : Nat}
    (x : α) (h : owner_ok arr i key bound) (hx : key x < bound) :
    owner_ok (arr.set i x) (i + 1) key bound := by
  have := owner_ok_write_at key [x] h (by simpa using hx)
  simpa [write_at] using this

/-! ### Addresses -/

theorem walk_iface_list_owner (l : List iface) (b : builder) (h : b.if_owner_ok) :
    (walk_iface_list l b).if_owner_ok := by
  induction l generalizing b with
  | nil => exact h
  | cons ifa rest ih =>
    unfold walk_iface_list
    split
    · exact h
    · apply ih
      obtain ⟨-, r2, r3, r4⟩ := iface_round_arrays ifa b
      unfold builder.if_owner_ok
      rw [r2, r3, r4]
      have := owner_ok_write_at (fun r : bird_shm_iface_addr => r.iface_index)
        ((ifa.addrs.take (BIRD_SHM_MAX_IFACE_ADDRS - b.iface_addr_index)).map
          (fill_iface_addr b.iface_index))
        (owner_ok_mono (Nat.le_succ _) h)
        (by
          intro r hr
          rw [List.mem_map] at hr
          obtain ⟨a, -, rfl⟩ := hr
          exact Nat.lt_succ_self _)
      rw [List.length_map] at this
      exact this

theorem run_if_owner (d : daemon) (region : bird_shm_region) :
    (builder.run d region).if_owner_ok := by
  have hv := run_if_view d region
  simp only [builder.if_view, Prod.mk.injEq] at hv
  have := walk_iface_list_owner d.iface_list (builder.init d region) (owner_ok_zero _ _ _)
  unfold builder.if_owner_ok at this ⊢
  rw [hv.1, hv.2.1, hv.2.2.2.1]
  exact this

/-! ### OSPF -/

theorem ospf_owner_congr {b b' : builder} (hv : b.ospf_view = b'.ospf_view)
    (h : b.ospf_owner_ok) : b'.ospf_owner_ok := by
  simp only [builder.ospf_view, Prod.mk.injEq] at hv
  obtain ⟨h1, h2, h3, -, h5, h6, -⟩ := hv
  unfold builder.ospf_owner_ok at h ⊢
  rw [← h1, ← h2, ← h3, ← h5, ← h6]
  exact h

theorem proto_step_ospf_owner (p : proto) (b : builder) (h : b.ospf_owner_ok) :
    (proto_step_ospf p b).ospf_owner_ok := by
  by_cases hp : proto_is p PROTOCOL_OSPF = true
  · by_cases hi : b.ospf_index ≥ BIRD_SHM_MAX_OSPF
    · have e : proto_step_ospf p b = b.set_trunc BIRD_SHM_TRUNC_OSPF := by
        simp [proto_step_ospf, hp, hi]
      rw [e]
      exact h
    · rw [proto_step_ospf_eq p b hp hi]
      unfold builder.ospf_owner_ok at h ⊢
      refine ⟨?_, ?_⟩
      · have := owner_ok_write_at (fun r : bird_shm_ospf_lsa => r.proto_index)
          (((real_lsas p.ospf.lsal).take (BIRD_SHM_MAX_OSPF_LSAS - b.ospf_lsa_index)).map
            (fill_ospf_lsa b.ospf_index))
          (owner_ok_mono (Nat.le_succ _) h.1)
          (by
            intro r hr
            rw [List.mem_map] at hr
            obtain ⟨a, -, rfl⟩ := hr
            exact Nat.lt_succ_self _)
        rw [List.length_map] at this
        exact this
      · have := owner_ok_write_at (fun r : bird_shm_ospf_neighbor => r.proto_index)
          (((ospf_neighbors p.ospf.iface_list).take
            (BIRD_SHM_MAX_OSPF_NEIGHBORS - b.ospf_neigh_index)).map
            (fun x => fill_ospf_neighbor b.ospf_index x.1 x.2))
          (owner_ok_mono (Nat.le_succ _) h.2)
          (by
            intro r hr
            rw [List.mem_map] at hr
            obtain ⟨a, -, rfl⟩ := hr
            exact Nat.lt_succ_self _)
        rw [List.length_map] at this
        exact this
  · have e : proto_step_ospf p b = b := by simp [proto_step_ospf, hp]
    rw [e]
    exact h

theorem walk_proto_list_ospf_owner (l : List proto) (b : builder) (h : b.ospf_owner_ok) :
    (walk_proto_list l b).ospf_owner_ok := by
  induction l generalizing b with
  | nil => exact h
  | cons p rest ih =>
    unfold walk_proto_list
    apply ih
    exact ospf_owner_congr (proto_step_ospf_view p b).symm
      (proto_step_ospf_owner p _ (ospf_owner_congr (pre_ospf_view p b).symm h))

theorem run_ospf_owner (d : daemon) (region : bird_shm_region) :
    (builder.run d region).ospf_owner_ok := by
  have h0 : (builder.init d region).ospf_owner_ok := ⟨owner_ok_zero _ _ _, owner_ok_zero _ _ _⟩
  exact walk_proto_list_ospf_owner d.proto_list _
    (ospf_owner_congr (run_start_views d region).2.2.1.symm h0)

/-! ### Babel -/

/-- One iteration of the Babel interface walk, on the three arrays and their
    indices. -/
theorem babel_iface_round_arrays (bi : babel_iface) (b : builder) :
    (next_babel_iface (walk_babel_neigh_list bi.neigh_list
        (emit_babel_iface bi b))).snap.babel_ifaces
      = b.snap.babel_ifaces.set b.babel_iface_index
          (add_babel_iface_neigh_count
            (bi.neigh_list.take (BIRD_SHM_MAX_BABEL_NEIGHBORS - b.babel_neigh_index)).length
            (fill_babel_iface b.babel_index b.babel_neigh_index bi)) ∧
    (next_babel_iface (walk_babel_neigh_list bi.neigh_list
        (emit_babel_iface bi b))).snap.babel_neighs
      = write_at b.snap.babel_neighs b.babel_neigh_index
          ((bi.neigh_list.take (BIRD_SHM_MAX_BABEL_NEIGHBORS - b.babel_neigh_index)).map
            (fill_babel_neighbor b.babel_iface_index)) ∧
    (next_babel_iface (walk_babel_neigh_list bi.neigh_list
        (emit_babel_iface bi b))).babel_index = b.babel_index ∧
    (next_babel_iface (walk_babel_neigh_list bi.neigh_list
        (emit_babel_iface bi b))).babel_iface_index = b.babel_iface_index + 1 ∧
    (next_babel_iface (walk_babel_neigh_list bi.neigh_list
        (emit_babel_iface bi b))).babel_neigh_index
      = b.babel_neigh_index
        + (bi.neigh_list.take (BIRD_SHM_MAX_BABEL_NEIGHBORS - b.babel_neigh_index)).length := by
  rw [walk_babel_neigh_list_eq]
  refine ⟨?_, rfl, rfl, rfl, rfl⟩
  exact arr_update_set _ _ _ _

theorem babel_iface_round_owner (bi : babel_iface) (b : builder) (h : b.babel_owner_ok 1) :
    (next_babel_iface (walk_babel_neigh_list bi.neigh_list
      (emit_babel_iface bi b))).babel_owner_ok 1 := by
  obtain ⟨r1, r2, r3, r4, r5⟩ := babel_iface_round_arrays bi b
  unfold builder.babel_owner_ok at h ⊢
  rw [r1, r2, r3, r4, r5]
  refine ⟨?_, ?_⟩
  · exact owner_ok_set _ h.1 (Nat.lt_succ_self _)
  · have := owner_ok_write_at (fun r : bird_shm_babel_neighbor => r.iface_index)
      ((bi.neigh_list.take (BIRD_SHM_MAX_BABEL_NEIGHBORS - b.babel_neigh_index)).map
        (fill_babel_neighbor b.babel_iface_index))
      (owner_ok_mono (Nat.le_succ _) h.2)
      (by
        intro r hr
        rw [List.mem_map] at hr
        obtain ⟨a, -, rfl⟩ := hr
        exact Nat.lt_succ_self _)
    rw [List.length_map] at this
    exact this

theorem walk_babel_interfaces_owner (l : List babel_iface) (b : builder)
    (h : b.babel_owner_ok 1) : (walk_babel_interfaces l b).babel_owner_ok 1 := by
  induction l generalizing b with
  | nil => exact h
  | cons bi rest ih =>
    unfold walk_babel_interfaces
    split
    · exact h
    · split
      · exact babel_iface_round_owner bi b h
      · exact ih _ (babel_iface_round_owner bi b h)

theorem babel_owner_congr {o : Nat} {b b' : builder} (hv : b.babel_view = b'.babel_view)
    (h : b.babel_owner_ok o) : b'.babel_owner_ok o := by
  simp only [builder.babel_view, Prod.mk.injEq] at hv
  obtain ⟨h1, h2, h3, -, h5, h6, -⟩ := hv
  unfold builder.babel_owner_ok at h ⊢
  rw [← h1, ← h2, ← h3, ← h5, ← h6]
  exact h

theorem proto_step_babel_owner (p : proto) (b : builder) (h : b.babel_owner_ok 0) :
    (proto_step_babel p b).babel_owner_ok 0 := by
  by_cases hp : proto_is p PROTOCOL_BABEL = true
  · by_cases hi : b.babel_index ≥ BIRD_SHM_MAX_BABEL
    · have e : proto_step_babel p b = b.set_trunc BIRD_SHM_TRUNC_BABEL := by
        simp [proto_step_babel, hp, hi]
      rw [e]
      exact h
    · have e : proto_step_babel p b
          = next_babel (walk_babel_interfaces p.babel.interfaces (emit_babel p b)) := by
        simp [proto_step_babel, hp, hi]
      rw [e]
      have h1 : (emit_babel p b).babel_owner_ok 1 :=
        ⟨owner_ok_mono (show b.babel_index + 0 ≤ b.babel_index + 1 by omega) h.1, h.2⟩
      have h2 := walk_babel_interfaces_owner p.babel.interfaces _ h1
      exact h2
  · have e : proto_step_babel p b = b := by simp [proto_step_babel, hp]
    rw [e]
    exact h

theorem walk_proto_list_babel_owner (l : List proto) (b : builder) (h : b.babel_owner_ok 0) :
    (walk_proto_list l b).babel_owner_ok 0 := by
  induction l generalizing b with
  | nil => exact h
  | cons p rest ih =>
    unfold walk_proto_list
    apply ih
    exact babel_owner_congr (proto_step_babel_view p b).symm
      (proto_step_babel_owner p _ (babel_owner_congr (pre_babel_view p b).symm h))

theorem run_babel_owner (d : daemon) (region : bird_shm_region) :
    (builder.run d region).babel_owner_ok 0 := by
  have h0 : (builder.init d region).babel_owner_ok 0 :=
    ⟨owner_ok_zero _ _ _, owner_ok_zero _ _ _⟩
  exact walk_proto_list_babel_owner d.proto_list _
    (babel_owner_congr (run_start_views d region).2.2.2.2.symm h0)

theorem owner_ok_get {α : Type} {arr : List α} {n : Nat} {key : α → Nat} {bound : Nat}
    (h : owner_ok arr n key bound) (hl : n ≤ arr.length) (k : Nat) (hk : k < n) :
    ∃ r, arr[k]? = some r ∧ key r < bound := by
  have hk2 : k < arr.length := by omega
  refine ⟨arr[k], List.getElem?_eq_getElem hk2, ?_⟩
  exact h _ ((mem_take_iff _ _ _).2 ⟨k, hk, List.getElem?_eq_getElem hk2⟩)

/-! ## Contents of the per-family arrays -/

/-- Closed form of a walk in the storing model: the records of the items
    that pass the test, in walk order, cut at what still fits. -/
theorem store_fold_eq {α β : Type} (cap : Nat) (app : α → Bool) (recs : α → List β)
    (l : List α) (i : Nat) (arr : List β) :
    l.foldl (store_step cap app recs) (i, arr)
      = (i + (((l.filter app).flatMap recs).take (cap - i)).length,
          write_at arr i (((l.filter app).flatMap recs).take (cap - i))) := by
  induction l generalizing i arr with
  | nil => simp [write_at]
  | cons x rest ih =>
    rw [List.foldl_cons]
    by_cases hx : app x = true
    · have e : store_step cap app recs (i, arr) x
          = (i + ((recs x).take (cap - i)).length,
              write_at arr i ((recs x).take (cap - i))) := by
        simp [store_step, hx]
      rw [e, ih]
      have hf : (x :: rest).filter app = x :: rest.filter app := by simp [hx]
      rw [hf, List.flatMap_cons, List.take_append_eq_append_take]
      have hk : cap - (i + ((recs x).take (cap - i)).length) = cap - i - (recs x).length := by
        rw [List.length_take]
        omega
      rw [hk, write_at_append, List.length_append, Nat.add_assoc]
    · have e : store_step cap app recs (i, arr) x = (i, arr) := by
        simp [store_step, hx]
      have hf : (x :: rest).filter app = rest.filter app := by simp [hx]
      rw [e, ih, hf]

theorem flatMap_single {α β : Type} (f : α → β) (l : List α) :
    l.flatMap (fun x => [f x]) = l.map f := by
  induction l with
  | nil => rfl
  | cons x rest ih => simp [List.flatMap_cons, ih]

theorem map_arr_update_of_eq {α β : Type} (g : α → β) (f : α → α) (arr : List α) (i : Nat)
    (h : ∀ x, g (f x) = g x) : (arr_update arr i f).map g = arr.map g := by
  unfold arr_update
  cases hv : arr[i]? with
  | none => rfl
  | some v =>
    simp only
    rw [List.map_set, h]
    exact set_getElem?_self _ _ _ (by rw [List.getElem?_map, hv]; rfl)

/-! ### BGP -/

theorem proto_step_bgp_store (p : proto) (b : builder) :
    ((proto_step p b).bgp_index, (proto_step p b).snap.bgp)
      = store_step BIRD_SHM_MAX_BGP (fun p => proto_is p PROTOCOL_BGP) (fun p => [fill_bgp p])
          (b.bgp_index, b.snap.bgp) p := by
  have h1 := proto_step_bgp_view p b
  have h2 := pre_bgp_view p b
  simp only [builder.bgp_view, Prod.mk.injEq] at h1 h2
  rw [h1.1, h1.2.1, ← h2.1, ← h2.2.1]
  generalize proto_step_generic p b = c
  by_cases hp : proto_is p PROTOCOL_BGP = true
  · by_cases h : c.bgp_index ≥ BIRD_SHM_MAX_BGP
    · have h0 : BIRD_SHM_MAX_BGP - c.bgp_index = 0 := by omega
      simp [proto_step_bgp, store_step, hp, h, h0, builder.set_trunc, write_at]
    · have h0 : BIRD_SHM_MAX_BGP - c.bgp_index = (BIRD_SHM_MAX_BGP - c.bgp_index - 1) + 1 := by
        omega
      simp only [proto_step_bgp, store_step, hp, h, if_true, if_false, emit_bgp]
      rw [h0]
      simp [write_at]
  · simp [proto_step_bgp, store_step, hp]

theorem walk_proto_list_bgp_store (l : List proto) (b : builder) :
    ((walk_proto_list l b).bgp_index, (walk_proto_list l b).snap.bgp)
      = l.foldl (store_step BIRD_SHM_MAX_BGP (fun p => proto_is p PROTOCOL_BGP)
          (fun p => [fill_bgp p])) (b.bgp_index, b.snap.bgp) := by
  induction l generalizing b with
  | nil => rfl
  | cons p rest ih =>
    rw [List.foldl_cons, ← proto_step_bgp_store, ← ih]
    rfl

/-! ### BFD -/

theorem proto_step_bfd_store (p : proto) (b : builder) :
    ((proto_step p b).bfd_index, (proto_step p b).snap.bfd)
      = store_step BIRD_SHM_MAX_BFD_SESSIONS (fun p => proto_is p PROTOCOL_BFD)
          (fun p => p.bfd.session_hash_id.map fill_bfd_session) (b.bfd_index, b.snap.bfd) p := by
  have h1 := proto_step_bfd_view p b
  have h2 := pre_bfd_view p b
  simp only [builder.bfd_view, Prod.mk.injEq] at h1 h2
  rw [h1.1, h1.2.1, ← h2.1, ← h2.2.1]
  generalize proto_step_ospf p (proto_step_bgp p (proto_step_generic p b)) = c
  by_cases hp : proto_is p PROTOCOL_BFD = true
  · simp only [proto_step_bfd, store_step, hp, if_true]
    rw [hash_walk_sessions_eq]
    simp only [List.map_take, List.length_take, List.length_map]
  · simp [proto_step_bfd, store_step, hp]

theorem walk_proto_list_bfd_store (l : List proto) (b : builder) :
    ((walk_proto_list l b).bfd_index, (walk_proto_list l b).snap.bfd)
      = l.foldl (store_step BIRD_SHM_MAX_BFD_SESSIONS (fun p => proto_is p PROTOCOL_BFD)
          (fun p => p.bfd.session_hash_id.map fill_bfd_session)) (b.bfd_index, b.snap.bfd) := by
  induction l generalizing b with
  | nil => rfl
  | cons p rest ih =>
    rw [List.foldl_cons, ← proto_step_bfd_store, ← ih]
    rfl

/-! ### OSPF -/

theorem proto_step_ospf_store (p : proto) (b : builder) :
    ((proto_step p b).ospf_index, (proto_step p b).snap.ospf.map ospf_ident)
      = store_step BIRD_SHM_MAX_OSPF (fun p => proto_is p PROTOCOL_OSPF)
          (fun p => [ospf_ident (fill_ospf 0 0 p)])
          (b.ospf_index, b.snap.ospf.map ospf_ident) p := by
  have h1 := proto_step_ospf_view p b
  have h2 := pre_ospf_view p b
  simp only [builder.ospf_view, Prod.mk.injEq] at h1 h2
  rw [h1.1, h1.2.2.2.1, ← h2.1, ← h2.2.2.2.1]
  generalize proto_step_bgp p (proto_step_generic p b) = c
  by_cases hp : proto_is p PROTOCOL_OSPF = true
  · by_cases h : c.ospf_index ≥ BIRD_SHM_MAX_OSPF
    · have h0 : BIRD_SHM_MAX_OSPF - c.ospf_index = 0 := by omega
      simp [proto_step_ospf, store_step, hp, h, h0, builder.set_trunc, write_at]
    · have h0 : BIRD_SHM_MAX_OSPF - c.ospf_index = (BIRD_SHM_MAX_OSPF - c.ospf_index - 1) + 1 := by
        omega
      rw [proto_step_ospf_eq p c hp h]
      simp only [store_step, hp, if_true]
      rw [h0]
      simp only [List.take_succ_cons, List.take_nil, List.length_singleton, write_at,
        arr_update_set, List.map_set]
      rfl
  · simp [proto_step_ospf, store_step, hp]

theorem walk_proto_list_ospf_store (l : List proto) (b : builder) :
    ((walk_proto_list l b).ospf_index, (walk_proto_list l b).snap.ospf.map ospf_ident)
      = l.foldl (store_step BIRD_SHM_MAX_OSPF (fun p => proto_is p PROTOCOL_OSPF)
          (fun p => [ospf_ident (fill_ospf 0 0 p)]))
          (b.ospf_index, b.snap.ospf.map ospf_ident) := by
  induction l generalizing b with
  | nil => rfl
  | cons p rest ih =>
    rw [List.foldl_cons, ← proto_step_ospf_store, ← ih]
    rfl

/-! ### Babel -/

theorem babel_iface_round_babel (bi : babel_iface) (b : builder) :
    ∃ k, (next_babel_iface (walk_babel_neigh_list bi.neigh_list
        (emit_babel_iface bi b))).snap.babel
      = arr_update b.snap.babel b.babel_index (add_babel_totals 1 k) := by
  rw [walk_babel_neigh_list_eq]
  exact ⟨_, rfl⟩

/-- The Babel interface walk touches the Babel array only at the record of
    the current instance, where it adds the number of interfaces it stored
    to `iface_count`. -/
theorem walk_babel_interfaces_babel (l : List babel_iface) (b : builder) :
    (∃ k, (walk_babel_interfaces l b).snap.babel
      = arr_update b.snap.babel b.babel_index
          (add_babel_totals ((walk_babel_interfaces l b).babel_iface_index - b.babel_iface_index)
            k)) ∧
    (walk_babel_interfaces l b).babel_index = b.babel_index ∧
    b.babel_iface_index ≤ (walk_babel_interfaces l b).babel_iface_index := by
  induction l generalizing b with
  | nil =>
    refine ⟨⟨0, ?_⟩, rfl, Nat.le_refl _⟩
    simp only [walk_babel_interfaces, Nat.sub_self]
    exact (arr_update_id _ _ _ (fun x => rfl)).symm
  | cons bi rest ih =>
    obtain ⟨-, -, r3, r4, -⟩ := babel_iface_round_arrays bi b
    obtain ⟨k1, hk1⟩ := babel_iface_round_babel bi b
    unfold walk_babel_interfaces
    split
    · refine ⟨⟨0, ?_⟩, rfl, Nat.le_refl _⟩
      show b.snap.babel = _
      have : (b.set_trunc BIRD_SHM_TRUNC_BABEL_IFACES).babel_iface_index - b.babel_iface_index
          = 0 := Nat.sub_self _
      rw [this]
      exact (arr_update_id _ _ _ (fun x => rfl)).symm
    · split
      · refine ⟨⟨k1, ?_⟩, r3, by rw [r4]; omega⟩
        rw [hk1, r4, Nat.add_sub_cancel_left]
      · obtain ⟨⟨k2, hk2⟩, i2, i3⟩ := ih (next_babel_iface (walk_babel_neigh_list bi.neigh_list
          (emit_babel_iface bi b)))
        rw [r4] at i3
        refine ⟨⟨k1 + k2, ?_⟩, by rw [i2, r3], by omega⟩
        rw [hk2, hk1, r3, r4, arr_update_comp]
        congr 1
        funext x
        simp only [add_babel_totals, bird_shm_babel_info.mk.injEq, true_and]
        constructor <;> omega

/-- The Babel block of an iteration that stores a Babel record, on the
    Babel array. -/
theorem proto_step_babel_array (p : proto) (b : builder)
    (hp : proto_is p PROTOCOL_BABEL = true) (hi : ¬ b.babel_index ≥ BIRD_SHM_MAX_BABEL) :
    ∃ k, (proto_step_babel p b).snap.babel
      = b.snap.babel.set b.babel_index
          (add_babel_totals ((proto_step_babel p b).babel_iface_index - b.babel_iface_index) k
            (fill_babel b.babel_iface_index p)) := by
  have e : proto_step_babel p b
      = next_babel (walk_babel_interfaces p.babel.interfaces (emit_babel p b)) := by
    simp [proto_step_babel, hp, hi]
  obtain ⟨⟨k, hk⟩, -, -⟩ := walk_babel_interfaces_babel p.babel.interfaces (emit_babel p b)
  refine ⟨k, ?_⟩
  rw [e]
  show (walk_babel_interfaces p.babel.interfaces (emit_babel p b)).snap.babel = _
  rw [hk]
  exact arr_update_set _ _ _ _

theorem proto_step_babel_store (p : proto) (b : builder) :
    ((proto_step p b).babel_index, (proto_step p b).snap.babel.map babel_ident)
      = store_step BIRD_SHM_MAX_BABEL (fun p => proto_is p PROTOCOL_BABEL)
          (fun p => [babel_ident (fill_babel 0 p)])
          (b.babel_index, b.snap.babel.map babel_ident) p := by
  have h1 := proto_step_babel_view p b
  have h2 := pre_babel_view p b
  simp only [builder.babel_view, Prod.mk.injEq] at h1 h2
  rw [h1.1, h1.2.2.2.1, ← h2.1, ← h2.2.2.2.1]
  generalize proto_step_bfd p (proto_step_ospf p (proto_step_bgp p (proto_step_generic p b))) = c
  by_cases hp : proto_is p PROTOCOL_BABEL = true
  · by_cases h : c.babel_index ≥ BIRD_SHM_MAX_BABEL
    · have h0 : BIRD_SHM_MAX_BABEL - c.babel_index = 0 := by omega
      simp [proto_step_babel, store_step, hp, h, h0, builder.set_trunc, write_at]
    · have h0 : BIRD_SHM_MAX_BABEL - c.babel_index
          = (BIRD_SHM_MAX_BABEL - c.babel_index - 1) + 1 := by omega
      obtain ⟨k, hk⟩ := proto_step_babel_array p c hp h
      have hidx : (proto_step_babel p c).babel_index = c.babel_index + 1 := by
        have e : proto_step_babel p c
            = next_babel (walk_babel_interfaces p.babel.interfaces (emit_babel p c)) := by
          simp [proto_step_babel, hp, h]
        rw [e]
        show (walk_babel_interfaces p.babel.interfaces (emit_babel p c)).babel_index + 1 = _
        rw [(walk_babel_interfaces_babel p.babel.interfaces (emit_babel p c)).2.1]
        rfl
      rw [hk, hidx]
      simp only [store_step, hp, if_true]
      rw [h0]
      simp only [List.take_succ_cons, List.take_nil, List.length_singleton, write_at,
        List.map_set]
      rfl
  · simp [proto_step_babel, store_step, hp]

theorem walk_proto_list_babel_store (l : List proto) (b : builder) :
    ((walk_proto_list l b).babel_index, (walk_proto_list l b).snap.babel.map babel_ident)
      = l.foldl (store_step BIRD_SHM_MAX_BABEL (fun p => proto_is p PROTOCOL_BABEL)
          (fun p => [babel_ident (fill_babel 0 p)]))
          (b.babel_index, b.snap.babel.map babel_ident) := by
  induction l generalizing b with
  | nil => rfl
  | cons p rest ih =>
    rw [List.foldl_cons, ← proto_step_babel_store, ← ih]
    rfl

/-- A walk in the storing model that starts at index 0 of an array of `cap`
    slots: the index ends at the number of records clamped to `cap`, and the
    slots below it hold the first `cap` records in walk order. -/
theorem store_fold_take {α β : Type} (cap : Nat) (app : α → Bool) (recs : α → List β)
    (l : List α) (zeros : List β) (hz : zeros.length = cap) :
    (l.foldl (store_step cap app recs) (0, zeros)).1
      = min ((l.filter app).flatMap recs).length cap ∧
    (l.foldl (store_step cap app recs) (0, zeros)).2.take
        (l.foldl (store_step cap app recs) (0, zeros)).1
      = ((l.filter app).flatMap recs).take cap := by
  rw [store_fold_eq]
  simp only [Nat.sub_zero, Nat.zero_add, List.length_take]
  refine ⟨Nat.min_comm _ _, ?_⟩
  have := take_write_at_full zeros 0 (((l.filter app).flatMap recs).take cap)
    (by rw [List.length_take, hz]; omega)
  rw [List.length_take, Nat.zero_add] at this
  simpa using this

/-! ### Interface counts of the Babel records -/

theorem total_of_one {α : Type} (app : α → Bool) (l : List α) :
    total_of app (fun _ => 1) l = (l.filter app).length := by
  unfold total_of
  exact map_one_sum _

/-- Every BGP instance is a protocol instance: the BGP array cannot
    overflow alone, since 513 BGP instances are 513 protocol instances. -/
theorem sources_bgp_le_protos (d : daemon) : sources d .bgp ≤ sources d .protos := by
  show total_of (fun p => proto_is p PROTOCOL_BGP) (fun _ => 1) d.proto_list
    ≤ d.proto_list.length
  rw [total_of_one]
  exact List.length_filter_le _ _

/-! ### Interfaces kept when the neighbour array overflows -/

theorem babel_ifaces_kept_fit (l : List babel_iface) (n : Nat)
    (h : n + total_of (fun _ => true) (fun bi : babel_iface => bi.neigh_list.length) l
      ≤ BIRD_SHM_MAX_BABEL_NEIGHBORS) :
    babel_ifaces_kept n l = l.length := by
  induction l generalizing n with
  | nil => simp [babel_ifaces_kept]
  | cons bi rest ih =>
    rw [babel_neigh_total_cons] at h
    unfold babel_ifaces_kept
    rw [if_neg (by omega), ih _ (by omega)]
    simp only [List.length_cons]
    omega

theorem iface_addr_records_cons (i : Nat) (ifa : iface) (l : List iface) :
    iface_addr_records i (ifa :: l)
      = ifa.addrs.map (fill_iface_addr i) ++ iface_addr_records (i + 1) l := rfl

/-- Closed form of the interface walk, truncation included: the interface
    records of the interfaces that fit the interface array, and of their
    address records, in order, those that fit the address array. -/
theorem walk_iface_list_general (l : List iface) (b : builder) :
    (walk_iface_list l b).snap.ifaces
      = write_at b.snap.ifaces b.iface_index
          ((iface_records_trunc b.iface_addr_index l).take
            (BIRD_SHM_MAX_INTERFACES - b.iface_index)) ∧
    (walk_iface_list l b).snap.iface_addrs
      = write_at b.snap.iface_addrs b.iface_addr_index
          ((iface_addr_records b.iface_index
            (l.take (BIRD_SHM_MAX_INTERFACES - b.iface_index))).take
            (BIRD_SHM_MAX_IFACE_ADDRS - b.iface_addr_index)) ∧
    (walk_iface_list l b).iface_index
      = b.iface_index + (l.take (BIRD_SHM_MAX_INTERFACES - b.iface_index)).length ∧
    (walk_iface_list l b).iface_addr_index
      = b.iface_addr_index
        + ((iface_addr_records b.iface_index
            (l.take (BIRD_SHM_MAX_INTERFACES - b.iface_index))).take
            (BIRD_SHM_MAX_IFACE_ADDRS - b.iface_addr_index)).length ∧
    (walk_iface_list l b).bit 1
      = (b.bit 1 || decide (BIRD_SHM_MAX_IFACE_ADDRS - b.iface_addr_index
          < (iface_addr_records b.iface_index
              (l.take (BIRD_SHM_MAX_INTERFACES - b.iface_index))).length)) := by
  induction l generalizing b with
  | nil => simp [walk_iface_list, iface_records_trunc, iface_addr_records, write_at]
  | cons ifa rest ih =>
    unfold walk_iface_list
    by_cases hc : b.iface_index ≥ BIRD_SHM_MAX_INTERFACES
    · have h0 : BIRD_SHM_MAX_INTERFACES - b.iface_index = 0 := by omega
      rw [if_pos hc, h0]
      simp [builder.set_trunc, builder.bit, iface_addr_records, write_at, -Nat.testBit_zero]
    · rw [if_neg hc]
      obtain ⟨r1, r2, r3, r4⟩ := iface_round_arrays ifa b
      have r5 := (iface_round_counts ifa b hc).2
      simp only [nested_step, if_true, if_neg hc, Prod.mk.injEq] at r5
      obtain ⟨i1, i2, i3, i4, i5⟩ := ih (next_iface (walk_addrs ifa.addrs (emit_iface ifa b)))
      rw [r1, r3, r4] at i1
      rw [r2, r3, r4] at i2
      rw [r3] at i3
      rw [r3, r4] at i4
      rw [r3, r4, r5.2.2] at i5
      have hlen : (ifa.addrs.take (BIRD_SHM_MAX_IFACE_ADDRS - b.iface_addr_index)).length
          = min ifa.addrs.length (BIRD_SHM_MAX_IFACE_ADDRS - b.iface_addr_index) := by
        rw [List.length_take]; exact Nat.min_comm _ _
      have hk : BIRD_SHM_MAX_IFACE_ADDRS
          - (b.iface_addr_index + min ifa.addrs.length
              (BIRD_SHM_MAX_IFACE_ADDRS - b.iface_addr_index))
          = BIRD_SHM_MAX_IFACE_ADDRS - b.iface_addr_index - ifa.addrs.length := by omega
      have ht : (ifa :: rest).take (BIRD_SHM_MAX_INTERFACES - b.iface_index)
          = ifa :: rest.take (BIRD_SHM_MAX_INTERFACES - (b.iface_index + 1)) :=
        take_cap_cons hc ifa rest
      rw [hlen] at i1 i2 i4 i5
      rw [hk] at i2 i4 i5
      have happ : (iface_addr_records b.iface_index
            (ifa :: rest.take (BIRD_SHM_MAX_INTERFACES - (b.iface_index + 1)))).take
            (BIRD_SHM_MAX_IFACE_ADDRS - b.iface_addr_index)
          = (ifa.addrs.take (BIRD_SHM_MAX_IFACE_ADDRS - b.iface_addr_index)).map
              (fill_iface_addr b.iface_index)
            ++ (iface_addr_records (b.iface_index + 1)
                (rest.take (BIRD_SHM_MAX_INTERFACES - (b.iface_index + 1)))).take
                (BIRD_SHM_MAX_IFACE_ADDRS - b.iface_addr_index - ifa.addrs.length) := by
        rw [iface_addr_records_cons, List.take_append_eq_append_take, List.length_map,
          List.map_take]
      refine ⟨?_, ?_, ?_, ?_, ?_⟩
      · rw [i1]
        simp only [iface_records_trunc]
        rw [take_cap_cons hc]
        rfl
      · rw [i2, ht, happ, write_at_append, List.length_map, hlen]
      · rw [i3, ht, List.length_cons]
        omega
      · rw [i4, ht, happ, List.length_append, List.length_map, hlen]
        omega
      · rw [i5, ht, iface_addr_records_cons, List.length_append, List.length_map]
        by_cases h1 : BIRD_SHM_MAX_IFACE_ADDRS - b.iface_addr_index < ifa.addrs.length
        · have h2 : BIRD_SHM_MAX_IFACE_ADDRS - b.iface_addr_index
              < ifa.addrs.length + (iface_addr_records (b.iface_index + 1)
                  (rest.take (BIRD_SHM_MAX_INTERFACES - (b.iface_index + 1)))).length := by
            omega
          simp [h1, h2]
        · have h3 : (BIRD_SHM_MAX_IFACE_ADDRS - b.iface_addr_index - ifa.addrs.length
                < (iface_addr_records (b.iface_index + 1)
                    (rest.take (BIRD_SHM_MAX_INTERFACES - (b.iface_index + 1)))).length)
              ↔ (BIRD_SHM_MAX_IFACE_ADDRS - b.iface_addr_index
                < ifa.addrs.length + (iface_addr_records (b.iface_index + 1)
                    (rest.take (BIRD_SHM_MAX_INTERFACES - (b.iface_index + 1)))).length) := by
            omega
          simp [h1, h3]

/-- The interface walk of the whole function, from the cleared snapshot. -/
theorem run_iface_general (d : daemon) (region : bird_shm_region) :
    (builder.run d region).snap.ifaces
      = write_at (List.replicate BIRD_SHM_MAX_INTERFACES bird_shm_iface.zero) 0
          ((iface_records_trunc 0 d.iface_list).take BIRD_SHM_MAX_INTERFACES) ∧
    (builder.run d region).snap.iface_addrs
      = write_at (List.replicate BIRD_SHM_MAX_IFACE_ADDRS bird_shm_iface_addr.zero) 0
          ((iface_addr_records 0 (d.iface_list.take BIRD_SHM_MAX_INTERFACES)).take
            BIRD_SHM_MAX_IFACE_ADDRS) ∧
    (builder.run d region).snap.iface_count
      = (d.iface_list.take BIRD_SHM_MAX_INTERFACES).length ∧
    (builder.run d region).snap.iface_addr_count
      = ((iface_addr_records 0 (d.iface_list.take BIRD_SHM_MAX_INTERFACES)).take
          BIRD_SHM_MAX_IFACE_ADDRS).length ∧
    (builder.run d region).bit 1
      = decide (BIRD_SHM_MAX_IFACE_ADDRS
          < (iface_addr_records 0 (d.iface_list.take BIRD_SHM_MAX_INTERFACES)).length) := by
  have hv := run_if_view d region
  simp only [builder.if_view, Prod.mk.injEq] at hv
  obtain ⟨v1, v2, v3, v4, -, v6⟩ := hv
  obtain ⟨g1, g2, g3, g4, g5⟩ := walk_iface_list_general d.iface_list (builder.init d region)
  have c0 := run_count d region .ifaces
  have c1 := run_count d region .iface_addrs
  simp only [bird_shm_snapshot.count, builder.idx] at c0 c1
  have e0 : (builder.init d region).iface_index = 0 := rfl
  have e1 : (builder.init d region).iface_addr_index = 0 := rfl
  have e2 : (builder.init d region).snap.ifaces
      = List.replicate BIRD_SHM_MAX_INTERFACES bird_shm_iface.zero := rfl
  have e3 : (builder.init d region).snap.iface_addrs
      = List.replicate BIRD_SHM_MAX_IFACE_ADDRS bird_shm_iface_addr.zero := rfl
  have e4 : (builder.init d region).bit 1 = false := by
    simp [builder.bit, builder.init, bird_shm_snapshot.zero]
  rw [e0, e1, e2, Nat.sub_zero] at g1
  rw [e0, e1, e3, Nat.sub_zero, Nat.sub_zero] at g2
  rw [e0, Nat.sub_zero, Nat.zero_add] at g3
  rw [e0, e1, Nat.sub_zero, Nat.sub_zero, Nat.zero_add] at g4
  rw [e0, e1, e4, Nat.sub_zero, Nat.sub_zero, Bool.false_or] at g5
  exact ⟨v3.trans g1, v4.trans g2, c0.trans (v1.trans g3), c1.trans (v2.trans g4),
    v6.trans g5⟩

/-! ## Address ranges of the interface records -/

theorem iface_records_trunc_cons (a : Nat) (ifa : iface) (l : List iface) :
    iface_records_trunc a (ifa :: l)
      = add_addr_count (min ifa.addrs.length (BIRD_SHM_MAX_IFACE_ADDRS - a)) (fill_iface a ifa)
        :: iface_records_trunc (a + min ifa.addrs.length (BIRD_SHM_MAX_IFACE_ADDRS - a)) l :=
  rfl

theorem add_fill_addr_start (k a : Nat) (ifa : iface) :
    (add_addr_count k (fill_iface a ifa)).addr_start = a := rfl

theorem add_fill_addr_count (k a : Nat) (ifa : iface) :
    (add_addr_count k (fill_iface a ifa)).addr_count = k := by
  simp [add_addr_count, fill_iface]

theorem length_iface_records_trunc (a : Nat) (l : List iface) :
    (iface_records_trunc a l).length = l.length := by
  induction l generalizing a with
  | nil => rfl
  | cons ifa rest ih => simp [iface_records_trunc, ih]

theorem iface_records_trunc_start_ge (l : List iface) (a : Nat) (r : bird_shm_iface)
    (h : r ∈ iface_records_trunc a l) : a ≤ r.addr_start := by
  induction l generalizing a with
  | nil => simp [iface_records_trunc] at h
  | cons ifa rest ih =>
    rw [iface_records_trunc_cons, List.mem_cons] at h
    rcases h with h | h
    · rw [h, add_fill_addr_start]
    · have := ih _ h
      omega

theorem iface_addr_records_index_ge (l : List iface) (i : Nat) (r : bird_shm_iface_addr)
    (h : r ∈ iface_addr_records i l) : i ≤ r.iface_index := by
  induction l generalizing i with
  | nil => simp [iface_addr_records] at h
  | cons ifa rest ih =>
    rw [iface_addr_records_cons, List.mem_append] at h
    rcases h with h | h
    · rw [List.mem_map] at h
      obtain ⟨x, -, rfl⟩ := h
      exact Nat.le_refl _
    · have := ih _ h
      omega

/-- The first interface record starts at the first free address slot. -/
theorem iface_records_trunc_head (l : List iface) (a n : Nat) (r : bird_shm_iface)
    (h : ((iface_records_trunc a l).take n)[0]? = some r) : r.addr_start = a := by
  cases l with
  | nil => simp [iface_records_trunc] at h
  | cons ifa rest =>
    cases n with
    | zero => simp at h
    | succ n =>
      rw [iface_records_trunc_cons, List.take_succ_cons, List.getElem?_cons_zero] at h
      injection h with h
      rw [← h, add_fill_addr_start]

/-- Each interface record starts where the previous one ends. -/
theorem iface_records_trunc_next (l : List iface) (a n i : Nat) (r r' : bird_shm_iface)
    (h : ((iface_records_trunc a l).take n)[i]? = some r)
    (h' : ((iface_records_trunc a l).take n)[i + 1]? = some r') :
    r'.addr_start = r.addr_start + r.addr_count := by
  induction l generalizing a n i with
  | nil => simp [iface_records_trunc] at h
  | cons ifa rest ih =>
    cases n with
    | zero => simp at h
    | succ n =>
      rw [iface_records_trunc_cons, List.take_succ_cons] at h h'
      rw [List.getElem?_cons_succ] at h'
      cases i with
      | zero =>
        rw [List.getElem?_cons_zero] at h
        injection h with h
        rw [← h, add_fill_addr_start, add_fill_addr_count]
        exact iface_records_trunc_head _ _ _ _ h'
      | succ i =>
        rw [List.getElem?_cons_succ] at h
        exact ih _ _ _ h h'

/-- The last interface record ends at the last address slot taken. -/
theorem iface_records_trunc_last (l : List iface) (a n i0 : Nat) (r : bird_shm_iface)
    (h : ((iface_records_trunc a l).take n)[((iface_records_trunc a l).take n).length - 1]?
      = some r) :
    r.addr_start + r.addr_count
      = a + ((iface_addr_records i0 (l.take n)).take (BIRD_SHM_MAX_IFACE_ADDRS - a)).length := by
  induction l generalizing a n i0 with
  | nil => simp [iface_records_trunc] at h
  | cons ifa rest ih =>
    cases n with
    | zero => simp at h
    | succ n =>
      rw [iface_records_trunc_cons, List.take_succ_cons] at h
      rw [List.take_succ_cons, iface_addr_records_cons, List.take_append_eq_append_take,
        List.length_append, List.length_take, List.length_map]
      have hk : BIRD_SHM_MAX_IFACE_ADDRS
          - (a + min ifa.addrs.length (BIRD_SHM_MAX_IFACE_ADDRS - a))
          = BIRD_SHM_MAX_IFACE_ADDRS - a - ifa.addrs.length := by omega
      by_cases he : (iface_records_trunc
          (a + min ifa.addrs.length (BIRD_SHM_MAX_IFACE_ADDRS - a)) rest).take n = []
      · rw [he] at h
        simp only [List.length_singleton, Nat.sub_self, List.getElem?_cons_zero] at h
        injection h with h
        have hr : rest.take n = [] := by
          have := congrArg List.length he
          rw [List.length_take, length_iface_records_trunc] at this
          exact List.eq_nil_of_length_eq_zero (by rw [List.length_take]; simpa using this)
        rw [← h, add_fill_addr_start, add_fill_addr_count, hr]
        simp [iface_addr_records]
        omega
      · have hpos : 0 < ((iface_records_trunc
            (a + min ifa.addrs.length (BIRD_SHM_MAX_IFACE_ADDRS - a)) rest).take n).length :=
          List.length_pos.2 he
        rw [List.length_cons, Nat.add_sub_cancel] at h
        have e : ((iface_records_trunc
            (a + min ifa.addrs.length (BIRD_SHM_MAX_IFACE_ADDRS - a)) rest).take n).length
            = (((iface_records_trunc
              (a + min ifa.addrs.length (BIRD_SHM_MAX_IFACE_ADDRS - a)) rest).take n).length - 1)
              + 1 := by omega
        rw [e, List.getElem?_cons_succ] at h
        have := ih _ _ (i0 + 1) h
        rw [hk] at this
        rw [this]
        omega

/-- An address record carries the position of an interface exactly when its
    slot lies in the range of that interface. -/
theorem iface_owner_iff (l : List iface) (a n i0 j i : Nat) (x : bird_shm_iface_addr)
    (r : bird_shm_iface)
    (hx : ((iface_addr_records i0 (l.take n)).take (BIRD_SHM_MAX_IFACE_ADDRS - a))[j]?
      = some x)
    (hr : ((iface_records_trunc a l).take n)[i]? = some r) :
    x.iface_index = i0 + i ↔ r.addr_start ≤ a + j ∧ a + j < r.addr_start + r.addr_count := by
  induction l generalizing a n i0 j i with
  | nil => simp [iface_records_trunc] at hr
  | cons ifa rest ih =>
    cases n with
    | zero => simp at hr
    | succ n =>
      rw [iface_records_trunc_cons, List.take_succ_cons] at hr
      rw [List.take_succ_cons, iface_addr_records_cons, List.take_append_eq_append_take,
        List.length_map] at hx
      have hlen : ((ifa.addrs.map (fill_iface_addr i0)).take
          (BIRD_SHM_MAX_IFACE_ADDRS - a)).length
          = min ifa.addrs.length (BIRD_SHM_MAX_IFACE_ADDRS - a) := by
        rw [List.length_take, List.length_map]; exact Nat.min_comm _ _
      by_cases hj : j < ((ifa.addrs.map (fill_iface_addr i0)).take
          (BIRD_SHM_MAX_IFACE_ADDRS - a)).length
      · rw [List.getElem?_append_left hj] at hx
        have hmem : x ∈ ifa.addrs.map (fill_iface_addr i0) :=
          List.mem_of_mem_take (List.mem_iff_getElem?.2 ⟨_, hx⟩)
        rw [List.mem_map] at hmem
        obtain ⟨y, -, rfl⟩ := hmem
        rw [hlen] at hj
        cases i with
        | zero =>
          rw [List.getElem?_cons_zero] at hr
          injection hr with hr
          rw [← hr, add_fill_addr_start, add_fill_addr_count]
          constructor
          · intro _
            exact ⟨by omega, by omega⟩
          · intro _
            rfl
        | succ i =>
          rw [List.getElem?_cons_succ] at hr
          have hge := iface_records_trunc_start_ge _ _ _
            (List.mem_of_mem_take (List.mem_iff_getElem?.2 ⟨_, hr⟩))
          constructor
          · intro h
            have : (fill_iface_addr i0 y).iface_index = i0 := rfl
            omega
          · intro h
            omega
      · rw [List.getElem?_append_right (by omega)] at hx
        have hfit : ifa.addrs.length ≤ BIRD_SHM_MAX_IFACE_ADDRS - a := by
          by_contra hc
          have h0 : BIRD_SHM_MAX_IFACE_ADDRS - a - ifa.addrs.length = 0 := by omega
          rw [h0] at hx
          simp at hx
        rw [hlen] at hx hj
        have hmin : min ifa.addrs.length (BIRD_SHM_MAX_IFACE_ADDRS - a) = ifa.addrs.length := by
          omega
        rw [hmin] at hx hj hr
        have hk : BIRD_SHM_MAX_IFACE_ADDRS - a - ifa.addrs.length
            = BIRD_SHM_MAX_IFACE_ADDRS - (a + ifa.addrs.length) := by omega
        rw [hk] at hx
        cases i with
        | zero =>
          rw [List.getElem?_cons_zero] at hr
          injection hr with hr
          rw [← hr, add_fill_addr_start, add_fill_addr_count]
          have hge := iface_addr_records_index_ge _ _ _
            (List.mem_of_mem_take (List.mem_iff_getElem?.2 ⟨_, hx⟩))
          constructor
          · intro h
            omega
          · intro h
            omega
        | succ i =>
          rw [List.getElem?_cons_succ] at hr
          have := ih _ _ _ _ _ hx hr
          rw [show i0 + (i + 1) = i0 + 1 + i by omega, this]
          have e : a + ifa.addrs.length + (j - ifa.addrs.length) = a + j := by omega
          rw [e]

theorem getElem?_write_at_zero {α : Type} (arr xs : List α) (i : Nat) (hi : i < xs.length)
    (hlen : xs.length ≤ arr.length) : (write_at arr 0 xs)[i]? = xs[i]? := by
  have := getElem?_write_at_mid arr 0 xs i hi (by omega)
  rwa [Nat.zero_add] at this

/-! ## OSPF instances one at a time -/

theorem real_lsas_idem (l : List top_hash_entry) : real_lsas (real_lsas l) = real_lsas l := by
  simp [real_lsas, List.filter_filter]

/-- The LSA walk over a database is the walk over its real entries. -/
theorem walk_lsal_real (l : List top_hash_entry) (b : builder) :
    walk_lsal (real_lsas l) b = walk_lsal l b := by
  rw [walk_lsal_eq, walk_lsal_eq, real_lsas_idem]

theorem proto_step_strip (p : proto) (b : builder) :
    proto_step { p with ospf := { p.ospf with lsal := real_lsas p.ospf.lsal } } b
      = proto_step p b := by
  have e : ∀ c : builder,
      proto_step_ospf { p with ospf := { p.ospf with lsal := real_lsas p.ospf.lsal } } c
        = proto_step_ospf p c := by
    intro c
    unfold proto_step_ospf
    have h1 : proto_is { p with ospf := { p.ospf with lsal := real_lsas p.ospf.lsal } }
        PROTOCOL_OSPF = proto_is p PROTOCOL_OSPF := rfl
    rw [h1]
    split
    · split
      · rfl
      · show next_ospf (walk_ospf_iface_list p.ospf.iface_list (clear_neigh_trunc
          (walk_lsal (real_lsas p.ospf.lsal) (emit_ospf p c)))) = _
        rw [walk_lsal_real]
    · rfl
  unfold proto_step
  have g : proto_step_bgp { p with ospf := { p.ospf with lsal := real_lsas p.ospf.lsal } }
      (proto_step_generic { p with ospf := { p.ospf with lsal := real_lsas p.ospf.lsal } } b)
      = proto_step_bgp p (proto_step_generic p b) := rfl
  rw [g, e]
  rfl

theorem walk_proto_list_strip (l : List proto) (b : builder) :
    walk_proto_list
        (l.map (fun p => { p with ospf := { p.ospf with lsal := real_lsas p.ospf.lsal } })) b
      = walk_proto_list l b := by
  induction l generalizing b with
  | nil => rfl
  | cons p rest ih =>
    rw [List.map_cons]
    unfold walk_proto_list
    rw [proto_step_strip, ih]

/-- Placeholder entries leave no trace: the builder ends in the same state
    with and without them. -/
theorem run_strip (d : daemon) (region : bird_shm_region) :
    builder.run (strip_placeholders d) region = builder.run d region := by
  unfold builder.run strip_placeholders
  simp only
  rw [walk_proto_list_strip]
  rfl

theorem walk_proto_list_append (l1 l2 : List proto) (b : builder) :
    walk_proto_list (l1 ++ l2) b = walk_proto_list l2 (walk_proto_list l1 b) := by
  induction l1 generalizing b with
  | nil => rfl
  | cons p rest ih =>
    show walk_proto_list (rest ++ l2) (proto_step p b)
      = walk_proto_list l2 (walk_proto_list rest (proto_step p b))
    exact ih _

/-- One iteration of the protocol walk that stores an OSPF record, on the
    OSPF array, the LSA array and their indices. -/
theorem proto_step_ospf_arrays (p : proto) (b : builder)
    (hp : proto_is p PROTOCOL_OSPF = true) (hi : ¬ b.ospf_index ≥ BIRD_SHM_MAX_OSPF) :
    (proto_step p b).snap.ospf
      = b.snap.ospf.set b.ospf_index
          (add_ospf_neigh_count
            ((ospf_neighbors p.ospf.iface_list).take
              (BIRD_SHM_MAX_OSPF_NEIGHBORS - b.ospf_neigh_index)).length
            (add_lsa_count
              ((real_lsas p.ospf.lsal).take (BIRD_SHM_MAX_OSPF_LSAS - b.ospf_lsa_index)).length
              (fill_ospf b.ospf_lsa_index b.ospf_neigh_index p))) ∧
    (proto_step p b).snap.ospf_lsas
      = write_at b.snap.ospf_lsas b.ospf_lsa_index
          (((real_lsas p.ospf.lsal).take (BIRD_SHM_MAX_OSPF_LSAS - b.ospf_lsa_index)).map
            (fill_ospf_lsa b.ospf_index)) ∧
    (proto_step p b).ospf_index = b.ospf_index + 1 ∧
    (proto_step p b).ospf_lsa_index
      = b.ospf_lsa_index
        + ((real_lsas p.ospf.lsal).take (BIRD_SHM_MAX_OSPF_LSAS - b.ospf_lsa_index)).length := by
  have h1 := proto_step_ospf_view p b
  have h2 := pre_ospf_view p b
  simp only [builder.ospf_view, Prod.mk.injEq] at h1 h2
  obtain ⟨a1, a2, a3, a4, a5, -⟩ := h1
  obtain ⟨c1, c2, c3, c4, c5, -⟩ := h2
  have hi' : ¬ (proto_step_bgp p (proto_step_generic p b)).ospf_index ≥ BIRD_SHM_MAX_OSPF := by
    rw [c1]; exact hi
  rw [proto_step_ospf_eq p _ hp hi'] at a1 a2 a4 a5
  simp only at a1 a2 a4 a5
  rw [c1, c2, c3, c4, arr_update_set] at a4
  rw [c1, c2, c5] at a5
  rw [c1] at a1
  rw [c2] at a2
  exact ⟨a4, a5, a1, a2⟩

/-- One iteration of the protocol walk that stores no OSPF record leaves
    the OSPF array, the LSA array and their indices alone. -/
theorem proto_step_ospf_skip (p : proto) (b : builder)
    (h : proto_is p PROTOCOL_OSPF = false ∨ b.ospf_index ≥ BIRD_SHM_MAX_OSPF) :
    (proto_step p b).snap.ospf = b.snap.ospf ∧
    (proto_step p b).snap.ospf_lsas = b.snap.ospf_lsas ∧
    (proto_step p b).ospf_index = b.ospf_index ∧
    (proto_step p b).ospf_lsa_index = b.ospf_lsa_index := by
  have h1 := proto_step_ospf_view p b
  have h2 := pre_ospf_view p b
  simp only [builder.ospf_view, Prod.mk.injEq] at h1 h2
  obtain ⟨a1, a2, a3, a4, a5, -⟩ := h1
  obtain ⟨c1, c2, c3, c4, c5, -⟩ := h2
  have e : proto_step_ospf p (proto_step_bgp p (proto_step_generic p b))
      = proto_step_bgp p (proto_step_generic p b) ∨
      proto_step_ospf p (proto_step_bgp p (proto_step_generic p b))
      = (proto_step_bgp p (proto_step_generic p b)).set_trunc BIRD_SHM_TRUNC_OSPF := by
    unfold proto_step_ospf
    rcases h with h | h
    · left; simp [h]
    · by_cases hp : proto_is p PROTOCOL_OSPF = true
      · right
        rw [if_pos hp, if_pos (by rw [c1]; exact h)]
      · left; simp [hp]
  rcases e with e | e
  · rw [e] at a1 a2 a4 a5
    exact ⟨a4.trans c4, a5.trans c5, a1.trans c1, a2.trans c2⟩
  · rw [e] at a1 a2 a4 a5
    exact ⟨a4.trans c4, a5.trans c5, a1.trans c1, a2.trans c2⟩

/-- The protocol walk never moves the OSPF and LSA indices back and never
    rewrites a slot below them. -/
theorem walk_proto_list_ospf_stable (l : List proto) (b : builder) :
    b.ospf_index ≤ (walk_proto_list l b).ospf_index ∧
    b.ospf_lsa_index ≤ (walk_proto_list l b).ospf_lsa_index ∧
    (∀ i, i < b.ospf_index → (walk_proto_list l b).snap.ospf[i]? = b.snap.ospf[i]?) ∧
    (∀ k, k < b.ospf_lsa_index →
      (walk_proto_list l b).snap.ospf_lsas[k]? = b.snap.ospf_lsas[k]?) := by
  induction l generalizing b with
  | nil => exact ⟨Nat.le_refl _, Nat.le_refl _, fun _ _ => rfl, fun _ _ => rfl⟩
  | cons p rest ih =>
    unfold walk_proto_list
    obtain ⟨i1, i2, i3, i4⟩ := ih (proto_step p b)
    by_cases hk : proto_is p PROTOCOL_OSPF = true ∧ ¬ b.ospf_index ≥ BIRD_SHM_MAX_OSPF
    · obtain ⟨s1, s2, s3, s4⟩ := proto_step_ospf_arrays p b hk.1 hk.2
      refine ⟨by omega, by omega, ?_, ?_⟩
      · intro i hi
        rw [i3 i (by omega), s1, List.getElem?_set_ne (by omega)]
      · intro k hk'
        rw [i4 k (by omega), s2, getElem?_write_at_lt _ _ _ _ hk']
    · obtain ⟨s1, s2, s3, s4⟩ := proto_step_ospf_skip p b (by
        by_cases hp : proto_is p PROTOCOL_OSPF = true
        · right
          by_contra hc
          exact hk ⟨hp, hc⟩
        · left
          simpa using hp)
      refine ⟨by omega, by omega, ?_, ?_⟩
      · intro i hi
        rw [i3 i (by omega), s1]
      · intro k hk'
        rw [i4 k (by omega), s2]

/-- In the nested counting model the truncation bit of the child array ends
    set exactly when it was set before or some item that is stored as a
    parent record brings more child records than are left. -/
theorem nested_fold_bit_iff {α : Type} (pcap ccap : Nat) (app : α → Bool) (w : α → Nat)
    (l : List α) (s : Nat × Nat × Bool) :
    (l.foldl (nested_step pcap ccap app w) s).2.2 = true ↔
      s.2.2 = true ∨ ∃ pre x post, l = pre ++ x :: post ∧ app x = true ∧
        (pre.foldl (nested_step pcap ccap app w) s).1 < pcap ∧
        ccap - (pre.foldl (nested_step pcap ccap app w) s).2.1 < w x := by
  induction l generalizing s with
  | nil =>
    simp only [List.foldl_nil]
    constructor
    · intro h; exact Or.inl h
    · rintro (h | ⟨pre, x, post, h, -⟩)
      · exact h
      · simp at h
  | cons y rest ih =>
    rw [List.foldl_cons, ih]
    have hstep : (nested_step pcap ccap app w s y).2.2 = true ↔
        s.2.2 = true ∨ (app y = true ∧ s.1 < pcap ∧ ccap - s.2.1 < w y) := by
      unfold nested_step
      by_cases ha : app y = true
      · by_cases hc : s.1 ≥ pcap
        · simp [ha, hc]
        · have hlt : s.1 < pcap := by omega
          simp [ha, hc, hlt]
      · simp [ha]
    constructor
    · rintro (h | ⟨pre, x, post, h1, h2, h3, h4⟩)
      · rcases hstep.1 h with h | h
        · exact Or.inl h
        · exact Or.inr ⟨[], y, rest, rfl, h.1, h.2.1, h.2.2⟩
      · exact Or.inr ⟨y :: pre, x, post, by rw [h1]; rfl, h2, h3, h4⟩
    · rintro (h | ⟨pre, x, post, h1, h2, h3, h4⟩)
      · exact Or.inl (hstep.2 (Or.inl h))
      · cases pre with
        | nil =>
          simp only [List.nil_append, List.cons.injEq] at h1
          obtain ⟨rfl, rfl⟩ := h1
          exact Or.inl (hstep.2 (Or.inr ⟨h2, h3, h4⟩))
        | cons z pre =>
          simp only [List.cons_append, List.cons.injEq] at h1
          obtain ⟨rfl, rfl⟩ := h1
          exact Or.inr ⟨pre, x, post, rfl, h2, h3, h4⟩

/-- The OSPF and LSA indices and the LSA bit of the snapshot of a daemon
    state, as a fold of the counting model over its protocol list. -/
theorem run_ospf_lsa_fold (d : daemon) (region : bird_shm_region) :
    ((bird_shm_write_snapshot d region).snapshot.ospf_count,
      (bird_shm_write_snapshot d region).snapshot.ospf_lsa_count,
      (bird_shm_write_snapshot d region).snapshot.trunc_flags.testBit 5)
      = d.proto_list.foldl (nested_step BIRD_SHM_MAX_OSPF BIRD_SHM_MAX_OSPF_LSAS
          (fun p => proto_is p PROTOCOL_OSPF) (fun p => (real_lsas p.ospf.lsal).length))
          (0, 0, false) := by
  have h := (run_nested_folds d region).2.1
  have c4 := run_count d region .ospf
  have c5 := run_count d region .ospf_lsas
  simp only [bird_shm_snapshot.count, builder.idx] at c4 c5
  rw [← h]
  show ((builder.run d region).snap.ospf_count, (builder.run d region).snap.ospf_lsa_count,
    (builder.run d region).bit 5) = _
  rw [c4, c5]

/-- The record and the LSA slots of an OSPF instance that is stored, in the
    finished walk: `b` is the state in which the walk meets the instance. -/
theorem walk_proto_list_ospf_instance (p : proto) (post : List proto) (b : builder)
    (hwf : b.wf_open (fun _ => 0))
    (hp : proto_is p PROTOCOL_OSPF = true) (hi : b.ospf_index < BIRD_SHM_MAX_OSPF) :
    ∃ r, (walk_proto_list (p :: post) b).snap.ospf[b.ospf_index]? = some r ∧
      r.lsa_start = b.ospf_lsa_index ∧
      r.lsa_count
        = min (real_lsas p.ospf.lsal).length (BIRD_SHM_MAX_OSPF_LSAS - b.ospf_lsa_index) ∧
      ∀ k en, k < r.lsa_count → (real_lsas p.ospf.lsal)[k]? = some en →
        (walk_proto_list (p :: post) b).snap.ospf_lsas[b.ospf_lsa_index + k]?
          = some (fill_ospf_lsa b.ospf_index en) := by
  have w4 := hwf .ospf
  have w5 := hwf .ospf_lsas
  simp only [builder.idx, bird_shm_snapshot.len, capacity, Nat.add_zero] at w4 w5
  obtain ⟨s1, s2, s3, s4⟩ := proto_step_ospf_arrays p b hp (by omega)
  obtain ⟨-, -, t3, t4⟩ := walk_proto_list_ospf_stable post (proto_step p b)
  have hlen : ((real_lsas p.ospf.lsal).take (BIRD_SHM_MAX_OSPF_LSAS - b.ospf_lsa_index)).length
      = min (real_lsas p.ospf.lsal).length (BIRD_SHM_MAX_OSPF_LSAS - b.ospf_lsa_index) := by
    rw [List.length_take]; exact Nat.min_comm _ _
  have e : walk_proto_list (p :: post) b = walk_proto_list post (proto_step p b) := rfl
  rw [e]
  refine ⟨add_ospf_neigh_count
      ((ospf_neighbors p.ospf.iface_list).take
        (BIRD_SHM_MAX_OSPF_NEIGHBORS - b.ospf_neigh_index)).length
      (add_lsa_count
        ((real_lsas p.ospf.lsal).take (BIRD_SHM_MAX_OSPF_LSAS - b.ospf_lsa_index)).length
        (fill_ospf b.ospf_lsa_index b.ospf_neigh_index p)), ?_, ?_, ?_, ?_⟩
  · rw [t3 _ (by rw [s3]; omega), s1]
    simp [List.getElem?_set, w4.2.2, hi]
  · rfl
  · rw [← hlen]
    simp [add_ospf_neigh_count, add_lsa_count, fill_ospf]
  · intro k en hk hen
    have hk' : k < ((real_lsas p.ospf.lsal).take
        (BIRD_SHM_MAX_OSPF_LSAS - b.ospf_lsa_index)).length := by
      rw [hlen]
      simpa [add_ospf_neigh_count, add_lsa_count, fill_ospf, hlen] using hk
    rw [t4 _ (by rw [s4]; omega), s2,
      getElem?_write_at_mid _ _ _ _ (by rw [List.length_map]; exact hk')
        (by rw [List.length_map, hlen, w5.2.2]; omega),
      List.getElem?_map, List.getElem?_take_of_lt (by rw [hlen] at hk'; omega), hen]
    rfl

/-! ## The sequence protocol -/

theorem run_events_append (l1 l2 : List shm_event) (s : shm_system) :
    run_events (l1 ++ l2) s = run_events l2 (run_events l1 s) := by
  simp [run_events, List.foldl_append]

theorem run_events_cons (e : shm_event) (l : List shm_event) (s : shm_system) :
    run_events (e :: l) s = run_events l (e.apply s) := rfl

theorem ops_ok_stores (w : Bool) (l : List bird_shm_snapshot) (rest : List writer_op) :
    ops_ok w (l.map writer_op.store_snapshot ++ rest)
      = ((l.isEmpty || w) && ops_ok w rest) := by
  induction l with
  | nil => simp
  | cons x xs ih =>
    show (w && ops_ok w (xs.map writer_op.store_snapshot ++ rest)) = _
    rw [ih]
    cases w <;> simp

theorem succ_mod_parity (v : Nat) : ((v + 1) % 2 ^ 64) % 2 = (v + 1) % 2 :=
  Nat.mod_mod_of_dvd _ (by decide)

theorem start_ok (r : bird_shm_region) (hlt : r.version_seq < 2 ^ 64)
    (h0 : r.version_seq % 2 = 0) : (shm_system.start r).ok := by
  refine ⟨?_, hlt, fun _ => rfl⟩
  simp [shm_system.start, ops_ok, h0]

/-- Every step keeps the invariant. -/
theorem ok_apply (e : shm_event) (s : shm_system) (h : s.ok) : (e.apply s).ok := by
  obtain ⟨h1, h2, h3⟩ := h
  cases e with
  | init =>
    refine ⟨?_, ?_, fun _ => rfl⟩
    · simp [shm_event.apply, bird_shm_init_region, atomic_store_cmd_flag, ops_ok]
    · simp [shm_event.apply, bird_shm_init_region, atomic_store_cmd_flag]
  | poll d before after =>
    unfold shm_event.apply
    cases hp : s.pending with
    | nil =>
      rw [hp] at h1
      by_cases hf : s.region.cmd_flag = 0
      · simp only [hf, if_true]
        exact ⟨by rw [hp]; exact h1, h2, h3⟩
      · simp only [hf, if_false]
        refine ⟨?_, h2, h3⟩
        simp only [ops_ok] at h1 ⊢
        simpa using h1
    | cons op rest => exact ⟨by rw [hp] at h1; rw [hp]; exact h1, h2, h3⟩
  | writer_step =>
    unfold shm_event.apply
    cases hp : s.pending with
    | nil => exact ⟨by rw [hp] at h1; rw [hp]; exact h1, h2, h3⟩
    | cons op rest =>
      rw [hp] at h1
      cases op with
      | load_cmd d before after =>
        simp only [ops_ok, Bool.and_eq_true, Bool.not_eq_true', decide_eq_false_iff_not,
          List.isEmpty_iff] at h1
        obtain ⟨hw, hr⟩ := h1
        subst hr
        refine ⟨?_, h2, ?_⟩
        · simp only [writer_op.apply, List.append_nil]
          by_cases hc : s.region.mailbox.cmd ≠ BIRD_SHM_CMD_SNAPSHOT
          · rw [if_pos hc]
            simp [ops_ok, hw]
          · rw [if_neg hc]
            simp [ops_ok, ops_ok_stores, hw]
        · simpa [writer_op.apply, writer_op.is_fetch_add] using h3
      | fetch_add =>
        simp only [ops_ok] at h1
        have hpar := succ_mod_parity s.region.version_seq
        refine ⟨?_, ?_, ?_⟩
        · simp only [writer_op.apply, atomic_fetch_add_version_seq, List.nil_append]
          rw [← h1]
          congr 1
          by_cases hodd : s.region.version_seq % 2 = 1
          · simp [hodd]
            omega
          · simp [hodd]
            omega
        · simp only [writer_op.apply, atomic_fetch_add_version_seq]
          exact Nat.mod_lt _ (by decide)
        · intro hev
          simp only [writer_op.apply, atomic_fetch_add_version_seq] at hev ⊢
          have hev2 : (s.region.version_seq + 1) % 18446744073709551616 % 2 = 0 := hev
          simp [writer_op.is_fetch_add, hev2]
      | build d after =>
        simp only [ops_ok, Bool.and_eq_true, decide_eq_true_eq, List.isEmpty_iff] at h1
        obtain ⟨hw, hr⟩ := h1
        subst hr
        refine ⟨?_, h2, ?_⟩
        · simp [writer_op.apply, ops_ok, ops_ok_stores, hw]
        · simpa [writer_op.apply, writer_op.is_fetch_add] using h3
      | store_snapshot x =>
        simp only [ops_ok, Bool.and_eq_true, decide_eq_true_eq] at h1
        obtain ⟨hw, hr⟩ := h1
        refine ⟨?_, h2, ?_⟩
        · simpa [writer_op.apply, hw] using hr
        · intro hev
          simp only [writer_op.apply] at hev
          omega
      | store_cmd_flag v =>
        simp only [ops_ok, Bool.and_eq_true, Bool.not_eq_true', decide_eq_false_iff_not] at h1
        obtain ⟨hw, hr⟩ := h1
        refine ⟨?_, h2, ?_⟩
        · simpa [writer_op.apply, atomic_store_cmd_flag, hw] using hr
        · simpa [writer_op.apply, atomic_store_cmd_flag, writer_op.is_fetch_add] using h3
  | reader_store_mailbox mb => exact ⟨h1, h2, h3⟩
  | reader_store_cmd_flag v => exact ⟨h1, h2, h3⟩

theorem ok_run (l : List shm_event) (s : shm_system) (h : s.ok) : (run_events l s).ok := by
  induction l generalizing s with
  | nil => exact h
  | cons e rest ih => exact ih _ (ok_apply e s h)

/-- One step other than a restart: the increments only grow, and the
    counter moves by the increments made. -/
theorem apply_counter (e : shm_event) (s : shm_system) (hi : e.is_init = false) :
    s.increments ≤ (e.apply s).increments ∧
    (e.apply s).increments ≤ s.increments + 1 ∧
    (e.apply s).region.version_seq
      = (if (e.apply s).increments = s.increments then s.region.version_seq
        else (s.region.version_seq + 1) % 2 ^ 64) := by
  cases e with
  | init => simp [shm_event.is_init] at hi
  | poll d before after =>
    unfold shm_event.apply
    cases hp : s.pending with
    | nil => by_cases hf : s.region.cmd_flag = 0 <;> simp [hf]
    | cons op rest => simp
  | writer_step =>
    unfold shm_event.apply
    cases hp : s.pending with
    | nil => simp
    | cons op rest =>
      cases op <;>
        simp [writer_op.apply, writer_op.is_fetch_add, atomic_fetch_add_version_seq,
          atomic_store_cmd_flag]
  | reader_store_mailbox mb => simp [shm_event.apply]
  | reader_store_cmd_flag v => simp [shm_event.apply]

/-- Over steps without a restart the counter is the old one plus the
    increments made, as a 64-bit value. -/
theorem run_counter (l : List shm_event) (s : shm_system)
    (hi : ∀ e ∈ l, e.is_init = false) (hlt : s.region.version_seq < 2 ^ 64) :
    s.increments ≤ (run_events l s).increments ∧
    (run_events l s).region.version_seq
      = (s.region.version_seq + ((run_events l s).increments - s.increments)) % 2 ^ 64 := by
  induction l generalizing s with
  | nil =>
    refine ⟨Nat.le_refl _, ?_⟩
    show s.region.version_seq = (s.region.version_seq + (s.increments - s.increments)) % 2 ^ 64
    rw [Nat.sub_self, Nat.add_zero, Nat.mod_eq_of_lt hlt]
  | cons e rest ih =>
    obtain ⟨a1, a2, a3⟩ := apply_counter e s (hi e (List.mem_cons_self _ _))
    have hlt' : (e.apply s).region.version_seq < 2 ^ 64 := by
      rw [a3]
      split
      · exact hlt
      · exact Nat.mod_lt _ (by decide)
    obtain ⟨b1, b2⟩ := ih (e.apply s) (fun x hx => hi x (List.mem_cons_of_mem _ hx)) hlt'
    rw [run_events_cons]
    refine ⟨Nat.le_trans a1 b1, ?_⟩
    rw [b2, a3]
    by_cases hq : (e.apply s).increments = s.increments
    · rw [if_pos hq, hq]
    · rw [if_neg hq]
      have : (e.apply s).increments = s.increments + 1 := by omega
      rw [Nat.mod_add_mod]
      congr 1
      omega

/-- One step other than a restart that makes no increment, from a state with
    an even counter: the snapshot stays. -/
theorem apply_quiet (e : shm_event) (s : shm_system) (h : s.ok)
    (hev : s.region.version_seq % 2 = 0) (hi : e.is_init = false)
    (hq : (e.apply s).increments = s.increments) :
    (e.apply s).region.snapshot = s.region.snapshot := by
  obtain ⟨h1, -, -⟩ := h
  have hw : decide (s.region.version_seq % 2 = 1) = false := by
    simp
    omega
  rw [hw] at h1
  cases e with
  | init => simp [shm_event.is_init] at hi
  | poll d before after =>
    unfold shm_event.apply
    cases hp : s.pending with
    | nil => by_cases hf : s.region.cmd_flag = 0 <;> simp [hf]
    | cons op rest => simp
  | writer_step =>
    unfold shm_event.apply at hq ⊢
    cases hp : s.pending with
    | nil => simp
    | cons op rest =>
      rw [hp] at h1 hq
      cases op with
      | load_cmd d before after => simp [writer_op.apply]
      | fetch_add => simp [writer_op.is_fetch_add] at hq
      | build d after => simp [ops_ok] at h1
      | store_snapshot x => simp [ops_ok] at h1
      | store_cmd_flag v => simp [writer_op.apply, atomic_store_cmd_flag]
  | reader_store_mailbox mb => simp [shm_event.apply]
  | reader_store_cmd_flag v => simp [shm_event.apply]

/-- Steps without a restart and without an increment, from a state with an
    even counter: the snapshot stays. -/
theorem run_quiet (l : List shm_event) (s : shm_system) (h : s.ok)
    (hev : s.region.version_seq % 2 = 0) (hi : ∀ e ∈ l, e.is_init = false)
    (hq : (run_events l s).increments = s.increments) :
    (run_events l s).region.snapshot = s.region.snapshot := by
  induction l generalizing s with
  | nil => rfl
  | cons e rest ih =>
    have hie := hi e (List.mem_cons_self _ _)
    have hir : ∀ x ∈ rest, x.is_init = false := fun x hx => hi x (List.mem_cons_of_mem _ hx)
    obtain ⟨a1, -, a3⟩ := apply_counter e s hie
    have hok := ok_apply e s h
    obtain ⟨b1, -⟩ := run_counter rest (e.apply s) hir hok.2.1
    rw [run_events_cons] at hq ⊢
    have hq1 : (e.apply s).increments = s.increments := by omega
    rw [if_pos hq1] at a3
    rw [ih (e.apply s) hok (by rw [a3]; exact hev) hir (by rw [hq, hq1]),
      apply_quiet e s h hev hie hq1]

/-! ### A call that nothing interrupts -/

theorem run_idle_steps (n : Nat) (s : shm_system) (h : s.pending = []) :
    run_events (List.replicate n shm_event.writer_step) s = s := by
  induction n with
  | zero => rfl
  | succ n ih =>
    rw [List.replicate_succ, run_events_cons]
    have : shm_event.writer_step.apply s = s := by simp [shm_event.apply, h]
    rw [this, ih]

theorem run_steps_stores (l : List bird_shm_snapshot) (rest : List writer_op) (s : shm_system)
    (h : s.pending = l.map writer_op.store_snapshot ++ rest) :
    run_events (List.replicate l.length shm_event.writer_step) s
      = { s with
          region := { s.region with snapshot := l.getLast?.getD s.region.snapshot }
          pending := rest } := by
  induction l generalizing s with
  | nil =>
    simp only [List.map_nil, List.nil_append] at h
    simp [run_events, ← h]
  | cons x xs ih =>
    simp only [List.map_cons, List.cons_append] at h
    rw [List.length_cons, List.replicate_succ, run_events_cons]
    have e : shm_event.writer_step.apply s
        = { s with
            region := { s.region with snapshot := x }
            pending := xs.map writer_op.store_snapshot ++ rest } := by
      simp [shm_event.apply, h, writer_op.apply, writer_op.is_fetch_add]
    rw [e, ih _ rfl]
    cases xs with
    | nil => simp
    | cons y ys =>
      cases hl : (y :: ys).getLast? with
      | none => simp at hl
      | some z => simp [hl]

theorem step_cons (op : writer_op) (rest : List writer_op) (s : shm_system)
    (h : s.pending = op :: rest) (l : List shm_event) :
    run_events (shm_event.writer_step :: l) s
      = run_events l
          { region := (op.apply s.region).1
            pending := (op.apply s.region).2 ++ rest
            increments := if op.is_fetch_add then s.increments + 1 else s.increments
            published :=
              if op.is_fetch_add && decide ((op.apply s.region).1.version_seq % 2 = 0) then
                s.region.snapshot
              else s.published } := by
  rw [run_events_cons]
  congr 1
  simp [shm_event.apply, h]

/-- The region that `bird_shm_poll` leaves on an active module. -/
theorem bird_shm_poll_region (d : daemon) (m : shm_module) (r : bird_shm_region)
    (hen : m.shm_enabled ≠ 0) (hreg : m.shm_region = some r) :
    bird_shm_poll d m
      = { m with
          shm_region := some
            (if r.cmd_flag = 0 then r
            else if r.mailbox.cmd ≠ BIRD_SHM_CMD_SNAPSHOT then atomic_store_cmd_flag r 0
            else atomic_store_cmd_flag (atomic_fetch_add_version_seq
              (bird_shm_write_snapshot d (atomic_fetch_add_version_seq r 1)) 1) 0) } := by
  have hen' : ¬ m.shm_enabled = 0 := hen
  unfold bird_shm_poll
  by_cases hf : r.cmd_flag = 0
  · simp [hen', hreg, hf]
    cases m
    simp_all
  · by_cases hc : r.mailbox.cmd = BIRD_SHM_CMD_SNAPSHOT
    · simp [hen', hreg, hf, hc]
    · simp [hen', hreg, hf, hc]

/-- The steps of an uninterrupted call leave the region that `bird_shm_poll`
    leaves, whatever the granularity of the stores of the builder, and no
    call running. -/
theorem poll_events_region (d : daemon) (before after : List bird_shm_snapshot)
    (s : shm_system) (h : s.pending = []) :
    (run_events (poll_events d before after) s).region
      = (if s.region.cmd_flag = 0 then s.region
        else if s.region.mailbox.cmd ≠ BIRD_SHM_CMD_SNAPSHOT then
          atomic_store_cmd_flag s.region 0
        else atomic_store_cmd_flag (atomic_fetch_add_version_seq
          (bird_shm_write_snapshot d (atomic_fetch_add_version_seq s.region 1)) 1) 0) ∧
    (run_events (poll_events d before after) s).pending = [] := by
  unfold poll_events
  rw [run_events_cons]
  by_cases hf : s.region.cmd_flag = 0
  · have e : (shm_event.poll d before after).apply s = s := by
      simp [shm_event.apply, h, hf]
    rw [e, run_idle_steps _ _ h, if_pos hf]
    exact ⟨rfl, h⟩
  · have e : (shm_event.poll d before after).apply s
        = { s with pending := [writer_op.load_cmd d before after] } := by
      simp [shm_event.apply, h, hf]
    rw [e, if_neg hf]
    by_cases hc : s.region.mailbox.cmd ≠ BIRD_SHM_CMD_SNAPSHOT
    · rw [if_pos hc]
      have hn : before.length + after.length + 6 = 2 + (before.length + after.length + 4) := by
        omega
      rw [hn, List.replicate_add, run_events_append]
      have e2 : run_events (List.replicate 2 shm_event.writer_step)
          { s with pending := [writer_op.load_cmd d before after] }
          = { s with region := atomic_store_cmd_flag s.region 0 } := by
        simp [run_events, List.replicate, shm_event.apply, writer_op.apply, hc,
          writer_op.is_fetch_add, h]
      rw [e2, run_idle_steps _ { s with region := atomic_store_cmd_flag s.region 0 } h]
      exact ⟨rfl, h⟩
    · rw [if_neg hc]
      have hc' : s.region.mailbox.cmd = BIRD_SHM_CMD_SNAPSHOT := by simpa using hc
      have hn : before.length + after.length + 6
          = 2 + (before.length + (1 + (after.length + 3))) := by omega
      rw [hn, List.replicate_add, List.replicate_add, List.replicate_add, List.replicate_add,
        run_events_append, run_events_append, run_events_append, run_events_append]
      have e2 : run_events (List.replicate 2 shm_event.writer_step)
          { s with pending := [writer_op.load_cmd d before after] }
          = { region := atomic_fetch_add_version_seq s.region 1
              pending := before.map writer_op.store_snapshot ++ [writer_op.build d after]
              increments := s.increments + 1
              published :=
                if (atomic_fetch_add_version_seq s.region 1).version_seq % 2 = 0 then
                  s.region.snapshot
                else s.published } := by
        simp [run_events, List.replicate, shm_event.apply, writer_op.apply, hc',
          writer_op.is_fetch_add]
      rw [e2, run_steps_stores before [writer_op.build d after] _ rfl]
      dsimp only
      have e3 : ∀ t : shm_system, t.pending = [writer_op.build d after] →
          run_events (List.replicate 1 shm_event.writer_step) t
            = { t with
                pending := after.map writer_op.store_snapshot
                  ++ [writer_op.store_snapshot (bird_shm_write_snapshot d t.region).snapshot,
                      writer_op.fetch_add, writer_op.store_cmd_flag 0] } := by
        intro t ht
        simp [run_events, List.replicate, shm_event.apply, writer_op.apply,
          writer_op.is_fetch_add, ht]
      rw [e3 _ rfl, run_steps_stores after _ _ rfl]
      dsimp only
      have hsnap : ∀ x : bird_shm_snapshot,
          (bird_shm_write_snapshot d
            { atomic_fetch_add_version_seq s.region 1 with snapshot := x }).snapshot
          = (bird_shm_write_snapshot d (atomic_fetch_add_version_seq s.region 1)).snapshot := by
        intro x
        show (builder.run d _).snap = (builder.run d _).snap
        exact congrArg builder.snap (run_congr d _ _ rfl)
      rw [hsnap]
      simp [run_events, List.replicate, shm_event.apply, writer_op.apply,
        writer_op.is_fetch_add, atomic_fetch_add_version_seq, atomic_store_cmd_flag,
        bird_shm_write_snapshot]

/-! ## String fields -/

theorem strncpy_zero (c : Nat) (s : List Nat) (hc : 0 < c) :
    strncpy (List.replicate c 0) s (c - 1) = str_field c s := by
  unfold strncpy str_field
  rw [List.append_assoc]
  congr 1
  rw [List.drop_replicate, ← List.replicate_add]
  congr 1
  rw [List.length_take]
  omega

theorem str_field_nil (c : Nat) : str_field c [] = List.replicate c 0 := by
  simp [str_field, cstr]

theorem cstr_ne_zero (s : List Nat) (x : Nat) (h : x ∈ cstr s) : x ≠ 0 := by
  unfold cstr at h
  have := List.mem_takeWhile_imp h
  simpa using this

/-- Shape of a string field: `c` bytes, the last one zero; the bytes of the
    source before its terminator, clamped to `c - 1`, none of them zero,
    then zero bytes only. -/
theorem str_field_shape (c : Nat) (s : List Nat) (hc : 0 < c) :
    (str_field c s).length = c ∧
    (str_field c s)[c - 1]? = some 0 ∧
    (∀ i, i < min (cstr s).length (c - 1) →
      (str_field c s)[i]? = (cstr s)[i]? ∧ (str_field c s)[i]? ≠ some 0) ∧
    (∀ i, min (cstr s).length (c - 1) ≤ i → i < c → (str_field c s)[i]? = some 0) := by
  have hl : ((cstr s).take (c - 1)).length = min (cstr s).length (c - 1) := by
    rw [List.length_take]; exact Nat.min_comm _ _
  have hz : ∀ i, min (cstr s).length (c - 1) ≤ i → i < c → (str_field c s)[i]? = some 0 := by
    intro i h1 h2
    unfold str_field
    rw [List.getElem?_append_right (by rw [hl]; exact h1), hl, List.getElem?_replicate]
    simp
    omega
  refine ⟨?_, ?_, ?_, hz⟩
  · unfold str_field
    rw [List.length_append, hl, List.length_replicate]
    omega
  · exact hz (c - 1) (by omega) (by omega)
  · intro i hi
    have e : (str_field c s)[i]? = (cstr s)[i]? := by
      unfold str_field
      rw [List.getElem?_append_left (by rw [hl]; exact hi),
        List.getElem?_take_of_lt (by omega)]
    refine ⟨e, ?_⟩
    rw [e]
    intro h
    exact cstr_ne_zero s 0 (List.mem_iff_getElem?.2 ⟨i, h⟩) rfl

theorem str_ok_zero (c : Nat) : str_ok c (List.replicate c 0) :=
  ⟨[], (str_field_nil c).symm⟩

theorem str_ok_strncpy (c : Nat) (s : List Nat) (hc : 0 < c) :
    str_ok c (strncpy (List.replicate c 0) s (c - 1)) :=
  ⟨s, strncpy_zero c s hc⟩

theorem copy_ifname_eq (ifname : Option (List Nat)) (ifc : Option iface) :
    copy_ifname (List.replicate 16 0) ifname ifc
      = (match ifname with
        | some s => str_field 16 s
        | none =>
          match ifc with
          | some i => str_field 16 i.name
          | none => str_field 16 []) := by
  cases ifname with
  | some s => exact strncpy_zero 16 s (by decide)
  | none =>
    cases ifc with
    | some i => exact strncpy_zero 16 i.name (by decide)
    | none => exact (str_field_nil 16).symm

theorem str_ok_copy_ifname (ifname : Option (List Nat)) (ifc : Option iface) :
    str_ok 16 (copy_ifname (List.replicate 16 0) ifname ifc) := by
  rw [copy_ifname_eq]
  cases ifname with
  | some s => exact ⟨s, rfl⟩
  | none =>
    cases ifc with
    | some i => exact ⟨i.name, rfl⟩
    | none => exact ⟨[], rfl⟩

/-- The string field of each record the builder fills, from its source. -/
theorem fill_strings :
    (∀ a ifa, (fill_iface a ifa).name = str_field 16 ifa.name) ∧
    (∀ p, (fill_proto p).name = str_field 32 p.name) ∧
    (∀ p, (fill_bgp p).name = str_field 32 p.name) ∧
    (∀ l n p, (fill_ospf l n p).name = str_field 32 p.name) ∧
    (∀ i p, (fill_babel i p).name = str_field 32 p.name) ∧
    (∀ i oi nb, (fill_ospf_neighbor i oi nb).ifname
      = (match oi.ifname with
        | some s => str_field 16 s
        | none =>
          match oi.iface with
          | some ifc => str_field 16 ifc.name
          | none => str_field 16 [])) ∧
    (∀ i n bi, (fill_babel_iface i n bi).ifname
      = (match bi.ifname with
        | some s => str_field 16 s
        | none =>
          match bi.iface with
          | some ifc => str_field 16 ifc.name
          | none => str_field 16 [])) ∧
    (∀ s, (fill_bfd_session s).ifname
      = (match s.ifa with
        | some a =>
          match a.iface with
          | some ifc => str_field 16 ifc.name
          | none => str_field 16 []
        | none => str_field 16 [])) := by
  refine ⟨?_, ?_, ?_, ?_, ?_, ?_, ?_, ?_⟩
  · intro a ifa
    exact strncpy_zero 16 ifa.name (by decide)
  · intro p
    exact strncpy_zero 32 p.name (by decide)
  · intro p
    exact strncpy_zero 32 p.name (by decide)
  · intro l n p
    exact strncpy_zero 32 p.name (by decide)
  · intro i p
    exact strncpy_zero 32 p.name (by decide)
  · intro i oi nb
    exact copy_ifname_eq oi.ifname oi.iface
  · intro i n bi
    exact copy_ifname_eq bi.ifname bi.iface
  · intro s
    show (match s.ifa with
      | some a =>
        match a.iface with
        | some i => strncpy bird_shm_bfd_session.zero.ifname i.name (16 - 1)
        | none => bird_shm_bfd_session.zero.ifname
      | none => bird_shm_bfd_session.zero.ifname) = _
    cases s.ifa with
    | none => exact (str_field_nil 16).symm
    | some a =>
      dsimp only
      cases a.iface with
      | none => exact (str_field_nil 16).symm
      | some i => exact strncpy_zero 16 i.name (by decide)

/-! ### String fields of the records in the arrays -/

theorem mem_write_at {α : Type} (arr : List α) (i : Nat) (xs : List α) (r : α)
    (h : r ∈ write_at arr i xs) : r ∈ arr ∨ r ∈ xs := by
  induction xs generalizing arr i with
  | nil => exact Or.inl h
  | cons x rest ih =>
    rcases ih _ _ h with h | h
    · rcases List.mem_or_eq_of_mem_set h with h | h
      · exact Or.inl h
      · exact Or.inr (by rw [h]; exact List.mem_cons_self _ _)
    · exact Or.inr (List.mem_cons_of_mem _ h)

theorem walk_proto_list_inv (P : builder → Prop)
    (hstep : ∀ p b, P b → P (proto_step p b)) (l : List proto) (b : builder) (h : P b) :
    P (walk_proto_list l b) := by
  induction l generalizing b with
  | nil => exact h
  | cons p rest ih => exact ih _ (hstep p b h)

theorem proto_step_protos_str (p : proto) (b : builder)
    (h : ∀ r ∈ b.snap.protos, str_ok 32 r.name) :
    ∀ r ∈ (proto_step p b).snap.protos, str_ok 32 r.name := by
  have h1 := proto_step_pr_view p b
  simp only [builder.pr_view, Prod.mk.injEq] at h1
  intro r hr
  rw [h1.2.1] at hr
  unfold proto_step_generic at hr
  split at hr
  · rcases List.mem_or_eq_of_mem_set hr with hr | hr
    · exact h r hr
    · rw [hr]
      exact ⟨p.name, fill_strings.2.1 p⟩
  · exact h r hr

theorem proto_step_bgp_str (p : proto) (b : builder)
    (h : ∀ r ∈ b.snap.bgp, str_ok 32 r.name) :
    ∀ r ∈ (proto_step p b).snap.bgp, str_ok 32 r.name := by
  have h1 := proto_step_bgp_view p b
  have h2 := pre_bgp_view p b
  simp only [builder.bgp_view, Prod.mk.injEq] at h1 h2
  intro r hr
  rw [h1.2.1] at hr
  rw [← h2.2.1] at h
  generalize proto_step_generic p b = c at hr h
  unfold proto_step_bgp at hr
  split at hr
  · split at hr
    · exact h r hr
    · rcases List.mem_or_eq_of_mem_set hr with hr | hr
      · exact h r hr
      · rw [hr]
        exact ⟨p.name, fill_strings.2.2.1 p⟩
  · exact h r hr

theorem proto_step_bfd_str (p : proto) (b : builder)
    (h : ∀ r ∈ b.snap.bfd, str_ok 16 r.ifname) :
    ∀ r ∈ (proto_step p b).snap.bfd, str_ok 16 r.ifname := by
  have h1 := proto_step_bfd_view p b
  have h2 := pre_bfd_view p b
  simp only [builder.bfd_view, Prod.mk.injEq] at h1 h2
  intro r hr
  rw [h1.2.1] at hr
  rw [← h2.2.1] at h
  generalize proto_step_ospf p (proto_step_bgp p (proto_step_generic p b)) = c at hr h
  unfold proto_step_bfd at hr
  split at hr
  · rw [hash_walk_sessions_eq] at hr
    rcases mem_write_at _ _ _ _ hr with hr | hr
    · exact h r hr
    · rw [List.mem_map] at hr
      obtain ⟨s, -, rfl⟩ := hr
      rw [fill_strings.2.2.2.2.2.2.2 s]
      cases s.ifa with
      | none => exact ⟨[], rfl⟩
      | some a =>
        dsimp only
        cases a.iface with
        | none => exact ⟨[], rfl⟩
        | some i => exact ⟨i.name, rfl⟩
  · exact h r hr

theorem proto_step_ospf_str (p : proto) (b : builder)
    (h : (∀ r ∈ b.snap.ospf, str_ok 32 r.name) ∧
      (∀ r ∈ b.snap.ospf_neighs, str_ok 16 r.ifname)) :
    (∀ r ∈ (proto_step p b).snap.ospf, str_ok 32 r.name) ∧
    (∀ r ∈ (proto_step p b).snap.ospf_neighs, str_ok 16 r.ifname) := by
  have h1 := proto_step_ospf_view p b
  have h2 := pre_ospf_view p b
  simp only [builder.ospf_view, Prod.mk.injEq] at h1 h2
  rw [h1.2.2.2.1, h1.2.2.2.2.2.1]
  rw [← h2.2.2.2.1, ← h2.2.2.2.2.2.1] at h
  generalize proto_step_bgp p (proto_step_generic p b) = c at h
  by_cases hp : proto_is p PROTOCOL_OSPF = true
  · by_cases hi : c.ospf_index ≥ BIRD_SHM_MAX_OSPF
    · have e : proto_step_ospf p c = c.set_trunc BIRD_SHM_TRUNC_OSPF := by
        simp [proto_step_ospf, hp, hi]
      rw [e]
      exact h
    · rw [proto_step_ospf_eq p c hp hi]
      refine ⟨?_, ?_⟩
      · intro r hr
        simp only [arr_update_set] at hr
        rcases List.mem_or_eq_of_mem_set hr with hr | hr
        · exact h.1 r hr
        · rw [hr]
          exact ⟨p.name, fill_strings.2.2.2.1 c.ospf_lsa_index c.ospf_neigh_index p⟩
      · intro r hr
        rcases mem_write_at _ _ _ _ hr with hr | hr
        · exact h.2 r hr
        · rw [List.mem_map] at hr
          obtain ⟨x, -, rfl⟩ := hr
          exact str_ok_copy_ifname _ _
  · have e : proto_step_ospf p c = c := by simp [proto_step_ospf, hp]
    rw [e]
    exact h

theorem walk_babel_interfaces_str (l : List babel_iface) (b : builder)
    (h : ∀ r ∈ b.snap.babel_ifaces, str_ok 16 r.ifname) :
    ∀ r ∈ (walk_babel_interfaces l b).snap.babel_ifaces, str_ok 16 r.ifname := by
  induction l generalizing b with
  | nil => exact h
  | cons bi rest ih =>
    have hround : ∀ r ∈ (next_babel_iface (walk_babel_neigh_list bi.neigh_list
        (emit_babel_iface bi b))).snap.babel_ifaces, str_ok 16 r.ifname := by
      intro r hr
      rw [(babel_iface_round_arrays bi b).1] at hr
      rcases List.mem_or_eq_of_mem_set hr with hr | hr
      · exact h r hr
      · rw [hr]
        exact str_ok_copy_ifname _ _
    unfold walk_babel_interfaces
    split
    · exact h
    · split
      · exact hround
      · exact ih _ hround

theorem proto_step_babel_str (p : proto) (b : builder)
    (h : (∀ r ∈ b.snap.babel, str_ok 32 r.name) ∧
      (∀ r ∈ b.snap.babel_ifaces, str_ok 16 r.ifname)) :
    (∀ r ∈ (proto_step p b).snap.babel, str_ok 32 r.name) ∧
    (∀ r ∈ (proto_step p b).snap.babel_ifaces, str_ok 16 r.ifname) := by
  have h1 := proto_step_babel_view p b
  have h2 := pre_babel_view p b
  simp only [builder.babel_view, Prod.mk.injEq] at h1 h2
  rw [h1.2.2.2.1, h1.2.2.2.2.1]
  rw [← h2.2.2.2.1, ← h2.2.2.2.2.1] at h
  generalize proto_step_bfd p (proto_step_ospf p (proto_step_bgp p
    (proto_step_generic p b))) = c at h
  by_cases hp : proto_is p PROTOCOL_BABEL = true
  · by_cases hi : c.babel_index ≥ BIRD_SHM_MAX_BABEL
    · have e : proto_step_babel p c = c.set_trunc BIRD_SHM_TRUNC_BABEL := by
        simp [proto_step_babel, hp, hi]
      rw [e]
      exact h
    · refine ⟨?_, ?_⟩
      · obtain ⟨k, hk⟩ := proto_step_babel_array p c hp hi
        intro r hr
        rw [hk] at hr
        rcases List.mem_or_eq_of_mem_set hr with hr | hr
        · exact h.1 r hr
        · rw [hr]
          exact ⟨p.name, fill_strings.2.2.2.2.1 c.babel_iface_index p⟩
      · have e : proto_step_babel p c
            = next_babel (walk_babel_interfaces p.babel.interfaces (emit_babel p c)) := by
          simp [proto_step_babel, hp, hi]
        rw [e]
        exact walk_babel_interfaces_str p.babel.interfaces (emit_babel p c) h.2
  · have e : proto_step_babel p c = c := by simp [proto_step_babel, hp]
    rw [e]
    exact h

theorem mem_iface_records_trunc_name (l : List iface) (a : Nat) (r : bird_shm_iface)
    (h : r ∈ iface_records_trunc a l) : str_ok 16 r.name := by
  induction l generalizing a with
  | nil => simp [iface_records_trunc] at h
  | cons ifa rest ih =>
    rw [iface_records_trunc_cons, List.mem_cons] at h
    rcases h with h | h
    · rw [h]
      exact ⟨ifa.name, fill_strings.1 a ifa⟩
    · exact ih _ h

theorem init_strings (d : daemon) (region : bird_shm_region) :
    (∀ r ∈ (builder.init d region).snap.protos, str_ok 32 r.name) ∧
    (∀ r ∈ (builder.init d region).snap.bgp, str_ok 32 r.name) ∧
    (∀ r ∈ (builder.init d region).snap.ospf, str_ok 32 r.name) ∧
    (∀ r ∈ (builder.init d region).snap.ospf_neighs, str_ok 16 r.ifname) ∧
    (∀ r ∈ (builder.init d region).snap.bfd, str_ok 16 r.ifname) ∧
    (∀ r ∈ (builder.init d region).snap.babel, str_ok 32 r.name) ∧
    (∀ r ∈ (builder.init d region).snap.babel_ifaces, str_ok 16 r.ifname) := by
  have z16 : str_ok 16 (List.replicate 16 0) := str_ok_zero 16
  have z32 : str_ok 32 (List.replicate 32 0) := str_ok_zero 32
  refine ⟨?_, ?_, ?_, ?_, ?_, ?_, ?_⟩ <;> intro r hr <;>
    simp only [builder.init, bird_shm_snapshot.zero] at hr <;>
    rw [List.eq_of_mem_replicate hr] <;> first | exact z16 | exact z32

/-- Every record of every array of the finished snapshot, stored or still
    cleared, has a well-formed string field. -/
theorem run_strings (d : daemon) (region : bird_shm_region) :
    (∀ r ∈ (builder.run d region).snap.ifaces, str_ok 16 r.name) ∧
    (∀ r ∈ (builder.run d region).snap.protos, str_ok 32 r.name) ∧
    (∀ r ∈ (builder.run d region).snap.bgp, str_ok 32 r.name) ∧
    (∀ r ∈ (builder.run d region).snap.ospf, str_ok 32 r.name) ∧
    (∀ r ∈ (builder.run d region).snap.ospf_neighs, str_ok 16 r.ifname) ∧
    (∀ r ∈ (builder.run d region).snap.bfd, str_ok 16 r.ifname) ∧
    (∀ r ∈ (builder.run d region).snap.babel, str_ok 32 r.name) ∧
    (∀ r ∈ (builder.run d region).snap.babel_ifaces, str_ok 16 r.ifname) := by
  have hs := run_start_views d region
  simp only [builder.pr_view, builder.bgp_view, builder.ospf_view, builder.bfd_view,
    builder.babel_view, Prod.mk.injEq] at hs
  obtain ⟨hpr, hbgp, hospf, hbfd, hbabel⟩ := hs
  obtain ⟨ipr, ibgp, iospf, ion, ibfd, ibabel, ibi⟩ := init_strings d region
  rw [← hpr.2.1] at ipr
  rw [← hbgp.2.1] at ibgp
  rw [← hospf.2.2.2.1] at iospf
  rw [← hospf.2.2.2.2.2.1] at ion
  rw [← hbfd.2.1] at ibfd
  rw [← hbabel.2.2.2.1] at ibabel
  rw [← hbabel.2.2.2.2.1] at ibi
  have hospf2 := walk_proto_list_inv (fun b => (∀ r ∈ b.snap.ospf, str_ok 32 r.name) ∧
      (∀ r ∈ b.snap.ospf_neighs, str_ok 16 r.ifname))
    proto_step_ospf_str d.proto_list _ ⟨iospf, ion⟩
  have hbabel2 := walk_proto_list_inv (fun b => (∀ r ∈ b.snap.babel, str_ok 32 r.name) ∧
      (∀ r ∈ b.snap.babel_ifaces, str_ok 16 r.ifname))
    proto_step_babel_str d.proto_list _ ⟨ibabel, ibi⟩
  refine ⟨?_, ?_, ?_, hospf2.1, hospf2.2, ?_, hbabel2.1, hbabel2.2⟩
  · intro r hr
    rw [(run_iface_general d region).1] at hr
    rcases mem_write_at _ _ _ _ hr with hr | hr
    · rw [List.eq_of_mem_replicate hr]
      exact str_ok_zero 16
    · exact mem_iface_records_trunc_name _ _ _ (List.mem_of_mem_take hr)
  · exact walk_proto_list_inv (fun b => ∀ r ∈ b.snap.protos, str_ok 32 r.name)
      proto_step_protos_str d.proto_list _ ipr
  · exact walk_proto_list_inv (fun b => ∀ r ∈ b.snap.bgp, str_ok 32 r.name)
      proto_step_bgp_str d.proto_list _ ibgp
  · exact walk_proto_list_inv (fun b => ∀ r ∈ b.snap.bfd, str_ok 16 r.ifname)
      proto_step_bfd_str d.proto_list _ ibfd

/-- When every array is large enough for its source records, no truncation
    bit is set, whatever the lengths of the names. -/
theorem run_flags_zero (d : daemon) (region : bird_shm_region)
    (h : ∀ c, sources d c ≤ capacity c) : (builder.run d region).snap.trunc_flags = 0 := by
  apply flags_ext _ 0 (run_high_bits d region) (by simp)
  intro i hi
  obtain ⟨c, rfl⟩ := trunc_shift_surj i hi
  have := run_bit_fits d region c (h c)
  simpa [builder.bit] using this

/-! ## Cleared slots and padding -/

theorem slots_ok_replicate {α : Type} (k n : Nat) (Q : α → Prop) (z : α) (hz : Q z) :
    slots_ok (List.replicate k z) n Q z := by
  refine ⟨?_, ?_⟩
  · intro r hr
    rw [List.eq_of_mem_replicate hr]
    exact hz
  · intro i _ hi
    rw [List.length_replicate] at hi
    simp [List.getElem?_replicate, hi]

theorem slots_ok_mono {α : Type} {arr : List α} {n m : Nat} {Q : α → Prop} {z : α}
    (hnm : n ≤ m) (h : slots_ok arr n Q z) : slots_ok arr m Q z :=
  ⟨h.1, fun i hi hl => h.2 i (Nat.le_trans hnm hi) hl⟩

theorem slots_ok_write_at {α : Type} {arr : List α} {i : Nat} {Q : α → Prop} {z : α}
    (xs : List α) (h : slots_ok arr i Q z) (hx : ∀ r ∈ xs, Q r) :
    slots_ok (write_at arr i xs) (i + xs.length) Q z := by
  refine ⟨?_, ?_⟩
  · intro r hr
    rcases mem_write_at _ _ _ _ hr with hr | hr
    · exact h.1 r hr
    · exact hx r hr
  · intro k hk hl
    rw [length_write_at] at hl
    rw [getElem?_write_at_ge _ _ _ _ hk]
    exact h.2 k (by omega) hl

theorem slots_ok_set {α : Type} {arr : List α} {i : Nat} {Q : α → Prop} {z : α}
    (x : α) (h : slots_ok arr i Q z) (hx : Q x) : slots_ok (arr.set i x) (i + 1) Q z := by
  have := slots_ok_write_at [x] h (by simpa using hx)
  simpa [write_at] using this

theorem slots_ok_map_write_at {α β : Type} {arr : List α} {i : Nat} {Q : α → Prop} {z : α}
    (f : β → α) (xs : List β) (h : slots_ok arr i Q z) (hf : ∀ x, Q (f x)) :
    slots_ok (write_at arr i (xs.map f)) (i + xs.length) Q z := by
  have := slots_ok_write_at (xs.map f) h (by
    intro r hr
    rw [List.mem_map] at hr
    obtain ⟨x, -, rfl⟩ := hr
    exact hf x)
  rwa [List.length_map] at this

theorem set_ip_pad (a : ip_addr) : (bird_shm_set_ip a).pad_zero := by
  unfold bird_shm_set_ip bird_shm_ip_addr.pad_zero
  split_ifs <;> rfl

/-- The padding of every record the builder fills is zero, and the count
    updates leave it alone. -/
theorem fill_pads :
    (∀ i a, (fill_iface_addr i a).pad_zero) ∧
    (∀ p, (fill_bgp p).pad_zero) ∧
    (∀ l n p k m, (add_ospf_neigh_count k (add_lsa_count m (fill_ospf l n p))).pad_zero) ∧
    (∀ i en, (fill_ospf_lsa i en).pad_zero) ∧
    (∀ i oi nb, (fill_ospf_neighbor i oi nb).pad_zero) ∧
    (∀ s, (fill_bfd_session s).pad_zero) ∧
    (∀ i p n k, (add_babel_totals n k (fill_babel i p)).pad_zero) ∧
    (∀ i n bi k, (add_babel_iface_neigh_count k (fill_babel_iface i n bi)).pad_zero) ∧
    (∀ i bn, (fill_babel_neighbor i bn).pad_zero) := by
  refine ⟨?_, ?_, ?_, ?_, ?_, ?_, ?_, ?_, ?_⟩
  · intro i a
    exact ⟨set_ip_pad _, set_ip_pad _, set_ip_pad _⟩
  · intro p
    exact ⟨rfl, set_ip_pad _⟩
  · intro l n p k m
    rfl
  · intro i en
    rfl
  · intro i oi nb
    exact ⟨rfl, set_ip_pad _⟩
  · intro s
    exact ⟨rfl, set_ip_pad _⟩
  · intro i p n k
    rfl
  · intro i n bi k
    exact ⟨rfl, rfl, set_ip_pad _, set_ip_pad _, set_ip_pad _⟩
  · intro i bn
    exact ⟨rfl, set_ip_pad _⟩

theorem zero_pads :
    bird_shm_iface_addr.zero.pad_zero ∧ bird_shm_bgp_info.zero.pad_zero ∧
    bird_shm_ospf_info.zero.pad_zero ∧ bird_shm_ospf_lsa.zero.pad_zero ∧
    bird_shm_ospf_neighbor.zero.pad_zero ∧ bird_shm_bfd_session.zero.pad_zero ∧
    bird_shm_babel_info.zero.pad_zero ∧ bird_shm_babel_iface.zero.pad_zero ∧
    bird_shm_babel_neighbor.zero.pad_zero :=
  ⟨⟨rfl, rfl, rfl⟩, ⟨rfl, rfl⟩, rfl, rfl, ⟨rfl, rfl⟩, ⟨rfl, rfl⟩, rfl,
    ⟨rfl, rfl, rfl, rfl, rfl⟩, ⟨rfl, rfl⟩⟩

/-! ### The arrays of the protocol walk -/

theorem proto_step_protos_fresh (p : proto) (b : builder)
    (h : slots_ok b.snap.protos b.proto_index (fun _ => True) bird_shm_proto.zero) :
    slots_ok (proto_step p b).snap.protos (proto_step p b).proto_index (fun _ => True)
      bird_shm_proto.zero := by
  have h1 := proto_step_pr_view p b
  simp only [builder.pr_view, Prod.mk.injEq] at h1
  rw [h1.1, h1.2.1]
  unfold proto_step_generic
  split
  · exact slots_ok_set _ h trivial
  · exact h

theorem proto_step_bgp_fresh (p : proto) (b : builder)
    (h : slots_ok b.snap.bgp b.bgp_index bird_shm_bgp_info.pad_zero bird_shm_bgp_info.zero) :
    slots_ok (proto_step p b).snap.bgp (proto_step p b).bgp_index bird_shm_bgp_info.pad_zero
      bird_shm_bgp_info.zero := by
  have h1 := proto_step_bgp_view p b
  have h2 := pre_bgp_view p b
  simp only [builder.bgp_view, Prod.mk.injEq] at h1 h2
  rw [h1.1, h1.2.1]
  rw [← h2.1, ← h2.2.1] at h
  generalize proto_step_generic p b = c at h
  unfold proto_step_bgp
  split
  · split
    · exact h
    · exact slots_ok_set _ h (fill_pads.2.1 p)
  · exact h

theorem proto_step_bfd_fresh (p : proto) (b : builder)
    (h : slots_ok b.snap.bfd b.bfd_index bird_shm_bfd_session.pad_zero
      bird_shm_bfd_session.zero) :
    slots_ok (proto_step p b).snap.bfd (proto_step p b).bfd_index
      bird_shm_bfd_session.pad_zero bird_shm_bfd_session.zero := by
  have h1 := proto_step_bfd_view p b
  have h2 := pre_bfd_view p b
  simp only [builder.bfd_view, Prod.mk.injEq] at h1 h2
  rw [h1.1, h1.2.1]
  rw [← h2.1, ← h2.2.1] at h
  generalize proto_step_ospf p (proto_step_bgp p (proto_step_generic p b)) = c at h
  unfold proto_step_bfd
  split
  · rw [hash_walk_sessions_eq]
    exact slots_ok_map_write_at fill_bfd_session _ h fill_pads.2.2.2.2.2.1
  · exact h

theorem proto_step_ospf_fresh (p : proto) (b : builder)
    (h : slots_ok b.snap.ospf b.ospf_index bird_shm_ospf_info.pad_zero
        bird_shm_ospf_info.zero ∧
      slots_ok b.snap.ospf_lsas b.ospf_lsa_index bird_shm_ospf_lsa.pad_zero
        bird_shm_ospf_lsa.zero ∧
      slots_ok b.snap.ospf_neighs b.ospf_neigh_index bird_shm_ospf_neighbor.pad_zero
        bird_shm_ospf_neighbor.zero) :
    slots_ok (proto_step p b).snap.ospf (proto_step p b).ospf_index
        bird_shm_ospf_info.pad_zero bird_shm_ospf_info.zero ∧
    slots_ok (proto_step p b).snap.ospf_lsas (proto_step p b).ospf_lsa_index
        bird_shm_ospf_lsa.pad_zero bird_shm_ospf_lsa.zero ∧
    slots_ok (proto_step p b).snap.ospf_neighs (proto_step p b).ospf_neigh_index
        bird_shm_ospf_neighbor.pad_zero bird_shm_ospf_neighbor.zero := by
  have h1 := proto_step_ospf_view p b
  have h2 := pre_ospf_view p b
  simp only [builder.ospf_view, Prod.mk.injEq] at h1 h2
  obtain ⟨a1, a2, a3, a4, a5, a6, -⟩ := h1
  obtain ⟨c1, c2, c3, c4, c5, c6, -⟩ := h2
  rw [a1, a2, a3, a4, a5, a6]
  rw [← c1, ← c2, ← c3, ← c4, ← c5, ← c6] at h
  generalize proto_step_bgp p (proto_step_generic p b) = c at h
  by_cases hp : proto_is p PROTOCOL_OSPF = true
  · by_cases hi : c.ospf_index ≥ BIRD_SHM_MAX_OSPF
    · have e : proto_step_ospf p c = c.set_trunc BIRD_SHM_TRUNC_OSPF := by
        simp [proto_step_ospf, hp, hi]
      rw [e]
      exact h
    · rw [proto_step_ospf_eq p c hp hi]
      refine ⟨?_, ?_, ?_⟩
      · simp only [arr_update_set]
        exact slots_ok_set _ h.1 (fill_pads.2.2.1 _ _ p _ _)
      · exact slots_ok_map_write_at (fill_ospf_lsa c.ospf_index) _ h.2.1
          (fill_pads.2.2.2.1 c.ospf_index)
      · exact slots_ok_map_write_at
          (fun x : ospf_iface × ospf_neighbor => fill_ospf_neighbor c.ospf_index x.1 x.2) _ h.2.2
          (fun x => fill_pads.2.2.2.2.1 c.ospf_index x.1 x.2)
  · have e : proto_step_ospf p c = c := by simp [proto_step_ospf, hp]
    rw [e]
    exact h

theorem walk_babel_interfaces_fresh (l : List babel_iface) (b : builder)
    (h : slots_ok b.snap.babel_ifaces b.babel_iface_index bird_shm_babel_iface.pad_zero
        bird_shm_babel_iface.zero ∧
      slots_ok b.snap.babel_neighs b.babel_neigh_index bird_shm_babel_neighbor.pad_zero
        bird_shm_babel_neighbor.zero) :
    (slots_ok (walk_babel_interfaces l b).snap.babel_ifaces
        (walk_babel_interfaces l b).babel_iface_index bird_shm_babel_iface.pad_zero
        bird_shm_babel_iface.zero ∧
      slots_ok (walk_babel_interfaces l b).snap.babel_neighs
        (walk_babel_interfaces l b).babel_neigh_index bird_shm_babel_neighbor.pad_zero
        bird_shm_babel_neighbor.zero) ∧
    (walk_babel_interfaces l b).babel_index = b.babel_index := by
  induction l generalizing b with
  | nil => exact ⟨h, rfl⟩
  | cons bi rest ih =>
    have hround : (slots_ok (next_babel_iface (walk_babel_neigh_list bi.neigh_list
          (emit_babel_iface bi b))).snap.babel_ifaces
        (next_babel_iface (walk_babel_neigh_list bi.neigh_list
          (emit_babel_iface bi b))).babel_iface_index bird_shm_babel_iface.pad_zero
        bird_shm_babel_iface.zero ∧
      slots_ok (next_babel_iface (walk_babel_neigh_list bi.neigh_list
          (emit_babel_iface bi b))).snap.babel_neighs
        (next_babel_iface (walk_babel_neigh_list bi.neigh_list
          (emit_babel_iface bi b))).babel_neigh_index bird_shm_babel_neighbor.pad_zero
        bird_shm_babel_neighbor.zero) := by
      obtain ⟨r1, r2, -, r4, r5⟩ := babel_iface_round_arrays bi b
      rw [r1, r2, r4, r5]
      exact ⟨slots_ok_set _ h.1 (fill_pads.2.2.2.2.2.2.2.1 _ _ bi _),
        slots_ok_map_write_at (fill_babel_neighbor b.babel_iface_index) _ h.2
          (fill_pads.2.2.2.2.2.2.2.2 b.babel_iface_index)⟩
    have hidx := (babel_iface_round_arrays bi b).2.2.1
    unfold walk_babel_interfaces
    split
    · exact ⟨h, rfl⟩
    · split
      · exact ⟨hround, hidx⟩
      · obtain ⟨i1, i2⟩ := ih _ hround
        exact ⟨i1, i2.trans hidx⟩

theorem proto_step_babel_fresh (p : proto) (b : builder)
    (h : slots_ok b.snap.babel b.babel_index bird_shm_babel_info.pad_zero
        bird_shm_babel_info.zero ∧
      slots_ok b.snap.babel_ifaces b.babel_iface_index bird_shm_babel_iface.pad_zero
        bird_shm_babel_iface.zero ∧
      slots_ok b.snap.babel_neighs b.babel_neigh_index bird_shm_babel_neighbor.pad_zero
        bird_shm_babel_neighbor.zero) :
    slots_ok (proto_step p b).snap.babel (proto_step p b).babel_index
        bird_shm_babel_info.pad_zero bird_shm_babel_info.zero ∧
    slots_ok (proto_step p b).snap.babel_ifaces (proto_step p b).babel_iface_index
        bird_shm_babel_iface.pad_zero bird_shm_babel_iface.zero ∧
    slots_ok (proto_step p b).snap.babel_neighs (proto_step p b).babel_neigh_index
        bird_shm_babel_neighbor.pad_zero bird_shm_babel_neighbor.zero := by
  have h1 := proto_step_babel_view p b
  have h2 := pre_babel_view p b
  simp only [builder.babel_view, Prod.mk.injEq] at h1 h2
  obtain ⟨a1, a2, a3, a4, a5, a6, -⟩ := h1
  obtain ⟨c1, c2, c3, c4, c5, c6, -⟩ := h2
  rw [a1, a2, a3, a4, a5, a6]
  rw [← c1, ← c2, ← c3, ← c4, ← c5, ← c6] at h
  generalize proto_step_bfd p (proto_step_ospf p (proto_step_bgp p
    (proto_step_generic p b))) = c at h
  by_cases hp : proto_is p PROTOCOL_BABEL = true
  · by_cases hi : c.babel_index ≥ BIRD_SHM_MAX_BABEL
    · have e : proto_step_babel p c = c.set_trunc BIRD_SHM_TRUNC_BABEL := by
        simp [proto_step_babel, hp, hi]
      rw [e]
      exact h
    · have e : proto_step_babel p c
          = next_babel (walk_babel_interfaces p.babel.interfaces (emit_babel p c)) := by
        simp [proto_step_babel, hp, hi]
      obtain ⟨w, widx⟩ := walk_babel_interfaces_fresh p.babel.interfaces (emit_babel p c) h.2
      refine ⟨?_, ?_⟩
      · obtain ⟨k, hk⟩ := proto_step_babel_array p c hp hi
        have hidx : (proto_step_babel p c).babel_index = c.babel_index + 1 := by
          rw [e]
          show (walk_babel_interfaces p.babel.interfaces (emit_babel p c)).babel_index + 1 = _
          rw [widx]
          rfl
        rw [hk, hidx]
        exact slots_ok_set _ h.1 (fill_pads.2.2.2.2.2.2.1 _ p _ _)
      · rw [e]
        exact w
  · have e : proto_step_babel p c = c := by simp [proto_step_babel, hp]
    rw [e]
    exact h

theorem mem_iface_addr_records (l : List iface) (i : Nat) (r : bird_shm_iface_addr)
    (h : r ∈ iface_addr_records i l) : r.pad_zero := by
  induction l generalizing i with
  | nil => simp [iface_addr_records] at h
  | cons ifa rest ih =>
    rw [iface_addr_records_cons, List.mem_append] at h
    rcases h with h | h
    · rw [List.mem_map] at h
      obtain ⟨a, -, rfl⟩ := h
      exact fill_pads.1 i a
    · exact ih _ h

theorem init_fresh (d : daemon) (region : bird_shm_region) :
    slots_ok (builder.init d region).snap.protos (builder.init d region).proto_index
      (fun _ => True) bird_shm_proto.zero ∧
    slots_ok (builder.init d region).snap.bgp (builder.init d region).bgp_index
      bird_shm_bgp_info.pad_zero bird_shm_bgp_info.zero ∧
    (slots_ok (builder.init d region).snap.ospf (builder.init d region).ospf_index
        bird_shm_ospf_info.pad_zero bird_shm_ospf_info.zero ∧
      slots_ok (builder.init d region).snap.ospf_lsas (builder.init d region).ospf_lsa_index
        bird_shm_ospf_lsa.pad_zero bird_shm_ospf_lsa.zero ∧
      slots_ok (builder.init d region).snap.ospf_neighs (builder.init d region).ospf_neigh_index
        bird_shm_ospf_neighbor.pad_zero bird_shm_ospf_neighbor.zero) ∧
    slots_ok (builder.init d region).snap.bfd (builder.init d region).bfd_index
      bird_shm_bfd_session.pad_zero bird_shm_bfd_session.zero ∧
    (slots_ok (builder.init d region).snap.babel (builder.init d region).babel_index
        bird_shm_babel_info.pad_zero bird_shm_babel_info.zero ∧
      slots_ok (builder.init d region).snap.babel_ifaces
        (builder.init d region).babel_iface_index
        bird_shm_babel_iface.pad_zero bird_shm_babel_iface.zero ∧
      slots_ok (builder.init d region).snap.babel_neighs
        (builder.init d region).babel_neigh_index
        bird_shm_babel_neighbor.pad_zero bird_shm_babel_neighbor.zero) := by
  obtain ⟨-, z2, z3, z4, z5, z6, z7, z8, z9⟩ := zero_pads
  exact ⟨slots_ok_replicate _ _ _ _ trivial, slots_ok_replicate _ _ _ _ z2,
    ⟨slots_ok_replicate _ _ _ _ z3, slots_ok_replicate _ _ _ _ z4,
      slots_ok_replicate _ _ _ _ z5⟩,
    slots_ok_replicate _ _ _ _ z6,
    ⟨slots_ok_replicate _ _ _ _ z7, slots_ok_replicate _ _ _ _ z8,
      slots_ok_replicate _ _ _ _ z9⟩⟩

/-- In the finished snapshot every padding field is zero and every slot from
    the stored count on holds the cleared record. -/
theorem run_fresh (d : daemon) (region : bird_shm_region) :
    slots_ok (builder.run d region).snap.ifaces (builder.run d region).snap.iface_count
      (fun _ => True) bird_shm_iface.zero ∧
    slots_ok (builder.run d region).snap.iface_addrs
      (builder.run d region).snap.iface_addr_count
      bird_shm_iface_addr.pad_zero bird_shm_iface_addr.zero ∧
    slots_ok (builder.run d region).snap.protos (builder.run d region).snap.proto_count
      (fun _ => True) bird_shm_proto.zero ∧
    slots_ok (builder.run d region).snap.bgp (builder.run d region).snap.bgp_count
      bird_shm_bgp_info.pad_zero bird_shm_bgp_info.zero ∧
    slots_ok (builder.run d region).snap.ospf (builder.run d region).snap.ospf_count
      bird_shm_ospf_info.pad_zero bird_shm_ospf_info.zero ∧
    slots_ok (builder.run d region).snap.ospf_lsas (builder.run d region).snap.ospf_lsa_count
      bird_shm_ospf_lsa.pad_zero bird_shm_ospf_lsa.zero ∧
    slots_ok (builder.run d region).snap.ospf_neighs
      (builder.run d region).snap.ospf_neigh_count
      bird_shm_ospf_neighbor.pad_zero bird_shm_ospf_neighbor.zero ∧
    slots_ok (builder.run d region).snap.bfd (builder.run d region).snap.bfd_count
      bird_shm_bfd_session.pad_zero bird_shm_bfd_session.zero ∧
    slots_ok (builder.run d region).snap.babel (builder.run d region).snap.babel_count
      bird_shm_babel_info.pad_zero bird_shm_babel_info.zero ∧
    slots_ok (builder.run d region).snap.babel_ifaces
      (builder.run d region).snap.babel_iface_count
      bird_shm_babel_iface.pad_zero bird_shm_babel_iface.zero ∧
    slots_ok (builder.run d region).snap.babel_neighs
      (builder.run d region).snap.babel_neigh_count
      bird_shm_babel_neighbor.pad_zero bird_shm_babel_neighbor.zero := by
  have hs := run_start_views d region
  simp only [builder.pr_view, builder.bgp_view, builder.ospf_view, builder.bfd_view,
    builder.babel_view, Prod.mk.injEq] at hs
  obtain ⟨hpr, hbgp, hospf, hbfd, hbabel⟩ := hs
  obtain ⟨ipr, ibgp, iospf, ibfd, ibabel⟩ := init_fresh d region
  rw [← hpr.1, ← hpr.2.1] at ipr
  rw [← hbgp.1, ← hbgp.2.1] at ibgp
  rw [← hospf.1, ← hospf.2.1, ← hospf.2.2.1, ← hospf.2.2.2.1, ← hospf.2.2.2.2.1,
    ← hospf.2.2.2.2.2.1] at iospf
  rw [← hbfd.1, ← hbfd.2.1] at ibfd
  rw [← hbabel.1, ← hbabel.2.1, ← hbabel.2.2.1, ← hbabel.2.2.2.1, ← hbabel.2.2.2.2.1,
    ← hbabel.2.2.2.2.2.1] at ibabel
  have fpr := walk_proto_list_inv
    (fun b => slots_ok b.snap.protos b.proto_index (fun _ => True) bird_shm_proto.zero)
    proto_step_protos_fresh d.proto_list _ ipr
  have fbgp := walk_proto_list_inv
    (fun b => slots_ok b.snap.bgp b.bgp_index bird_shm_bgp_info.pad_zero
      bird_shm_bgp_info.zero)
    proto_step_bgp_fresh d.proto_list _ ibgp
  have fospf := walk_proto_list_inv
    (fun b => slots_ok b.snap.ospf b.ospf_index bird_shm_ospf_info.pad_zero
        bird_shm_ospf_info.zero ∧
      slots_ok b.snap.ospf_lsas b.ospf_lsa_index bird_shm_ospf_lsa.pad_zero
        bird_shm_ospf_lsa.zero ∧
      slots_ok b.snap.ospf_neighs b.ospf_neigh_index bird_shm_ospf_neighbor.pad_zero
        bird_shm_ospf_neighbor.zero)
    proto_step_ospf_fresh d.proto_list _ iospf
  have fbfd := walk_proto_list_inv
    (fun b => slots_ok b.snap.bfd b.bfd_index bird_shm_bfd_session.pad_zero
      bird_shm_bfd_session.zero)
    proto_step_bfd_fresh d.proto_list _ ibfd
  have fbabel := walk_proto_list_inv
    (fun b => slots_ok b.snap.babel b.babel_index bird_shm_babel_info.pad_zero
        bird_shm_babel_info.zero ∧
      slots_ok b.snap.babel_ifaces b.babel_iface_index bird_shm_babel_iface.pad_zero
        bird_shm_babel_iface.zero ∧
      slots_ok b.snap.babel_neighs b.babel_neigh_index bird_shm_babel_neighbor.pad_zero
        bird_shm_babel_neighbor.zero)
    proto_step_babel_fresh d.proto_list _ ibabel
  obtain ⟨g1, g2, g3, g4, -⟩ := run_iface_general d region
  refine ⟨?_, ?_, fpr, fbgp, fospf.1, fospf.2.1, fospf.2.2, fbfd, fbabel.1, fbabel.2.1,
    fbabel.2.2⟩
  · rw [g1, g3]
    have := slots_ok_write_at ((iface_records_trunc 0 d.iface_list).take BIRD_SHM_MAX_INTERFACES)
      (slots_ok_replicate BIRD_SHM_MAX_INTERFACES 0 (fun _ => True) bird_shm_iface.zero trivial)
      (fun _ _ => trivial)
    rw [Nat.zero_add, List.length_take, length_iface_records_trunc] at this
    rw [List.length_take]
    exact this
  · rw [g2, g4]
    have := slots_ok_write_at
      ((iface_addr_records 0 (d.iface_list.take BIRD_SHM_MAX_INTERFACES)).take
        BIRD_SHM_MAX_IFACE_ADDRS)
      (slots_ok_replicate BIRD_SHM_MAX_IFACE_ADDRS 0 bird_shm_iface_addr.pad_zero
        bird_shm_iface_addr.zero zero_pads.1)
      (fun r hr => mem_iface_addr_records _ _ r (List.mem_of_mem_take hr))
    rw [Nat.zero_add] at this
    exact this

/-! # Claims about `bird_shm_poll` -/

/-- C1: on an active region with the flag raised, the refresh opcode in the
    mailbox and an even counter, `bird_shm_poll` ends in the last of four
    successive region states: the counter incremented once (odd, snapshot and
    flag untouched), the builder run (counter still odd, flag still raised),
    the counter incremented again (advanced by two modulo `2 ^ 64`, even, flag
    still raised), and only then the flag cleared; the final snapshot is the
    builder output for the daemon state and records the refresh opcode. -/
theorem C1_poll_refresh (d : daemon) (m : shm_module) (region : bird_shm_region)
    (hen : m.shm_enabled ≠ 0) (hreg : m.shm_region = some region)
    (hflag : region.cmd_flag ≠ 0) (hcmd : region.mailbox.cmd = BIRD_SHM_CMD_SNAPSHOT)
    (heven : region.version_seq % 2 = 0) :
    ∃ r1 r2 r3 r4 : bird_shm_region,
      bird_shm_poll_refresh_steps d region = [r1, r2, r3, r4] ∧
      bird_shm_poll d m = { m with shm_region := some r4 } ∧
      (r1.version_seq = (region.version_seq + 1) % 2 ^ 64 ∧ r1.version_seq % 2 = 1 ∧
        r1.snapshot = region.snapshot ∧ r1.cmd_flag = region.cmd_flag) ∧
      (r2.snapshot = (bird_shm_write_snapshot d region).snapshot ∧
        r2.version_seq = r1.version_seq ∧ r2.cmd_flag = region.cmd_flag) ∧
      (r3.version_seq = (region.version_seq + 2) % 2 ^ 64 ∧ r3.version_seq % 2 = 0 ∧
        r3.snapshot = r2.snapshot ∧ r3.cmd_flag = region.cmd_flag ∧ r3.cmd_flag ≠ 0) ∧
      (r4.cmd_flag = 0 ∧ r4.version_seq = r3.version_seq ∧
        r4.snapshot = (bird_shm_write_snapshot d region).snapshot ∧
        r4.snapshot.last_cmd = BIRD_SHM_CMD_SNAPSHOT) := by
  refine ⟨atomic_fetch_add_version_seq region 1,
    bird_shm_write_snapshot d (atomic_fetch_add_version_seq region 1),
    atomic_fetch_add_version_seq
      (bird_shm_write_snapshot d (atomic_fetch_add_version_seq region 1)) 1,
    atomic_store_cmd_flag (atomic_fetch_add_version_seq
      (bird_shm_write_snapshot d (atomic_fetch_add_version_seq region 1)) 1) 0,
    rfl, ?_, ?_, ?_, ?_, ?_⟩
  · simp [bird_shm_poll, hen, hreg, hflag, hcmd]
  · refine ⟨rfl, ?_, rfl, rfl⟩
    simp only [atomic_fetch_add_version_seq]
    omega
  · exact ⟨congrArg builder.snap (run_congr d _ region rfl), rfl, rfl⟩
  · refine ⟨?_, ?_, rfl, rfl, hflag⟩
    · simp only [atomic_fetch_add_version_seq, bird_shm_write_snapshot]
      omega
    · simp only [atomic_fetch_add_version_seq, bird_shm_write_snapshot]
      omega
  · refine ⟨rfl, rfl, ?_, ?_⟩
    · exact congrArg builder.snap (run_congr d _ region rfl)
    · simp only [bird_shm_write_snapshot, atomic_store_cmd_flag, atomic_fetch_add_version_seq]
      rw [(run_hdr d _).2.1]
      exact hcmd

/-- C1 at a concrete input: an active module, request raised with the refresh
    opcode, counter `4`. -/
theorem C1_poll_refresh_witness :
    (example_module (example_region 1)).shm_enabled ≠ 0 ∧
    (example_region 1).cmd_flag ≠ 0 ∧
    (example_region 1).mailbox.cmd = BIRD_SHM_CMD_SNAPSHOT ∧
    (example_region 1).version_seq % 2 = 0 ∧
    ∃ r1 r2 r3 r4 : bird_shm_region,
      bird_shm_poll_refresh_steps example_daemon (example_region 1) = [r1, r2, r3, r4] ∧
      bird_shm_poll example_daemon (example_module (example_region 1)) =
        { example_module (example_region 1) with shm_region := some r4 } ∧
      (r1.version_seq = ((example_region 1).version_seq + 1) % 2 ^ 64 ∧
        r1.version_seq % 2 = 1 ∧
        r1.snapshot = (example_region 1).snapshot ∧
        r1.cmd_flag = (example_region 1).cmd_flag) ∧
      (r2.snapshot = (bird_shm_write_snapshot example_daemon (example_region 1)).snapshot ∧
        r2.version_seq = r1.version_seq ∧ r2.cmd_flag = (example_region 1).cmd_flag) ∧
      (r3.version_seq = ((example_region 1).version_seq + 2) % 2 ^ 64 ∧
        r3.version_seq % 2 = 0 ∧
        r3.snapshot = r2.snapshot ∧ r3.cmd_flag = (example_region 1).cmd_flag ∧
        r3.cmd_flag ≠ 0) ∧
      (r4.cmd_flag = 0 ∧ r4.version_seq = r3.version_seq ∧
        r4.snapshot = (bird_shm_write_snapshot example_daemon (example_region 1)).snapshot ∧
        r4.snapshot.last_cmd = BIRD_SHM_CMD_SNAPSHOT) :=
  ⟨by decide, by decide, rfl, by decide,
    C1_poll_refresh example_daemon (example_module (example_region 1)) (example_region 1)
      (by decide) rfl (by decide) rfl (by decide)⟩

/-- C2: on an active region with the flag raised and an opcode other than
    refresh, `bird_shm_poll` clears the flag and leaves the snapshot and the
    sequence counter (and everything else) as they were. -/
theorem C2_poll_unknown_command (d : daemon) (m : shm_module) (region : bird_shm_region)
    (hen : m.shm_enabled ≠ 0) (hreg : m.shm_region = some region)
    (hflag : region.cmd_flag ≠ 0) (hcmd : region.mailbox.cmd ≠ BIRD_SHM_CMD_SNAPSHOT) :
    bird_shm_poll d m = { m with shm_region := some { region with cmd_flag := 0 } } ∧
    ∃ r : bird_shm_region, (bird_shm_poll d m).shm_region = some r ∧
      r.cmd_flag = 0 ∧ r.snapshot = region.snapshot ∧
      r.snapshot.last_cmd = region.snapshot.last_cmd ∧
      r.snapshot.trunc_flags = region.snapshot.trunc_flags ∧
      r.version_seq = region.version_seq := by
  have h : bird_shm_poll d m = { m with shm_region := some { region with cmd_flag := 0 } } := by
    simp [bird_shm_poll, hen, hreg, hflag, hcmd, atomic_store_cmd_flag]
  refine ⟨h, { region with cmd_flag := 0 }, ?_, rfl, rfl, rfl, rfl, rfl⟩
  rw [h]

/-- C2 at a concrete input: opcode `7` with the flag raised. -/
theorem C2_poll_unknown_command_witness :
    (example_module (example_region 7)).shm_enabled ≠ 0 ∧
    (example_region 7).cmd_flag ≠ 0 ∧
    (example_region 7).mailbox.cmd ≠ BIRD_SHM_CMD_SNAPSHOT ∧
    bird_shm_poll example_daemon (example_module (example_region 7)) =
      { example_module (example_region 7) with
        shm_region := some { example_region 7 with cmd_flag := 0 } } ∧
    ∃ r : bird_shm_region,
      (bird_shm_poll example_daemon (example_module (example_region 7))).shm_region = some r ∧
      r.cmd_flag = 0 ∧ r.snapshot = (example_region 7).snapshot ∧
      r.snapshot.last_cmd = (example_region 7).snapshot.last_cmd ∧
      r.snapshot.trunc_flags = (example_region 7).snapshot.trunc_flags ∧
      r.version_seq = (example_region 7).version_seq :=
  ⟨by decide, by decide, by decide,
    C2_poll_unknown_command example_daemon (example_module (example_region 7))
      (example_region 7) (by decide) rfl (by decide) (by decide)⟩

/-- C3: when the feature is inactive (`shm_enabled` is zero or the region
    pointer is null) or the mapped region has `cmd_flag == 0`, `bird_shm_poll`
    returns the module state, region included, exactly as it was, whatever the
    mailbox holds. -/
theorem C3_poll_idle (d : daemon) (m : shm_module)
    (h : m.shm_enabled = 0 ∨ m.shm_region = none ∨
      ∃ region, m.shm_region = some region ∧ region.cmd_flag = 0) :
    bird_shm_poll d m = m := by
  unfold bird_shm_poll
  rcases h with h | h | ⟨region, hr, hf⟩
  · simp [h]
  · simp [h]
  · simp [hr, hf]

/-- C3 at concrete inputs: the initial module state (never initialised), and
    an active module whose region has the flag down while the mailbox holds
    the refresh opcode. -/
theorem C3_poll_idle_witness :
    bird_shm_poll example_daemon shm_module.initial = shm_module.initial ∧
    bird_shm_poll example_daemon
        (example_module { example_region 1 with cmd_flag := 0 }) =
      example_module { example_region 1 with cmd_flag := 0 } :=
  ⟨C3_poll_idle example_daemon shm_module.initial (Or.inl rfl),
    C3_poll_idle example_daemon (example_module { example_region 1 with cmd_flag := 0 })
      (Or.inr (Or.inr ⟨_, rfl, rfl⟩))⟩

/-- C11: two refresh requests raised before the writer polls act as one.
    From an active state with an even counter, after a reader has written the
    refresh opcode and raised the flag twice, `bird_shm_poll` ends in the
    very state it reaches after the last request alone: one snapshot write
    (the counter advanced by 2 modulo `2 ^ 64`, by exactly 2 when it does not
    wrap, and even again), the refresh opcode recorded in `last_cmd`, the
    flag cleared; and another `bird_shm_poll` with no new request, whatever
    the daemon state then is, changes nothing. -/
theorem C11_double_request_once (d d' : daemon) (m : shm_module) (region : bird_shm_region)
    (a0 a1 b0 b1 : Nat)
    (hen : m.shm_enabled ≠ 0) (heven : region.version_seq % 2 = 0) :
    bird_shm_poll d { m with
          shm_region := some (reader_request BIRD_SHM_CMD_SNAPSHOT b0 b1
          (reader_request BIRD_SHM_CMD_SNAPSHOT a0 a1 region)) }
      = bird_shm_poll d { m with
          shm_region := some (reader_request BIRD_SHM_CMD_SNAPSHOT b0 b1 region) } ∧
    (∃ r : bird_shm_region,
      bird_shm_poll d { m with
          shm_region := some (reader_request BIRD_SHM_CMD_SNAPSHOT b0 b1
          (reader_request BIRD_SHM_CMD_SNAPSHOT a0 a1 region)) }
        = { m with shm_region := some r } ∧
      r.version_seq = (region.version_seq + 2) % 2 ^ 64 ∧
      r.version_seq % 2 = 0 ∧
      (region.version_seq + 2 < 2 ^ 64 → r.version_seq = region.version_seq + 2) ∧
      r.snapshot = (bird_shm_write_snapshot d
        (reader_request BIRD_SHM_CMD_SNAPSHOT b0 b1 region)).snapshot ∧
      r.snapshot.last_cmd = BIRD_SHM_CMD_SNAPSHOT ∧
      r.cmd_flag = 0 ∧
      bird_shm_poll d' { m with shm_region := some r } = { m with shm_region := some r }) := by
  have hen' : ¬ m.shm_enabled = 0 := hen
  refine ⟨rfl, ?_⟩
  refine ⟨atomic_store_cmd_flag (atomic_fetch_add_version_seq
      (bird_shm_write_snapshot d (atomic_fetch_add_version_seq
        (reader_request BIRD_SHM_CMD_SNAPSHOT b0 b1
          (reader_request BIRD_SHM_CMD_SNAPSHOT a0 a1 region)) 1)) 1) 0,
    ?_, ?_, ?_, ?_, ?_, ?_, rfl, ?_⟩
  · simp [bird_shm_poll, hen', reader_request]
  · simp only [atomic_store_cmd_flag, atomic_fetch_add_version_seq, bird_shm_write_snapshot,
      reader_request]
    omega
  · simp only [atomic_store_cmd_flag, atomic_fetch_add_version_seq, bird_shm_write_snapshot,
      reader_request]
    omega
  · intro h
    simp only [atomic_store_cmd_flag, atomic_fetch_add_version_seq, bird_shm_write_snapshot,
      reader_request]
    omega
  · exact congrArg builder.snap (run_congr d _ _ rfl)
  · simp only [bird_shm_write_snapshot, atomic_store_cmd_flag, atomic_fetch_add_version_seq]
    rw [(run_hdr d _).2.1]
    rfl
  · simp [bird_shm_poll, hen', atomic_store_cmd_flag]

/-- C11 at a concrete input: an active module whose region has counter 4,
    two refresh requests with different arguments. -/
theorem C11_double_request_once_witness :
    (example_module (example_region 0)).shm_enabled ≠ 0 ∧
    (example_region 0).version_seq % 2 = 0 ∧
    bird_shm_poll example_daemon { example_module (example_region 0) with
          shm_region := some (reader_request BIRD_SHM_CMD_SNAPSHOT 3 4
          (reader_request BIRD_SHM_CMD_SNAPSHOT 1 2 (example_region 0))) }
      = bird_shm_poll example_daemon { example_module (example_region 0) with
          shm_region := some (reader_request BIRD_SHM_CMD_SNAPSHOT 3 4 (example_region 0)) } ∧
    (∃ r : bird_shm_region,
      bird_shm_poll example_daemon { example_module (example_region 0) with
          shm_region := some (reader_request BIRD_SHM_CMD_SNAPSHOT 3 4
          (reader_request BIRD_SHM_CMD_SNAPSHOT 1 2 (example_region 0))) }
        = { example_module (example_region 0) with shm_region := some r } ∧
      r.version_seq = ((example_region 0).version_seq + 2) % 2 ^ 64 ∧
      r.version_seq % 2 = 0 ∧
      ((example_region 0).version_seq + 2 < 2 ^ 64 →
        r.version_seq = (example_region 0).version_seq + 2) ∧
      r.snapshot = (bird_shm_write_snapshot example_daemon
        (reader_request BIRD_SHM_CMD_SNAPSHOT 3 4 (example_region 0))).snapshot ∧
      r.snapshot.last_cmd = BIRD_SHM_CMD_SNAPSHOT ∧
      r.cmd_flag = 0 ∧
      bird_shm_poll example_iface_daemon
          { example_module (example_region 0) with shm_region := some r }
        = { example_module (example_region 0) with shm_region := some r }) :=
  ⟨by decide, by decide,
    C11_double_request_once example_daemon example_iface_daemon
      (example_module (example_region 0)) (example_region 0) 1 2 3 4 (by decide) (by decide)⟩

/-- C16: `bird_shm_poll` never writes the mailbox nor the identity fields of
    the header: whatever the module state and on every path (idle, unknown
    opcode, refresh), `magic`, the region `version`, the reserved word and
    the whole mailbox (opcode, reserved word and both arguments) of the
    mapped region are after the call what they were before it, the region
    stays mapped where it was mapped, and `shm_enabled` and `shm_fd` are
    untouched. -/
theorem C16_poll_frame (d : daemon) (m : shm_module) :
    (bird_shm_poll d m).shm_region.map
        (fun r => (r.magic, r.version, r.reserved, r.mailbox.cmd, r.mailbox.reserved,
          r.mailbox.arg0, r.mailbox.arg1))
      = m.shm_region.map
          (fun r => (r.magic, r.version, r.reserved, r.mailbox.cmd, r.mailbox.reserved,
            r.mailbox.arg0, r.mailbox.arg1)) ∧
    (bird_shm_poll d m).shm_enabled = m.shm_enabled ∧
    (bird_shm_poll d m).shm_fd = m.shm_fd := by
  unfold bird_shm_poll
  by_cases hen : m.shm_enabled = 0
  · simp [hen]
  · cases hreg : m.shm_region with
    | none => simp [hen, hreg]
    | some region =>
      by_cases hf : region.cmd_flag = 0
      · simp [hen, hreg, hf]
      · by_cases hc : region.mailbox.cmd = BIRD_SHM_CMD_SNAPSHOT
        · simp [hen, hf, hc, atomic_store_cmd_flag, atomic_fetch_add_version_seq,
            bird_shm_write_snapshot]
        · simp [hen, hf, hc, atomic_store_cmd_flag]

/-- C12 fails as stated across a restart of the daemon.  `bird_shm_init`
    maps the object that an earlier run left (`shm_open` with `O_CREAT`, no
    `O_EXCL`), clears it and stores 0 to the counter, outside any pair of
    increments.  On a fresh object, a first run initialises it, serves one
    request and publishes two interfaces: the counter is 2 and no call is
    running.  The daemon is started again without interfaces and serves one
    request: two increments later the counter is 2 again.  A reader attached
    to the object that samples the counter after the first run and after the
    second finds the two samples equal and even, yet a field loaded right
    after the first sample is from the first run (`iface_count = 2`) and a
    field loaded right before the second one is from the second run
    (`iface_addr_count = 0`), and in between the snapshot was the cleared
    one.  The region before each call is the one `reader_request` leaves
    and the region after it the one `bird_shm_poll` leaves. -/
theorem C12_counterexample :
    bird_shm_region.zero.version_seq = 0 ∧
    ((run_events example_first_run (shm_system.start bird_shm_region.zero)).region.version_seq
        = 2 ∧
      (run_events example_first_run (shm_system.start bird_shm_region.zero)).pending.isEmpty
        = true ∧
      (run_events example_first_run
        (shm_system.start bird_shm_region.zero)).region.snapshot.iface_count = 2 ∧
      (run_events example_first_run
        (shm_system.start bird_shm_region.zero)).region.snapshot.iface_addr_count = 2) ∧
    ((run_events (example_first_run ++ example_second_run.take 1)
        (shm_system.start bird_shm_region.zero)).region.version_seq = 0 ∧
      (run_events (example_first_run ++ example_second_run.take 1)
        (shm_system.start bird_shm_region.zero)).region.snapshot.iface_count = 0) ∧
    ((run_events (example_first_run ++ example_second_run)
        (shm_system.start bird_shm_region.zero)).region.version_seq = 2 ∧
      (run_events (example_first_run ++ example_second_run)
        (shm_system.start bird_shm_region.zero)).increments
        - (run_events example_first_run (shm_system.start bird_shm_region.zero)).increments
        = 2 ∧
      (run_events (example_first_run ++ example_second_run)
        (shm_system.start bird_shm_region.zero)).region.snapshot.iface_count = 0 ∧
      (run_events (example_first_run ++ example_second_run)
        (shm_system.start bird_shm_region.zero)).region.snapshot.iface_addr_count = 0) ∧
    bird_shm_poll example_iface_daemon
        { shm_region := some (reader_request 1 0 0 (bird_shm_init_region bird_shm_region.zero)),
          shm_enabled := 1, shm_fd := 3 }
      = { shm_region := some
            (run_events example_first_run (shm_system.start bird_shm_region.zero)).region,
          shm_enabled := 1, shm_fd := 3 } ∧
    bird_shm_poll example_daemon
        { shm_region := some (reader_request 1 0 0 (bird_shm_init_region
            (run_events example_first_run (shm_system.start bird_shm_region.zero)).region)),
          shm_enabled := 1, shm_fd := 3 }
      = { shm_region := some
            (run_events (example_first_run ++ example_second_run)
              (shm_system.start bird_shm_region.zero)).region,
          shm_enabled := 1, shm_fd := 3 } :=
  ⟨rfl, ⟨rfl, rfl, rfl, rfl⟩, ⟨rfl, rfl⟩, ⟨rfl, rfl, rfl, rfl⟩, rfl, rfl⟩

/-- C12, amended: the sequence protocol within one run of the daemon.  Take
    any execution, from a region with an even counter and no call running:
    calls of `bird_shm_poll` taken one access at a time, with any
    granularity of the stores of the builder, restarts of the daemon, and
    stores of readers, in any order.  An uninterrupted call in such an
    execution leaves the region that `bird_shm_poll` leaves.  If a reader
    samples the counter after the steps `pre` and again after the further
    steps `mid`, finds the two samples equal and even, `bird_shm_init` does
    not run between the two samples, and fewer than `2 ^ 64` increments of
    the 64-bit counter take effect between them, then after every step in
    between the snapshot is the one published when the counter last became
    even before the first sample: every field the reader copied comes from
    that one snapshot. -/
theorem C12_seqlock_consistent (r0 : bird_shm_region) (pre mid : List shm_event)
    (hlt : r0.version_seq < 2 ^ 64) (h0 : r0.version_seq % 2 = 0)
    (hinit : ∀ e ∈ mid, e.is_init = false)
    (hsame : (run_events (pre ++ mid) (shm_system.start r0)).region.version_seq
      = (run_events pre (shm_system.start r0)).region.version_seq)
    (heven : (run_events pre (shm_system.start r0)).region.version_seq % 2 = 0)
    (hbound : (run_events (pre ++ mid) (shm_system.start r0)).increments
      - (run_events pre (shm_system.start r0)).increments < 2 ^ 64) :
    (∀ (d : daemon) (before after : List bird_shm_snapshot) (m : shm_module)
        (r : bird_shm_region), m.shm_enabled ≠ 0 → m.shm_region = some r →
      bird_shm_poll d m
        = { m with
            shm_region := some
              (run_events (poll_events d before after) (shm_system.start r)).region }) ∧
    ∀ k, (run_events (pre ++ mid.take k) (shm_system.start r0)).region.snapshot
      = (run_events pre (shm_system.start r0)).published := by
  refine ⟨?_, ?_⟩
  · intro d before after m r hen hreg
    rw [bird_shm_poll_region d m r hen hreg,
      (poll_events_region d before after (shm_system.start r) rfl).1]
    rfl
  · intro k
    have hok := ok_run pre _ (start_ok r0 hlt h0)
    obtain ⟨c1, c2⟩ := run_counter mid _ hinit hok.2.1
    rw [← run_events_append] at c1 c2
    have hz : (run_events (pre ++ mid) (shm_system.start r0)).increments
        = (run_events pre (shm_system.start r0)).increments := by
      rw [c2] at hsame
      have hv := hok.2.1
      have : ((run_events pre (shm_system.start r0)).region.version_seq
          + ((run_events (pre ++ mid) (shm_system.start r0)).increments
            - (run_events pre (shm_system.start r0)).increments)) % 2 ^ 64
          = (run_events pre (shm_system.start r0)).region.version_seq := hsame
      omega
    have hik : ∀ e ∈ mid.take k, e.is_init = false :=
      fun e he => hinit e (List.mem_of_mem_take he)
    have hid : ∀ e ∈ mid.drop k, e.is_init = false :=
      fun e he => hinit e (List.mem_of_mem_drop he)
    obtain ⟨k1, -⟩ := run_counter (mid.take k) _ hik hok.2.1
    have hokk := ok_run (mid.take k) _ hok
    obtain ⟨k2, -⟩ := run_counter (mid.drop k) _ hid hokk.2.1
    have e : run_events (mid.drop k)
        (run_events (mid.take k) (run_events pre (shm_system.start r0)))
        = run_events (pre ++ mid) (shm_system.start r0) := by
      rw [← run_events_append, List.take_append_drop, ← run_events_append]
    rw [e] at k2
    rw [run_events_append, run_quiet (mid.take k) _ hok heven hik (by omega)]
    exact hok.2.2 heven

/-- C12, amended, at a concrete execution: after a run of the daemon that
    published two interfaces a reader samples the counter; another reader
    raises a request and a call of `bird_shm_poll` begins and loads the flag
    and the opcode; the first reader samples again.  The two samples are 2,
    no restart and no increment lies between them, and the snapshot is the
    published one throughout. -/
theorem C12_seqlock_consistent_witness :
    bird_shm_region.zero.version_seq < 2 ^ 64 ∧
    bird_shm_region.zero.version_seq % 2 = 0 ∧
    (∀ e ∈ example_call_begun, e.is_init = false) ∧
    (run_events example_first_run (shm_system.start bird_shm_region.zero)).region.version_seq
      = 2 ∧
    (run_events (example_first_run ++ example_call_begun)
      (shm_system.start bird_shm_region.zero)).region.version_seq = 2 ∧
    (run_events (example_first_run ++ example_call_begun)
      (shm_system.start bird_shm_region.zero)).pending.length = 2 ∧
    (run_events example_first_run
      (shm_system.start bird_shm_region.zero)).published.iface_count = 2 ∧
    ((∀ (d : daemon) (before after : List bird_shm_snapshot) (m : shm_module)
        (r : bird_shm_region), m.shm_enabled ≠ 0 → m.shm_region = some r →
      bird_shm_poll d m
        = { m with
            shm_region := some
              (run_events (poll_events d before after) (shm_system.start r)).region }) ∧
    ∀ k, (run_events (example_first_run ++ example_call_begun.take k)
        (shm_system.start bird_shm_region.zero)).region.snapshot
      = (run_events example_first_run (shm_system.start bird_shm_region.zero)).published) :=
  ⟨by decide, rfl, by decide, rfl, rfl, rfl, rfl,
    C12_seqlock_consistent bird_shm_region.zero example_first_run example_call_begun
      (by decide) rfl (by decide) rfl rfl (by decide)⟩

/-! # Claims about `bird_shm_set_ip` -/

/-- C8: `bird_shm_set_ip` encodes an absent address as family 0 with padding
    and all sixteen bytes zero; an IPv4 address `a.b.c.d` as family 4 with
    bytes `a, b, c, d` followed by twelve zero bytes (so `192.0.2.1` gives
    `C0 00 02 01`); any other address as family 6 with its four words in
    network byte order.  Hence the family is always 0, 4 or 6, family 0 comes
    with an all-zero buffer, and two well-formed addresses with the same
    encoding are equal. -/
theorem C8_set_ip_encoding :
    (∀ addr, ipa_zero addr = true →
      bird_shm_set_ip addr =
        { af := 0, pad := [0, 0, 0], bytes := List.replicate 16 0 }) ∧
    (∀ addr, ipa_zero addr = false → ipa_is_ip4 addr = true →
      bird_shm_set_ip addr =
        { af := 4, pad := [0, 0, 0],
          bytes := put_u32 (ipa_to_ip4 addr) ++ List.replicate 12 0 }) ∧
    (∀ a b c d, a < 256 → b < 256 → c < 256 → d < 256 →
      bird_shm_set_ip (ipa_from_ip4 (ip4_quad a b c d)) =
        { af := 4, pad := [0, 0, 0], bytes := [a, b, c, d] ++ List.replicate 12 0 }) ∧
    bird_shm_set_ip (ipa_from_ip4 (ip4_quad 192 0 2 1)) =
      { af := 4, pad := [0, 0, 0],
        bytes := [0xC0, 0x00, 0x02, 0x01, 0, 0, 0, 0, 0, 0, 0, 0, 0, 0, 0, 0] } ∧
    (∀ addr, ipa_zero addr = false → ipa_is_ip4 addr = false →
      bird_shm_set_ip addr =
        { af := 6, pad := [0, 0, 0],
          bytes := put_u32 addr.addr0 ++ put_u32 addr.addr1 ++ put_u32 addr.addr2 ++
            put_u32 addr.addr3 }) ∧
    (∀ addr, (bird_shm_set_ip addr).af = 0 ∨ (bird_shm_set_ip addr).af = 4 ∨
      (bird_shm_set_ip addr).af = 6) ∧
    (∀ addr, (bird_shm_set_ip addr).af = 0 →
      (bird_shm_set_ip addr).pad = [0, 0, 0] ∧
      (bird_shm_set_ip addr).bytes = List.replicate 16 0) ∧
    (∀ x y : ip_addr, x.wf → y.wf → bird_shm_set_ip x = bird_shm_set_ip y → x = y) := by
  refine ⟨?_, set_ip_ip4, ?_, by decide, set_ip_ip6, ?_, ?_, set_ip_inj⟩
  · intro addr h
    rw [set_ip_zero addr h]; rfl
  · intro a b c d ha hb hc hd
    rw [set_ip_ip4 _ (by simp [ipa_zero, ipa_from_ip4]) (by simp [ipa_is_ip4, ipa_from_ip4])]
    simp only [ipa_to_ip4, ipa_from_ip4, put_u32_quad a b c d ha hb hc hd]
  · intro addr
    cases h0 : ipa_zero addr
    · cases h4 : ipa_is_ip4 addr
      · rw [set_ip_ip6 addr h0 h4]; simp
      · rw [set_ip_ip4 addr h0 h4]; simp
    · rw [set_ip_zero addr h0]; simp [bird_shm_ip_addr.zero]
  · intro addr
    cases h0 : ipa_zero addr
    · cases h4 : ipa_is_ip4 addr
      · rw [set_ip_ip6 addr h0 h4]; simp
      · rw [set_ip_ip4 addr h0 h4]; simp
    · rw [set_ip_zero addr h0]; intro _; exact ⟨rfl, rfl⟩

/-- C17: `bird_shm_proto_class` is total.  It returns 255 for a null
    protocol, for a protocol without descriptor and for a descriptor of a
    class outside its table; for the fourteen classes of the table it
    returns 1 to 14 in the order device, radv, rip, static, mrt, ospf, l3vpn,
    aggregator, pipe, bgp, bmp, bfd, babel, rpki, distinct classes giving
    distinct values; so the result is always 255 or between 1 and 14. -/
theorem C17_proto_class_total :
    bird_shm_proto_class none = 255 ∧
    (∀ p : proto, p.proto = none → bird_shm_proto_class (some p) = 255) ∧
    (∀ (p : proto) (n : Nat), p.proto = some { class_ := PROTOCOL_OTHER n } →
      bird_shm_proto_class (some p) = 255) ∧
    (∀ p : proto,
      List.map (fun c => bird_shm_proto_class (some { p with proto := some { class_ := c } }))
        [PROTOCOL_DEVICE, PROTOCOL_RADV, PROTOCOL_RIP, PROTOCOL_STATIC, PROTOCOL_MRT,
          PROTOCOL_OSPF, PROTOCOL_L3VPN, PROTOCOL_AGGREGATOR, PROTOCOL_PIPE, PROTOCOL_BGP,
          PROTOCOL_BMP, PROTOCOL_BFD, PROTOCOL_BABEL, PROTOCOL_RPKI]
      = [1, 2, 3, 4, 5, 6, 7, 8, 9, 10, 11, 12, 13, 14]) ∧
    (∀ (p q : proto) (c c' : protocol_class), p.proto = some { class_ := c } →
      q.proto = some { class_ := c' } →
      bird_shm_proto_class (some p) ≠ 255 →
      bird_shm_proto_class (some p) = bird_shm_proto_class (some q) → c = c') ∧
    (∀ p : Option proto,
      bird_shm_proto_class p = 255 ∨
        (1 ≤ bird_shm_proto_class p ∧ bird_shm_proto_class p ≤ 14)) := by
  refine ⟨rfl, ?_, ?_, ?_, ?_, ?_⟩
  · intro p h
    simp [bird_shm_proto_class, h]
  · intro p n h
    simp [bird_shm_proto_class, h]
  · intro p
    rfl
  · intro p q c c' hp hq hne h
    simp only [bird_shm_proto_class, hp, hq] at hne h
    clear hp hq
    cases c <;> cases c' <;> simp_all
  · intro p
    cases p with
    | none => left; rfl
    | some p =>
      cases hp : p.proto with
      | none => left; simp [bird_shm_proto_class, hp]
      | some pr =>
        cases pr with
        | mk c =>
          cases c <;> simp [bird_shm_proto_class, hp] <;> decide

/-! # Claims about `bird_shm_write_snapshot` -/

/-- C4: for every daemon state and each of the eleven arrays, the count field
    of the snapshot built by `bird_shm_write_snapshot` is at most the
    capacity of the array (512, 2048, 512, 512, 64, 2048, 1024, 512, 64, 256,
    1024); it equals the number of records the builder wrote into that array,
    which went to the slots `0 .. count-1` in this order; every record the
    builder writes to any array goes to a slot strictly below the capacity of
    that array, and the array has exactly that many slots. -/
theorem C4_counts_within_capacity (d : daemon) (region : bird_shm_region) :
    List.map capacity
        [.ifaces, .iface_addrs, .protos, .bgp, .ospf, .ospf_lsas, .ospf_neighs, .bfd, .babel,
          .babel_ifaces, .babel_neighs]
      = [512, 2048, 512, 512, 64, 2048, 1024, 512, 64, 256, 1024] ∧
    (∀ c : bird_shm_coll,
      (bird_shm_write_snapshot d region).snapshot.count c ≤ capacity c ∧
      ((builder.run d region).writes.filter (fun w => decide (w.1 = c))).length
        = (bird_shm_write_snapshot d region).snapshot.count c ∧
      (builder.run d region).written c
        = List.range ((bird_shm_write_snapshot d region).snapshot.count c) ∧
      (bird_shm_write_snapshot d region).snapshot.len c = capacity c) ∧
    (∀ w ∈ (builder.run d region).writes,
      w.2 < capacity w.1 ∧ w.2 < (bird_shm_write_snapshot d region).snapshot.len w.1) := by
  have hwf := wf_run d region
  refine ⟨rfl, ?_, ?_⟩
  · intro c
    obtain ⟨h1, h2, h3⟩ := hwf c
    simp only [Nat.add_zero] at h1 h2
    have hc : (bird_shm_write_snapshot d region).snapshot.count c = (builder.run d region).idx c :=
      run_count d region c
    rw [hc]
    refine ⟨h1, ?_, h2, h3⟩
    have := congrArg List.length h2
    simpa [builder.written] using this
  · intro w hw
    obtain ⟨h1, h2, h3⟩ := hwf w.1
    simp only [Nat.add_zero] at h1 h2
    have hm := mem_written hw
    rw [h2, List.mem_range] at hm
    have h3' : (bird_shm_write_snapshot d region).snapshot.len w.1 = capacity w.1 := h3
    omega

/-- C5: when one array has exactly one source record more than its capacity
    and every other array is within its capacity, the snapshot written by
    `bird_shm_write_snapshot` has the count of that array equal to its
    capacity and `trunc_flags` equal to the single bit dedicated to it.
    (For the BGP array no daemon state meets the premise, see
    `sources_bgp_le_protos`: 513 BGP instances are 513 protocol instances.) -/
theorem C5_single_overflow (d : daemon) (region : bird_shm_region) (c : bird_shm_coll)
    (h : sources d c = capacity c + 1)
    (ho : ∀ c', c' ≠ c → sources d c' ≤ capacity c') :
    (bird_shm_write_snapshot d region).snapshot.count c = capacity c ∧
    (bird_shm_write_snapshot d region).snapshot.trunc_flags = trunc_bit c := by
  have hov := run_bit_overflow d region c (by omega) ho
  refine ⟨?_, ?_⟩
  · show (builder.run d region).snap.count c = capacity c
    rw [run_count, hov.2]
  · show (builder.run d region).snap.trunc_flags = trunc_bit c
    rw [trunc_bit_eq]
    refine flags_ext _ _ (run_high_bits d region) ?_ ?_
    · apply Nat.eq_of_testBit_eq
      intro i
      rw [Nat.testBit_shiftRight, testBit_one_shiftLeft]
      have := trunc_shift_lt c
      have : ¬ trunc_shift c = 11 + i := by omega
      simp [this]
    · intro i hi
      obtain ⟨c', rfl⟩ := trunc_shift_surj i hi
      rw [testBit_one_shiftLeft]
      by_cases hc : c' = c
      · subst hc
        simpa using hov.1
      · have h1 := run_bit_fits d region c' (ho c' hc)
        have h2 : ¬ trunc_shift c = trunc_shift c' := fun e => hc (trunc_shift_inj e).symm
        simpa [h2] using h1

/-- C5 at a daemon with 65 OSPF instances and nothing else. -/
theorem C5_single_overflow_witness :
    sources example_ospf_overflow .ospf = capacity .ospf + 1 ∧
    (∀ c', c' ≠ bird_shm_coll.ospf → sources example_ospf_overflow c' ≤ capacity c') ∧
    (bird_shm_write_snapshot example_ospf_overflow (example_region 1)).snapshot.count .ospf
      = 64 ∧
    (bird_shm_write_snapshot example_ospf_overflow (example_region 1)).snapshot.trunc_flags
      = 16 :=
  ⟨by decide, by intro c' hc; cases c' <;> first | decide | exact absurd rfl hc,
    C5_single_overflow example_ospf_overflow (example_region 1) .ospf (by decide)
      (by intro c' hc; cases c' <;> first | decide | exact absurd rfl hc)⟩

/-- C6: for an interface list of N ≤ 512 interfaces with at most 2048
    addresses in total, the snapshot written by `bird_shm_write_snapshot` has
    `iface_count = N`, its first N interface records are the expected records
    of the source interfaces in list order (clamped name, flags, MTU, OS
    index), `iface_addr_count` is the total number of addresses, the address
    records are the addresses of interface 0, 1, ... in list order, each with
    `iface_index` the position of its interface, and neither bit 0 nor bit 1
    of `trunc_flags` is set. -/
theorem C6_iface_round_trip (d : daemon) (region : bird_shm_region)
    (hN : d.iface_list.length ≤ BIRD_SHM_MAX_INTERFACES)
    (hA : total_of (fun _ => true) (fun i : iface => i.addrs.length) d.iface_list
      ≤ BIRD_SHM_MAX_IFACE_ADDRS) :
    (bird_shm_write_snapshot d region).snapshot.iface_count = d.iface_list.length ∧
    (bird_shm_write_snapshot d region).snapshot.ifaces.take d.iface_list.length
      = iface_records 0 d.iface_list ∧
    (bird_shm_write_snapshot d region).snapshot.iface_addr_count
      = total_of (fun _ => true) (fun i : iface => i.addrs.length) d.iface_list ∧
    (bird_shm_write_snapshot d region).snapshot.iface_addrs.take
        (total_of (fun _ => true) (fun i : iface => i.addrs.length) d.iface_list)
      = iface_addr_records 0 d.iface_list ∧
    (bird_shm_write_snapshot d region).snapshot.trunc_flags.testBit 0 = false ∧
    (bird_shm_write_snapshot d region).snapshot.trunc_flags.testBit 1 = false := by
  have hv := run_if_view d region
  simp only [builder.if_view, Prod.mk.injEq] at hv
  obtain ⟨-, -, hifaces, haddrs, -, -⟩ := hv
  obtain ⟨c1, c2⟩ := walk_iface_list_arrays d.iface_list (builder.init d region)
    (by simpa [builder.init] using hN) (by simpa [builder.init] using hA)
  have f0 := (run_flat_counters d region).1
  have e1 := (run_nested_exact d region).1 hN
  simp only [Prod.mk.injEq] at f0
  refine ⟨?_, ?_, ?_, ?_, ?_, ?_⟩
  · show (builder.run d region).snap.count .ifaces = _
    rw [run_count]
    show (builder.run d region).iface_index = _
    rw [f0.1]
    simp only [sources]
    omega
  · show (builder.run d region).snap.ifaces.take _ = _
    rw [hifaces, c1]
    have := take_write_at_full (builder.init d region).snap.ifaces 0
      (iface_records 0 d.iface_list)
      (by rw [length_iface_records]; simpa [builder.init, bird_shm_snapshot.zero] using hN)
    rw [length_iface_records, Nat.zero_add] at this
    simpa [builder.init] using this
  · show (builder.run d region).snap.count .iface_addrs = _
    rw [run_count]
    show (builder.run d region).iface_addr_index = _
    rw [e1.1]
    simp only [sources]
    omega
  · show (builder.run d region).snap.iface_addrs.take _ = _
    rw [haddrs, c2]
    have := take_write_at_full (builder.init d region).snap.iface_addrs 0
      (iface_addr_records 0 d.iface_list)
      (by rw [length_iface_addr_records]
          simpa [builder.init, bird_shm_snapshot.zero] using hA)
    rw [length_iface_addr_records, Nat.zero_add] at this
    simpa [builder.init] using this
  · exact run_bit_fits d region .ifaces hN
  · exact run_bit_fits d region .iface_addrs hA

/-- C6 at a daemon with the interfaces `lo` (no address) and `eth0` (two
    addresses). -/
theorem C6_iface_round_trip_witness :
    example_iface_daemon.iface_list.length ≤ BIRD_SHM_MAX_INTERFACES ∧
    total_of (fun _ => true) (fun i : iface => i.addrs.length) example_iface_daemon.iface_list
      ≤ BIRD_SHM_MAX_IFACE_ADDRS ∧
    (bird_shm_write_snapshot example_iface_daemon (example_region 1)).snapshot.iface_count
      = 2 ∧
    (bird_shm_write_snapshot example_iface_daemon (example_region 1)).snapshot.ifaces.take 2
      = iface_records 0 example_iface_daemon.iface_list ∧
    (bird_shm_write_snapshot example_iface_daemon (example_region 1)).snapshot.iface_addr_count
      = 2 ∧
    (bird_shm_write_snapshot example_iface_daemon (example_region 1)).snapshot.iface_addrs.take
        2
      = [fill_iface_addr 1 (example_ifa 1), fill_iface_addr 1 (example_ifa 2)] ∧
    (bird_shm_write_snapshot example_iface_daemon
      (example_region 1)).snapshot.trunc_flags.testBit 0 = false ∧
    (bird_shm_write_snapshot example_iface_daemon
      (example_region 1)).snapshot.trunc_flags.testBit 1 = false :=
  ⟨by decide, by decide,
    C6_iface_round_trip example_iface_daemon (example_region 1) (by decide) (by decide)⟩

/-- C18: the address array is a correct prefix under truncation.  For every
    daemon state, with `A` the address records of the emitted interfaces
    (the first 512 of the list) in list order, interface after interface,
    each carrying the position of its interface: `iface_addr_count` is the
    length of `A` clamped to 2048, the emitted address records are the first
    `iface_addr_count` elements of `A`, bit 1 of `trunc_flags` is set exactly
    when `A` has more than 2048 elements, and `iface_count` is the number of
    interfaces clamped to 512 whether or not the addresses overflow; the
    length of `A` is the number of addresses of the first 512 interfaces. -/
theorem C18_addr_prefix_under_truncation (d : daemon) (region : bird_shm_region) :
    (bird_shm_write_snapshot d region).snapshot.iface_addr_count
      = min (iface_addr_records 0 (d.iface_list.take BIRD_SHM_MAX_INTERFACES)).length
          BIRD_SHM_MAX_IFACE_ADDRS ∧
    (bird_shm_write_snapshot d region).snapshot.iface_addrs.take
        (bird_shm_write_snapshot d region).snapshot.iface_addr_count
      = (iface_addr_records 0 (d.iface_list.take BIRD_SHM_MAX_INTERFACES)).take
          BIRD_SHM_MAX_IFACE_ADDRS ∧
    ((bird_shm_write_snapshot d region).snapshot.trunc_flags.testBit 1 = true
      ↔ BIRD_SHM_MAX_IFACE_ADDRS
          < (iface_addr_records 0 (d.iface_list.take BIRD_SHM_MAX_INTERFACES)).length) ∧
    (bird_shm_write_snapshot d region).snapshot.iface_count
      = min d.iface_list.length BIRD_SHM_MAX_INTERFACES ∧
    (iface_addr_records 0 (d.iface_list.take BIRD_SHM_MAX_INTERFACES)).length
      = total_of (fun _ => true) (fun i : iface => i.addrs.length)
          (d.iface_list.take BIRD_SHM_MAX_INTERFACES) := by
  obtain ⟨g1, g2, g3, g4, g5⟩ := run_iface_general d region
  refine ⟨?_, ?_, ?_, ?_, length_iface_addr_records _ _⟩
  · show (builder.run d region).snap.iface_addr_count = _
    rw [g4, List.length_take]
    exact Nat.min_comm _ _
  · show (builder.run d region).snap.iface_addrs.take
      (builder.run d region).snap.iface_addr_count = _
    rw [g4, g2]
    have := take_write_at_full
      (List.replicate BIRD_SHM_MAX_IFACE_ADDRS bird_shm_iface_addr.zero) 0
      ((iface_addr_records 0 (d.iface_list.take BIRD_SHM_MAX_INTERFACES)).take
        BIRD_SHM_MAX_IFACE_ADDRS)
      (by rw [List.length_take, List.length_replicate]; omega)
    rw [Nat.zero_add] at this
    simpa using this
  · show (builder.run d region).bit 1 = true ↔ _
    rw [g5]
    simp
  · show (builder.run d region).snap.iface_count = _
    rw [g3, List.length_take]
    exact Nat.min_comm _ _

/-- C20: the address ranges of the interface records tile the address array.
    For every daemon state, in the snapshot written by
    `bird_shm_write_snapshot`: record 0 of the interface array starts at
    address slot 0; each emitted interface record starts where the previous
    one ends; the last emitted one ends at `iface_addr_count`; and for every
    emitted address record `k` and every emitted interface record `i`, the
    address record carries `iface_index = i` exactly when
    `addr_start ≤ k < addr_start + addr_count` for interface record `i`. -/
theorem C20_addr_ranges_tile (d : daemon) (region : bird_shm_region) :
    (∃ r, (bird_shm_write_snapshot d region).snapshot.ifaces[0]? = some r ∧
      r.addr_start = 0) ∧
    (∀ i, i + 1 < (bird_shm_write_snapshot d region).snapshot.iface_count →
      ∃ r r', (bird_shm_write_snapshot d region).snapshot.ifaces[i]? = some r ∧
        (bird_shm_write_snapshot d region).snapshot.ifaces[i + 1]? = some r' ∧
        r'.addr_start = r.addr_start + r.addr_count) ∧
    (0 < (bird_shm_write_snapshot d region).snapshot.iface_count →
      ∃ r, (bird_shm_write_snapshot d region).snapshot.ifaces[
          (bird_shm_write_snapshot d region).snapshot.iface_count - 1]? = some r ∧
        r.addr_start + r.addr_count
          = (bird_shm_write_snapshot d region).snapshot.iface_addr_count) ∧
    (∀ k i, k < (bird_shm_write_snapshot d region).snapshot.iface_addr_count →
      i < (bird_shm_write_snapshot d region).snapshot.iface_count →
      ∃ x r, (bird_shm_write_snapshot d region).snapshot.iface_addrs[k]? = some x ∧
        (bird_shm_write_snapshot d region).snapshot.ifaces[i]? = some r ∧
        (x.iface_index = i ↔ r.addr_start ≤ k ∧ k < r.addr_start + r.addr_count)) := by
  obtain ⟨g1, g2, g3, g4, -⟩ := run_iface_general d region
  have hI : ((iface_records_trunc 0 d.iface_list).take BIRD_SHM_MAX_INTERFACES).length
      = (d.iface_list.take BIRD_SHM_MAX_INTERFACES).length := by
    rw [List.length_take, List.length_take, length_iface_records_trunc]
  have hIle : ((iface_records_trunc 0 d.iface_list).take BIRD_SHM_MAX_INTERFACES).length
      ≤ (List.replicate BIRD_SHM_MAX_INTERFACES bird_shm_iface.zero).length := by
    rw [List.length_take, List.length_replicate]; omega
  have hOle : ((iface_addr_records 0 (d.iface_list.take BIRD_SHM_MAX_INTERFACES)).take
      BIRD_SHM_MAX_IFACE_ADDRS).length
      ≤ (List.replicate BIRD_SHM_MAX_IFACE_ADDRS bird_shm_iface_addr.zero).length := by
    rw [List.length_take, List.length_replicate]; omega
  have getI : ∀ i, i < (builder.run d region).snap.iface_count →
      (builder.run d region).snap.ifaces[i]?
        = ((iface_records_trunc 0 d.iface_list).take BIRD_SHM_MAX_INTERFACES)[i]? ∧
      ∃ r, ((iface_records_trunc 0 d.iface_list).take BIRD_SHM_MAX_INTERFACES)[i]?
        = some r := by
    intro i hi
    rw [g3, ← hI] at hi
    rw [g1]
    exact ⟨getElem?_write_at_zero _ _ i hi hIle, _, List.getElem?_eq_getElem hi⟩
  have getO : ∀ k, k < (builder.run d region).snap.iface_addr_count →
      (builder.run d region).snap.iface_addrs[k]?
        = ((iface_addr_records 0 (d.iface_list.take BIRD_SHM_MAX_INTERFACES)).take
            BIRD_SHM_MAX_IFACE_ADDRS)[k]? ∧
      ∃ x, ((iface_addr_records 0 (d.iface_list.take BIRD_SHM_MAX_INTERFACES)).take
            BIRD_SHM_MAX_IFACE_ADDRS)[k]? = some x := by
    intro k hk
    rw [g4] at hk
    rw [g2]
    exact ⟨getElem?_write_at_zero _ _ k hk hOle, _, List.getElem?_eq_getElem hk⟩
  refine ⟨?_, ?_, ?_, ?_⟩
  · show ∃ r, (builder.run d region).snap.ifaces[0]? = some r ∧ r.addr_start = 0
    by_cases h0 : 0 < (builder.run d region).snap.iface_count
    · obtain ⟨e, r, hr⟩ := getI 0 h0
      exact ⟨r, e.trans hr, iface_records_trunc_head _ _ _ _ hr⟩
    · have hnil : (iface_records_trunc 0 d.iface_list).take BIRD_SHM_MAX_INTERFACES = [] := by
        apply List.eq_nil_of_length_eq_zero
        rw [hI, ← g3]
        omega
      rw [g1, hnil]
      exact ⟨bird_shm_iface.zero, by simp [write_at], rfl⟩
  · intro i hi
    change i + 1 < (builder.run d region).snap.iface_count at hi
    obtain ⟨e, r, hr⟩ := getI i (by omega)
    obtain ⟨e', r', hr'⟩ := getI (i + 1) hi
    exact ⟨r, r', e.trans hr, e'.trans hr', iface_records_trunc_next _ _ _ _ _ _ hr hr'⟩
  · intro h0
    change 0 < (builder.run d region).snap.iface_count at h0
    obtain ⟨e, r, hr⟩ := getI ((builder.run d region).snap.iface_count - 1) (by omega)
    refine ⟨r, e.trans hr, ?_⟩
    show r.addr_start + r.addr_count = (builder.run d region).snap.iface_addr_count
    rw [g3, ← hI] at hr
    have := iface_records_trunc_last _ _ _ 0 _ hr
    rw [this, g4, Nat.zero_add, Nat.sub_zero]
  · intro k i hk hi
    change k < (builder.run d region).snap.iface_addr_count at hk
    change i < (builder.run d region).snap.iface_count at hi
    obtain ⟨e, r, hr⟩ := getI i hi
    obtain ⟨e', x, hx⟩ := getO k hk
    refine ⟨x, r, e'.trans hx, e.trans hr, ?_⟩
    have := iface_owner_iff d.iface_list 0 BIRD_SHM_MAX_INTERFACES 0 k i x r hx hr
    simpa using this

/-- C7: in the snapshot written by `bird_shm_write_snapshot`, for every
    daemon state, every emitted child record exists in its array and its
    owner field is strictly below the emitted count of the owning array:
    addresses against `iface_count`, LSAs and OSPF neighbours against
    `ospf_count`, Babel interfaces against `babel_count`, Babel neighbours
    against `babel_iface_count`. -/
theorem C7_owner_index_valid (d : daemon) (region : bird_shm_region) :
    (∀ k, k < (bird_shm_write_snapshot d region).snapshot.iface_addr_count →
      ∃ r, (bird_shm_write_snapshot d region).snapshot.iface_addrs[k]? = some r ∧
        r.iface_index < (bird_shm_write_snapshot d region).snapshot.iface_count) ∧
    (∀ k, k < (bird_shm_write_snapshot d region).snapshot.ospf_lsa_count →
      ∃ r, (bird_shm_write_snapshot d region).snapshot.ospf_lsas[k]? = some r ∧
        r.proto_index < (bird_shm_write_snapshot d region).snapshot.ospf_count) ∧
    (∀ k, k < (bird_shm_write_snapshot d region).snapshot.ospf_neigh_count →
      ∃ r, (bird_shm_write_snapshot d region).snapshot.ospf_neighs[k]? = some r ∧
        r.proto_index < (bird_shm_write_snapshot d region).snapshot.ospf_count) ∧
    (∀ k, k < (bird_shm_write_snapshot d region).snapshot.babel_iface_count →
      ∃ r, (bird_shm_write_snapshot d region).snapshot.babel_ifaces[k]? = some r ∧
        r.proto_index < (bird_shm_write_snapshot d region).snapshot.babel_count) ∧
    (∀ k, k < (bird_shm_write_snapshot d region).snapshot.babel_neigh_count →
      ∃ r, (bird_shm_write_snapshot d region).snapshot.babel_neighs[k]? = some r ∧
        r.iface_index < (bird_shm_write_snapshot d region).snapshot.babel_iface_count) := by
  have hwf := wf_run d region
  have hc := run_count d region
  have hif := run_if_owner d region
  have hos := run_ospf_owner d region
  have hba := run_babel_owner d region
  have w1 := hwf .iface_addrs
  have w5 := hwf .ospf_lsas
  have w6 := hwf .ospf_neighs
  have w9 := hwf .babel_ifaces
  have w10 := hwf .babel_neighs
  have c0 := hc .ifaces
  have c1 := hc .iface_addrs
  have c4 := hc .ospf
  have c5 := hc .ospf_lsas
  have c6 := hc .ospf_neighs
  have c8 := hc .babel
  have c9 := hc .babel_ifaces
  have c10 := hc .babel_neighs
  simp only [builder.idx, bird_shm_snapshot.len, bird_shm_snapshot.count, Nat.add_zero]
    at w1 w5 w6 w9 w10 c0 c1 c4 c5 c6 c8 c9 c10
  unfold builder.if_owner_ok at hif
  unfold builder.ospf_owner_ok at hos
  unfold builder.babel_owner_ok at hba
  simp only [Nat.add_zero] at hba
  refine ⟨?_, ?_, ?_, ?_, ?_⟩
  · show ∀ k, k < (builder.run d region).snap.iface_addr_count →
      ∃ r, (builder.run d region).snap.iface_addrs[k]? = some r ∧
        r.iface_index < (builder.run d region).snap.iface_count
    rw [c0, c1]
    exact owner_ok_get hif (by omega)
  · show ∀ k, k < (builder.run d region).snap.ospf_lsa_count →
      ∃ r, (builder.run d region).snap.ospf_lsas[k]? = some r ∧
        r.proto_index < (builder.run d region).snap.ospf_count
    rw [c4, c5]
    exact owner_ok_get hos.1 (by omega)
  · show ∀ k, k < (builder.run d region).snap.ospf_neigh_count →
      ∃ r, (builder.run d region).snap.ospf_neighs[k]? = some r ∧
        r.proto_index < (builder.run d region).snap.ospf_count
    rw [c4, c6]
    exact owner_ok_get hos.2 (by omega)
  · show ∀ k, k < (builder.run d region).snap.babel_iface_count →
      ∃ r, (builder.run d region).snap.babel_ifaces[k]? = some r ∧
        r.proto_index < (builder.run d region).snap.babel_count
    rw [c8, c9]
    exact owner_ok_get hba.1 (by omega)
  · show ∀ k, k < (builder.run d region).snap.babel_neigh_count →
      ∃ r, (builder.run d region).snap.babel_neighs[k]? = some r ∧
        r.iface_index < (builder.run d region).snap.babel_iface_count
    rw [c9, c10]
    exact owner_ok_get hba.2 (by omega)

/-- C9: the per-family arrays do not depend on the truncation of the
    generic protocol array.  For every protocol list, `bgp_count` is the
    number of BGP instances of the whole list clamped to 512 and the BGP
    records are the records of those instances in list order; likewise the
    OSPF and Babel records against 64 (name, router ID and the other
    describing fields of the instances in list order) and the BFD sessions
    of all BFD instances against 512; while `proto_count` is the length of
    the list clamped to 512 and bit 2 of `trunc_flags` tells whether the
    list was longer. -/
theorem C9_family_extraction_independent (d : daemon) (region : bird_shm_region) :
    ((bird_shm_write_snapshot d region).snapshot.bgp_count
        = min (d.proto_list.filter (fun p => proto_is p PROTOCOL_BGP)).length
            BIRD_SHM_MAX_BGP ∧
      (bird_shm_write_snapshot d region).snapshot.bgp.take
          (bird_shm_write_snapshot d region).snapshot.bgp_count
        = ((d.proto_list.filter (fun p => proto_is p PROTOCOL_BGP)).map fill_bgp).take
            BIRD_SHM_MAX_BGP) ∧
    ((bird_shm_write_snapshot d region).snapshot.ospf_count
        = min (d.proto_list.filter (fun p => proto_is p PROTOCOL_OSPF)).length
            BIRD_SHM_MAX_OSPF ∧
      ((bird_shm_write_snapshot d region).snapshot.ospf.take
          (bird_shm_write_snapshot d region).snapshot.ospf_count).map ospf_ident
        = ((d.proto_list.filter (fun p => proto_is p PROTOCOL_OSPF)).map
            (fun p => ospf_ident (fill_ospf 0 0 p))).take BIRD_SHM_MAX_OSPF) ∧
    ((bird_shm_write_snapshot d region).snapshot.babel_count
        = min (d.proto_list.filter (fun p => proto_is p PROTOCOL_BABEL)).length
            BIRD_SHM_MAX_BABEL ∧
      ((bird_shm_write_snapshot d region).snapshot.babel.take
          (bird_shm_write_snapshot d region).snapshot.babel_count).map babel_ident
        = ((d.proto_list.filter (fun p => proto_is p PROTOCOL_BABEL)).map
            (fun p => babel_ident (fill_babel 0 p))).take BIRD_SHM_MAX_BABEL) ∧
    ((bird_shm_write_snapshot d region).snapshot.bfd_count
        = min ((d.proto_list.filter (fun p => proto_is p PROTOCOL_BFD)).flatMap
            (fun p => p.bfd.session_hash_id.map fill_bfd_session)).length
            BIRD_SHM_MAX_BFD_SESSIONS ∧
      (bird_shm_write_snapshot d region).snapshot.bfd.take
          (bird_shm_write_snapshot d region).snapshot.bfd_count
        = ((d.proto_list.filter (fun p => proto_is p PROTOCOL_BFD)).flatMap
            (fun p => p.bfd.session_hash_id.map fill_bfd_session)).take
            BIRD_SHM_MAX_BFD_SESSIONS) ∧
    (bird_shm_write_snapshot d region).snapshot.proto_count
      = min d.proto_list.length BIRD_SHM_MAX_PROTOCOLS ∧
    (bird_shm_write_snapshot d region).snapshot.trunc_flags.testBit 2
      = decide (BIRD_SHM_MAX_PROTOCOLS < d.proto_list.length) := by
  have hs := run_start_views d region
  simp only [builder.pr_view, builder.bgp_view, builder.ospf_view, builder.bfd_view,
    builder.babel_view, Prod.mk.injEq] at hs
  obtain ⟨-, hbgp, hospf, hbfd, hbabel⟩ := hs
  have hc := run_count d region
  have f2 := (run_flat_counters d region).2.1
  simp only [Prod.mk.injEq] at f2
  refine ⟨?_, ?_, ?_, ?_, ?_, ?_⟩
  · have h := walk_proto_list_bgp_store d.proto_list
      (store_iface_counts (walk_iface_list d.iface_list (builder.init d region)))
    rw [hbgp.1, hbgp.2.1] at h
    have t := store_fold_take BIRD_SHM_MAX_BGP (fun p => proto_is p PROTOCOL_BGP)
      (fun p => [fill_bgp p]) d.proto_list (builder.init d region).snap.bgp
      (by simp [builder.init, bird_shm_snapshot.zero])
    have e0 : (builder.init d region).bgp_index = 0 := rfl
    rw [e0] at h
    rw [← h, flatMap_single] at t
    have c := hc .bgp
    simp only [bird_shm_snapshot.count, builder.idx] at c
    refine ⟨?_, ?_⟩
    · show (builder.run d region).snap.bgp_count = _
      rw [c]
      simpa using t.1
    · show (builder.run d region).snap.bgp.take (builder.run d region).snap.bgp_count = _
      rw [c]
      exact t.2
  · have h := walk_proto_list_ospf_store d.proto_list
      (store_iface_counts (walk_iface_list d.iface_list (builder.init d region)))
    rw [hospf.1, hospf.2.2.2.1] at h
    have t := store_fold_take BIRD_SHM_MAX_OSPF (fun p => proto_is p PROTOCOL_OSPF)
      (fun p => [ospf_ident (fill_ospf 0 0 p)]) d.proto_list
      ((builder.init d region).snap.ospf.map ospf_ident)
      (by simp [builder.init, bird_shm_snapshot.zero])
    have e0 : (builder.init d region).ospf_index = 0 := rfl
    rw [e0] at h
    rw [← h, flatMap_single] at t
    have c := hc .ospf
    simp only [bird_shm_snapshot.count, builder.idx] at c
    refine ⟨?_, ?_⟩
    · show (builder.run d region).snap.ospf_count = _
      rw [c]
      simpa using t.1
    · show ((builder.run d region).snap.ospf.take (builder.run d region).snap.ospf_count).map
        ospf_ident = _
      rw [c, List.map_take]
      exact t.2
  · have h := walk_proto_list_babel_store d.proto_list
      (store_iface_counts (walk_iface_list d.iface_list (builder.init d region)))
    rw [hbabel.1, hbabel.2.2.2.1] at h
    have t := store_fold_take BIRD_SHM_MAX_BABEL (fun p => proto_is p PROTOCOL_BABEL)
      (fun p => [babel_ident (fill_babel 0 p)]) d.proto_list
      ((builder.init d region).snap.babel.map babel_ident)
      (by simp [builder.init, bird_shm_snapshot.zero])
    have e0 : (builder.init d region).babel_index = 0 := rfl
    rw [e0] at h
    rw [← h, flatMap_single] at t
    have c := hc .babel
    simp only [bird_shm_snapshot.count, builder.idx] at c
    refine ⟨?_, ?_⟩
    · show (builder.run d region).snap.babel_count = _
      rw [c]
      simpa using t.1
    · show ((builder.run d region).snap.babel.take
        (builder.run d region).snap.babel_count).map babel_ident = _
      rw [c, List.map_take]
      exact t.2
  · have h := walk_proto_list_bfd_store d.proto_list
      (store_iface_counts (walk_iface_list d.iface_list (builder.init d region)))
    rw [hbfd.1, hbfd.2.1] at h
    have t := store_fold_take BIRD_SHM_MAX_BFD_SESSIONS (fun p => proto_is p PROTOCOL_BFD)
      (fun p => p.bfd.session_hash_id.map fill_bfd_session) d.proto_list
      (builder.init d region).snap.bfd
      (by simp [builder.init, bird_shm_snapshot.zero])
    have e0 : (builder.init d region).bfd_index = 0 := rfl
    rw [e0] at h
    rw [← h] at t
    have c := hc .bfd
    simp only [bird_shm_snapshot.count, builder.idx] at c
    refine ⟨?_, ?_⟩
    · show (builder.run d region).snap.bfd_count = _
      rw [c]
      exact t.1
    · show (builder.run d region).snap.bfd.take (builder.run d region).snap.bfd_count = _
      rw [c]
      exact t.2
  · have c := hc .protos
    simp only [bird_shm_snapshot.count, builder.idx] at c
    show (builder.run d region).snap.proto_count = _
    rw [c, f2.1]
    rfl
  · exact f2.2

/-- C14: when the feature is requested and a setup step of `bird_shm_init`
    fails (`shm_open`, which by its contract then returns -1, or `ftruncate`,
    or `mmap`), the function returns with the feature disabled: the enabled
    flag and the region pointer are what they were (0 and null from the
    initial state), `shm_fd` ends as -1, the descriptor `shm_open` returned,
    if any, is closed after the warning and nothing else happens (no region
    is stored to), and from the initial module state every later
    `bird_shm_poll` leaves the module state unchanged. -/
theorem C14_init_failure_disables (e : init_env) (m : shm_module) (d : daemon)
    (hen : bird_shm_env_enabled e.getenv_result ≠ 0)
    (hposix : e.shm_open_result < 0 → e.shm_open_result = -1)
    (hfail : e.shm_open_result < 0 ∨ e.ftruncate_result < 0 ∨ e.mmap_result = none) :
    (bird_shm_init e m).1.shm_enabled = m.shm_enabled ∧
    (bird_shm_init e m).1.shm_region = m.shm_region ∧
    (bird_shm_init e m).1.shm_fd = -1 ∧
    (bird_shm_init e m).2
      = (if e.shm_open_result < 0 then [init_event.warn_shm_open_failed]
         else if e.ftruncate_result < 0 then
           [init_event.warn_ftruncate_failed, init_event.close_fd e.shm_open_result]
         else [init_event.warn_mmap_failed, init_event.close_fd e.shm_open_result]) ∧
    (bird_shm_init e shm_module.initial).1 = shm_module.initial ∧
    bird_shm_poll d (bird_shm_init e shm_module.initial).1
      = (bird_shm_init e shm_module.initial).1 := by
  have key : ∀ m : shm_module,
      (bird_shm_init e m).1 = { m with shm_fd := -1 } ∧
      (bird_shm_init e m).2
        = (if e.shm_open_result < 0 then [init_event.warn_shm_open_failed]
           else if e.ftruncate_result < 0 then
             [init_event.warn_ftruncate_failed, init_event.close_fd e.shm_open_result]
           else [init_event.warn_mmap_failed, init_event.close_fd e.shm_open_result]) := by
    intro m
    unfold bird_shm_init
    rw [if_neg hen]
    by_cases h1 : e.shm_open_result < 0
    · simp [h1, hposix h1]
    · by_cases h2 : e.ftruncate_result < 0
      · simp [h1, h2]
      · have h3 : e.mmap_result = none := by
          rcases hfail with h | h | h
          · exact absurd h h1
          · exact absurd h h2
          · exact h
        simp [h1, h2, h3]
  have hinit : (bird_shm_init e shm_module.initial).1 = shm_module.initial := by
    rw [(key shm_module.initial).1]
    rfl
  refine ⟨?_, ?_, ?_, (key m).2, hinit, ?_⟩
  · rw [(key m).1]
  · rw [(key m).1]
  · rw [(key m).1]
  · rw [hinit]
    rfl

/-- C14 at a concrete input: `mmap` fails after `shm_open` returned
    descriptor 3. -/
theorem C14_init_failure_disables_witness :
    bird_shm_env_enabled example_env_mmap_fails.getenv_result ≠ 0 ∧
    (bird_shm_init example_env_mmap_fails shm_module.initial).1.shm_enabled = 0 ∧
    (bird_shm_init example_env_mmap_fails shm_module.initial).1.shm_region = none ∧
    (bird_shm_init example_env_mmap_fails shm_module.initial).1.shm_fd = -1 ∧
    (bird_shm_init example_env_mmap_fails shm_module.initial).2
      = [init_event.warn_mmap_failed, init_event.close_fd 3] ∧
    (bird_shm_init example_env_mmap_fails shm_module.initial).1 = shm_module.initial ∧
    bird_shm_poll example_iface_daemon
        (bird_shm_init example_env_mmap_fails shm_module.initial).1
      = (bird_shm_init example_env_mmap_fails shm_module.initial).1 :=
  ⟨by decide,
    C14_init_failure_disables example_env_mmap_fails shm_module.initial example_iface_daemon
      (by decide) (by decide) (Or.inr (Or.inr rfl))⟩

/-- C15: when the feature is requested and every setup step succeeds,
    `bird_shm_init` leaves the mapped region, whatever it held before, with
    `magic = 0x42524453`, `version = 1`, `snapshot.version = 1`,
    `cmd_flag = 0`, `version_seq = 0` and everything else zero (the reserved
    word, the mailbox, and in the snapshot the truncation word, the last
    opcode, the status, every count and every slot of every array), and the
    module state active: `shm_enabled = 1`, the region mapped, `shm_fd` the
    descriptor returned by `shm_open`. -/
theorem C15_init_success (e : init_env) (m : shm_module) (r0 : bird_shm_region)
    (hen : bird_shm_env_enabled e.getenv_result ≠ 0)
    (hopen : 0 ≤ e.shm_open_result) (htrunc : 0 ≤ e.ftruncate_result)
    (hmap : e.mmap_result = some r0) :
    bird_shm_init e m
      = ({ shm_region := some
            { magic := 0x42524453, version := 1, cmd_flag := 0, reserved := 0,
              version_seq := 0, mailbox := { cmd := 0, reserved := 0, arg0 := 0, arg1 := 0 },
              snapshot := { bird_shm_snapshot.zero with version := 1 } },
           shm_enabled := 1, shm_fd := e.shm_open_result }, [init_event.info_enabled]) ∧
    (∀ c, ({ bird_shm_snapshot.zero with version := 1 } : bird_shm_snapshot).count c = 0) ∧
    ({ bird_shm_snapshot.zero with version := 1 } : bird_shm_snapshot).trunc_flags = 0 ∧
    ({ bird_shm_snapshot.zero with version := 1 } : bird_shm_snapshot).last_cmd = 0 := by
  refine ⟨?_, ?_, rfl, rfl⟩
  · unfold bird_shm_init
    rw [if_neg hen, if_neg (by omega), if_neg (by omega), hmap]
    rfl
  · intro c
    cases c <;> rfl

/-- C15 at a concrete input: every step succeeds and the mapped object
    still holds the region of an earlier run. -/
theorem C15_init_success_witness :
    bird_shm_env_enabled example_env_ok.getenv_result ≠ 0 ∧
    example_env_ok.mmap_result = some (example_region 7) ∧
    (example_region 7).mailbox.cmd = 7 ∧
    bird_shm_init example_env_ok shm_module.initial
      = ({ shm_region := some
            { magic := 0x42524453, version := 1, cmd_flag := 0, reserved := 0,
              version_seq := 0, mailbox := { cmd := 0, reserved := 0, arg0 := 0, arg1 := 0 },
              snapshot := { bird_shm_snapshot.zero with version := 1 } },
           shm_enabled := 1, shm_fd := 3 }, [init_event.info_enabled]) ∧
    (∀ c, ({ bird_shm_snapshot.zero with version := 1 } : bird_shm_snapshot).count c = 0) ∧
    ({ bird_shm_snapshot.zero with version := 1 } : bird_shm_snapshot).trunc_flags = 0 ∧
    ({ bird_shm_snapshot.zero with version := 1 } : bird_shm_snapshot).last_cmd = 0 :=
  ⟨by decide, rfl, rfl,
    C15_init_success example_env_ok shm_module.initial (example_region 7) (by decide)
      (by decide) (by decide) rfl⟩

/-- C19: LSA extraction skips placeholder entries before the capacity rule.
    The snapshot is the one of the daemon state with every null-body or
    dummy-body database entry removed, so such entries produce no record,
    take no slot and set no bit.  For an OSPF instance `p` of the protocol
    list that is stored (fewer than 64 OSPF records are stored before it),
    with `ospf_count` and `ospf_lsa_count` of the snapshot of the list up to
    `p` as the index of its record and the number of LSA slots taken when it
    is met: its record has `lsa_start` that number and `lsa_count` the
    number of its real entries clamped to the slots left, hence the number
    of its real entries when they fit; and the slots `lsa_start + k` for
    `k < lsa_count` hold its real entries in database order, each with
    `proto_index` the index of the record.  Bit 5 of `trunc_flags` is set
    exactly when some stored OSPF instance has more real entries than LSA
    slots are left when it is met. -/
theorem C19_lsa_placeholders_skipped (d : daemon) (region : bird_shm_region)
    (pre post : List proto) (p : proto)
    (hsplit : d.proto_list = pre ++ p :: post)
    (hp : proto_is p PROTOCOL_OSPF = true)
    (hemit : (bird_shm_write_snapshot { d with proto_list := pre } region).snapshot.ospf_count
      < BIRD_SHM_MAX_OSPF) :
    (bird_shm_write_snapshot (strip_placeholders d) region).snapshot
      = (bird_shm_write_snapshot d region).snapshot ∧
    (∃ r,
      (bird_shm_write_snapshot d region).snapshot.ospf[
          (bird_shm_write_snapshot { d with proto_list := pre } region).snapshot.ospf_count]?
        = some r ∧
      r.lsa_start
        = (bird_shm_write_snapshot { d with proto_list := pre } region).snapshot.ospf_lsa_count ∧
      r.lsa_count = min (real_lsas p.ospf.lsal).length (BIRD_SHM_MAX_OSPF_LSAS - r.lsa_start) ∧
      (r.lsa_start + (real_lsas p.ospf.lsal).length ≤ BIRD_SHM_MAX_OSPF_LSAS →
        r.lsa_count = (real_lsas p.ospf.lsal).length) ∧
      ∀ k en, k < r.lsa_count → (real_lsas p.ospf.lsal)[k]? = some en →
        (bird_shm_write_snapshot d region).snapshot.ospf_lsas[r.lsa_start + k]?
          = some (fill_ospf_lsa
              (bird_shm_write_snapshot { d with proto_list := pre } region).snapshot.ospf_count
              en)) ∧
    ((bird_shm_write_snapshot d region).snapshot.trunc_flags.testBit 5 = true ↔
      ∃ pre' p' post', d.proto_list = pre' ++ p' :: post' ∧
        proto_is p' PROTOCOL_OSPF = true ∧
        (bird_shm_write_snapshot { d with proto_list := pre' } region).snapshot.ospf_count
          < BIRD_SHM_MAX_OSPF ∧
        BIRD_SHM_MAX_OSPF_LSAS
          < (bird_shm_write_snapshot { d with proto_list := pre' } region).snapshot.ospf_lsa_count
            + (real_lsas p'.ospf.lsal).length) := by
  refine ⟨congrArg builder.snap (run_strip d region), ?_, ?_⟩
  · have hwf : (walk_proto_list pre (store_iface_counts
        (walk_iface_list d.iface_list (builder.init d region)))).wf_open (fun _ => 0) :=
      wf_walk_proto_list _ (wf_store_iface_counts
        (wf_walk_iface_list _ (wf_init d region) rfl rfl))
    have hrun : (bird_shm_write_snapshot d region).snapshot
        = (store_proto_counts (walk_proto_list (p :: post) (walk_proto_list pre
            (store_iface_counts (walk_iface_list d.iface_list
              (builder.init d region)))))).snap := by
      show (builder.run d region).snap = _
      unfold builder.run
      rw [hsplit, walk_proto_list_append]
    obtain ⟨r, h1, h2, h3, h4⟩ := walk_proto_list_ospf_instance p post _ hwf hp hemit
    refine ⟨r, ?_, h2, ?_, ?_, ?_⟩
    · rw [hrun]
      exact h1
    · rw [h3, h2]
    · intro hfit
      rw [h3]
      rw [h2] at hfit
      omega
    · intro k en hk hen
      rw [hrun, h2]
      exact h4 k en hk hen
  · have hf := run_ospf_lsa_fold d region
    have hb : (bird_shm_write_snapshot d region).snapshot.trunc_flags.testBit 5
        = (d.proto_list.foldl (nested_step BIRD_SHM_MAX_OSPF BIRD_SHM_MAX_OSPF_LSAS
            (fun p => proto_is p PROTOCOL_OSPF) (fun p => (real_lsas p.ospf.lsal).length))
            (0, 0, false)).2.2 := by
      rw [← hf]
    rw [hb, nested_fold_bit_iff]
    constructor
    · rintro (h | ⟨pre', p', post', h1, h2, h3, h4⟩)
      · simp at h
      · have hf' := run_ospf_lsa_fold { d with proto_list := pre' } region
        simp only at hf'
        rw [← hf'] at h3 h4
        exact ⟨pre', p', post', h1, h2, h3, by simp only at h4 ⊢; omega⟩
    · rintro ⟨pre', p', post', h1, h2, h3, h4⟩
      have hf' := run_ospf_lsa_fold { d with proto_list := pre' } region
      simp only at hf'
      have hle : (bird_shm_write_snapshot { d with proto_list := pre' }
          region).snapshot.ospf_lsa_count ≤ BIRD_SHM_MAX_OSPF_LSAS := by
        have w := (wf_run { d with proto_list := pre' } region .ospf_lsas).1
        have c := run_count { d with proto_list := pre' } region .ospf_lsas
        simp only [builder.idx, bird_shm_snapshot.count, capacity, Nat.add_zero] at w c
        show (builder.run { d with proto_list := pre' } region).snap.ospf_lsa_count ≤ _
        rw [c]
        exact w
      refine Or.inr ⟨pre', p', post', h1, h2, ?_, ?_⟩
      · rw [← hf']
        exact h3
      · rw [← hf']
        simp only
        omega

/-- C19 at a concrete input: a BGP instance followed by an OSPF instance
    whose database holds a null-body entry, a real entry, a dummy-body entry
    and another real entry. -/
theorem C19_lsa_placeholders_skipped_witness :
    example_ospf_daemon.proto_list = [example_proto PROTOCOL_BGP] ++ example_ospf_proto :: [] ∧
    proto_is example_ospf_proto PROTOCOL_OSPF = true ∧
    real_lsas example_ospf_proto.ospf.lsal = [example_lsa 4096 2, example_lsa 8192 4] ∧
    (bird_shm_write_snapshot (strip_placeholders example_ospf_daemon)
        (example_region 1)).snapshot
      = (bird_shm_write_snapshot example_ospf_daemon (example_region 1)).snapshot ∧
    (∃ r,
      (bird_shm_write_snapshot example_ospf_daemon (example_region 1)).snapshot.ospf[
          (bird_shm_write_snapshot
            { example_ospf_daemon with proto_list := [example_proto PROTOCOL_BGP] }
            (example_region 1)).snapshot.ospf_count]?
        = some r ∧
      r.lsa_start
        = (bird_shm_write_snapshot
            { example_ospf_daemon with proto_list := [example_proto PROTOCOL_BGP] }
            (example_region 1)).snapshot.ospf_lsa_count ∧
      r.lsa_count = min (real_lsas example_ospf_proto.ospf.lsal).length
        (BIRD_SHM_MAX_OSPF_LSAS - r.lsa_start) ∧
      (r.lsa_start + (real_lsas example_ospf_proto.ospf.lsal).length ≤ BIRD_SHM_MAX_OSPF_LSAS →
        r.lsa_count = (real_lsas example_ospf_proto.ospf.lsal).length) ∧
      ∀ k en, k < r.lsa_count → (real_lsas example_ospf_proto.ospf.lsal)[k]? = some en →
        (bird_shm_write_snapshot example_ospf_daemon
            (example_region 1)).snapshot.ospf_lsas[r.lsa_start + k]?
          = some (fill_ospf_lsa
              (bird_shm_write_snapshot
                { example_ospf_daemon with proto_list := [example_proto PROTOCOL_BGP] }
                (example_region 1)).snapshot.ospf_count
              en)) ∧
    ((bird_shm_write_snapshot example_ospf_daemon
        (example_region 1)).snapshot.trunc_flags.testBit 5 = true ↔
      ∃ pre' p' post', example_ospf_daemon.proto_list = pre' ++ p' :: post' ∧
        proto_is p' PROTOCOL_OSPF = true ∧
        (bird_shm_write_snapshot { example_ospf_daemon with proto_list := pre' }
          (example_region 1)).snapshot.ospf_count < BIRD_SHM_MAX_OSPF ∧
        BIRD_SHM_MAX_OSPF_LSAS
          < (bird_shm_write_snapshot { example_ospf_daemon with proto_list := pre' }
              (example_region 1)).snapshot.ospf_lsa_count
            + (real_lsas p'.ospf.lsal).length) :=
  ⟨rfl, by decide, by decide,
    C19_lsa_placeholders_skipped example_ospf_daemon (example_region 1)
      [example_proto PROTOCOL_BGP] [] example_ospf_proto rfl (by decide) (by decide)⟩

/-! ## String fields -/

/-- C13: every string field of the written snapshot is bounded and
    null-terminated. Copying a source string `s` into a cleared field of
    capacity `c` with `strncpy (c - 1)` gives `str_field c s`: exactly `c`
    bytes, the first `min (len s) (c - 1)` of them the bytes of `s` (none of
    them zero), all later ones zero, so the last byte is zero. The name field
    of each interface, protocol, BGP, OSPF and Babel record and the
    interface-name field of each OSPF neighbour, Babel interface and BFD
    session record is such a field of its source name (capacity 16 for
    interface names, 32 for protocol names); every slot of these arrays in
    the written snapshot, stored or still cleared, holds such a field; and
    when each array is large enough for its source records, `trunc_flags` is
    zero however long the names are, so clamping a name sets no truncation
    bit. -/
theorem C13_strings_bounded (d : daemon) (region : bird_shm_region) :
    (∀ (c : Nat) (s : List Nat), 0 < c →
      strncpy (List.replicate c 0) s (c - 1) = str_field c s ∧
      (str_field c s).length = c ∧
      (str_field c s)[c - 1]? = some 0 ∧
      (∀ i, i < min (cstr s).length (c - 1) →
        (str_field c s)[i]? = (cstr s)[i]? ∧ (str_field c s)[i]? ≠ some 0) ∧
      (∀ i, min (cstr s).length (c - 1) ≤ i → i < c → (str_field c s)[i]? = some 0)) ∧
    ((∀ a ifa, (fill_iface a ifa).name = str_field 16 ifa.name) ∧
     (∀ p, (fill_proto p).name = str_field 32 p.name) ∧
     (∀ p, (fill_bgp p).name = str_field 32 p.name) ∧
     (∀ l n p, (fill_ospf l n p).name = str_field 32 p.name) ∧
     (∀ i p, (fill_babel i p).name = str_field 32 p.name) ∧
     (∀ i oi nb, (fill_ospf_neighbor i oi nb).ifname
       = (match oi.ifname with
         | some s => str_field 16 s
         | none =>
           match oi.iface with
           | some ifc => str_field 16 ifc.name
           | none => str_field 16 [])) ∧
     (∀ i n bi, (fill_babel_iface i n bi).ifname
       = (match bi.ifname with
         | some s => str_field 16 s
         | none =>
           match bi.iface with
           | some ifc => str_field 16 ifc.name
           | none => str_field 16 [])) ∧
     (∀ s, (fill_bfd_session s).ifname
       = (match s.ifa with
         | some a =>
           match a.iface with
           | some ifc => str_field 16 ifc.name
           | none => str_field 16 []
         | none => str_field 16 []))) ∧
    ((∀ r ∈ (bird_shm_write_snapshot d region).snapshot.ifaces, ∃ s, r.name = str_field 16 s) ∧
     (∀ r ∈ (bird_shm_write_snapshot d region).snapshot.protos, ∃ s, r.name = str_field 32 s) ∧
     (∀ r ∈ (bird_shm_write_snapshot d region).snapshot.bgp, ∃ s, r.name = str_field 32 s) ∧
     (∀ r ∈ (bird_shm_write_snapshot d region).snapshot.ospf, ∃ s, r.name = str_field 32 s) ∧
     (∀ r ∈ (bird_shm_write_snapshot d region).snapshot.ospf_neighs,
       ∃ s, r.ifname = str_field 16 s) ∧
     (∀ r ∈ (bird_shm_write_snapshot d region).snapshot.bfd, ∃ s, r.ifname = str_field 16 s) ∧
     (∀ r ∈ (bird_shm_write_snapshot d region).snapshot.babel, ∃ s, r.name = str_field 32 s) ∧
     (∀ r ∈ (bird_shm_write_snapshot d region).snapshot.babel_ifaces,
       ∃ s, r.ifname = str_field 16 s)) ∧
    ((∀ c, sources d c ≤ capacity c) →
      (bird_shm_write_snapshot d region).snapshot.trunc_flags = 0) := by
  refine ⟨?_, fill_strings, run_strings d region, run_flags_zero d region⟩
  intro c s hc
  exact ⟨strncpy_zero c s hc, str_field_shape c s hc⟩

/-- C13 at a daemon whose only interface has a name of 20 characters and
    whose only protocol instance has a name of 40 characters: the stored
    fields hold the first 15 and 31 characters and a zero byte, and no
    truncation bit is set. -/
theorem C13_strings_bounded_witness :
    (∀ c, sources example_long_names c ≤ capacity c) ∧
    str_field 16 (List.replicate 20 97) = List.replicate 15 97 ++ [0] ∧
    str_field 32 (List.replicate 40 98) = List.replicate 31 98 ++ [0] ∧
    (fill_iface 0
      { name := List.replicate 20 97, flags := 1, mtu := 1500, index := 1, addrs := [] }).name
      = List.replicate 15 97 ++ [0] ∧
    (bird_shm_write_snapshot example_long_names (example_region 1)).snapshot.trunc_flags
      = 0 :=
  ⟨by intro c; cases c <;> decide, by decide, by decide,
    ((C13_strings_bounded example_long_names (example_region 1)).2.1.1 0 _).trans (by decide),
    (C13_strings_bounded example_long_names (example_region 1)).2.2.2
      (by intro c; cases c <;> decide)⟩

/-! ## Independence of earlier contents -/

/-- C21: the snapshot written by `bird_shm_write_snapshot` depends on the
    region only through `mailbox.cmd`: on two regions with the same
    `mailbox.cmd`, whatever their earlier snapshot contents, the same daemon
    state (clock included) gives the same snapshot. In the written snapshot
    every one of the eleven arrays has its full number of slots, every slot
    at an index at or beyond the stored count of its array holds the cleared
    record, and the padding fields of every record of every array (the
    explicit `pad` fields of the records and of the address values inside
    them) are zero. -/
theorem C21_snapshot_fresh (d : daemon) (region : bird_shm_region) :
    (∀ region' : bird_shm_region, region'.mailbox.cmd = region.mailbox.cmd →
      (bird_shm_write_snapshot d region').snapshot
        = (bird_shm_write_snapshot d region).snapshot) ∧
    ((∀ i, (bird_shm_write_snapshot d region).snapshot.iface_count ≤ i →
        i < BIRD_SHM_MAX_INTERFACES →
        (bird_shm_write_snapshot d region).snapshot.ifaces[i]? = some bird_shm_iface.zero) ∧
     (∀ i, (bird_shm_write_snapshot d region).snapshot.iface_addr_count ≤ i →
        i < BIRD_SHM_MAX_IFACE_ADDRS →
        (bird_shm_write_snapshot d region).snapshot.iface_addrs[i]?
          = some bird_shm_iface_addr.zero) ∧
     (∀ i, (bird_shm_write_snapshot d region).snapshot.proto_count ≤ i →
        i < BIRD_SHM_MAX_PROTOCOLS →
        (bird_shm_write_snapshot d region).snapshot.protos[i]? = some bird_shm_proto.zero) ∧
     (∀ i, (bird_shm_write_snapshot d region).snapshot.bgp_count ≤ i →
        i < BIRD_SHM_MAX_BGP →
        (bird_shm_write_snapshot d region).snapshot.bgp[i]? = some bird_shm_bgp_info.zero) ∧
     (∀ i, (bird_shm_write_snapshot d region).snapshot.ospf_count ≤ i →
        i < BIRD_SHM_MAX_OSPF →
        (bird_shm_write_snapshot d region).snapshot.ospf[i]? = some bird_shm_ospf_info.zero) ∧
     (∀ i, (bird_shm_write_snapshot d region).snapshot.ospf_lsa_count ≤ i →
        i < BIRD_SHM_MAX_OSPF_LSAS →
        (bird_shm_write_snapshot d region).snapshot.ospf_lsas[i]?
          = some bird_shm_ospf_lsa.zero) ∧
     (∀ i, (bird_shm_write_snapshot d region).snapshot.ospf_neigh_count ≤ i →
        i < BIRD_SHM_MAX_OSPF_NEIGHBORS →
        (bird_shm_write_snapshot d region).snapshot.ospf_neighs[i]?
          = some bird_shm_ospf_neighbor.zero) ∧
     (∀ i, (bird_shm_write_snapshot d region).snapshot.bfd_count ≤ i →
        i < BIRD_SHM_MAX_BFD_SESSIONS →
        (bird_shm_write_snapshot d region).snapshot.bfd[i]? = some bird_shm_bfd_session.zero) ∧
     (∀ i, (bird_shm_write_snapshot d region).snapshot.babel_count ≤ i →
        i < BIRD_SHM_MAX_BABEL →
        (bird_shm_write_snapshot d region).snapshot.babel[i]? = some bird_shm_babel_info.zero) ∧
     (∀ i, (bird_shm_write_snapshot d region).snapshot.babel_iface_count ≤ i →
        i < BIRD_SHM_MAX_BABEL_IFACES →
        (bird_shm_write_snapshot d region).snapshot.babel_ifaces[i]?
          = some bird_shm_babel_iface.zero) ∧
     (∀ i, (bird_shm_write_snapshot d region).snapshot.babel_neigh_count ≤ i →
        i < BIRD_SHM_MAX_BABEL_NEIGHBORS →
        (bird_shm_write_snapshot d region).snapshot.babel_neighs[i]?
          = some bird_shm_babel_neighbor.zero)) ∧
    ((∀ r ∈ (bird_shm_write_snapshot d region).snapshot.iface_addrs, r.pad_zero) ∧
     (∀ r ∈ (bird_shm_write_snapshot d region).snapshot.bgp, r.pad_zero) ∧
     (∀ r ∈ (bird_shm_write_snapshot d region).snapshot.ospf, r.pad_zero) ∧
     (∀ r ∈ (bird_shm_write_snapshot d region).snapshot.ospf_lsas, r.pad_zero) ∧
     (∀ r ∈ (bird_shm_write_snapshot d region).snapshot.ospf_neighs, r.pad_zero) ∧
     (∀ r ∈ (bird_shm_write_snapshot d region).snapshot.bfd, r.pad_zero) ∧
     (∀ r ∈ (bird_shm_write_snapshot d region).snapshot.babel, r.pad_zero) ∧
     (∀ r ∈ (bird_shm_write_snapshot d region).snapshot.babel_ifaces, r.pad_zero) ∧
     (∀ r ∈ (bird_shm_write_snapshot d region).snapshot.babel_neighs, r.pad_zero)) := by
  obtain ⟨f0, f1, f2, f3, f4, f5, f6, f7, f8, f9, f10⟩ := run_fresh d region
  have hl := fun c => (wf_run d region c).2.2
  refine ⟨?_, ⟨?_, ?_, ?_, ?_, ?_, ?_, ?_, ?_, ?_, ?_, ?_⟩,
    ⟨f1.1, f3.1, f4.1, f5.1, f6.1, f7.1, f8.1, f9.1, f10.1⟩⟩
  · intro region' h
    show (builder.run d region').snap = (builder.run d region).snap
    rw [run_congr d region' region h]
  · intro i h1 h2
    exact f0.2 i h1 (Nat.lt_of_lt_of_eq h2 (hl .ifaces).symm)
  · intro i h1 h2
    exact f1.2 i h1 (Nat.lt_of_lt_of_eq h2 (hl .iface_addrs).symm)
  · intro i h1 h2
    exact f2.2 i h1 (Nat.lt_of_lt_of_eq h2 (hl .protos).symm)
  · intro i h1 h2
    exact f3.2 i h1 (Nat.lt_of_lt_of_eq h2 (hl .bgp).symm)
  · intro i h1 h2
    exact f4.2 i h1 (Nat.lt_of_lt_of_eq h2 (hl .ospf).symm)
  · intro i h1 h2
    exact f5.2 i h1 (Nat.lt_of_lt_of_eq h2 (hl .ospf_lsas).symm)
  · intro i h1 h2
    exact f6.2 i h1 (Nat.lt_of_lt_of_eq h2 (hl .ospf_neighs).symm)
  · intro i h1 h2
    exact f7.2 i h1 (Nat.lt_of_lt_of_eq h2 (hl .bfd).symm)
  · intro i h1 h2
    exact f8.2 i h1 (Nat.lt_of_lt_of_eq h2 (hl .babel).symm)
  · intro i h1 h2
    exact f9.2 i h1 (Nat.lt_of_lt_of_eq h2 (hl .babel_ifaces).symm)
  · intro i h1 h2
    exact f10.2 i h1 (Nat.lt_of_lt_of_eq h2 (hl .babel_neighs).symm)

/-- C21 at a region that still holds the two interface records of an
    earlier cycle, for a daemon without interfaces: the written snapshot is
    the one a region without earlier records gets, its interface count is 0
    and slot 1 of the interface array, which held `eth0`, is cleared. -/
theorem C21_snapshot_fresh_witness :
    example_stale_region.mailbox.cmd = (example_region 1).mailbox.cmd ∧
    example_stale_region.snapshot.iface_count = 2 ∧
    (bird_shm_write_snapshot example_daemon example_stale_region).snapshot
      = (bird_shm_write_snapshot example_daemon (example_region 1)).snapshot ∧
    (bird_shm_write_snapshot example_daemon example_stale_region).snapshot.iface_count = 0 ∧
    (bird_shm_write_snapshot example_daemon example_stale_region).snapshot.ifaces[1]?
      = some bird_shm_iface.zero :=
  ⟨rfl, rfl,
    (C21_snapshot_fresh example_daemon (example_region 1)).1 example_stale_region rfl,
    rfl,
    (C21_snapshot_fresh example_daemon example_stale_region).2.1.1 1 (Nat.zero_le 1)
      (by decide)⟩

end BirdShm
